import Mathlib

/-!
# DER codec of libksba (`src/asn1-der.c`)

A shallow embedding of the DER encoder and decoder and the statements proved
about them.

Conventions of the embedding.

* A byte buffer (`unsigned char *`) is a `List Nat`; the pointer `der + n` is
  `der.drop n`; a read `der[i]` is `rd der i`, which yields `0` past the end
  of the list.
* `unsigned char` arithmetic is taken modulo `2^8`, `unsigned int` modulo
  `2^32` and `unsigned long` modulo `2^64`.
* In the decoder and in `asn1_get_start_end_der` a length read from the input
  is reduced to `int` where the source assigns it to an `int` (`to_int`), and
  sums of `int` values are kept in two's complement modulo `2^32`
  (`wrap_int`).  The offset `counter` of the encoder and of the decoder is a
  natural number, a negative value being a fault; the one of
  `asn1_get_start_end_der` is an integer, and reading at a negative offset
  is a fault.
* A function that returns results through pointer arguments returns a tuple.
-/

namespace Ksba

/-! ## Constants -/

def TAG_BOOLEAN : Nat := 0x01
def TAG_INTEGER : Nat := 0x02
def TAG_SEQUENCE : Nat := 0x10
def TAG_SET : Nat := 0x11
def TAG_OCTET_STRING : Nat := 0x04
def TAG_BIT_STRING : Nat := 0x03
def TAG_UTCTime : Nat := 0x17
def TAG_GENERALIZEDTime : Nat := 0x18
def TAG_OBJECT_ID : Nat := 0x06
def TAG_ENUMERATED : Nat := 0x0A
def TAG_NULL : Nat := 0x05

/-- Modelled from the spec: `CLASS_UNIVERSAL` of the missing header `asn1-func.h`;
the universal tags of the spec (SEQUENCE = 0x30, INTEGER = 0x02) fix it to 0. -/
def CLASS_UNIVERSAL : Nat := 0

def UNIVERSAL : Nat := CLASS_UNIVERSAL <<< 6
def STRUCTURED : Nat := 0x20

/-- Range of `unsigned char`. -/
def UCHAR : Nat := 2 ^ 8
/-- Range of `unsigned int`. -/
def UINT : Nat := 2 ^ 32
/-- Range of `unsigned long`. -/
def ULONG : Nat := 2 ^ 64

/-- The read `der[i]`. -/
def rd (der : List Nat) (i : Nat) : Nat := der.getD i 0

/-! ## Length octets -/

/-- The loop `while (len) { temp[k++] = len & 0xFF; len = len >> 8; }` of
`_asn1_length_der`; the result is `temp[0..k)`.  An `unsigned long` is
exhausted after eight rounds. -/
def length_der_temp : Nat → Nat → List Nat
  | 0, _ => []
  | fuel + 1, len =>
    if len = 0 then [] else (len &&& 0xFF) :: length_der_temp fuel (len >>> 8)

/-- `_asn1_length_der (len, ans, &ans_len)`: the octets written to `ans` and
the value stored in `ans_len`. -/
def _asn1_length_der (len : Nat) : List Nat × Nat :=
  if len < 128 then
    ([len % UCHAR], 1)
  else
    let temp := length_der_temp 8 len
    let k := temp.length
    ((((k % UCHAR) &&& 0x7F) + 128) % UCHAR :: temp.reverse, k + 1)

/-- The loop `while (punt <= k) ans = ans * 256 + der[punt++];` of
`_ksba_asn_get_length_der`, with the number of rounds left as first
argument. -/
def get_length_loop (der : List Nat) : Nat → Nat → Nat → Nat × Nat
  | 0, punt, ans => (ans, punt)
  | n + 1, punt, ans => get_length_loop der n (punt + 1) ((ans * 256 + rd der punt) % ULONG)

/-- `_ksba_asn_get_length_der (der, &len)`: the returned length and the value
stored in `len`. -/
def _ksba_asn_get_length_der (der : List Nat) : Nat × Nat :=
  if rd der 0 &&& 128 = 0 then
    (rd der 0, 1)
  else
    let k := rd der 0 &&& 0x7F
    get_length_loop der k 1 0

/-! ## Identifier octets -/

/-- The loop `while (tag_value) { temp[k++] = tag_value & 0x7F; tag_value >>= 7; }`
of `_asn1_tag_der`.  An `unsigned int` is exhausted after five rounds. -/
def tag_der_temp : Nat → Nat → List Nat
  | 0, _ => []
  | fuel + 1, tag_value =>
    if tag_value = 0 then [] else (tag_value &&& 0x7F) :: tag_der_temp fuel (tag_value >>> 7)

/-- The statement `ans[*ans_len - 1] -= 128;` on the octets after `ans[0]`. -/
def clear_last : List Nat → List Nat
  | [] => []
  | [b] => [(b + UCHAR - 128) % UCHAR]
  | b :: c :: rest => b :: clear_last (c :: rest)

/-- `_asn1_tag_der (class, tag_value, ans, &ans_len)`: the octets written to
`ans` and the value stored in `ans_len`. -/
def _asn1_tag_der (cls : Nat) (tag_value : Nat) : List Nat × Nat :=
  if tag_value < 30 then
    ([((cls &&& 0xE0) + ((tag_value &&& 0x1F) % UCHAR)) % UCHAR], 1)
  else
    let temp := tag_der_temp 5 tag_value
    let k := temp.length
    (((cls &&& 0xE0) + 31) % UCHAR :: clear_last (temp.reverse.map (fun b => (b + 128) % UCHAR)),
      k + 1)

/-- The loop of the long form of `_asn1_get_tag_der` together with the
statement after it, run over the octets from `der[punt]` on; the result is
`(ris, punt)`. -/
def get_tag_loop : List Nat → Nat → Nat → Nat × Nat
  | [], punt, ris => ((ris * 128) % UINT, punt + 1)
  | b :: rest, punt, ris =>
    if b &&& 128 ≠ 0 then get_tag_loop rest (punt + 1) ((ris * 128 + (b &&& 0x7F)) % UINT)
    else ((ris * 128 + (b &&& 0x7F)) % UINT, punt + 1)

/-- `_asn1_get_tag_der (der, &class, &len)`: the returned tag number, the
value stored in `class` and the value stored in `len`. -/
def _asn1_get_tag_der (der : List Nat) : Nat × Nat × Nat :=
  let cls := rd der 0 &&& 0xE0
  if rd der 0 &&& 0x1F ≠ 0x1F then
    (rd der 0 &&& 0x1F, cls, 1)
  else
    let r := get_tag_loop (der.drop 1) 1 0
    (r.1, cls, r.2)

/-! ## Strings and buffers -/

/-- A C string held in a buffer: the bytes before the first NUL. -/
def cstr (s : List Nat) : List Nat := s.takeWhile (fun c => c ≠ 0)

/-- The do-while loop of `_asn1_ltostr`: the characters stored in `temp`,
least significant digit first.  A `long` has fewer than twenty digits. -/
def ltostr_temp : Nat → Nat → List Nat
  | 0, _ => []
  | fuel + 1, v =>
    let d := v / 10
    let r := v - d * 10
    (48 + r) :: (if d = 0 then [] else ltostr_temp fuel d)

/-- `_asn1_ltostr (v, str)`: the characters of the string written to `str`
(without the closing NUL). -/
def _asn1_ltostr (v : Int) : List Nat :=
  if v < 0 then 45 :: (ltostr_temp 20 (-v).toNat).reverse
  else (ltostr_temp 20 v.toNat).reverse

def isspace (c : Nat) : Bool := c = 32 || (9 ≤ c && c ≤ 13)

def isdigit (c : Nat) : Bool := 48 ≤ c && c ≤ 57

/-- The decimal digits at the head of a string, accumulated on `acc`. -/
def str_digits : List Nat → Nat → Nat
  | [], acc => acc
  | c :: cs, acc => if isdigit c then str_digits cs (acc * 10 + (c - 48)) else acc

def str_skip_space : List Nat → List Nat
  | [] => []
  | c :: cs => if isspace c then str_skip_space cs else c :: cs

/-- The C library call `strtoul (s, NULL, 10)`: the value saturates at
`ULONG_MAX`, a leading minus sign negates modulo `2^64`. -/
def strtoul (s : List Nat) : Nat :=
  match str_skip_space s with
  | 45 :: cs =>
    let v := str_digits cs 0
    if ULONG ≤ v then ULONG - 1 else (ULONG - v) % ULONG
  | 43 :: cs => min (str_digits cs 0) (ULONG - 1)
  | cs => min (str_digits cs 0) (ULONG - 1)

/-- The C library call `strtol (s, NULL, 10)`: the value saturates at
`LONG_MAX` and `LONG_MIN`. -/
def strtol (s : List Nat) : Int :=
  match str_skip_space s with
  | 45 :: cs => max (-(str_digits cs 0 : Int)) (-(2 ^ 63 : Int))
  | 43 :: cs => min (str_digits cs 0 : Int) (2 ^ 63 - 1)
  | cs => min (str_digits cs 0 : Int) (2 ^ 63 - 1)

/-- The bytes `src[off .. off + n)`. -/
def memrd (src : List Nat) (off n : Nat) : List Nat :=
  (List.range n).map (fun i => rd src (off + i))

/-- The buffer after `memcpy (der + off, src, src.length)`.  A write past the
end of the list extends the list; a gap left before it is filled with 0. -/
def memcpy (der : List Nat) (off : Nat) (src : List Nat) : List Nat :=
  (der ++ List.replicate (off - der.length) 0).take off ++ src ++ der.drop (off + src.length)

/-- The buffer after `memmove (der + dst, der + src, n)`. -/
def memmove (der : List Nat) (dst src n : Nat) : List Nat :=
  memcpy der dst (memrd der src n)

/-- Runs `f` on the buffer `der + off` and puts the bytes it leaves back
behind `der[0 .. off)`. -/
def at_offset (der : List Nat) (off : Nat) (f : List Nat → List Nat) : List Nat :=
  (der ++ List.replicate (off - der.length) 0).take off ++ f (der.drop off)

/-! ## Leaf payloads -/

/-- `_asn1_octet_der (str, str_len, der, &der_len)` for a non-NULL `der`: the
bytes written to `der` and the value stored in `der_len`. -/
def _asn1_octet_der (str : List Nat) (str_len : Nat) : List Nat × Nat :=
  let l := _asn1_length_der str_len
  (l.1 ++ memrd str 0 str_len, str_len + l.2)

/-- `_asn1_time_der (str, der, &der_len)` for a non-NULL `der`. -/
def _asn1_time_der (str : List Nat) : List Nat × Nat :=
  let l := _asn1_length_der (cstr str).length
  (l.1 ++ cstr str, l.2 + (cstr str).length)

/-- `_asn1_get_time_der (der, &der_len, str)` for a non-NULL `str`: the string
left in `str` and the value stored in `der_len`. -/
def _asn1_get_time_der (der : List Nat) : List Nat × Nat :=
  let l := _ksba_asn_get_length_der der
  (cstr (memrd der l.2 l.1), l.1 + l.2)

/-- The `for (k = 4; k >= 0; k--)` loop of `_asn1_objectid_der` with `k + 1`
rounds left: the octets appended for the arc `val`. -/
def objectid_arc : Nat → Nat → Bool → List Nat
  | 0, _, _ => []
  | k + 1, val, first =>
    let bit7 := (val >>> (k * 7)) &&& 0x7F
    if bit7 ≠ 0 ∨ first = true ∨ k = 0 then
      (if k ≠ 0 then bit7 ||| 0x80 else bit7) :: objectid_arc k val true
    else objectid_arc k val first

/-- The pieces of `temp` that the `strchr (n_start, ' ')` loop of
`_asn1_objectid_der` cuts off and hands to `strtoul`; `acc` holds the
current piece in reverse.  What follows the last blank is not converted. -/
def objectid_pieces : List Nat → List Nat → List (List Nat)
  | [], _ => []
  | c :: cs, acc =>
    if c = 32 then acc.reverse :: objectid_pieces cs [] else objectid_pieces cs (c :: acc)

/-- The content octets that the loop of `_asn1_objectid_der` leaves in `der`
(`none` while `*der_len` has not been assigned); `counter` counts the arcs
converted so far. -/
def objectid_content : List (List Nat) → Nat → Nat → Option (List Nat) → Option (List Nat)
  | [], _, _, der => der
  | piece :: rest, counter, val1, der =>
    let val := strtoul piece
    if counter + 1 = 1 then objectid_content rest (counter + 1) val der
    else if counter + 1 = 2 then
      objectid_content rest (counter + 1) val1 (some [(40 * val1 + val) % UCHAR])
    else
      objectid_content rest (counter + 1) val1 (der.map (fun c => c ++ objectid_arc 5 val false))

/-- `_asn1_objectid_der (str, der, &der_len)` for a non-NULL `der`: the bytes
written to `der` and the value stored in `der_len`; `none` when `*der_len` is
read before it was assigned (fewer than two arcs). -/
def _asn1_objectid_der (str : List Nat) : Option (List Nat × Nat) :=
  match objectid_content (objectid_pieces (cstr str ++ [32]) []) 0 0 none with
  | none => none
  | some content =>
    let l := _asn1_length_der content.length
    some (l.1 ++ content, content.length + l.2)

/-- The conversion of an `unsigned long` to `long`. -/
def to_long (v : Nat) : Int := if v < 2 ^ 63 then (v : Int) else (v : Int) - 2 ^ 64

/-- The conversion of an `unsigned long` to `int`. -/
def to_int (v : Nat) : Int :=
  if v % UINT < 2 ^ 31 then ((v % UINT : Nat) : Int) else ((v % UINT : Nat) : Int) - 2 ^ 32

/-- The value an `int` takes for an expression over `int` operands whose
exact value is `z`: the value is kept modulo `2 ^ 32` in two's complement. -/
def wrap_int (z : Int) : Int := to_int (z % 2 ^ 32).toNat

/-- The `for (k = 1; k < len; k++)` loop of `_asn1_get_objectid_der` with
`n` rounds left: the string built in `str`. -/
def get_objectid_loop (der : List Nat) (len_len : Nat) : Nat → Nat → Nat → List Nat → List Nat
  | 0, _, _, str => str
  | n + 1, k, val, str =>
    let val1 := ((val <<< 7) % ULONG) ||| (rd der (len_len + k) &&& 0x7F)
    if rd der (len_len + k) &&& 0x80 = 0 then
      get_objectid_loop der len_len n (k + 1) 0 (str ++ [32] ++ _asn1_ltostr (to_long val1))
    else get_objectid_loop der len_len n (k + 1) val1 str

/-- `_asn1_get_objectid_der (der, &der_len, str)` for a non-NULL `str`: the
string left in `str` and the value stored in `der_len`. -/
def _asn1_get_objectid_der (der : List Nat) : List Nat × Nat :=
  let l := _ksba_asn_get_length_der der
  let len := l.1
  let len_len := l.2
  let val1 := rd der len_len / 40
  let val := rd der len_len - val1 * 40
  let str := _asn1_ltostr val1 ++ [32] ++ _asn1_ltostr val
  (get_objectid_loop der len_len (len - 1) 1 0 str, len + len_len)

/-- The table `bit_mask`. -/
def bit_mask : List Nat := [0xFF, 0xFE, 0xFC, 0xF8, 0xF0, 0xE0, 0xC0, 0x80]

/-- `_asn1_bit_der (str, bit_len, der, &der_len)` for a non-NULL `der`. -/
def _asn1_bit_der (str : List Nat) (bit_len : Nat) : List Nat × Nat :=
  let len_byte0 := bit_len >>> 3
  let len_pad0 := 8 - (bit_len &&& 7)
  let len_pad := if len_pad0 = 8 then 0 else len_pad0
  let len_byte := if len_pad0 = 8 then len_byte0 else len_byte0 + 1
  let l := _asn1_length_der (len_byte + 1)
  let der := l.1 ++ [len_pad] ++ memrd str 0 len_byte
  let i := l.2 + len_byte
  (memcpy der i [rd der i &&& rd bit_mask len_pad], len_byte + l.2 + 1)

/-! ## The node tree -/

/-- Modelled from the spec: the node types of the missing header
`asn1-func.h`, as listed in the data model of the spec. -/
inductive node_type
  | TYPE_NULL | TYPE_BOOLEAN | TYPE_INTEGER | TYPE_ENUMERATED | TYPE_OBJECT_ID | TYPE_TIME
  | TYPE_OCTET_STRING | TYPE_BIT_STRING | TYPE_SEQUENCE | TYPE_SEQUENCE_OF | TYPE_SET
  | TYPE_SET_OF | TYPE_CHOICE | TYPE_ANY | TYPE_TAG | TYPE_SIZE
  deriving DecidableEq, Repr

open node_type

/-- Modelled from the spec: the result codes of the missing header
`asn1-func.h`. -/
inductive asn_code
  | ASN_OK | ASN_ELEMENT_NOT_FOUND | ASN_DER_ERROR | ASN_TAG_ERROR | ASN_MEM_ERROR
  | ASN_GENERIC_ERROR | ASN_ERROR_TYPE_ANY
  deriving DecidableEq, Repr

open asn_code

/-- Modelled from the spec: the flag bits of a node (`flags` of the missing
header `asn1-func.h`); `class_` is the field `class`. -/
structure node_flags where
  has_tag : Bool
  is_optional : Bool
  is_default : Bool
  is_set : Bool
  is_not_used : Bool
  is_utc_time : Bool
  explicit : Bool
  class_ : Nat
  deriving DecidableEq, Repr

/-- Modelled from the spec: the fields of a node other than its links; a NULL
`name` or `value` is `none`. -/
structure node_data where
  name : Option (List Nat)
  type : node_type
  flags : node_flags
  value : Option (List Nat)
  deriving DecidableEq, Repr

/-- A pointer to a node together with everything reachable from it through
`down` and `right`; `nil` is the NULL pointer. -/
inductive AsnNode
  | nil : AsnNode
  | node (d : node_data) (down right : AsnNode) : AsnNode
  deriving DecidableEq, Repr

/-- What lies behind the `left` link of a node: nothing (`top`), the parent
whose first child the node is (`under`), or the previous sibling (`beside`). -/
inductive Ctx
  | top : Ctx
  | under (d : node_data) (right : AsnNode) (up : Ctx) : Ctx
  | beside (d : node_data) (down : AsnNode) (left : Ctx) : Ctx
  deriving DecidableEq, Repr

/-- A non-NULL node pointer inside a tree. -/
structure Loc where
  d : node_data
  down : AsnNode
  right : AsnNode
  ctx : Ctx
  deriving DecidableEq, Repr

/-- The node a pointer points to, with its subtree and right siblings. -/
def Loc.tree (p : Loc) : AsnNode := AsnNode.node p.d p.down p.right

/-- The pointer to the subtree `t` in the context `c`. -/
def mk_loc : AsnNode → Ctx → Option Loc
  | AsnNode.nil, _ => none
  | AsnNode.node d dn rt, c => some ⟨d, dn, rt, c⟩

/-- The link `p->down`. -/
def Loc.go_down (p : Loc) : Option Loc := mk_loc p.down (Ctx.under p.d p.right p.ctx)

/-- The link `p->right`. -/
def Loc.go_right (p : Loc) : Option Loc := mk_loc p.right (Ctx.beside p.d p.down p.ctx)

/-- The loop and return of `find_up`, for the subtree `t` in the context `c`:
a node reached through `left` from its right sibling is stepped over, the
first other one is the parent. -/
def find_up_from : AsnNode → Ctx → Option Loc
  | _, Ctx.top => none
  | t, Ctx.beside d dn left => find_up_from (AsnNode.node d dn t) left
  | t, Ctx.under d rt up => some ⟨d, t, rt, up⟩

/-- `find_up (node)` for a non-NULL `node`. -/
def find_up (p : Loc) : Option Loc := find_up_from p.tree p.ctx

/-- The place of a node in its tree: the links followed from the top, last
link first (`true` for `down`, `false` for `right`).  Two pointers into one
tree are equal when their places are. -/
def Ctx.pos : Ctx → List Bool
  | Ctx.top => []
  | Ctx.under _ _ up => true :: up.pos
  | Ctx.beside _ _ left => false :: left.pos

/-- The whole tree around the subtree `t` in the context `c`. -/
def Ctx.plug : AsnNode → Ctx → AsnNode
  | t, Ctx.top => t
  | t, Ctx.under d rt up => Ctx.plug (AsnNode.node d t rt) up
  | t, Ctx.beside d dn left => Ctx.plug (AsnNode.node d dn t) left

/-- Modelled from the spec: `_ksba_asn_set_value (node, value, len)` of the
missing `asn1-func.c`, which stores a copy of `len` bytes, or no value for a
NULL `value`. -/
def _ksba_asn_set_value (d : node_data) (value : Option (List Nat)) : node_data :=
  { d with value := value }

/-- Modelled from the spec: `_ksba_asn_set_name (node, name)` of the missing
`asn1-func.c`. -/
def _ksba_asn_set_name (d : node_data) (name : Option (List Nat)) : node_data :=
  { d with name := name }

/-- The walker directions `UP`, `DOWN` and `RIGHT`. -/
inductive Move
  | UP | DOWN | RIGHT
  deriving DecidableEq, Repr

open Move

/-- Outcome of running C code in the model: a normal return, a fault (a NULL
pointer is dereferenced or an unassigned variable is read), or the model
running out of fuel before the loop ends. -/
inductive Run (α : Type)
  | ret (a : α) : Run α
  | fault : Run α
  | out_of_fuel : Run α
  deriving DecidableEq, Repr

/-! ## Tag engine -/

/-- The local variables `is_tag_implicit`, `class_implicit` and
`tag_implicit` of the tag engine. -/
structure tag_acc where
  is_tag_implicit : Bool
  class_implicit : Nat
  tag_implicit : Nat
  deriving DecidableEq, Repr

def is_structured (t : node_type) : Bool :=
  t = TYPE_SEQUENCE || t = TYPE_SEQUENCE_OF || t = TYPE_SET || t = TYPE_SET_OF

/-- The `while (p)` loop of `_asn1_complete_explicit_tag` over the chain that
starts at `node->down`: the chain, the buffer and `*counter` afterwards;
`none` is a fault (`strtol` of a NULL name). -/
def complete_explicit_loop : AsnNode → List Nat → Nat → Option (AsnNode × List Nat × Nat)
  | AsnNode.nil, der, counter => some (AsnNode.nil, der, counter)
  | AsnNode.node d dn rt, der, counter =>
    if d.type = TYPE_TAG ∧ d.flags.explicit = true then
      match d.name with
      | none => none
      | some name =>
        let len2 := (strtol name).toNat
        let temp := _asn1_length_der (counter - len2)
        let len3 := temp.2
        let der1 := memmove der (len2 + len3) len2 (counter - len2)
        let der2 := memcpy der1 len2 temp.1
        (complete_explicit_loop rt der2 (counter + len3)).map
          (fun r => (AsnNode.node (_ksba_asn_set_name d none) dn r.1, r.2))
    else
      (complete_explicit_loop rt der counter).map (fun r => (AsnNode.node d dn r.1, r.2))

/-- `_asn1_complete_explicit_tag (node, der, &counter)`. -/
def _asn1_complete_explicit_tag (p : Loc) (der : List Nat) (counter : Nat) :
    Option (Loc × List Nat × Nat) :=
  if p.d.flags.has_tag then
    (complete_explicit_loop p.down der counter).map (fun r => ({ p with down := r.1 }, r.2))
  else some (p, der, counter)

/-- The `while (p)` loop of `_asn1_insert_tag_der` over the chain that starts
at `node->down`; `none` is a fault (`strtoul` of a NULL value). -/
def insert_tag_loop (ntype : node_type) :
    AsnNode → tag_acc → List Nat → Nat → Option (AsnNode × tag_acc × List Nat × Nat)
  | AsnNode.nil, acc, der, counter => some (AsnNode.nil, acc, der, counter)
  | AsnNode.node d dn rt, acc, der, counter =>
    if d.type = TYPE_TAG then
      let cls := (d.flags.class_ <<< 6) % UCHAR
      if d.flags.explicit then
        let tag : Option (List Nat × Nat) :=
          if acc.is_tag_implicit then
            some (_asn1_tag_der acc.class_implicit (acc.tag_implicit % UINT))
          else d.value.map (fun v => _asn1_tag_der (cls ||| STRUCTURED) (strtoul v % UINT))
        match tag with
        | none => none
        | some t =>
          let der1 := memcpy der counter t.1
          let counter1 := counter + t.2
          let d1 := _ksba_asn_set_name d (some (_asn1_ltostr counter1))
          (insert_tag_loop ntype rt { acc with is_tag_implicit := false } der1 counter1).map
            (fun r => (AsnNode.node d1 dn r.1, r.2))
      else if acc.is_tag_implicit then
        (insert_tag_loop ntype rt acc der counter).map (fun r => (AsnNode.node d dn r.1, r.2))
      else
        match d.value with
        | none => none
        | some v =>
          let cls1 := if is_structured ntype then cls ||| STRUCTURED else cls
          (insert_tag_loop ntype rt ⟨true, cls1, strtoul v⟩ der counter).map
            (fun r => (AsnNode.node d dn r.1, r.2))
    else
      (insert_tag_loop ntype rt acc der counter).map (fun r => (AsnNode.node d dn r.1, r.2))

/-- The `switch (node->type)` of `_asn1_insert_tag_der`: the octets written at
`der + *counter` and `tag_len`, or `none` for the `default` case. -/
def universal_tag (d : node_data) : Option (List Nat × Nat) :=
  match d.type with
  | TYPE_NULL => some (_asn1_tag_der UNIVERSAL TAG_NULL)
  | TYPE_BOOLEAN => some (_asn1_tag_der UNIVERSAL TAG_BOOLEAN)
  | TYPE_INTEGER => some (_asn1_tag_der UNIVERSAL TAG_INTEGER)
  | TYPE_ENUMERATED => some (_asn1_tag_der UNIVERSAL TAG_ENUMERATED)
  | TYPE_OBJECT_ID => some (_asn1_tag_der UNIVERSAL TAG_OBJECT_ID)
  | TYPE_TIME =>
    if d.flags.is_utc_time then some (_asn1_tag_der UNIVERSAL TAG_UTCTime)
    else some (_asn1_tag_der UNIVERSAL TAG_GENERALIZEDTime)
  | TYPE_OCTET_STRING => some (_asn1_tag_der UNIVERSAL TAG_OCTET_STRING)
  | TYPE_BIT_STRING => some (_asn1_tag_der UNIVERSAL TAG_BIT_STRING)
  | TYPE_SEQUENCE => some (_asn1_tag_der (UNIVERSAL ||| STRUCTURED) TAG_SEQUENCE)
  | TYPE_SEQUENCE_OF => some (_asn1_tag_der (UNIVERSAL ||| STRUCTURED) TAG_SEQUENCE)
  | TYPE_SET => some (_asn1_tag_der (UNIVERSAL ||| STRUCTURED) TAG_SET)
  | TYPE_SET_OF => some (_asn1_tag_der (UNIVERSAL ||| STRUCTURED) TAG_SET)
  | TYPE_TAG => some ([], 0)
  | TYPE_CHOICE => some ([], 0)
  | TYPE_ANY => some ([], 0)
  | _ => none

/-- `_asn1_insert_tag_der (node, der, &counter)`: the result code, the node
(the names of its TAG children are written), the buffer and `*counter`;
`none` is a fault. -/
def _asn1_insert_tag_der (p : Loc) (der : List Nat) (counter : Nat) :
    Option (asn_code × Loc × List Nat × Nat) :=
  let walked : Option (AsnNode × tag_acc × List Nat × Nat) :=
    if p.d.flags.has_tag then insert_tag_loop p.d.type p.down ⟨false, 0, 0⟩ der counter
    else some (p.down, ⟨false, 0, 0⟩, der, counter)
  match walked with
  | none => none
  | some (down1, acc, der1, counter1) =>
    let p1 : Loc := { p with down := down1 }
    if acc.is_tag_implicit then
      let t := _asn1_tag_der acc.class_implicit (acc.tag_implicit % UINT)
      some (ASN_OK, p1, memcpy der1 counter1 t.1, counter1 + t.2)
    else
      match universal_tag p.d with
      | none => some (ASN_GENERIC_ERROR, p1, der1, counter1)
      | some t => some (ASN_OK, p1, memcpy der1 counter1 t.1, counter1 + t.2)

/-! ## SET and SET OF ordering -/

/-- The element descriptor `struct vet`; `end_` is the field `end`. -/
structure vet where
  end_ : Nat
  value : Nat
  deriving DecidableEq, Repr

/-- The expression `(class << 24) | tag` of `_asn1_ordering_set`: `class` is
promoted to `int`, the shifted `int` is converted to `unsigned long` (with its
sign) before the bits of `tag` are joined. -/
def set_sort_key (cls tag : Nat) : Nat :=
  let s := (cls <<< 24) % UINT
  (if s < 2 ^ 31 then s else s + (ULONG - UINT)) ||| tag

/-- The first child that is neither TAG nor SIZE, looked for from `p` on to
the right (the loop `while (p->type == TYPE_TAG || p->type == TYPE_SIZE)
p = p->right;`); `none` is a fault, the chain ends before such a child. -/
def skip_tag_size : AsnNode → Option AsnNode
  | AsnNode.nil => none
  | AsnNode.node d dn rt =>
    if d.type = TYPE_TAG ∨ d.type = TYPE_SIZE then skip_tag_size rt
    else some (AsnNode.node d dn rt)

/-- The first `while (p)` loop of `_asn1_ordering_set`: one descriptor for
each node from `p` on to the right. -/
def ordering_set_vets (der : List Nat) : AsnNode → Nat → List vet
  | AsnNode.nil, _ => []
  | AsnNode.node _ _ rt, counter =>
    let t := _asn1_get_tag_der (der.drop counter)
    let counter1 := counter + t.2.2
    let l := _ksba_asn_get_length_der (der.drop counter1)
    let counter2 := counter1 + (l.2 + l.1)
    ⟨counter2, set_sort_key t.2.1 t.1⟩ :: ordering_set_vets der rt counter2

/-- The block `/* change position */` of both ordering functions: the element
at `[counter, end1)` and the element at `[end1, end2)` change places. -/
def change_position (der : List Nat) (counter end1 end2 : Nat) : List Nat :=
  let temp := memrd der counter (end1 - counter)
  let der1 := memmove der counter end1 (end2 - end1)
  memcpy der1 end1 temp

/-- The inner `while (p2_vet)` loop of `_asn1_ordering_set`, with `p_vet` the
first argument and `p2_vet` the head of the second: the descriptors and the
buffer afterwards. -/
def ordering_set_pass : vet → List vet → List Nat → Nat → List vet × List Nat
  | v1, [], der, _ => ([v1], der)
  | v1, v2 :: rest, der, counter =>
    if v1.value > v2.value then
      let der1 := change_position der counter v1.end_ v2.end_
      let w1 : vet := ⟨counter + (v2.end_ - v1.end_), v2.value⟩
      let w2 : vet := ⟨v2.end_, v1.value⟩
      let r := ordering_set_pass w2 rest der1 w1.end_
      (w1 :: r.1, r.2)
    else
      let r := ordering_set_pass v2 rest der v1.end_
      (v1 :: r.1, r.2)

/-- The outer `while (p_vet)` loop of `_asn1_ordering_set`.  Every round ends
by freeing the last descriptor, so there are as many rounds as descriptors;
the first argument counts the rounds left. -/
def ordering_set_sort : Nat → List vet → List Nat → List Nat
  | 0, _, der => der
  | _ + 1, [], der => der
  | n + 1, v :: vs, der =>
    let r := ordering_set_pass v vs der 0
    ordering_set_sort n r.1.dropLast r.2

/-- `_asn1_ordering_set (der, node)`: the buffer afterwards; `none` is a
fault. -/
def _asn1_ordering_set (der : List Nat) (node : Loc) : Option (List Nat) :=
  if node.d.type ≠ TYPE_SET then some der
  else
    match skip_tag_size node.down with
    | none => none
    | some AsnNode.nil => some der
    | some (AsnNode.node _ _ AsnNode.nil) => some der
    | some p =>
      let vets := ordering_set_vets der p 0
      some (ordering_set_sort vets.length vets der)

/-- The first `while (p)` loop of `_asn1_ordering_set_of`. -/
def ordering_set_of_vets (der : List Nat) : AsnNode → Nat → List Nat
  | AsnNode.nil, _ => []
  | AsnNode.node _ _ rt, counter =>
    let t := _asn1_get_tag_der (der.drop counter)
    let counter1 := counter + t.2.2
    let l := _ksba_asn_get_length_der (der.drop counter1)
    let counter2 := counter1 + (l.2 + l.1)
    counter2 :: ordering_set_of_vets der rt counter2

/-- The `for (k = 0; k < max; k++)` loop of `_asn1_ordering_set_of` with `n`
rounds left: the value of `change` after it. -/
def set_of_change (der : List Nat) (counter end1 : Nat) : Nat → Nat → Int
  | 0, _ => -1
  | n + 1, k =>
    if rd der (counter + k) > rd der (end1 + k) then 1
    else if rd der (counter + k) < rd der (end1 + k) then 0
    else set_of_change der counter end1 n (k + 1)

/-- The inner `while (p2_vet)` loop of `_asn1_ordering_set_of`; a descriptor
is its field `end`. -/
def ordering_set_of_pass : Nat → List Nat → List Nat → Nat → List Nat × List Nat
  | e1, [], der, _ => ([e1], der)
  | e1, e2 :: rest, der, counter =>
    let max := if e1 - counter > e2 - e1 then e1 - counter else e2 - e1
    let change0 := set_of_change der counter e1 max 0
    let change := if change0 = -1 ∧ e1 - counter > e2 - e1 then 1 else change0
    if change = 1 then
      let der1 := change_position der counter e1 e2
      let w1 := counter + (e2 - e1)
      let r := ordering_set_of_pass e2 rest der1 w1
      (w1 :: r.1, r.2)
    else
      let r := ordering_set_of_pass e2 rest der e1
      (e1 :: r.1, r.2)

/-- The outer `while (p_vet)` loop of `_asn1_ordering_set_of`, with the
number of rounds left as first argument. -/
def ordering_set_of_sort : Nat → List Nat → List Nat → List Nat
  | 0, _, der => der
  | _ + 1, [], der => der
  | n + 1, e :: es, der =>
    let r := ordering_set_of_pass e es der 0
    ordering_set_of_sort n r.1.dropLast r.2

/-- `_asn1_ordering_set_of (der, node)`: the buffer afterwards; `none` is a
fault. -/
def _asn1_ordering_set_of (der : List Nat) (node : Loc) : Option (List Nat) :=
  if node.d.type ≠ TYPE_SET_OF then some der
  else
    match skip_tag_size node.down with
    | none => none
    | some AsnNode.nil => none
    | some (AsnNode.node _ _ AsnNode.nil) => some der
    | some (AsnNode.node _ _ (AsnNode.node _ _ AsnNode.nil)) => some der
    | some (AsnNode.node _ _ p) =>
      let vets := ordering_set_of_vets der p 0
      some (ordering_set_of_sort vets.length vets der)

/-! ## Encoder -/

/-- The variables of the `while (1)` loop of a walker that live from one
turn to the next. -/
structure walk_state where
  p : Loc
  move : Move
  counter : Nat
  der : List Nat
  deriving DecidableEq, Repr

/-- The loop `while (p->type == TYPE_TAG || p->type == TYPE_SIZE) p = p->right;`
on the pointer to the node `d` with links `dn`, `rt` in the context `c`;
`none` is a fault, the chain ends before another child is found. -/
def skip_tag_size_loc : node_data → AsnNode → AsnNode → Ctx → Option Loc
  | d, dn, AsnNode.nil, c =>
    if d.type = TYPE_TAG ∨ d.type = TYPE_SIZE then none else some ⟨d, dn, AsnNode.nil, c⟩
  | d, dn, AsnNode.node d1 dn1 rt1, c =>
    if d.type = TYPE_TAG ∨ d.type = TYPE_SIZE then
      skip_tag_size_loc d1 dn1 rt1 (Ctx.beside d dn c)
    else some ⟨d, dn, AsnNode.node d1 dn1 rt1, c⟩

/-- The three `if` statements that end a turn of a walker: `move == DOWN`
goes to `p->down` or turns to RIGHT, `move == RIGHT` goes to `p->right` (not
for a SET member when `set_stays` is set, as in the decoder) or turns to UP,
`move == UP` goes to `find_up (p)`. The pointer is `none` when it is NULL. -/
def walk_advance (p : Loc) (move : Move) (set_stays : Bool) : Option Loc × Move :=
  let s1 : Loc × Move :=
    if move = DOWN then
      match p.go_down with
      | some q => (q, DOWN)
      | none => (p, RIGHT)
    else (p, move)
  let s2 : Loc × Move :=
    if s1.2 = RIGHT ∧ ¬ (set_stays = true ∧ s1.1.d.flags.is_set = true) then
      match s1.1.go_right with
      | some q => (q, RIGHT)
      | none => (s1.1, UP)
    else s1
  if s2.2 = UP then (find_up s2.1, UP) else (some s2.1, s2.2)

/-- The `move == UP` part of the SEQUENCE, SET, SEQUENCE OF and SET OF cases
of `asn1_create_der`: the length octets are put in front of the content that
starts at the offset kept in the value of the node. -/
def create_der_close (s : walk_state) : Option walk_state :=
  match s.p.d.value with
  | none => none
  | some v =>
    let len2 := (strtol v).toNat
    let p1 : Loc := { s.p with d := _ksba_asn_set_value s.p.d none }
    let ordered : Option (List Nat) :=
      if s.p.d.type = TYPE_SET then
        (_asn1_ordering_set (s.der.drop len2) p1).map (fun r => at_offset s.der len2 (fun _ => r))
      else if s.p.d.type = TYPE_SET_OF then
        (_asn1_ordering_set_of (s.der.drop len2) p1).map
          (fun r => at_offset s.der len2 (fun _ => r))
      else some s.der
    match ordered with
    | none => none
    | some der1 =>
      let temp := _asn1_length_der (s.counter - len2)
      let len3 := temp.2
      let der2 := memmove der1 (len2 + len3) len2 (s.counter - len2)
      let der3 := memcpy der2 len2 temp.1
      some { p := p1, move := RIGHT, counter := s.counter + len3, der := der3 }

/-- The statements `memcpy (der + counter, p->value, len3 + len2);
counter += len3 + len2;` that copy a stored value with its length octets. -/
def create_der_copy_value (s : walk_state) : Option walk_state :=
  match s.p.d.value with
  | none => none
  | some v =>
    let l := _ksba_asn_get_length_der v
    some { s with der := memcpy s.der s.counter (memrd v 0 (l.2 + l.1)),
                  counter := s.counter + (l.2 + l.1), move := RIGHT }

/-- The `switch (p->type)` of `asn1_create_der`.  The flag in the result is
set when the turn ends with `continue`; `none` is a fault. -/
def create_der_switch (s : walk_state) (counter_old : Nat) : Option (walk_state × Bool) :=
  match s.p.d.type with
  | TYPE_NULL =>
    some ({ s with der := memcpy s.der s.counter [0], counter := s.counter + 1, move := RIGHT },
      false)
  | TYPE_BOOLEAN =>
    if s.p.d.flags.is_default = true ∧ s.p.d.value = none then
      some ({ s with counter := counter_old, move := RIGHT }, false)
    else
      match s.p.d.value with
      | none => none
      | some v =>
        let der1 := memcpy s.der s.counter [1]
        let b := if rd v 0 = 70 then 0 else 0xFF
        some ({ s with der := memcpy der1 (s.counter + 1) [b], counter := s.counter + 2,
                       move := RIGHT }, false)
  | TYPE_INTEGER =>
    if s.p.d.flags.is_default = true ∧ s.p.d.value = none then
      some ({ s with counter := counter_old, move := RIGHT }, false)
    else (create_der_copy_value s).map (fun r => (r, false))
  | TYPE_ENUMERATED =>
    if s.p.d.flags.is_default = true ∧ s.p.d.value = none then
      some ({ s with counter := counter_old, move := RIGHT }, false)
    else (create_der_copy_value s).map (fun r => (r, false))
  | TYPE_OBJECT_ID =>
    match s.p.d.value with
    | none => none
    | some v =>
      (_asn1_objectid_der v).map (fun r =>
        ({ s with der := memcpy s.der s.counter r.1, counter := s.counter + r.2, move := RIGHT },
          false))
  | TYPE_TIME =>
    match s.p.d.value with
    | none => none
    | some v =>
      let r := _asn1_time_der v
      some ({ s with der := memcpy s.der s.counter r.1, counter := s.counter + r.2,
                     move := RIGHT }, false)
  | TYPE_OCTET_STRING => (create_der_copy_value s).map (fun r => (r, false))
  | TYPE_BIT_STRING => (create_der_copy_value s).map (fun r => (r, false))
  | TYPE_SEQUENCE =>
    if s.move ≠ UP then
      some ({ s with p := { s.p with d := _ksba_asn_set_value s.p.d
                                            (some (_asn1_ltostr s.counter ++ [0])) },
                     move := DOWN }, false)
    else (create_der_close s).map (fun r => (r, false))
  | TYPE_SET =>
    if s.move ≠ UP then
      some ({ s with p := { s.p with d := _ksba_asn_set_value s.p.d
                                            (some (_asn1_ltostr s.counter ++ [0])) },
                     move := DOWN }, false)
    else (create_der_close s).map (fun r => (r, false))
  | TYPE_SEQUENCE_OF | TYPE_SET_OF =>
    if s.move ≠ UP then
      let p1 : Loc := { s.p with d := _ksba_asn_set_value s.p.d
                                        (some (_asn1_ltostr s.counter ++ [0])) }
      match p1.go_down with
      | none => none
      | some c =>
        match skip_tag_size_loc c.d c.down c.right c.ctx with
        | none => none
        | some p2 =>
          match p2.go_right with
          | some p3 => some ({ s with p := p3, move := RIGHT }, true)
          | none =>
            match find_up p2 with
            | none => none
            | some p4 => (create_der_close { s with p := p4, move := UP }).map (fun r => (r, false))
    else (create_der_close s).map (fun r => (r, false))
  | TYPE_ANY =>
    match s.p.d.value with
    | none => none
    | some v =>
      let l := _ksba_asn_get_length_der v
      some ({ s with der := memcpy s.der s.counter (memrd v l.2 l.1),
                     counter := s.counter + l.1, move := RIGHT }, false)
  | _ => some ({ s with move := if s.move = UP then RIGHT else DOWN }, false)

/-- A turn of the `while (1)` loop of `asn1_create_der` from its top to the
call of `_asn1_complete_explicit_tag`: the state there, with a flag that is
set when the turn ended before in `continue`; `none` is a fault. -/
def create_der_body (s : walk_state) : Option (walk_state × Bool) :=
  let counter_old := s.counter
  let tagged : Option walk_state :=
    if s.move ≠ UP then
      (_asn1_insert_tag_der s.p s.der s.counter).map
        (fun r => { s with p := r.2.1, der := r.2.2.1, counter := r.2.2.2 })
    else some s
  match tagged with
  | none => none
  | some s1 =>
    match create_der_switch s1 counter_old with
    | none => none
    | some (s2, true) => some (s2, true)
    | some (s2, false) =>
      if s2.move ≠ DOWN ∧ s2.counter ≠ counter_old then
        (_asn1_complete_explicit_tag s2.p s2.der s2.counter).map
          (fun r => ({ s2 with p := r.1, der := r.2.1, counter := r.2.2 }, false))
      else some (s2, false)

/-- One turn of the `while (1)` loop of `asn1_create_der`, where `node` is
the place of the start node: `Sum.inl` is the state at the next turn,
`Sum.inr` the state at the `break`, `none` a fault.  A NULL `p` faults here,
before the next turn dereferences it. -/
def create_der_turn (node : List Bool) (s : walk_state) : Option (walk_state ⊕ walk_state) :=
  match create_der_body s with
  | none => none
  | some (s2, true) => some (Sum.inl s2)
  | some (s3, false) =>
    if s3.p.ctx.pos = node ∧ s3.move ≠ DOWN then some (Sum.inr s3)
    else
      match walk_advance s3.p s3.move false with
      | (none, _) => none
      | (some q, m) => some (Sum.inl { s3 with p := q, move := m })

/-- What `asn1_create_der` hands back: the return value, the tree seen from
the start node, the buffer `der` and the value stored in `*len` (`none` when
nothing is stored). -/
structure create_der_result where
  code : asn_code
  node : Option Loc
  der : List Nat
  len : Option Nat
  deriving DecidableEq, Repr

/-- The `while (1)` loop of `asn1_create_der` and the statements after it. -/
def create_der_loop (node : List Bool) : Nat → walk_state → Run create_der_result
  | 0, _ => Run.out_of_fuel
  | fuel + 1, s =>
    match create_der_turn node s with
    | none => Run.fault
    | some (Sum.inl s1) => create_der_loop node fuel s1
    | some (Sum.inr s1) => Run.ret ⟨ASN_OK, some s1.p, s1.der, some s1.counter⟩

/-- `asn1_create_der (root, name, der, &len)`.  The call
`_ksba_asn_find_node (root, name)` of the missing `asn1-func.c` is not
modelled: its result is the argument `node`.  `fuel` bounds the number of
turns of the loop. -/
def asn1_create_der (node : Option Loc) (der : List Nat) (fuel : Nat) : Run create_der_result :=
  match node with
  | none => Run.ret ⟨ASN_ELEMENT_NOT_FOUND, none, der, none⟩
  | some n => create_der_loop n.ctx.pos fuel ⟨n, DOWN, 0, der⟩

/-! ## Decoder -/

/-- The `while (p)` loop of `_asn1_extract_tag_der` over the chain that starts
at `node->down`, reading the buffer `der`: the result code (other than
`ASN_OK` when the function returns from inside the loop), the local variables
and `counter`; `none` is a fault (`strtoul` of a NULL value). -/
def extract_tag_loop (ntype : node_type) (der : List Nat) :
    AsnNode → tag_acc → Nat → Option (asn_code × tag_acc × Nat)
  | AsnNode.nil, acc, counter => some (ASN_OK, acc, counter)
  | AsnNode.node d _ rt, acc, counter =>
    if d.type = TYPE_TAG then
      let class2 := (d.flags.class_ <<< 6) % UCHAR
      if d.flags.explicit then
        let t := _asn1_get_tag_der (der.drop counter)
        let counter1 := counter + t.2.2
        let l := _ksba_asn_get_length_der (der.drop counter1)
        let counter2 := counter1 + l.2
        if acc.is_tag_implicit = false then
          if t.2.1 ≠ (class2 ||| STRUCTURED) then some (ASN_TAG_ERROR, acc, counter2)
          else
            match d.value with
            | none => none
            | some v =>
              if t.1 ≠ strtoul v then some (ASN_TAG_ERROR, acc, counter2)
              else extract_tag_loop ntype der rt { acc with is_tag_implicit := false } counter2
        else if t.2.1 ≠ acc.class_implicit ∨ t.1 ≠ acc.tag_implicit then
          some (ASN_TAG_ERROR, acc, counter2)
        else extract_tag_loop ntype der rt { acc with is_tag_implicit := false } counter2
      else if acc.is_tag_implicit then extract_tag_loop ntype der rt acc counter
      else
        match d.value with
        | none => none
        | some v =>
          let cls1 := if is_structured ntype then class2 ||| STRUCTURED else class2
          extract_tag_loop ntype der rt ⟨true, cls1, strtoul v⟩ counter
    else extract_tag_loop ntype der rt acc counter

/-- The class and tag number that the `switch (node->type)` of
`_asn1_extract_tag_der` asks for; `none` for the types without such a test. -/
def expected_universal (d : node_data) : Option (Nat × Nat) :=
  match d.type with
  | TYPE_NULL => some (UNIVERSAL, TAG_NULL)
  | TYPE_BOOLEAN => some (UNIVERSAL, TAG_BOOLEAN)
  | TYPE_INTEGER => some (UNIVERSAL, TAG_INTEGER)
  | TYPE_ENUMERATED => some (UNIVERSAL, TAG_ENUMERATED)
  | TYPE_OBJECT_ID => some (UNIVERSAL, TAG_OBJECT_ID)
  | TYPE_TIME =>
    if d.flags.is_utc_time then some (UNIVERSAL, TAG_UTCTime)
    else some (UNIVERSAL, TAG_GENERALIZEDTime)
  | TYPE_OCTET_STRING => some (UNIVERSAL, TAG_OCTET_STRING)
  | TYPE_BIT_STRING => some (UNIVERSAL, TAG_BIT_STRING)
  | TYPE_SEQUENCE => some (UNIVERSAL ||| STRUCTURED, TAG_SEQUENCE)
  | TYPE_SEQUENCE_OF => some (UNIVERSAL ||| STRUCTURED, TAG_SEQUENCE)
  | TYPE_SET => some (UNIVERSAL ||| STRUCTURED, TAG_SET)
  | TYPE_SET_OF => some (UNIVERSAL ||| STRUCTURED, TAG_SET)
  | _ => none

/-- `_asn1_extract_tag_der (node, der, &der_len)` for the node with fields `d`
and first child `down`: the result code and the value stored in `*der_len`
(0 stands for a `*der_len` left unassigned, when the code is not `ASN_OK`);
`none` is a fault. -/
def _asn1_extract_tag_der (d : node_data) (down : AsnNode) (der : List Nat) :
    Option (asn_code × Nat) :=
  let walked : Option (asn_code × tag_acc × Nat) :=
    if d.flags.has_tag then extract_tag_loop d.type der down ⟨false, 0, 0⟩ 0
    else some (ASN_OK, ⟨false, 0, 0⟩, 0)
  match walked with
  | none => none
  | some (ASN_OK, acc, counter) =>
    if acc.is_tag_implicit then
      let t := _asn1_get_tag_der (der.drop counter)
      if t.2.1 ≠ acc.class_implicit ∨ t.1 ≠ acc.tag_implicit then some (ASN_TAG_ERROR, 0)
      else some (ASN_OK, counter + t.2.2)
    else if d.type = TYPE_TAG then some (ASN_OK, 0)
    else
      let t := _asn1_get_tag_der (der.drop counter)
      if d.type = TYPE_ANY then some (ASN_OK, counter)
      else
        match expected_universal d with
        | none => some (ASN_DER_ERROR, 0)
        | some e =>
          if t.2.1 ≠ e.1 ∨ t.1 ≠ e.2 then some (ASN_DER_ERROR, 0)
          else some (ASN_OK, counter + t.2.2)
  | some (code, _, _) => some (code, 0)

/-- The end of a chain of siblings gets the chain `t` as its `right`. -/
def append_right : AsnNode → AsnNode → AsnNode
  | AsnNode.nil, t => t
  | AsnNode.node d dn rt, t => AsnNode.node d dn (append_right rt t)

/-- Modelled from the spec: `_asn1_append_sequence_set (node)` of the missing
`asn1-func.c`, which clones the template child of a SEQUENCE OF or SET OF
(its first child that is neither TAG nor SIZE) and appends the clone to the
children; `none` is a fault (there is no such child). -/
def _asn1_append_sequence_set (p : Loc) : Option Loc :=
  match skip_tag_size p.down with
  | some (AsnNode.node d dn _) =>
    some { p with down := append_right p.down (AsnNode.node d dn AsnNode.nil) }
  | _ => none

/-- Modelled from the spec: `_ksba_asn_delete_not_used` of the missing
`asn1-func.c` on a chain of siblings: every node flagged `is_not_used` is
deleted with all that hangs below it. -/
def delete_not_used_chain : AsnNode → AsnNode
  | AsnNode.nil => AsnNode.nil
  | AsnNode.node d dn rt =>
    if d.flags.is_not_used then delete_not_used_chain rt
    else AsnNode.node d (delete_not_used_chain dn) (delete_not_used_chain rt)

/-- Modelled from the spec: `_ksba_asn_delete_not_used (root)` of the missing
`asn1-func.c`; the result is `none` when the root itself is deleted. -/
def _ksba_asn_delete_not_used (root : Loc) : Option Loc :=
  if root.d.flags.is_not_used then none
  else some { root with down := delete_not_used_chain root.down }

/-- The state of the `while (1)` loop of `asn1_get_der` between two turns. -/
structure get_state where
  p : Loc
  move : Move
  counter : Nat
  deriving DecidableEq, Repr

/-- How a turn of the loop of `asn1_get_der` ends: at the next turn, at the
`break`, or in a `return` (with the pointer `p` of that moment). -/
inductive get_turn
  | next (s : get_state) : get_turn
  | brk (s : get_state) : get_turn
  | stop (code : asn_code) (p : Loc) : get_turn
  deriving DecidableEq, Repr

/-- The loop `while (p3) { ris = _asn1_extract_tag_der (p3, ...); if (ris ==
ASN_OK) break; p3 = p3->right; }` over the alternatives of a CHOICE that is a
SET member: the value of `ris` afterwards. -/
def set_choice_ris (der : List Nat) : AsnNode → asn_code → Option asn_code
  | AsnNode.nil, ris => some ris
  | AsnNode.node d dn rt, _ =>
    match _asn1_extract_tag_der d dn der with
    | none => none
    | some (ASN_OK, _) => some ASN_OK
    | some (code, _) => set_choice_ris der rt code

/-- The loop `while (p2)` of the SET member part of `asn1_get_der`, on the
pointer to the node `d` with links `dn`, `rt` in the context `c`: the member
found, with `is_not_used` cleared, or `some none` when `p2` ends as NULL. -/
def set_member_loop (der : List Nat) :
    node_data → AsnNode → AsnNode → Ctx → asn_code → Option (Option Loc)
  | d, dn, rt, c, ris =>
    let tried : Option asn_code :=
      if d.flags.is_set = true ∧ d.flags.is_not_used = true then
        if d.type ≠ TYPE_CHOICE then (_asn1_extract_tag_der d dn der).map (fun r => r.1)
        else set_choice_ris der dn ris
      else some ris
    match tried with
    | none => none
    | some ris1 =>
      if d.flags.is_set = true ∧ d.flags.is_not_used = true ∧ ris1 = ASN_OK then
        some (some ⟨{ d with flags := { d.flags with is_not_used := false } }, dn, rt, c⟩)
      else
        match rt with
        | AsnNode.nil => some none
        | AsnNode.node d1 dn1 rt1 => set_member_loop der d1 dn1 rt1 (Ctx.beside d dn c) ris1

/-- The loop `while (p->down)` of the CHOICE part of `asn1_get_der` over the
children of `p`: a `return` code, or the children left (`ksba_asn_delete_structure`
of the missing `asn1-func.c` is modelled from the spec: it takes a node with
all that hangs below it out of the tree). -/
def choice_loop (der : List Nat) : AsnNode → Option (asn_code ⊕ AsnNode)
  | AsnNode.nil => some (Sum.inr AsnNode.nil)
  | AsnNode.node d dn rt =>
    match _asn1_extract_tag_der d dn der with
    | none => none
    | some (ASN_OK, _) => some (Sum.inr (AsnNode.node d dn AsnNode.nil))
    | some (ASN_ERROR_TYPE_ANY, _) => some (Sum.inl ASN_ERROR_TYPE_ANY)
    | some _ => choice_loop der rt

/-- The loop `while (p->right) p = p->right;` on the pointer to the node `d`
with links `dn`, `rt` in the context `c`. -/
def last_sibling : node_data → AsnNode → AsnNode → Ctx → Loc
  | d, dn, AsnNode.nil, c => ⟨d, dn, AsnNode.nil, c⟩
  | d, dn, AsnNode.node d1 dn1 rt1, c => last_sibling d1 dn1 rt1 (Ctx.beside d dn c)

/-- The SET member part of a turn of `asn1_get_der` (`if (p->flags.is_set)`):
the way the turn ends there, or the pointer `p` to go on with. -/
def get_der_set_member (der : List Nat) (s : get_state) : Option (get_turn ⊕ Loc) :=
  if s.p.d.flags.is_set then
    match find_up s.p with
    | none => none
    | some p2 =>
      match p2.d.value with
      | none => none
      | some v =>
        let len2 := strtol v
        if (s.counter : Int) = len2 then some (Sum.inl (get_turn.next ⟨p2, UP, s.counter⟩))
        else if (s.counter : Int) > len2 then some (Sum.inl (get_turn.stop ASN_DER_ERROR s.p))
        else
          match p2.go_down with
          | none => some (Sum.inl (get_turn.stop ASN_DER_ERROR s.p))
          | some c =>
            match set_member_loop (der.drop s.counter) c.d c.down c.right c.ctx ASN_OK with
            | none => none
            | some none => some (Sum.inl (get_turn.stop ASN_DER_ERROR s.p))
            | some (some q) => some (Sum.inr q)
  else some (Sum.inr s.p)

/-- The CHOICE part of a turn of `asn1_get_der` (`if (p->type == TYPE_CHOICE)`). -/
def get_der_choice (der : List Nat) (p : Loc) (counter : Nat) : Option (get_turn ⊕ Loc) :=
  if p.d.type = TYPE_CHOICE then
    match choice_loop (der.drop counter) p.down with
    | none => none
    | some (Sum.inl code) => some (Sum.inl (get_turn.stop code p))
    | some (Sum.inr t) =>
      let p1 : Loc := { p with down := t }
      match p1.go_down with
      | none => some (Sum.inl (get_turn.stop ASN_DER_ERROR p1))
      | some q => some (Sum.inr q)
  else some (Sum.inr p)

/-- The rest of the `if (move != UP)` part of a turn of `asn1_get_der`, from
`if (p->flags.is_optional || p->flags.is_default)` on: a `return`, or the
state and the value of `ris` to go on with. -/
def get_der_tag (der : List Nat) (p : Loc) (move : Move) (counter : Nat) :
    Option (get_turn ⊕ (get_state × asn_code)) :=
  let ris0 : Option asn_code :=
    if p.d.flags.is_optional = true ∨ p.d.flags.is_default = true then
      match find_up p with
      | none => none
      | some p2 =>
        match p2.d.value with
        | none => none
        | some v => if (counter : Int) ≥ strtol v then some ASN_TAG_ERROR else some ASN_OK
    else some ASN_OK
  match ris0 with
  | none => none
  | some r0 =>
    let ext : Option (asn_code × Nat) :=
      if r0 = ASN_OK then _asn1_extract_tag_der p.d p.down (der.drop counter) else some (r0, 0)
    match ext with
    | none => none
    | some (ris, len2) =>
      if ris ≠ ASN_OK then
        if p.d.flags.is_optional then
          some (Sum.inr (⟨{ p with d := { p.d with flags := { p.d.flags with is_not_used := true } } },
            RIGHT, counter⟩, ris))
        else if p.d.flags.is_default then
          some (Sum.inr (⟨{ p with d := _ksba_asn_set_value p.d none }, RIGHT, counter⟩, ris))
        else some (Sum.inl (get_turn.stop ASN_TAG_ERROR p))
      else some (Sum.inr (⟨p, move, counter + len2⟩, ASN_OK))

/-- The statement `counter += n` of the walkers over the `int` variable
`counter`: the new value; `none` when it is negative, which is modelled as a
fault, no byte of `der` being there to read. -/
def counter_add (counter : Nat) (n : Int) : Option Nat :=
  let c := wrap_int ((counter : Int) + n)
  if c < 0 then none else some c.toNat

/-- The cases of the `switch (p->type)` of `asn1_get_der` that store the
bytes `der[counter .. counter + len3 + len2)` as the value, where `len2` is
the length read, reduced to `int`; `none` is a fault (a negative length
handed to `_ksba_asn_set_value`, or a negative `counter`). -/
def get_der_copy_value (der : List Nat) (s : get_state) : Option get_state :=
  let l := _ksba_asn_get_length_der (der.drop s.counter)
  let len2 : Int := to_int l.1
  let len3 : Int := l.2
  let n := wrap_int (len3 + len2)
  if n < 0 then none
  else
    (counter_add s.counter n).map (fun c =>
      { p := { s.p with d := _ksba_asn_set_value s.p.d (some (memrd der s.counter n.toNat)) },
        move := RIGHT, counter := c })

/-- The `switch (p->type)` of `asn1_get_der`: the way the turn ends there
(`next` for a `continue`), or the state after the `switch`.  The lengths read
from `der` are reduced to `int`, as the variables `len2` and `len3` hold them;
`none` is a fault (in the ANY case: a negative length handed to
`_asn1_octet_der`). -/
def get_der_switch (der : List Nat) (s : get_state) : Option (get_turn ⊕ get_state) :=
  match s.p.d.type with
  | TYPE_NULL =>
    if rd der s.counter ≠ 0 then some (Sum.inl (get_turn.stop ASN_DER_ERROR s.p))
    else some (Sum.inr { s with counter := s.counter + 1, move := RIGHT })
  | TYPE_BOOLEAN =>
    if rd der s.counter ≠ 1 then some (Sum.inl (get_turn.stop ASN_DER_ERROR s.p))
    else
      let v := if rd der (s.counter + 1) = 0 then [70] else [84]
      some (Sum.inr { p := { s.p with d := _ksba_asn_set_value s.p.d (some v) },
                      move := RIGHT, counter := s.counter + 2 })
  | TYPE_INTEGER => (get_der_copy_value der s).map Sum.inr
  | TYPE_ENUMERATED => (get_der_copy_value der s).map Sum.inr
  | TYPE_OBJECT_ID =>
    let r := _asn1_get_objectid_der (der.drop s.counter)
    (counter_add s.counter (to_int r.2)).map (fun c =>
      Sum.inr { p := { s.p with d := _ksba_asn_set_value s.p.d (some (cstr r.1 ++ [0])) },
                move := RIGHT, counter := c })
  | TYPE_TIME =>
    let r := _asn1_get_time_der (der.drop s.counter)
    (counter_add s.counter (to_int r.2)).map (fun c =>
      Sum.inr { p := { s.p with d := _ksba_asn_set_value s.p.d (some (cstr r.1 ++ [0])) },
                move := RIGHT, counter := c })
  | TYPE_OCTET_STRING => (get_der_copy_value der s).map Sum.inr
  | TYPE_BIT_STRING => (get_der_copy_value der s).map Sum.inr
  | TYPE_SEQUENCE | TYPE_SET =>
    if s.move = UP then
      match s.p.d.value with
      | none => none
      | some v =>
        let p1 : Loc := { s.p with d := _ksba_asn_set_value s.p.d none }
        if strtol v ≠ (s.counter : Int) then some (Sum.inl (get_turn.stop ASN_DER_ERROR p1))
        else some (Sum.inr { s with p := p1, move := RIGHT })
    else
      let l := _ksba_asn_get_length_der (der.drop s.counter)
      let len3 : Int := to_int l.1
      let counter1 := s.counter + l.2
      some (Sum.inr { p := { s.p with d := _ksba_asn_set_value s.p.d
                                            (some (_asn1_ltostr (wrap_int ((counter1 : Int) + len3)) ++ [0])) },
                      move := DOWN, counter := counter1 })
  | TYPE_SEQUENCE_OF | TYPE_SET_OF =>
    if s.move = UP then
      match s.p.d.value with
      | none => none
      | some v =>
        if strtol v > (s.counter : Int) then
          match _asn1_append_sequence_set s.p with
          | none => none
          | some p1 =>
            match p1.go_down with
            | none => none
            | some c => some (Sum.inl (get_turn.next ⟨last_sibling c.d c.down c.right c.ctx, RIGHT,
                s.counter⟩))
        else
          let p1 : Loc := { s.p with d := _ksba_asn_set_value s.p.d none }
          if strtol v ≠ (s.counter : Int) then some (Sum.inl (get_turn.stop ASN_DER_ERROR p1))
          else some (Sum.inr { s with p := p1, move := RIGHT })
    else
      let l := _ksba_asn_get_length_der (der.drop s.counter)
      let len3 : Int := to_int l.1
      let counter1 := s.counter + l.2
      if len3 ≠ 0 then
        let p1 : Loc := { s.p with d := _ksba_asn_set_value s.p.d
                                          (some (_asn1_ltostr (wrap_int ((counter1 : Int) + len3)) ++ [0])) }
        match p1.go_down with
        | none => none
        | some c =>
          match skip_tag_size_loc c.d c.down c.right c.ctx with
          | none => none
          | some p2 =>
            if p2.right = AsnNode.nil then
              match _asn1_append_sequence_set p1 with
              | none => none
              | some p3 =>
                match p3.go_down with
                | none => none
                | some c3 =>
                  (skip_tag_size_loc c3.d c3.down c3.right c3.ctx).map
                    (fun q => Sum.inr ⟨q, RIGHT, counter1⟩)
            else some (Sum.inr ⟨p2, RIGHT, counter1⟩)
      else some (Sum.inr { s with move := RIGHT, counter := counter1 })
  | TYPE_ANY =>
    let t := _asn1_get_tag_der (der.drop s.counter)
    let l := _ksba_asn_get_length_der (der.drop (s.counter + t.2.2))
    let len2 : Int := to_int (t.2.2 + l.1)
    let len3 : Int := l.2
    let n := wrap_int (len2 + len3)
    if n < 0 then none
    else
      let o := _asn1_octet_der (der.drop s.counter) n.toNat
      (counter_add s.counter n).map (fun c =>
        Sum.inr { p := { s.p with d := _ksba_asn_set_value s.p.d (some (o.1.take o.2)) },
                  move := RIGHT, counter := c })
  | _ => some (Sum.inr { s with move := if s.move = UP then RIGHT else DOWN })

/-- A turn of the `while (1)` loop of `asn1_get_der` from its top to the end
of the `switch`: the way the turn ends there, or the state after the
`switch`; `none` is a fault. -/
def get_der_body (der : List Nat) (s : get_state) : Option (get_turn ⊕ get_state) :=
  let entered : Option (get_turn ⊕ (get_state × asn_code)) :=
    if s.move ≠ UP then
      match get_der_set_member der s with
      | none => none
      | some (Sum.inl t) => some (Sum.inl t)
      | some (Sum.inr p1) =>
        match get_der_choice der p1 s.counter with
        | none => none
        | some (Sum.inl t) => some (Sum.inl t)
        | some (Sum.inr p2) => get_der_tag der p2 s.move s.counter
    else some (Sum.inr (s, ASN_OK))
  match entered with
  | none => none
  | some (Sum.inl t) => some (Sum.inl t)
  | some (Sum.inr (s1, ris)) =>
    if ris = ASN_OK then get_der_switch der s1 else some (Sum.inr s1)

/-- One turn of the `while (1)` loop of `asn1_get_der`, where `node` is the
place of the root; `none` is a fault.  A NULL `p` faults here, before the
next turn dereferences it. -/
def get_der_turn (der : List Nat) (node : List Bool) (s : get_state) : Option get_turn :=
  match get_der_body der s with
  | none => none
  | some (Sum.inl t) => some t
  | some (Sum.inr s2) =>
    if s2.p.ctx.pos = node ∧ s2.move ≠ DOWN then some (get_turn.brk s2)
    else
      match walk_advance s2.p s2.move true with
      | (none, _) => none
      | (some q, m) => some (get_turn.next { s2 with p := q, move := m })

/-- The `while (1)` loop of `asn1_get_der`: the state at the `break`, or the
code of a `return` inside the loop with the pointer `p` of that moment. -/
def get_der_loop (der : List Nat) (node : List Bool) : Nat → get_state → Run (asn_code ⊕ get_state)
  | 0, _ => Run.out_of_fuel
  | fuel + 1, s =>
    match get_der_turn der node s with
    | none => Run.fault
    | some (get_turn.next s1) => get_der_loop der node fuel s1
    | some (get_turn.brk s1) => Run.ret (Sum.inr s1)
    | some (get_turn.stop code _) => Run.ret (Sum.inl code)

/-- What `asn1_get_der` hands back: the return value and, when the loop was
left through its `break`, the tree seen from the root (`none` when
`_ksba_asn_delete_not_used` deleted the root). -/
structure get_der_result where
  code : asn_code
  root : Option Loc
  deriving DecidableEq, Repr

/-- `asn1_get_der (root, der, len)`; `fuel` bounds the number of turns of the
loop. -/
def asn1_get_der (root : Option Loc) (der : List Nat) (len : Nat) (fuel : Nat) :
    Run get_der_result :=
  match root with
  | none => Run.ret ⟨ASN_ELEMENT_NOT_FOUND, none⟩
  | some node =>
    if node.d.flags.is_optional then Run.ret ⟨ASN_GENERIC_ERROR, some node⟩
    else
      match get_der_loop der node.ctx.pos fuel ⟨node, DOWN, 0⟩ with
      | Run.out_of_fuel => Run.out_of_fuel
      | Run.fault => Run.fault
      | Run.ret (Sum.inl code) => Run.ret ⟨code, none⟩
      | Run.ret (Sum.inr s) =>
        Run.ret ⟨if s.counter = len then ASN_OK else ASN_DER_ERROR, _ksba_asn_delete_not_used s.p⟩

/-! ## Locating an element -/

/-- The state of the `while (1)` loop of `asn1_get_start_end_der` between two
turns; `counter` is the `int` variable of that name and `start` is the value
stored in `*start` (`none` while nothing has been stored). -/
structure start_end_state where
  p : Loc
  move : Move
  counter : Int
  start : Option Int
  deriving DecidableEq, Repr

/-- What `asn1_get_start_end_der` hands back: the return value and the values
stored in `*start` and `*end` (`none` when nothing has been stored). -/
structure start_end_result where
  code : asn_code
  start : Option Int
  end_ : Option Int
  deriving DecidableEq, Repr

/-- How a turn of the loop of `asn1_get_start_end_der` ends: at the next
turn, at the `break`, or in a `return`. -/
inductive start_end_turn
  | next (s : start_end_state) : start_end_turn
  | brk (s : start_end_state) : start_end_turn
  | stop (r : start_end_result) : start_end_turn
  deriving DecidableEq, Repr

/-- The pointer `der + counter` as the bytes from `counter` on; `none` for a
negative `counter`, where reading is a fault. -/
def der_at (der : List Nat) (counter : Int) : Option (List Nat) :=
  if counter < 0 then none else some (der.drop counter.toNat)

/-- The loop `while (p2)` of the SET member part of `asn1_get_start_end_der`,
on the pointer to the node `d` with links `dn`, `rt` in the context `c`: the
member found, with `is_not_used` cleared, or `some none` when `p2` ends as
NULL; `none` is a fault (a CHOICE member without children). -/
def start_end_member_loop (der : List Nat) :
    node_data → AsnNode → AsnNode → Ctx → Option (Option Loc)
  | d, dn, rt, c =>
    let tried : Option (Option asn_code) :=
      if d.flags.is_set = true ∧ d.flags.is_not_used = true then
        if d.type ≠ TYPE_CHOICE then (_asn1_extract_tag_der d dn der).map (fun r => some r.1)
        else
          match dn with
          | AsnNode.nil => none
          | AsnNode.node d3 dn3 _ => (_asn1_extract_tag_der d3 dn3 der).map (fun r => some r.1)
      else some none
    match tried with
    | none => none
    | some (some ASN_OK) =>
      some (some ⟨{ d with flags := { d.flags with is_not_used := false } }, dn, rt, c⟩)
    | some _ =>
      match rt with
      | AsnNode.nil => some none
      | AsnNode.node d1 dn1 rt1 => start_end_member_loop der d1 dn1 rt1 (Ctx.beside d dn c)

/-- The SET member part of a turn of `asn1_get_start_end_der`
(`if (p->flags.is_set)`): the way the turn ends there, or the pointer `p` to
go on with. -/
def start_end_set_member (der : List Nat) (s : start_end_state) :
    Option (start_end_turn ⊕ Loc) :=
  if s.p.d.flags.is_set then
    match find_up s.p with
    | none => none
    | some p2 =>
      match p2.d.value with
      | none => none
      | some v =>
        let len2 := wrap_int (strtol v)
        if s.counter = len2 then
          some (Sum.inl (start_end_turn.next { s with p := p2, move := UP }))
        else if s.counter > len2 then
          some (Sum.inl (start_end_turn.stop ⟨ASN_DER_ERROR, s.start, none⟩))
        else
          match p2.go_down with
          | none => some (Sum.inl (start_end_turn.stop ⟨ASN_DER_ERROR, s.start, none⟩))
          | some c =>
            match der_at der s.counter with
            | none => none
            | some b =>
              match start_end_member_loop b c.d c.down c.right c.ctx with
              | none => none
              | some none =>
                some (Sum.inl (start_end_turn.stop ⟨ASN_DER_ERROR, s.start, none⟩))
              | some (some q) => some (Sum.inr q)
  else some (Sum.inr s.p)

/-- The rest of the `if (move != UP)` part of a turn of
`asn1_get_start_end_der`, from `if (p->type == TYPE_CHOICE)` on: a `return`,
or the state and the value of `ris` to go on with; `none` is a fault (a
CHOICE without children, or a read at a negative `counter`). -/
def start_end_tag (der : List Nat) (s : start_end_state) (p : Loc) :
    Option (start_end_turn ⊕ (start_end_state × asn_code)) :=
  match der_at der s.counter with
  | none => none
  | some b =>
    let chosen : Option (Loc × asn_code) :=
      if p.d.type = TYPE_CHOICE then
        match p.go_down with
        | none => none
        | some q => (_asn1_extract_tag_der q.d q.down b).map (fun r => (q, r.1))
      else some (p, ASN_OK)
    match chosen with
    | none => none
    | some (p1, ris0) =>
      let ext : Option (asn_code × Nat) :=
        if ris0 = ASN_OK then _asn1_extract_tag_der p1.d p1.down b
        else some (ris0, 0)
      match ext with
      | none => none
      | some (ris, len2) =>
        if ris ≠ ASN_OK then
          if p1.d.flags.is_optional then
            some (Sum.inr ({ s with
              p := { p1 with d := { p1.d with flags := { p1.d.flags with is_not_used := true } } },
              move := RIGHT }, ris))
          else if p1.d.flags.is_default then some (Sum.inr ({ s with p := p1, move := RIGHT }, ris))
          else some (Sum.inl (start_end_turn.stop ⟨ASN_TAG_ERROR, s.start, none⟩))
        else some (Sum.inr ({ s with p := p1, counter := wrap_int (s.counter + len2) }, ASN_OK))

/-- The `switch (p->type)` of `asn1_get_start_end_der`: a `return`, or the
state after the `switch`.  The lengths read from `der` are reduced to `int`,
as the variables `len2` and `len3` hold them, and the sums are taken in
`int`; `none` is a fault (a read at a negative `counter`, or a SEQUENCE OF
without the child to step to). -/
def start_end_switch (der : List Nat) (s : start_end_state) :
    Option (start_end_turn ⊕ start_end_state) :=
  match s.p.d.type with
  | TYPE_NULL =>
    match der_at der s.counter with
    | none => none
    | some b =>
      if rd b 0 ≠ 0 then
        some (Sum.inl (start_end_turn.stop ⟨ASN_DER_ERROR, s.start, none⟩))
      else some (Sum.inr { s with counter := wrap_int (s.counter + 1), move := RIGHT })
  | TYPE_BOOLEAN =>
    match der_at der s.counter with
    | none => none
    | some b =>
      if rd b 0 ≠ 1 then
        some (Sum.inl (start_end_turn.stop ⟨ASN_DER_ERROR, s.start, none⟩))
      else
        some (Sum.inr { s with counter := wrap_int (wrap_int (s.counter + 1) + 1), move := RIGHT })
  | TYPE_INTEGER | TYPE_ENUMERATED | TYPE_OBJECT_ID | TYPE_TIME | TYPE_OCTET_STRING
  | TYPE_BIT_STRING =>
    match der_at der s.counter with
    | none => none
    | some b =>
      let l := _ksba_asn_get_length_der b
      let len2 : Int := to_int l.1
      let len3 : Int := l.2
      some (Sum.inr { s with counter := wrap_int (s.counter + wrap_int (len3 + len2)),
                             move := RIGHT })
  | TYPE_SEQUENCE | TYPE_SET =>
    if s.move ≠ UP then
      match der_at der s.counter with
      | none => none
      | some b =>
        let l := _ksba_asn_get_length_der b
        let len2 : Int := l.2
        some (Sum.inr { s with counter := wrap_int (s.counter + len2), move := DOWN })
    else some (Sum.inr { s with move := RIGHT })
  | TYPE_SEQUENCE_OF | TYPE_SET_OF =>
    if s.move ≠ UP then
      match der_at der s.counter with
      | none => none
      | some b =>
        let l := _ksba_asn_get_length_der b
        let len3 : Int := to_int l.1
        let len2 : Int := l.2
        let counter1 := wrap_int (s.counter + len2)
        if len3 ≠ 0 then
          match s.p.go_down with
          | none => none
          | some c =>
            (skip_tag_size_loc c.d c.down c.right c.ctx).map
              (fun p2 => Sum.inr { s with p := p2, counter := counter1, move := RIGHT })
        else some (Sum.inr { s with counter := counter1, move := RIGHT })
    else some (Sum.inr { s with move := RIGHT })
  | TYPE_ANY =>
    match der_at der s.counter with
    | none => none
    | some b =>
      let t := _asn1_get_tag_der b
      let l := _ksba_asn_get_length_der (b.drop t.2.2)
      let len2 : Int := to_int (t.2.2 + l.1)
      let len3 : Int := l.2
      some (Sum.inr { s with counter := wrap_int (s.counter + wrap_int (len3 + len2)),
                             move := RIGHT })
  | _ => some (Sum.inr { s with move := if s.move = UP then RIGHT else DOWN })

/-- A turn of the `while (1)` loop of `asn1_get_start_end_der` from its top
to the end of the `switch`, where `node_to_find` is the place of the element
looked for. -/
def start_end_body (der : List Nat) (node_to_find : List Bool) (s : start_end_state) :
    Option (start_end_turn ⊕ start_end_state) :=
  let s0 : start_end_state :=
    if s.p.ctx.pos = node_to_find ∧ s.move ≠ UP then { s with start := some s.counter } else s
  let entered : Option (start_end_turn ⊕ (start_end_state × asn_code)) :=
    if s0.move ≠ UP then
      match start_end_set_member der s0 with
      | none => none
      | some (Sum.inl t) => some (Sum.inl t)
      | some (Sum.inr p1) => start_end_tag der s0 p1
    else some (Sum.inr (s0, ASN_OK))
  match entered with
  | none => none
  | some (Sum.inl t) => some (Sum.inl t)
  | some (Sum.inr (s1, ris)) =>
    if ris = ASN_OK then start_end_switch der s1 else some (Sum.inr s1)

/-- One turn of the `while (1)` loop of `asn1_get_start_end_der`, where
`node` is the place of the root; `none` is a fault.  A NULL `p` faults here,
before the next turn dereferences it. -/
def start_end_turn_of (der : List Nat) (node node_to_find : List Bool) (s : start_end_state) :
    Option start_end_turn :=
  match start_end_body der node_to_find s with
  | none => none
  | some (Sum.inl t) => some t
  | some (Sum.inr s2) =>
    if s2.p.ctx.pos = node_to_find ∧ s2.move = RIGHT then
      some (start_end_turn.stop ⟨ASN_OK, s2.start, some (wrap_int (s2.counter - 1))⟩)
    else if s2.p.ctx.pos = node ∧ s2.move ≠ DOWN then some (start_end_turn.brk s2)
    else
      match walk_advance s2.p s2.move true with
      | (none, _) => none
      | (some q, m) => some (start_end_turn.next { s2 with p := q, move := m })

/-- The `while (1)` loop of `asn1_get_start_end_der` and the `return` after
it. -/
def start_end_loop (der : List Nat) (node node_to_find : List Bool) :
    Nat → start_end_state → Run start_end_result
  | 0, _ => Run.out_of_fuel
  | fuel + 1, s =>
    match start_end_turn_of der node node_to_find s with
    | none => Run.fault
    | some (start_end_turn.next s1) => start_end_loop der node node_to_find fuel s1
    | some (start_end_turn.brk s1) =>
      Run.ret ⟨ASN_ELEMENT_NOT_FOUND, s1.start, none⟩
    | some (start_end_turn.stop r) => Run.ret r

/-- `asn1_get_start_end_der (root, der, len, name_element, &start, &end)`.
The call `_ksba_asn_find_node (root, name_element)` of the missing
`asn1-func.c` is not modelled: its result is the argument `node_to_find`, a
pointer into the tree of `root`.  `fuel` bounds the number of turns of the
loop. -/
def asn1_get_start_end_der (root : Option Loc) (node_to_find : Option Loc) (der : List Nat)
    (len : Nat) (fuel : Nat) : Run start_end_result :=
  match node_to_find, root with
  | none, _ => Run.ret ⟨ASN_ELEMENT_NOT_FOUND, none, none⟩
  | some _, none => Run.ret ⟨ASN_ELEMENT_NOT_FOUND, none, none⟩
  | some t, some node =>
    if t.ctx.pos = node.ctx.pos then Run.ret ⟨ASN_OK, some 0, some ((len : Int) - 1)⟩
    else if node.d.flags.is_optional then Run.ret ⟨ASN_GENERIC_ERROR, none, none⟩
    else start_end_loop der node.ctx.pos t.ctx.pos fuel ⟨node, DOWN, 0, none⟩

/-! ## Trees of SEQUENCE nodes and their encoding

The definitions of this section are not taken from the source: they name the
trees that the statements on the walkers are about, and the encoding that DER
prescribes for them. -/

/-- The content octets DER prescribes for a leaf, from the stored value:
`00` for NULL; `01` and the truth value for BOOLEAN; the stored length octets
and content for INTEGER, ENUMERATED, OCTET STRING and BIT STRING; the length
and the packed arcs for OBJECT_ID (a string that fits the 128 bytes of `temp`);
the length and the characters for TIME; the stored element for ANY.  `none`
when the value is missing or shorter than its length octets say. -/
def leaf_content (d : node_data) : Option (List Nat) :=
  match d.type with
  | TYPE_NULL => some [0]
  | TYPE_BOOLEAN => d.value.map (fun v => [1, if rd v 0 = 70 then 0 else 0xFF])
  | TYPE_INTEGER | TYPE_ENUMERATED | TYPE_OCTET_STRING | TYPE_BIT_STRING =>
    d.value.bind (fun v =>
      let l := _ksba_asn_get_length_der v
      if l.2 + l.1 ≤ v.length then some (v.take (l.2 + l.1)) else none)
  | TYPE_OBJECT_ID =>
    d.value.bind (fun v =>
      if (cstr v).length + 2 ≤ 128 then (_asn1_objectid_der v).map (fun r => r.1) else none)
  | TYPE_TIME => d.value.map (fun v => (_asn1_time_der v).1)
  | TYPE_ANY =>
    d.value.bind (fun v =>
      let l := _ksba_asn_get_length_der v
      if l.2 + l.1 ≤ v.length then some ((v.drop l.2).take l.1) else none)
  | _ => none

/-- The identifier octet of an untagged leaf (none for ANY) followed by its
content octets. -/
def leaf_encoding (d : node_data) : Option (List Nat) :=
  match universal_tag d, leaf_content d with
  | some t, some c => some (t.1 ++ c)
  | _, _ => none

/-- The DER encoding of a chain of sibling nodes that are SEQUENCEs or
untagged leaves, one element after the other: a SEQUENCE is the octet `30`,
the length octets for the encoding of its children, and that encoding. -/
def der_encoding : AsnNode → List Nat
  | AsnNode.nil => []
  | AsnNode.node d dn rt =>
    (if d.type = TYPE_SEQUENCE then
      [0x30] ++ (_asn1_length_der (der_encoding dn).length).1 ++ der_encoding dn
     else (leaf_encoding d).getD []) ++ der_encoding rt

/-- A chain of sibling nodes in which every node is untagged and is either a
SEQUENCE that has children which form such a chain again, or a leaf with an
encoding. -/
def seq_tree : AsnNode → Bool
  | AsnNode.nil => true
  | AsnNode.node d dn rt =>
    !d.flags.has_tag && seq_tree rt &&
      (if d.type = TYPE_SEQUENCE then
        (match dn with
          | AsnNode.nil => false
          | _ => true) && seq_tree dn
       else (leaf_encoding d).isSome)

/-- The chain with the value of every SEQUENCE in it set to NULL. -/
def clear_seq_values : AsnNode → AsnNode
  | AsnNode.nil => AsnNode.nil
  | AsnNode.node d dn rt =>
    if d.type = TYPE_SEQUENCE then
      AsnNode.node (_ksba_asn_set_value d none) (clear_seq_values dn) (clear_seq_values rt)
    else AsnNode.node d dn (clear_seq_values rt)

/-- The number of turns the loop of a walker takes for a chain: one for a
leaf, two (down and up) for a SEQUENCE besides those for its children. -/
def walk_turns : AsnNode → Nat
  | AsnNode.nil => 0
  | AsnNode.node d dn rt =>
    (if d.type = TYPE_SEQUENCE then 2 + walk_turns dn else 1) + walk_turns rt

/-- A mandatory, untagged node that is not a SET member and not marked as
unused. -/
def mandatory_untagged (d : node_data) : Bool :=
  !d.flags.has_tag && !d.flags.is_optional && !d.flags.is_default && !d.flags.is_set
    && !d.flags.is_not_used

/-- The values a leaf of a round-trip tree may hold: none for NULL, `"T"` or
`"F"` for BOOLEAN, length octets followed by as many content bytes as they
say for INTEGER and OCTET STRING. -/
def round_trip_leaf (d : node_data) : Bool :=
  match d.type with
  | TYPE_NULL => d.value = none
  | TYPE_BOOLEAN => d.value = some [84] || d.value = some [70]
  | TYPE_INTEGER | TYPE_OCTET_STRING =>
    match d.value with
    | none => false
    | some v => (_ksba_asn_get_length_der v).2 + (_ksba_asn_get_length_der v).1 = v.length
  | _ => false

/-- A chain of sibling nodes in which every node is mandatory and untagged
and is either a SEQUENCE that has children which form such a chain again, or
a childless NULL, BOOLEAN, INTEGER or OCTET STRING leaf with a value as in
`round_trip_leaf`. -/
def round_trip_tree : AsnNode → Bool
  | AsnNode.nil => true
  | AsnNode.node d dn rt =>
    mandatory_untagged d && round_trip_tree rt &&
      (if d.type = TYPE_SEQUENCE then
        (match dn with
          | AsnNode.nil => false
          | _ => true) && round_trip_tree dn
       else
        round_trip_leaf d &&
          (match dn with
            | AsnNode.nil => true
            | _ => false))

/-- The structural clone of a chain in which no node has a value. -/
def value_less : AsnNode → AsnNode
  | AsnNode.nil => AsnNode.nil
  | AsnNode.node d dn rt =>
    AsnNode.node (_ksba_asn_set_value d none) (value_less dn) (value_less rt)

/-- The chains `t` and `u` have the same shape and node types, and every
node of `u` that is not a SEQUENCE holds the value of the corresponding node
of `t`. -/
def same_leaf_values : AsnNode → AsnNode → Prop
  | AsnNode.nil, AsnNode.nil => True
  | AsnNode.node d dn rt, AsnNode.node e en et =>
    e.type = d.type ∧ (d.type ≠ TYPE_SEQUENCE → e.value = d.value)
      ∧ same_leaf_values dn en ∧ same_leaf_values rt et
  | _, _ => False

/-- The chain `t` is laid out in the bytes `bs`, element after element, where
the element of a leaf is its encoding and the element of a SEQUENCE is the
octet `30`, length octets `L` and a body in which the children are laid out,
such that `_ksba_asn_get_length_der`, reading at the first octet of `L`,
returns the byte count of the body and consumes `L`. -/
def laid_out : AsnNode → List Nat → Prop
  | AsnNode.nil, bs => bs = []
  | AsnNode.node d dn rt, bs =>
    ∃ e r, bs = e ++ r ∧ laid_out rt r ∧
      (if d.type = TYPE_SEQUENCE then
        ∃ L body, e = [0x30] ++ L ++ body ∧ laid_out dn body ∧
          ∀ rest, _ksba_asn_get_length_der (L ++ body ++ rest) = (body.length, L.length)
       else leaf_encoding d = some e)

/-- The encoder, entering the chain `t` at its first node with the bytes `X`
written, leaves it upwards after `walk_turns t` turns with the encoding of
the chain appended and the values of its SEQUENCE nodes cleared. -/
def create_der_runs (node : List Bool) (t : AsnNode) : Prop :=
  ∀ (p : Loc) (c : Ctx) (m : Move) (X Y : List Nat) (fuel : Nat) (parent : Loc),
    mk_loc t c = some p → m ≠ UP → node.length < c.pos.length →
    X.length + (der_encoding t).length < 2 ^ 63 →
    find_up_from (clear_seq_values t) c = some parent →
    create_der_loop node (walk_turns t + fuel) ⟨p, m, X.length, X ++ Y⟩
      = create_der_loop node fuel ⟨parent, UP, X.length + (der_encoding t).length,
          X ++ der_encoding t ++ Y.drop (der_encoding t).length⟩

/-- The decoder, entering the value-less clone of the chain `t` at its first
node with the encoding of the chain at the read position `X.length`, leaves
it upwards after `walk_turns t` turns with the encoding consumed and the
values of the leaves stored. -/
def get_der_runs (node : List Bool) (t : AsnNode) : Prop :=
  ∀ (p : Loc) (c : Ctx) (m : Move) (X Z : List Nat) (fuel : Nat) (parent : Loc),
    mk_loc (value_less t) c = some p → m ≠ UP → node.length < c.pos.length →
    X.length + (der_encoding t).length < 2 ^ 31 →
    find_up_from (clear_seq_values t) c = some parent →
    get_der_loop (X ++ der_encoding t ++ Z) node (walk_turns t + fuel) ⟨p, m, X.length⟩
      = get_der_loop (X ++ der_encoding t ++ Z) node fuel
          ⟨parent, UP, X.length + (der_encoding t).length⟩

/-- The number of nodes of a chain of siblings. -/
def chain_length : AsnNode → Nat
  | AsnNode.nil => 0
  | AsnNode.node _ _ rt => chain_length rt + 1

/-- The context of the node that follows the chain `t` of siblings when the
first node of `t` has the context `c`. -/
def ctx_after : AsnNode → Ctx → Ctx
  | AsnNode.nil, c => c
  | AsnNode.node d dn rt, c => ctx_after rt (Ctx.beside d dn c)

/-- The decoder, entering the value-less clone of the chain `t` that is
followed by the node `dq`, leaves the chain for that node with the encoding of
the chain consumed. -/
def get_der_runs_to (node : List Bool) (t : AsnNode) : Prop :=
  ∀ (dq : node_data) (dnq rtq : AsnNode) (Z : List Nat) (fuel : Nat) (c : Ctx) (m : Move)
    (X : List Nat) (p : Loc),
    m ≠ UP → node.length < c.pos.length → X.length + (der_encoding t).length < 2 ^ 31 →
    mk_loc (append_right (value_less t) (AsnNode.node dq dnq rtq)) c = some p →
    ∃ m1, m1 ≠ UP ∧
      get_der_loop (X ++ der_encoding t ++ Z) node (walk_turns t + fuel) ⟨p, m, X.length⟩
        = get_der_loop (X ++ der_encoding t ++ Z) node fuel
            ⟨⟨dq, dnq, rtq, ctx_after (clear_seq_values t) c⟩, m1,
              X.length + (der_encoding t).length⟩

/-! ## Texts of OBJECT IDENTIFIERs

The definitions of this section are not taken from the source: they name the
strings and octets that the statements on `_asn1_objectid_der` and
`_asn1_get_objectid_der` are about. -/

/-- The canonical decimal numeral of `n`, without leading zeros, in ASCII. -/
def decimal (n : Nat) : List Nat :=
  if n = 0 then [48] else (Nat.digits 10 n).reverse.map (fun d => 48 + d)

/-- The arcs written as canonical decimal numerals with a single blank
between two of them. -/
def oid_text : List Nat → List Nat
  | [] => []
  | [a] => decimal a
  | a :: b :: rest => decimal a ++ [32] ++ oid_text (b :: rest)

/-- The base-128 digits of `v`, most significant first and as few as
possible, with the high bit set on all but the last; `00` for 0. -/
def arc_octets (v : Nat) : List Nat :=
  (Nat.digits 128 (v / 128)).reverse.map (fun d => d + 128) ++ [v % 128]

/-- The octets of the arcs after the first two, one arc after the other. -/
def arcs_octets : List Nat → List Nat
  | [] => []
  | v :: vs => arc_octets v ++ arcs_octets vs

/-- The content octets of an OBJECT IDENTIFIER with the arcs `a0`, `a1` and
`later`. -/
def oid_content (a0 a1 : Nat) (later : List Nat) : List Nat :=
  (40 * a0 + a1) :: arcs_octets later

/-- The text that follows the first arc: a blank and the numeral for each
further arc. -/
def oid_tail : List Nat → List Nat
  | [] => []
  | v :: vs => [32] ++ decimal v ++ oid_tail vs

/-! ## Concrete nodes -/

/-- A node of type `t` with the value `value`, without a name and with every
flag clear. -/
def plain_node (t : node_type) (value : Option (List Nat)) : node_data :=
  ⟨none, t, ⟨false, false, false, false, false, false, false, 0⟩, value⟩

/-- The bytes of a C string literal, with the closing NUL. -/
def c_string (s : String) : List Nat := s.toList.map Char.toNat ++ [0]

/-- The children of a SEQUENCE of two INTEGERs holding 1 and 256. -/
def two_integers : AsnNode :=
  AsnNode.node (plain_node TYPE_INTEGER (some [1, 1])) AsnNode.nil
    (AsnNode.node (plain_node TYPE_INTEGER (some [2, 1, 0])) AsnNode.nil AsnNode.nil)

/-- The string of the OID 1.2.840.113549.1.1.11 as a node value. -/
def oid_string : List Nat := c_string "1 2 840 113549 1 1 11"

/-- The children of a SET: an OCTET STRING of two bytes, then an INTEGER. -/
def octet_then_integer : AsnNode :=
  AsnNode.node (plain_node TYPE_OCTET_STRING (some [2, 0xAA, 0xBB])) AsnNode.nil
    (AsnNode.node (plain_node TYPE_INTEGER (some [1, 5])) AsnNode.nil AsnNode.nil)

/-- The children of a SET OF OCTET STRING: the template, an element of two
bytes, an element of one byte. -/
def two_octet_strings : AsnNode :=
  AsnNode.node (plain_node TYPE_OCTET_STRING none) AsnNode.nil
    (AsnNode.node (plain_node TYPE_OCTET_STRING (some [2, 0xAA, 0xBB])) AsnNode.nil
      (AsnNode.node (plain_node TYPE_OCTET_STRING (some [1, 5])) AsnNode.nil AsnNode.nil))

/-- The children of a SEQUENCE whose content takes more than 127 bytes: an
OCTET STRING of 130 bytes, then a SEQUENCE holding the OBJECT IDENTIFIER
1.2.840. -/
def long_children : AsnNode :=
  AsnNode.node (plain_node TYPE_OCTET_STRING (some ([0x81, 130] ++ List.replicate 130 7)))
    AsnNode.nil
    (AsnNode.node (plain_node TYPE_SEQUENCE none)
      (AsnNode.node (plain_node TYPE_OBJECT_ID (some (c_string "1 2 840")))
        AsnNode.nil AsnNode.nil)
      AsnNode.nil)

/-- The children of a SEQUENCE with one leaf of each kind: an INTEGER, then
a SEQUENCE of a NULL, a BOOLEAN (value "T") and an OCTET STRING. -/
def nested_children : AsnNode :=
  AsnNode.node (plain_node TYPE_INTEGER (some [1, 1])) AsnNode.nil
    (AsnNode.node (plain_node TYPE_SEQUENCE none)
      (AsnNode.node (plain_node TYPE_NULL none) AsnNode.nil
        (AsnNode.node (plain_node TYPE_BOOLEAN (some [84])) AsnNode.nil
          (AsnNode.node (plain_node TYPE_OCTET_STRING (some [2, 0xAA, 0xBB]))
            AsnNode.nil AsnNode.nil)))
      AsnNode.nil)

/-- A TAG child for the explicit context tag `[n]`. -/
def explicit_tag (n : String) : node_data :=
  ⟨none, TYPE_TAG, ⟨false, false, false, false, false, false, true, 2⟩, some (c_string n)⟩

/-- The fields of an INTEGER node that holds 5 and carries tags. -/
def tagged_integer : node_data :=
  ⟨none, TYPE_INTEGER, ⟨true, false, false, false, false, false, false, 0⟩, some [1, 5]⟩

/-- The TAG child for `[1] EXPLICIT`. -/
def one_tag : AsnNode := AsnNode.node (explicit_tag "1") AsnNode.nil AsnNode.nil

/-- The TAG children for `[1] EXPLICIT [2] EXPLICIT`. -/
def two_tags : AsnNode :=
  AsnNode.node (explicit_tag "1") AsnNode.nil
    (AsnNode.node (explicit_tag "2") AsnNode.nil AsnNode.nil)

/-- A node of type `t` flagged `is_optional`, without a value. -/
def optional_node (t : node_type) : node_data :=
  ⟨none, t, ⟨false, true, false, false, false, false, false, 0⟩, none⟩

/-- The children of a SEQUENCE: an INTEGER, then an optional INTEGER. -/
def integer_optional_integer : AsnNode :=
  AsnNode.node (plain_node TYPE_INTEGER none) AsnNode.nil
    (AsnNode.node (optional_node TYPE_INTEGER) AsnNode.nil AsnNode.nil)

/-- The children of a SEQUENCE: an INTEGER, then an optional CHOICE of a NULL
and a BOOLEAN. -/
def integer_optional_choice : AsnNode :=
  AsnNode.node (plain_node TYPE_INTEGER none) AsnNode.nil
    (AsnNode.node (optional_node TYPE_CHOICE)
      (AsnNode.node (plain_node TYPE_NULL none) AsnNode.nil
        (AsnNode.node (plain_node TYPE_BOOLEAN none) AsnNode.nil AsnNode.nil))
      AsnNode.nil)

/-! ## Tag chains -/

/-- The universal tag table as the specification lists it: the one identifier
octet of a node type, no octet for TAG, CHOICE and ANY, and `none` for the
remaining types. -/
def spec_tag_table (d : node_data) : Option (List Nat) :=
  match d.type with
  | TYPE_BOOLEAN => some [0x01]
  | TYPE_INTEGER => some [0x02]
  | TYPE_BIT_STRING => some [0x03]
  | TYPE_OCTET_STRING => some [0x04]
  | TYPE_NULL => some [0x05]
  | TYPE_OBJECT_ID => some [0x06]
  | TYPE_ENUMERATED => some [0x0A]
  | TYPE_SEQUENCE => some [0x30]
  | TYPE_SEQUENCE_OF => some [0x30]
  | TYPE_SET => some [0x31]
  | TYPE_SET_OF => some [0x31]
  | TYPE_TIME => if d.flags.is_utc_time then some [0x17] else some [0x18]
  | TYPE_TAG => some []
  | TYPE_CHOICE => some []
  | TYPE_ANY => some []
  | _ => none

/-- The first TAG node of a chain of siblings. -/
def first_tag : AsnNode → Option node_data
  | AsnNode.nil => none
  | AsnNode.node d _ rt => if d.type = TYPE_TAG then some d else first_tag rt

/-- No TAG node of the chain is flagged explicit. -/
def no_explicit_tag : AsnNode → Bool
  | AsnNode.nil => true
  | AsnNode.node d _ rt => !(d.type = TYPE_TAG && d.flags.explicit) && no_explicit_tag rt

/-- A TAG node with the class `cls`, the number `n` and the given tagging
mode. -/
def tag_node (cls : Nat) (n : String) (explicit : Bool) : node_data :=
  ⟨none, TYPE_TAG, ⟨false, false, false, false, false, false, explicit, cls⟩, some (c_string n)⟩

/-- A node of type `t` that is flagged `has_tag`. -/
def tagged_node (t : node_type) : node_data :=
  ⟨none, t, ⟨true, false, false, false, false, false, false, 0⟩, none⟩

/-- The TAG chain `[2] IMPLICIT`, `[5] IMPLICIT`. -/
def two_implicit_tags : AsnNode :=
  AsnNode.node (tag_node 2 "2" false) AsnNode.nil
    (AsnNode.node (tag_node 2 "5" false) AsnNode.nil AsnNode.nil)

/-! ## Reading OCTET STRING payloads; BIT STRING payloads as specified -/

/-- `_asn1_get_octet_der (der, &der_len, str, str_size, &str_len)` for a
non-NULL `str`: the result code, the value stored in `*str_len` and, when the
payload was copied, the bytes left in `str` with the value stored in
`*der_len`; `none` is a fault (`memcpy` of a negative length). -/
def _asn1_get_octet_der (der : List Nat) (str_size : Int) :
    Option (asn_code × Int × Option (List Nat × Int)) :=
  let l := _ksba_asn_get_length_der der
  let str_len := to_int l.1
  if str_size > str_len then
    if str_len < 0 then none
    else some (ASN_OK, str_len, some (memrd der l.2 str_len.toNat, str_len + l.2))
  else some (ASN_MEM_ERROR, str_len, none)

/-- `_asn1_get_bit_der (der, &der_len, str, str_size, &bit_len)` for a
non-NULL `str`: the result code and, when the payload was copied, the bytes
left in `str` with the values stored in `*bit_len` and `*der_len`; `none` is
a fault (`memcpy` of a negative length).  `len_byte` is the `unsigned long`
difference reduced to `int`. -/
def _asn1_get_bit_der (der : List Nat) (str_size : Int) :
    Option (asn_code × Option (List Nat × Int × Int)) :=
  let l := _ksba_asn_get_length_der der
  let len_byte : Int := to_int ((l.1 + ULONG - 1) % ULONG)
  if str_size > len_byte then
    if len_byte < 0 then none
    else
      some (ASN_OK, some (memrd der (l.2 + 1) len_byte.toNat,
        wrap_int (len_byte * 8 - rd der l.2), wrap_int (wrap_int (len_byte + l.2) + 1)))
  else some (ASN_MEM_ERROR, none)

/-- The number of payload bytes of a BIT STRING of `bit_len` bits as the
specification gives it: `bit_len / 8` rounded up. -/
def spec_bit_bytes (bit_len : Nat) : Nat := (bit_len + 7) / 8

/-- The number of unused bits as the specification gives it. -/
def spec_bit_pad (bit_len : Nat) : Nat := (8 - bit_len % 8) % 8

/-- The bytes `bs` with the low `pad` bits of the last one cleared. -/
def clear_low_bits (pad : Nat) : List Nat → List Nat
  | [] => []
  | [b] => [b / 2 ^ pad * 2 ^ pad]
  | b :: c :: rest => b :: clear_low_bits pad (c :: rest)

/-- The payload of a BIT STRING as the specification gives it: the first
`spec_bit_bytes bit_len` bytes of `str`, the unused bits of the last one
cleared. -/
def spec_bit_payload (str : List Nat) (bit_len : Nat) : List Nat :=
  clear_low_bits (spec_bit_pad bit_len) (str.take (spec_bit_bytes bit_len))

/-! ## SET and SET OF bodies made of whole elements

The definitions of this section are not taken from the source, except for
`tlv_key` and `tlv_size`, which repeat the parse of the first loop of the
ordering functions: they name the bodies and orders that the statements on
`_asn1_ordering_set` and `_asn1_ordering_set_of` are about. -/

/-- The sort key `(class << 24) | tag` that `_asn1_ordering_set` computes for
the element at the start of `e`. -/
def tlv_key (e : List Nat) : Nat :=
  let t := _asn1_get_tag_der e
  set_sort_key t.2.1 t.1

/-- The number of bytes that the first loop of the ordering functions steps
over for the element at the start of `e`: identifier octets, length octets
and as many content bytes as the length octets say. -/
def tlv_size (e : List Nat) : Nat :=
  let t := _asn1_get_tag_der e
  let l := _ksba_asn_get_length_der (e.drop t.2.2)
  t.2.2 + (l.2 + l.1)

/-- The bytes `e` are one whole element: identifier octets, length octets and
exactly the content they announce. -/
def well_formed_tlv (e : List Nat) : Bool := tlv_size e = e.length

/-- The descriptors `(end, value)` of the elements `es` laid out one after
the other from the offset `off` on, with the sort key `key`. -/
def vets_of (key : List Nat → Nat) : Nat → List (List Nat) → List vet
  | _, [] => []
  | off, e :: es => ⟨off + e.length, key e⟩ :: vets_of key (off + e.length) es

/-- The end offsets of the elements `es` laid out from the offset `off` on. -/
def ends_of : Nat → List (List Nat) → List Nat
  | _, [] => []
  | off, e :: es => (off + e.length) :: ends_of (off + e.length) es

/-- The lexicographic order on byte strings, a proper prefix coming first. -/
def lex_le : List Nat → List Nat → Bool
  | [], _ => true
  | _ :: _, [] => false
  | a :: as, b :: bs => a < b || (a = b && lex_le as bs)

/-- No element of the list comes after its right neighbour in the order
`le`. -/
def non_decreasing (le : List Nat → List Nat → Bool) : List (List Nat) → Bool
  | a :: b :: rest => le a b && non_decreasing le (b :: rest)
  | _ => true

/-- The order of the sort keys of two elements. -/
def key_le (a b : List Nat) : Bool := tlv_key a ≤ tlv_key b

/-- A chain of `n` OCTET STRING nodes. -/
def octet_string_chain : Nat → AsnNode
  | 0 => AsnNode.nil
  | n + 1 => AsnNode.node (plain_node TYPE_OCTET_STRING none) AsnNode.nil (octet_string_chain n)

/-- A SET node with the given children. -/
def set_node (children : AsnNode) : Loc :=
  ⟨plain_node TYPE_SET none, children, AsnNode.nil, Ctx.top⟩

/-- A SET OF node with the given children, the first of which stands for the
element type. -/
def set_of_node (children : AsnNode) : Loc :=
  ⟨plain_node TYPE_SET_OF none, children, AsnNode.nil, Ctx.top⟩

/-- An INTEGER node flagged `has_tag` and `is_default` that holds no value. -/
def default_integer : node_data :=
  ⟨none, TYPE_INTEGER, ⟨true, false, true, false, false, false, false, 0⟩, none⟩

/-- The children of a SEQUENCE: an INTEGER holding 5, then an INTEGER tagged
`[1] EXPLICIT` that is flagged `is_default` and holds no value. -/
def integer_default_integer : AsnNode :=
  AsnNode.node (plain_node TYPE_INTEGER (some [1, 5])) AsnNode.nil
    (AsnNode.node default_integer (AsnNode.node (tag_node 2 "1" true) AsnNode.nil AsnNode.nil)
      AsnNode.nil)

/-! ## Elements of leaves

The definitions of this section are not taken from the source: they name the
inputs that the statements on the walkers over leaf children are about. -/

/-- The content part of an element for the leaf `d`, as the walkers step over
it: the octet `00` for NULL; the octet `01` and one more octet for BOOLEAN;
length octets followed by exactly as many bytes as they say for INTEGER,
ENUMERATED, OBJECT IDENTIFIER, a time, OCTET STRING and BIT STRING; one
whole element for ANY.  No other type is a leaf. -/
def leaf_body (d : node_data) (v : List Nat) : Bool :=
  match d.type with
  | TYPE_NULL => v = [0]
  | TYPE_BOOLEAN => v.length = 2 && rd v 0 = 1
  | TYPE_INTEGER | TYPE_ENUMERATED | TYPE_OBJECT_ID | TYPE_TIME | TYPE_OCTET_STRING
  | TYPE_BIT_STRING =>
    (_ksba_asn_get_length_der v).2 + (_ksba_asn_get_length_der v).1 = v.length
  | TYPE_ANY => well_formed_tlv v
  | _ => false

/-- The bytes `e` are an element for the untagged leaf `d`: the identifier
octet of the type of `d` (none for ANY) followed by a content part as in
`leaf_body`. -/
def leaf_element (d : node_data) (e : List Nat) : Bool :=
  match universal_tag d with
  | some t => e.take t.1.length = t.1 && leaf_body d (e.drop t.1.length)
  | none => false

/-- The chain `t` is made of mandatory untagged leaves, and `es` holds an
element for each of them in turn. -/
def leaf_elements : AsnNode → List (List Nat) → Bool
  | AsnNode.nil, [] => true
  | AsnNode.node d _ rt, e :: es => mandatory_untagged d && leaf_element d e && leaf_elements rt es
  | _, _ => false

theorem and_255_eq_mod (n : Nat) : n &&& 0xFF = n % 256 :=
  Nat.and_pow_two_sub_one_eq_mod n 8

theorem and_127_eq_mod (n : Nat) : n &&& 0x7F = n % 128 :=
  Nat.and_pow_two_sub_one_eq_mod n 7

theorem and_31_eq_mod (n : Nat) : n &&& 0x1F = n % 32 :=
  Nat.and_pow_two_sub_one_eq_mod n 5

theorem shr_8_eq_div (n : Nat) : n >>> 8 = n / 256 := by
  rw [Nat.shiftRight_eq_div_pow]

theorem shr_7_eq_div (n : Nat) : n >>> 7 = n / 128 := by
  rw [Nat.shiftRight_eq_div_pow]

/-- The scratch array of `_asn1_length_der` holds the base-256 digits of the
length, least significant first. -/
theorem length_der_temp_eq (fuel n : Nat) (h : n < 256 ^ fuel) :
    length_der_temp fuel n = Nat.digits 256 n := by
  induction fuel generalizing n with
  | zero =>
    have h0 : n = 0 := by simpa using h
    subst h0
    simp [length_der_temp]
  | succ f ih =>
    unfold length_der_temp
    by_cases h0 : n = 0
    · subst h0; simp
    · rw [if_neg h0, Nat.digits_def' (by norm_num) (Nat.pos_of_ne_zero h0),
        and_255_eq_mod, shr_8_eq_div, ih]
      rw [Nat.div_lt_iff_lt_mul (by norm_num)]
      rw [pow_succ] at h
      exact h

/-- Big-endian value of a list of digits in base `b`. -/
theorem foldl_be_eq (b : Nat) (ds : List Nat) (ans : Nat) :
    ds.foldl (fun a d => a * b + d) ans
      = ans * b ^ ds.length + Nat.ofDigits b ds.reverse := by
  induction ds generalizing ans with
  | nil => simp
  | cons d ds ih =>
    rw [List.foldl_cons, ih, List.reverse_cons, Nat.ofDigits_append, Nat.ofDigits_singleton,
      List.length_reverse, List.length_cons, pow_succ]
    ring

theorem foldl_be_mod_eq (b m : Nat) (hb : 0 < b) (ds : List Nat) :
    ds.foldl (fun a d => a * b + d) 0 < m →
    ds.foldl (fun a d => (a * b + d) % m) 0 = ds.foldl (fun a d => a * b + d) 0 := by
  induction ds using List.reverseRecOn with
  | nil => simp
  | append_singleton ds d ih =>
    intro h
    rw [List.foldl_append, List.foldl_append] at *
    simp only [List.foldl_cons, List.foldl_nil] at *
    have h1 : ds.foldl (fun a d => a * b + d) 0 < m :=
      lt_of_le_of_lt (le_trans (Nat.le_mul_of_pos_right _ hb) (Nat.le_add_right _ _)) h
    rw [ih h1, Nat.mod_eq_of_lt h]

theorem rd_cons_zero (x : Nat) (l : List Nat) : rd (x :: l) 0 = x := rfl

theorem rd_append_right (pre : List Nat) (d : Nat) (rest : List Nat) :
    rd (pre ++ d :: rest) pre.length = d := by
  unfold rd
  rw [List.getD_eq_getElem?_getD, List.getElem?_append_right (le_refl _)]
  simp

theorem get_length_loop_spec (pre ds rest : List Nat) (ans : Nat) :
    get_length_loop (pre ++ ds ++ rest) ds.length pre.length ans
      = (ds.foldl (fun a d => (a * 256 + d) % ULONG) ans, pre.length + ds.length) := by
  induction ds generalizing pre ans with
  | nil => simp [get_length_loop]
  | cons d ds ih =>
    have e : pre ++ d :: ds ++ rest = (pre ++ [d]) ++ ds ++ rest := by simp
    have r : rd (pre ++ d :: ds ++ rest) pre.length = d := by
      have := rd_append_right pre d (ds ++ rest)
      simpa using this
    simp only [List.length_cons, get_length_loop, r, List.foldl_cons]
    rw [e]
    have := ih (pre ++ [d]) ((ans * 256 + d) % ULONG)
    simp only [List.length_append, List.length_singleton] at this
    rw [this]
    simp only [Prod.mk.injEq, true_and]
    omega


set_option maxRecDepth 100000 in
theorem byte_and_128 : ∀ b : Fin 256, (b.val &&& 128 = 0 ↔ b.val < 128) := by decide

theorem and_128_eq_zero_iff (b : Nat) (hb : b < 256) : b &&& 128 = 0 ↔ b < 128 :=
  byte_and_128 ⟨b, hb⟩

theorem digits256_length_le (n : Nat) (hn : n < ULONG) : (Nat.digits 256 n).length ≤ 8 := by
  by_cases h0 : n = 0
  · subst h0; simp
  · have h1 := Nat.base_pow_length_digits_le 256 n (by norm_num) h0
    by_contra hc
    have h2 : 256 ^ 9 ≤ 256 ^ (Nat.digits 256 n).length :=
      Nat.pow_le_pow_right (by norm_num) (by omega)
    have h3 : n < 2 ^ 64 := hn
    norm_num at h2 h3
    omega

theorem digits256_length_pos (n : Nat) (hn : 128 ≤ n) : 1 ≤ (Nat.digits 256 n).length := by
  have h : Nat.digits 256 n ≠ [] := Nat.digits_ne_nil_iff_ne_zero.mpr (by omega)
  exact List.length_pos.mpr h

/-- Shape of the long form written by `_asn1_length_der`. -/
theorem length_der_long (n : Nat) (h : 128 ≤ n) (hn : n < ULONG) :
    _asn1_length_der n
      = ((128 + (Nat.digits 256 n).length) :: (Nat.digits 256 n).reverse,
          (Nat.digits 256 n).length + 1) := by
  have hk := digits256_length_le n hn
  have hfuel : n < 256 ^ 8 := by
    have h3 : n < 2 ^ 64 := hn
    norm_num at h3 ⊢
    exact h3
  unfold _asn1_length_der
  rw [if_neg (by omega)]
  simp only [length_der_temp_eq 8 n hfuel, and_127_eq_mod, UCHAR]
  congr 2
  omega

/-- Shape of the short form written by `_asn1_length_der`. -/
theorem length_der_short (n : Nat) (h : n < 128) : _asn1_length_der n = ([n], 1) := by
  unfold _asn1_length_der
  rw [if_pos h]
  simp only [UCHAR]
  congr 2
  omega

/-- The value reported in `ans_len` is the number of octets written. -/
theorem length_der_len (n : Nat) : (_asn1_length_der n).2 = (_asn1_length_der n).1.length := by
  unfold _asn1_length_der
  split <;> simp

/-- Decoding the octets written by `_asn1_length_der`, whatever follows them. -/
theorem get_length_der_length_der (n : Nat) (hn : n < ULONG) (rest : List Nat) :
    _ksba_asn_get_length_der ((_asn1_length_der n).1 ++ rest) = (n, (_asn1_length_der n).2) := by
  by_cases h : n < 128
  · rw [length_der_short n h]
    unfold _ksba_asn_get_length_der
    have r : rd ([n] ++ rest) 0 = n := by simp [rd]
    rw [r, if_pos ((and_128_eq_zero_iff n (by omega)).mpr h)]
  · have h' : 128 ≤ n := by omega
    rw [length_der_long n h' hn]
    have hk := digits256_length_le n hn
    have hk1 := digits256_length_pos n h'
    unfold _ksba_asn_get_length_der
    have r : rd ((128 + (Nat.digits 256 n).length) :: (Nat.digits 256 n).reverse ++ rest) 0
        = 128 + (Nat.digits 256 n).length := by simp [rd]
    simp only [r]
    have hne : ¬ ((128 + (Nat.digits 256 n).length) &&& 128 = 0) := by
      rw [and_128_eq_zero_iff _ (by omega)]
      omega
    rw [if_neg hne]
    have hk' : (128 + (Nat.digits 256 n).length) &&& 0x7F = (Nat.digits 256 n).reverse.length := by
      rw [and_127_eq_mod, List.length_reverse]
      omega
    rw [hk']
    have e : (128 + (Nat.digits 256 n).length) :: (Nat.digits 256 n).reverse ++ rest
        = [128 + (Nat.digits 256 n).length] ++ (Nat.digits 256 n).reverse ++ rest := by simp
    rw [e]
    have sp := get_length_loop_spec [128 + (Nat.digits 256 n).length]
      (Nat.digits 256 n).reverse rest 0
    simp only [List.length_singleton] at sp
    rw [sp]
    have v : (Nat.digits 256 n).reverse.foldl (fun a d => a * 256 + d) 0 = n := by
      rw [foldl_be_eq, List.reverse_reverse, Nat.ofDigits_digits]
      simp
    rw [foldl_be_mod_eq 256 ULONG (by norm_num) _ (by rw [v]; exact hn), v, List.length_reverse]
    simp only [Prod.mk.injEq, true_and]
    omega

theorem two_pow_31_lt_ULONG : 2 ^ 31 < ULONG := by
  unfold ULONG
  norm_num

/-- C5. Length round trip: for every `n` with `0 ≤ n ≤ 2^31`,
`_ksba_asn_get_length_der` applied to the octets written by
`_asn1_length_der (n)` (whatever bytes follow them in the buffer) returns `n`,
and the number of octets it reports as consumed equals the number
`_asn1_length_der` reported as written, which is the number of octets it
wrote. -/
theorem C5_length_round_trip (n : Nat) (hn : n ≤ 2 ^ 31) (rest : List Nat) :
    _ksba_asn_get_length_der ((_asn1_length_der n).1 ++ rest) = (n, (_asn1_length_der n).2)
      ∧ (_asn1_length_der n).2 = (_asn1_length_der n).1.length :=
  ⟨get_length_der_length_der n (lt_of_le_of_lt hn two_pow_31_lt_ULONG) rest, length_der_len n⟩

theorem C5_length_round_trip_witness :
    (2 ^ 31 ≤ 2 ^ 31)
      ∧ _ksba_asn_get_length_der ((_asn1_length_der (2 ^ 31)).1 ++ [7])
          = (2 ^ 31, (_asn1_length_der (2 ^ 31)).2)
      ∧ (_asn1_length_der (2 ^ 31)).2 = (_asn1_length_der (2 ^ 31)).1.length :=
  ⟨le_refl _, C5_length_round_trip (2 ^ 31) (le_refl _) [7]⟩

theorem or_128_small (k : Nat) (hk : k ≤ 8) : 0x80 ||| k = 128 + k := by
  interval_cases k <;> rfl

/-- C6. Shortest-form length encoding: for every `n` with `0 ≤ n ≤ 2^31`,
`_asn1_length_der (n)` writes the single octet `n` when `n < 128`, and
otherwise writes the octet `0x80 | k` followed by exactly `k` octets that are
the big-endian base-256 digits of `n`, where `k` is the least number of octets
that can represent `n`; the first value octet is non-zero and the first octet
is never `0x80`. -/
theorem C6_length_shortest_form (n : Nat) (hn : n ≤ 2 ^ 31) :
    (n < 128 → _asn1_length_der n = ([n], 1))
    ∧ (128 ≤ n → ∃ k digs,
        _asn1_length_der n = ((0x80 ||| k) :: digs, k + 1)
        ∧ digs.length = k
        ∧ (∀ d ∈ digs, d < 256)
        ∧ digs.foldl (fun a d => a * 256 + d) 0 = n
        ∧ n < 256 ^ k
        ∧ (∀ j, n < 256 ^ j → k ≤ j)
        ∧ digs.head? ≠ some 0)
    ∧ (_asn1_length_der n).1.head? ≠ some 0x80 := by
  have hU : n < ULONG := lt_of_le_of_lt hn two_pow_31_lt_ULONG
  refine ⟨length_der_short n, ?_, ?_⟩
  · intro h
    have hk := digits256_length_le n hU
    have h0 : n ≠ 0 := by omega
    refine ⟨(Nat.digits 256 n).length, (Nat.digits 256 n).reverse, ?_, ?_, ?_, ?_, ?_, ?_, ?_⟩
    · rw [length_der_long n h hU, or_128_small _ hk]
    · simp
    · intro d hd
      exact Nat.digits_lt_base (by norm_num) (List.mem_reverse.mp hd)
    · rw [foldl_be_eq, List.reverse_reverse, Nat.ofDigits_digits]
      simp
    · exact Nat.lt_base_pow_length_digits (by norm_num)
    · intro j hj
      have h1 := Nat.base_pow_length_digits_le 256 n (by norm_num) h0
      have h2 : 256 ^ (Nat.digits 256 n).length < 256 ^ (j + 1) := by
        rw [pow_succ]
        omega
      have h3 := (Nat.pow_lt_pow_iff_right (by norm_num : 1 < 256)).mp h2
      omega
    · have hl := Nat.getLast_digit_ne_zero 256 h0
      rw [List.head?_reverse, List.getLast?_eq_getLast _ (Nat.digits_ne_nil_iff_ne_zero.mpr h0)]
      intro hc
      exact hl (Option.some.inj hc)
  · by_cases h : n < 128
    · rw [length_der_short n h]
      simp only [List.head?_cons, ne_eq, Option.some.injEq]
      omega
    · rw [length_der_long n (by omega) hU]
      have hk1 := digits256_length_pos n (by omega)
      simp only [List.head?_cons, ne_eq, Option.some.injEq]
      omega

theorem C6_length_shortest_form_witness :
    (300 < 128 → _asn1_length_der 300 = ([300], 1))
    ∧ (128 ≤ 300 → ∃ k digs,
        _asn1_length_der 300 = ((0x80 ||| k) :: digs, k + 1)
        ∧ digs.length = k
        ∧ (∀ d ∈ digs, d < 256)
        ∧ digs.foldl (fun a d => a * 256 + d) 0 = 300
        ∧ 300 < 256 ^ k
        ∧ (∀ j, 300 < 256 ^ j → k ≤ j)
        ∧ digs.head? ≠ some 0)
    ∧ (_asn1_length_der 300).1.head? ≠ some 0x80 :=
  C6_length_shortest_form 300 (by norm_num)

/-! ## Theorems: identifier octets -/

/-- The scratch array of `_asn1_tag_der` holds the base-128 digits of the tag
number, least significant first. -/
theorem tag_der_temp_eq (fuel n : Nat) (h : n < 128 ^ fuel) :
    tag_der_temp fuel n = Nat.digits 128 n := by
  induction fuel generalizing n with
  | zero =>
    have h0 : n = 0 := by simpa using h
    subst h0
    simp [tag_der_temp]
  | succ f ih =>
    unfold tag_der_temp
    by_cases h0 : n = 0
    · subst h0; simp
    · rw [if_neg h0, Nat.digits_def' (by norm_num) (Nat.pos_of_ne_zero h0),
        and_127_eq_mod, shr_7_eq_div, ih]
      rw [Nat.div_lt_iff_lt_mul (by norm_num)]
      rw [pow_succ] at h
      exact h

set_option maxRecDepth 100000 in
theorem byte_and_E0 : ∀ b : Fin 256, b.val &&& 0xE0 = b.val / 32 * 32 := by decide

theorem and_E0_eq (b : Nat) (hb : b < 256) : b &&& 0xE0 = b / 32 * 32 :=
  byte_and_E0 ⟨b, hb⟩

theorem clear_last_length (l : List Nat) : (clear_last l).length = l.length := by
  induction l with
  | nil => rfl
  | cons b l ih =>
    cases l with
    | nil => simp [clear_last]
    | cons c r =>
      simp only [clear_last, List.length_cons] at *
      omega

theorem UCHAR_eq : UCHAR = 256 := by norm_num [UCHAR]

theorem UINT_eq : UINT = 4294967296 := by norm_num [UINT]

theorem ULONG_eq : ULONG = 18446744073709551616 := by norm_num [ULONG]

theorem get_tag_loop_spec (ds rest : List Nat) (punt ris : Nat) (hne : ds ≠ [])
    (hd : ∀ d ∈ ds, d < 128) :
    get_tag_loop (clear_last (ds.map (fun b => (b + 128) % UCHAR)) ++ rest) punt ris
      = (ds.foldl (fun a d => (a * 128 + d) % UINT) ris, punt + ds.length) := by
  induction ds generalizing punt ris with
  | nil => exact absurd rfl hne
  | cons d ds ih =>
    have hd0 : d < 128 := hd d (List.mem_cons_self _ _)
    cases ds with
    | nil =>
      have e1 : ((d + 128) % UCHAR + UCHAR - 128) % UCHAR = d := by
        rw [UCHAR_eq]
        omega
      have e : clear_last (List.map (fun b => (b + 128) % UCHAR) [d]) ++ rest = d :: rest := by
        show [((d + 128) % UCHAR + UCHAR - 128) % UCHAR] ++ rest = d :: rest
        rw [e1]
        rfl
      have hz : d &&& 128 = 0 := (and_128_eq_zero_iff d (by omega)).mpr hd0
      rw [e, get_tag_loop, if_neg (by simp [hz]), and_127_eq_mod, Nat.mod_eq_of_lt hd0]
      rfl
    | cons d2 ds2 =>
      have hx : (d + 128) % UCHAR = d + 128 := by
        rw [UCHAR_eq]
        omega
      have hnz : (d + 128) &&& 128 ≠ 0 := by
        rw [ne_eq, and_128_eq_zero_iff _ (by omega)]
        omega
      have h7 : (d + 128) &&& 0x7F = d := by
        rw [and_127_eq_mod]
        omega
      have e : clear_last (List.map (fun b => (b + 128) % UCHAR) (d :: d2 :: ds2)) ++ rest
          = (d + 128) :: (clear_last (List.map (fun b => (b + 128) % UCHAR) (d2 :: ds2)) ++ rest) := by
        show ((d + 128) % UCHAR) :: (clear_last (List.map (fun b => (b + 128) % UCHAR) (d2 :: ds2))
          ++ rest) = _
        rw [hx]
      rw [e, get_tag_loop, if_pos hnz, h7,
        ih (punt + 1) ((ris * 128 + d) % UINT) (by simp)
          (fun x hx => hd x (List.mem_cons_of_mem _ hx))]
      simp only [List.foldl_cons, List.length_cons, Prod.mk.injEq, true_and]
      omega

theorem digits128_length_le (n : Nat) (hn : n < UINT) : (Nat.digits 128 n).length ≤ 5 := by
  by_cases h0 : n = 0
  · subst h0; simp
  · have h1 := Nat.base_pow_length_digits_le 128 n (by norm_num) h0
    by_contra hc
    have h2 : 128 ^ 6 ≤ 128 ^ (Nat.digits 128 n).length :=
      Nat.pow_le_pow_right (by norm_num) (by omega)
    have h3 : n < 2 ^ 32 := hn
    norm_num at h2 h3
    omega

/-- Shape of the long form written by `_asn1_tag_der`. -/
theorem tag_der_long (c t : Nat) (hc : c < 256) (h : 30 ≤ t) (ht : t < UINT) :
    _asn1_tag_der c t
      = ((c / 32 * 32 + 31)
          :: clear_last ((Nat.digits 128 t).reverse.map (fun b => (b + 128) % UCHAR)),
          (Nat.digits 128 t).length + 1) := by
  have hfuel : t < 128 ^ 5 := by
    have h3 : t < 2 ^ 32 := ht
    norm_num at h3 ⊢
    omega
  unfold _asn1_tag_der
  rw [if_neg (by omega)]
  simp only [tag_der_temp_eq 5 t hfuel, and_E0_eq c hc, UCHAR]
  congr 2
  omega

/-- Shape of the short form written by `_asn1_tag_der`. -/
theorem tag_der_short (c t : Nat) (hc : c < 256) (h : t < 30) :
    _asn1_tag_der c t = ([c / 32 * 32 + t], 1) := by
  unfold _asn1_tag_der
  rw [if_pos h]
  simp only [and_E0_eq c hc, and_31_eq_mod, UCHAR]
  congr 2
  omega

/-- The value reported in `ans_len` is the number of octets written. -/
theorem tag_der_len (c t : Nat) : (_asn1_tag_der c t).2 = (_asn1_tag_der c t).1.length := by
  unfold _asn1_tag_der
  split <;> simp [clear_last_length]

/-- Decoding the octets written by `_asn1_tag_der`, whatever follows them. -/
theorem get_tag_der_tag_der (c t : Nat) (hc : c < 256) (ht : t < UINT) (rest : List Nat) :
    _asn1_get_tag_der ((_asn1_tag_der c t).1 ++ rest)
      = (t, c &&& 0xE0, (_asn1_tag_der c t).2) := by
  by_cases h : t < 30
  · rw [tag_der_short c t hc h]
    unfold _asn1_get_tag_der
    have r : rd ([c / 32 * 32 + t] ++ rest) 0 = c / 32 * 32 + t := by simp [rd]
    have h5 : (c / 32 * 32 + t) &&& 0x1F = t := by
      rw [and_31_eq_mod]
      omega
    have hE : (c / 32 * 32 + t) &&& 0xE0 = c &&& 0xE0 := by
      rw [and_E0_eq _ (by omega), and_E0_eq c hc]
      omega
    simp only [r, h5, hE]
    rw [if_pos (by omega)]
  · have h' : 30 ≤ t := by omega
    rw [tag_der_long c t hc h' ht]
    unfold _asn1_get_tag_der
    have h5 : (c / 32 * 32 + 31) &&& 0x1F = 0x1F := by
      rw [and_31_eq_mod]
      omega
    have hE : (c / 32 * 32 + 31) &&& 0xE0 = c &&& 0xE0 := by
      rw [and_E0_eq _ (by omega), and_E0_eq c hc]
      omega
    simp only [List.cons_append, rd_cons_zero, h5, hE, ne_eq, not_true_eq_false, if_false,
      List.drop_succ_cons, List.drop_zero]
    have hne : (Nat.digits 128 t).reverse ≠ [] := by
      simp only [ne_eq, List.reverse_eq_nil_iff]
      exact Nat.digits_ne_nil_iff_ne_zero.mpr (by omega)
    have sp := get_tag_loop_spec (Nat.digits 128 t).reverse rest 1 0 hne
      (fun d hd => Nat.digits_lt_base (by norm_num) (List.mem_reverse.mp hd))
    rw [sp]
    have v : (Nat.digits 128 t).reverse.foldl (fun a d => a * 128 + d) 0 = t := by
      rw [foldl_be_eq, List.reverse_reverse, Nat.ofDigits_digits]
      simp
    rw [foldl_be_mod_eq 128 UINT (by norm_num) _ (by rw [v]; exact ht), v, List.length_reverse]
    simp only [Prod.mk.injEq, true_and]
    omega

theorem u16_lt_UINT (t : Nat) (ht : t ≤ 65535) : t < UINT := by
  unfold UINT
  omega

/-- C7. Tag round trip: for every class/form octet `c` and every tag number `t`
in `0..65535`, `_asn1_get_tag_der` applied to the octets written by
`_asn1_tag_der (c, t)` (whatever bytes follow them in the buffer) returns tag
number `t`, class value `c & 0xE0`, and a consumed length equal to the number
of octets written. -/
theorem C7_tag_round_trip (c t : Nat) (hc : c < 256) (ht : t ≤ 65535) (rest : List Nat) :
    _asn1_get_tag_der ((_asn1_tag_der c t).1 ++ rest)
        = (t, c &&& 0xE0, (_asn1_tag_der c t).2)
      ∧ (_asn1_tag_der c t).2 = (_asn1_tag_der c t).1.length :=
  ⟨get_tag_der_tag_der c t hc (u16_lt_UINT t ht) rest, tag_der_len c t⟩

theorem C7_tag_round_trip_witness :
    (0xA0 < 256) ∧ (30 ≤ 65535)
      ∧ _asn1_get_tag_der ((_asn1_tag_der 0xA0 30).1 ++ [1, 0])
          = (30, 0xA0 &&& 0xE0, (_asn1_tag_der 0xA0 30).2)
      ∧ (_asn1_tag_der 0xA0 30).2 = (_asn1_tag_der 0xA0 30).1.length :=
  ⟨by decide, by decide, C7_tag_round_trip 0xA0 30 (by decide) (by decide) [1, 0]⟩

/-- C8. At tag number 30 `_asn1_tag_der` leaves the short form: it writes the
two octets `1F 1E`, although the single octet `1E` is an identifier of tag 30
that `_asn1_get_tag_der` reads back as tag 30 in one octet. -/
theorem C8_tag_30_is_long_form :
    _asn1_tag_der 0 30 = ([0x1F, 0x1E], 2) ∧ _asn1_get_tag_der [0x1E] = (30, 0, 1) := by
  decide

/-! ### Arithmetic in `int` -/

theorem to_int_small (n : Nat) (h : n < 2 ^ 31) : to_int n = (n : Int) := by
  have h2 : n % UINT = n := Nat.mod_eq_of_lt (by rw [UINT_eq]; omega)
  unfold to_int
  rw [h2, if_pos h]

theorem to_int_emod (v : Nat) : to_int v % 2 ^ 32 = (v : Int) % 2 ^ 32 := by
  unfold to_int
  rw [UINT_eq]
  split <;> omega

theorem to_int_range (v : Nat) : -(2 ^ 31) ≤ to_int v ∧ to_int v < 2 ^ 31 := by
  unfold to_int
  rw [UINT_eq]
  split <;> omega

theorem wrap_int_emod (z : Int) : wrap_int z % 2 ^ 32 = z % 2 ^ 32 := by
  unfold wrap_int
  rw [to_int_emod]
  omega

theorem wrap_int_range (z : Int) : -(2 ^ 31) ≤ wrap_int z ∧ wrap_int z < 2 ^ 31 :=
  to_int_range _

theorem wrap_int_small (z : Int) (h0 : -(2 ^ 31) ≤ z) (h1 : z < 2 ^ 31) : wrap_int z = z := by
  have h := wrap_int_emod z
  have r := wrap_int_range z
  omega

theorem wrap_int_nat (n : Nat) (h : n < 2 ^ 31) : wrap_int (n : Int) = (n : Int) :=
  wrap_int_small _ (by omega) (by omega)

theorem counter_add_small (c n : Nat) (h : c + n < 2 ^ 31) :
    counter_add c (n : Int) = some (c + n) := by
  unfold counter_add
  have e : wrap_int ((c : Int) + (n : Int)) = ((c + n : Nat) : Int) := by
    rw [wrap_int_small _ (by omega) (by omega)]
    push_cast
    rfl
  simp only [e]
  rw [if_neg (by omega)]
  simp only [Option.some.injEq]
  omega

theorem length_der_temp_length_le (fuel n : Nat) : (length_der_temp fuel n).length ≤ fuel := by
  induction fuel generalizing n with
  | zero => simp [length_der_temp]
  | succ f ih =>
    unfold length_der_temp
    split
    · simp
    · simp only [List.length_cons]
      exact Nat.succ_le_succ (ih _)

theorem length_der_length_le (n : Nat) : (_asn1_length_der n).1.length ≤ 9 := by
  unfold _asn1_length_der
  split
  · simp
  · have := length_der_temp_length_le 8 n
    simp only [List.length_cons, List.length_reverse]
    omega
/-! ## Theorems: buffers -/

theorem memcpy_append (X Y src : List Nat) :
    memcpy (X ++ Y) X.length src = X ++ src ++ Y.drop src.length := by
  unfold memcpy
  have h1 : X.length - (X ++ Y).length = 0 := by simp
  rw [h1, List.replicate_zero, List.append_nil, List.take_left, List.drop_append]

theorem memrd_length (src : List Nat) (off n : Nat) : (memrd src off n).length = n := by
  simp [memrd]

theorem memrd_append (A B Y : List Nat) : memrd (A ++ B ++ Y) A.length B.length = B := by
  apply List.ext_getElem
  · simp [memrd]
  · intro i h1 h2
    simp only [memrd, List.getElem_map, List.getElem_range, rd]
    rw [List.getD_eq_getElem?_getD, List.append_assoc,
      List.getElem?_append_right (by omega)]
    simp [List.getElem?_append_left h2, List.getElem?_eq_getElem h2]

theorem memrd_zero_self (B : List Nat) : memrd B 0 B.length = B := by
  have := memrd_append [] B []
  simpa using this

theorem memrd_prefix (B Y : List Nat) : memrd (B ++ Y) 0 B.length = B := by
  have := memrd_append [] B Y
  simpa using this

/-- Putting the length octets `T` in front of the content `B` that starts at
offset `A.length`. -/
theorem memmove_memcpy_insert (A B Y T : List Nat) :
    memcpy (memmove (A ++ B ++ Y) (A.length + T.length) A.length B.length) A.length T
      = A ++ T ++ B ++ Y.drop T.length := by
  unfold memmove
  rw [memrd_append]
  have e1 : memcpy (A ++ B ++ Y) (A.length + T.length) B
      = A ++ ((((B ++ Y) ++ List.replicate (A.length + T.length - (A ++ B ++ Y).length) 0).take
          T.length) ++ (B ++ Y.drop T.length)) := by
    unfold memcpy
    have d : List.drop (A.length + T.length + B.length) (A ++ B ++ Y) = Y.drop T.length := by
      have : A.length + T.length + B.length = (A ++ B).length + T.length := by
        simp only [List.length_append]; omega
      rw [this, List.drop_append]
    rw [d]
    have t : A ++ B ++ Y ++ List.replicate (A.length + T.length - (A ++ B ++ Y).length) 0
        = A ++ ((B ++ Y) ++ List.replicate (A.length + T.length - (A ++ B ++ Y).length) 0) := by
      simp
    rw [t, List.take_append]
    simp
  have hl : (((B ++ Y) ++ List.replicate (A.length + T.length - (A ++ B ++ Y).length) 0).take
          T.length).length = T.length := by
    simp only [List.length_take, List.length_append, List.length_replicate]
    omega
  rw [e1, memcpy_append, List.drop_left' hl]
  simp

/-! ## Theorems: decimal strings -/

theorem ltostr_temp_digits (fuel n : Nat) : ∀ c ∈ ltostr_temp fuel n, 48 ≤ c ∧ c ≤ 57 := by
  induction fuel generalizing n with
  | zero => intro c hc; simp [ltostr_temp] at hc
  | succ f ih =>
    intro c hc
    simp only [ltostr_temp, List.mem_cons] at hc
    rcases hc with h | h
    · omega
    · split at h
      · simp at h
      · exact ih _ c h

theorem ltostr_temp_ne_nil (fuel n : Nat) : ltostr_temp (fuel + 1) n ≠ [] := by
  simp [ltostr_temp]

theorem str_digits_ltostr_temp (fuel n : Nat) (h : n < 10 ^ fuel) (acc : Nat) (rest : List Nat) :
    str_digits ((ltostr_temp fuel n).reverse ++ rest) acc
      = str_digits rest (acc * 10 ^ (ltostr_temp fuel n).length + n) := by
  induction fuel generalizing n acc rest with
  | zero =>
    have h0 : n = 0 := by simpa using h
    subst h0
    simp [ltostr_temp]
  | succ f ih =>
    have hd : isdigit (48 + (n - n / 10 * 10)) = true := by
      simp only [isdigit, Bool.and_eq_true, decide_eq_true_eq]
      omega
    by_cases h0 : n / 10 = 0
    · have hn9 : n < 10 := by omega
      have e : ltostr_temp (f + 1) n = [48 + n] := by
        simp only [ltostr_temp, h0, if_true, zero_mul, Nat.sub_zero]
      have hd' : isdigit (48 + n) = true := by
        simp only [isdigit, Bool.and_eq_true, decide_eq_true_eq]
        omega
      rw [e]
      simp only [List.reverse_cons, List.reverse_nil, List.nil_append,
        List.singleton_append, str_digits, hd', if_true, List.length_singleton, pow_one]
      congr 1
      omega
    · have hlt : n / 10 < 10 ^ f := by
        rw [Nat.div_lt_iff_lt_mul (by norm_num)]
        rw [pow_succ] at h
        exact h
      simp only [ltostr_temp, h0, if_false, List.reverse_cons, List.append_assoc,
        List.singleton_append, List.length_cons]
      rw [ih (n / 10) hlt, str_digits, if_pos hd]
      congr 1
      rw [pow_succ]
      have : 48 + (n - n / 10 * 10) - 48 = n - n / 10 * 10 := by omega
      rw [this]
      have h2 : n / 10 * 10 ≤ n := Nat.div_mul_le_self n 10
      have h3 : (acc * 10 ^ (ltostr_temp f (n / 10)).length + n / 10) * 10
          = acc * (10 ^ (ltostr_temp f (n / 10)).length * 10) + n / 10 * 10 := by ring
      rw [h3]
      omega

theorem strtol_digit_head (c : Nat) (cs : List Nat) (h : 48 ≤ c ∧ c ≤ 57) :
    strtol (c :: cs) = min (str_digits (c :: cs) 0 : Int) (2 ^ 63 - 1) := by
  have hs : isspace c = false := by
    simp only [isspace, Bool.or_eq_false_iff, decide_eq_false_iff_not, Bool.and_eq_false_iff]
    omega
  have e : str_skip_space (c :: cs) = c :: cs := by
    simp [str_skip_space, hs]
  unfold strtol
  rw [e]
  split
  · next h1 => simp only [List.cons.injEq] at h1; omega
  · next h1 => simp only [List.cons.injEq] at h1; omega
  · rfl

/-- Reading back an offset that the walker stored as a decimal string. -/
theorem strtol_ltostr (n : Nat) (h : n < 2 ^ 63) :
    strtol (_asn1_ltostr (n : Int) ++ [0]) = (n : Int) := by
  have hn : ¬ ((n : Int) < 0) := by omega
  unfold _asn1_ltostr
  rw [if_neg hn, Int.toNat_ofNat]
  have hne := ltostr_temp_ne_nil 19 n
  have hdig := ltostr_temp_digits 20 n
  cases hr : (ltostr_temp 20 n).reverse with
  | nil => simp at hr; exact absurd hr hne
  | cons c cs =>
    have hc : 48 ≤ c ∧ c ≤ 57 := by
      apply hdig c
      rw [← List.mem_reverse, hr]
      exact List.mem_cons_self _ _
    rw [List.cons_append, strtol_digit_head c _ hc, ← List.cons_append, ← hr,
      str_digits_ltostr_temp 20 n (by norm_num at h ⊢; omega)]
    simp only [zero_mul, zero_add, str_digits]
    have : isdigit 0 = false := by decide
    rw [this]
    simp only [Bool.false_eq_true, if_false]
    omega

theorem strtol_ltostr_toNat (n : Nat) (h : n < 2 ^ 63) :
    (strtol (_asn1_ltostr (n : Int) ++ [0])).toNat = n := by
  rw [strtol_ltostr n h, Int.toNat_ofNat]

/-! ## Theorems: the encoder on leaves -/

theorem memrd_take (v : List Nat) (n : Nat) (h : n ≤ v.length) : memrd v 0 n = v.take n := by
  have := memrd_prefix (v.take n) (v.drop n)
  rw [List.take_append_drop, List.length_take, min_eq_left h] at this
  exact this

theorem memrd_drop_take (v : List Nat) (k n : Nat) (h : k + n ≤ v.length) :
    memrd v k n = (v.drop k).take n := by
  have := memrd_append (v.take k) ((v.drop k).take n) ((v.drop k).drop n)
  rw [List.append_assoc, List.take_append_drop, List.take_append_drop, List.length_take,
    List.length_take, List.length_drop, min_eq_left (by omega), min_eq_left (by omega)] at this
  exact this

theorem memcpy_of_length (X Y src : List Nat) (n : Nat) (h : X.length = n) :
    memcpy (X ++ Y) n src = X ++ src ++ Y.drop src.length := by
  subst h
  exact memcpy_append X Y src

theorem universal_tag_len (d : node_data) (t : List Nat × Nat) (h : universal_tag d = some t) :
    t.2 = t.1.length := by
  unfold universal_tag at h
  split at h
  all_goals first
    | (split at h <;> (injection h with h; subst h; exact tag_der_len _ _))
    | (injection h with h; subst h; first | exact tag_der_len _ _ | rfl)
    | exact absurd h (by simp)

theorem insert_tag_untagged (d : node_data) (dn rt : AsnNode) (c : Ctx) (X Y : List Nat)
    (t : List Nat × Nat) (ht : d.flags.has_tag = false) (hu : universal_tag d = some t) :
    _asn1_insert_tag_der ⟨d, dn, rt, c⟩ (X ++ Y) X.length
      = some (ASN_OK, ⟨d, dn, rt, c⟩, X ++ t.1 ++ Y.drop t.1.length, X.length + t.1.length) := by
  simp [_asn1_insert_tag_der, ht, hu, memcpy_append, universal_tag_len d t hu]


theorem objectid_der_len (v : List Nat) (r : List Nat × Nat) (h : _asn1_objectid_der v = some r) :
    r.2 = r.1.length := by
  unfold _asn1_objectid_der at h
  split at h
  · exact absurd h (by simp)
  · injection h with h
    subst h
    simp only [List.length_append, length_der_len]
    omega

theorem time_der_len (v : List Nat) : (_asn1_time_der v).2 = (_asn1_time_der v).1.length := by
  simp [_asn1_time_der, length_der_len]

theorem create_der_switch_leaf (d : node_data) (dn rt : AsnNode) (c : Ctx) (m : Move)
    (X Y content : List Nat) (old : Nat) (hc : leaf_content d = some content) :
    create_der_switch ⟨⟨d, dn, rt, c⟩, m, X.length, X ++ Y⟩ old
      = some (⟨⟨d, dn, rt, c⟩, RIGHT, X.length + content.length,
          X ++ content ++ Y.drop content.length⟩, false) := by
  obtain ⟨name, ty, flags, value⟩ := d
  cases ty <;> simp only [leaf_content] at hc
  case TYPE_NULL =>
    injection hc with hc
    subst hc
    simp [create_der_switch, memcpy_append]
  case TYPE_BOOLEAN =>
    cases value with
    | none => simp at hc
    | some v =>
      simp only [Option.map_some', Option.some.injEq] at hc
      subst hc
      simp only [create_der_switch, reduceCtorEq, and_false, if_false, Option.some.injEq,
        Prod.mk.injEq, and_true]
      rw [memcpy_append, memcpy_of_length (X ++ [1]) _ _ _ (by simp)]
      simp
  case TYPE_INTEGER =>
    cases value with
    | none => simp at hc
    | some v =>
      simp only [Option.some_bind] at hc
      split at hc
      · next hle =>
        injection hc with hc
        subst hc
        simp [create_der_switch, create_der_copy_value, memrd_take v _ hle, memcpy_append, hle]
      · exact absurd hc (by simp)
  case TYPE_ENUMERATED =>
    cases value with
    | none => simp at hc
    | some v =>
      simp only [Option.some_bind] at hc
      split at hc
      · next hle =>
        injection hc with hc
        subst hc
        simp [create_der_switch, create_der_copy_value, memrd_take v _ hle, memcpy_append, hle]
      · exact absurd hc (by simp)
  case TYPE_OCTET_STRING =>
    cases value with
    | none => simp at hc
    | some v =>
      simp only [Option.some_bind] at hc
      split at hc
      · next hle =>
        injection hc with hc
        subst hc
        simp [create_der_switch, create_der_copy_value, memrd_take v _ hle, memcpy_append, hle]
      · exact absurd hc (by simp)
  case TYPE_BIT_STRING =>
    cases value with
    | none => simp at hc
    | some v =>
      simp only [Option.some_bind] at hc
      split at hc
      · next hle =>
        injection hc with hc
        subst hc
        simp [create_der_switch, create_der_copy_value, memrd_take v _ hle, memcpy_append, hle]
      · exact absurd hc (by simp)
  case TYPE_OBJECT_ID =>
    cases value with
    | none => simp at hc
    | some v =>
      simp only [Option.some_bind] at hc
      split at hc
      · cases hr : _asn1_objectid_der v with
        | none => rw [hr] at hc; simp at hc
        | some r =>
          rw [hr] at hc
          simp only [Option.map_some', Option.some.injEq] at hc
          subst hc
          simp [create_der_switch, hr, memcpy_append, objectid_der_len v r hr]
      · exact absurd hc (by simp)
  case TYPE_TIME =>
    cases value with
    | none => simp at hc
    | some v =>
      simp only [Option.map_some', Option.some.injEq] at hc
      subst hc
      simp [create_der_switch, memcpy_append, time_der_len]
  case TYPE_ANY =>
    cases value with
    | none => simp at hc
    | some v =>
      simp only [Option.some_bind] at hc
      split at hc
      · next hle =>
        injection hc with hc
        subst hc
        have hle' : (_ksba_asn_get_length_der v).1 ≤ v.length - (_ksba_asn_get_length_der v).2 := by
          omega
        simp [create_der_switch, memrd_drop_take v _ _ hle, memcpy_append, hle']
      · exact absurd hc (by simp)
  all_goals exact absurd hc (by simp)

/-- A turn of the encoder on an untagged leaf appends the encoding of the
leaf. -/
theorem create_der_body_leaf (d : node_data) (dn rt : AsnNode) (c : Ctx) (m : Move)
    (X Y e : List Nat) (hm : m ≠ UP) (ht : d.flags.has_tag = false)
    (he : leaf_encoding d = some e) :
    create_der_body ⟨⟨d, dn, rt, c⟩, m, X.length, X ++ Y⟩
      = some (⟨⟨d, dn, rt, c⟩, RIGHT, X.length + e.length, X ++ e ++ Y.drop e.length⟩,
          false) := by
  unfold leaf_encoding at he
  cases hu : universal_tag d with
  | none => rw [hu] at he; simp at he
  | some t =>
    cases hc : leaf_content d with
    | none => rw [hu, hc] at he; simp at he
    | some content =>
      rw [hu, hc] at he
      simp only [Option.some.injEq] at he
      subst he
      have h1 := insert_tag_untagged d dn rt c X Y t ht hu
      have h2 := create_der_switch_leaf d dn rt c m (X ++ t.1) (Y.drop t.1.length) content
        X.length hc
      simp only [List.length_append] at h2
      simp only [create_der_body, ne_eq, hm, not_false_eq_true, if_true, h1, Option.map_some', h2,
        _asn1_complete_explicit_tag, ht, Bool.false_eq_true, if_false, ite_self]
      simp only [List.drop_drop, List.append_assoc, List.length_append, Option.some.injEq,
        Prod.mk.injEq, and_true, walk_state.mk.injEq, true_and]
      omega

/-! ## Theorems: the encoder on SEQUENCE nodes -/

theorem universal_tag_sequence (d : node_data) (h : d.type = TYPE_SEQUENCE) :
    universal_tag d = some ([0x30], 1) := by
  unfold universal_tag
  rw [h]
  rfl

/-- The first visit of the encoder to an untagged SEQUENCE writes the octet
`30` and keeps the offset behind it in the value of the node. -/
theorem create_der_body_open (d : node_data) (dn rt : AsnNode) (c : Ctx) (m : Move)
    (X Y : List Nat) (hm : m ≠ UP) (ht : d.flags.has_tag = false)
    (hs : d.type = TYPE_SEQUENCE) :
    create_der_body ⟨⟨d, dn, rt, c⟩, m, X.length, X ++ Y⟩
      = some (⟨⟨_ksba_asn_set_value d (some (_asn1_ltostr ((X.length + 1 : Nat) : Int) ++ [0])),
            dn, rt, c⟩, DOWN, X.length + 1, X ++ [0x30] ++ Y.drop 1⟩, false) := by
  have h1 := insert_tag_untagged d dn rt c X Y ([0x30], 1) ht (universal_tag_sequence d hs)
  simp only [create_der_body, ne_eq, hm, not_false_eq_true, if_true, h1, Option.map_some',
    create_der_switch, hs, List.length_singleton]
  simp

/-- The visit of the encoder to an untagged SEQUENCE on the way up puts the
length octets in front of the content. -/
theorem create_der_body_close (d : node_data) (dn rt : AsnNode) (c : Ctx)
    (A B Y : List Nat) (ht : d.flags.has_tag = false) (hs : d.type = TYPE_SEQUENCE)
    (hv : d.value = some (_asn1_ltostr ((A.length : Nat) : Int) ++ [0]))
    (hA : A.length < 2 ^ 63) :
    create_der_body ⟨⟨d, dn, rt, c⟩, UP, A.length + B.length, A ++ B ++ Y⟩
      = some (⟨⟨_ksba_asn_set_value d none, dn, rt, c⟩, RIGHT,
            A.length + B.length + (_asn1_length_der B.length).1.length,
            A ++ (_asn1_length_der B.length).1 ++ B
              ++ Y.drop (_asn1_length_der B.length).1.length⟩, false) := by
  have hl := strtol_ltostr_toNat A.length hA
  simp only [create_der_body, ne_eq, not_true_eq_false, if_false, create_der_switch, hs,
    create_der_close, hv, hl, reduceCtorEq, Option.map_some', Nat.add_sub_cancel_left,
    length_der_len, memmove_memcpy_insert, _asn1_complete_explicit_tag, _ksba_asn_set_value, ht,
    Bool.false_eq_true, ite_self]

theorem create_der_loop_succ (node : List Bool) (fuel : Nat) (s : walk_state) :
    create_der_loop node (fuel + 1) s
      = match create_der_turn node s with
        | none => Run.fault
        | some (Sum.inl s1) => create_der_loop node fuel s1
        | some (Sum.inr s1) => Run.ret ⟨ASN_OK, some s1.p, s1.der, some s1.counter⟩ := rfl

theorem pos_ne_of_length_lt (node : List Bool) (c : Ctx) (h : node.length < c.pos.length) :
    c.pos ≠ node := by
  intro e
  rw [e] at h
  exact Nat.lt_irrefl _ h

theorem walk_advance_right_nil (d : node_data) (dn : AsnNode) (c : Ctx) (b : Bool)
    (h : b = true → d.flags.is_set = false) :
    walk_advance ⟨d, dn, AsnNode.nil, c⟩ RIGHT b
      = (find_up_from (AsnNode.node d dn AsnNode.nil) c, UP) := by
  have h' : ¬ (b = true ∧ d.flags.is_set = true) := by
    intro ⟨h1, h2⟩
    rw [h h1] at h2
    exact absurd h2 (by simp)
  simp [walk_advance, Loc.go_right, mk_loc, find_up, Loc.tree, h']

theorem walk_advance_right_node (d : node_data) (dn : AsnNode) (d1 : node_data)
    (dn1 rt1 : AsnNode) (c : Ctx) (b : Bool) (h : b = true → d.flags.is_set = false) :
    walk_advance ⟨d, dn, AsnNode.node d1 dn1 rt1, c⟩ RIGHT b
      = (some ⟨d1, dn1, rt1, Ctx.beside d dn c⟩, RIGHT) := by
  have h' : ¬ (b = true ∧ d.flags.is_set = true) := by
    intro ⟨h1, h2⟩
    rw [h h1] at h2
    exact absurd h2 (by simp)
  simp [walk_advance, Loc.go_right, mk_loc, h']

theorem walk_advance_down_node (d : node_data) (d1 : node_data) (dn1 rt1 rt : AsnNode) (c : Ctx)
    (b : Bool) :
    walk_advance ⟨d, AsnNode.node d1 dn1 rt1, rt, c⟩ DOWN b
      = (some ⟨d1, dn1, rt1, Ctx.under d rt c⟩, DOWN) := by
  simp [walk_advance, Loc.go_down, mk_loc]

/-- The end of a turn of the encoder that leaves a node to the right, away
from the start node: the walker goes to the right sibling or, when there is
none, up to the parent. -/
theorem create_der_turn_right (node : List Bool) (s : walk_state) (d : node_data)
    (dn rt : AsnNode) (c : Ctx) (k : Nat) (D : List Nat)
    (hb : create_der_body s = some (⟨⟨d, dn, rt, c⟩, RIGHT, k, D⟩, false))
    (hp : c.pos ≠ node) :
    create_der_turn node s
      = match mk_loc rt (Ctx.beside d dn c) with
        | some q => some (Sum.inl ⟨q, RIGHT, k, D⟩)
        | none =>
          (find_up_from (AsnNode.node d dn rt) c).map (fun q => Sum.inl ⟨q, UP, k, D⟩) := by
  unfold create_der_turn
  rw [hb]
  simp only [hp, false_and, if_false]
  cases rt with
  | nil =>
    simp only [walk_advance_right_nil d dn c false (by simp), mk_loc]
    generalize find_up_from (AsnNode.node d dn AsnNode.nil) c = o
    cases o <;> rfl
  | node d1 dn1 rt1 =>
    simp only [walk_advance_right_node d dn d1 dn1 rt1 c false (by simp), mk_loc]

theorem create_der_step_right (node : List Bool) (rt : AsnNode) (ih : create_der_runs node rt)
    (s : walk_state) (d : node_data) (dn : AsnNode) (c : Ctx) (X Y : List Nat) (fuel : Nat)
    (parent : Loc)
    (hb : create_der_body s = some (⟨⟨d, dn, rt, c⟩, RIGHT, X.length, X ++ Y⟩, false))
    (hpos : node.length < c.pos.length)
    (hlen : X.length + (der_encoding rt).length < 2 ^ 63)
    (hup : find_up_from (AsnNode.node d dn (clear_seq_values rt)) c = some parent) :
    create_der_loop node (walk_turns rt + fuel + 1) s
      = create_der_loop node fuel ⟨parent, UP, X.length + (der_encoding rt).length,
          X ++ der_encoding rt ++ Y.drop (der_encoding rt).length⟩ := by
  rw [create_der_loop_succ, create_der_turn_right node s d dn rt c _ _ hb
    (pos_ne_of_length_lt node c hpos)]
  cases rt with
  | nil =>
    simp only [clear_seq_values] at hup
    simp [mk_loc, hup, walk_turns, der_encoding]
  | node d1 dn1 rt1 =>
    simp only [mk_loc]
    exact ih ⟨d1, dn1, rt1, Ctx.beside d dn c⟩ (Ctx.beside d dn c) RIGHT X Y fuel parent rfl
      (by simp) (by simp only [Ctx.pos, List.length_cons]; omega) hlen hup

theorem set_value_set_value (d : node_data) (v w : Option (List Nat)) :
    _ksba_asn_set_value (_ksba_asn_set_value d v) w = _ksba_asn_set_value d w := rfl

/-- The encoder on a chain of SEQUENCE nodes and untagged leaves. -/
theorem create_der_chain (node : List Bool) (t : AsnNode) (hwf : seq_tree t = true) :
    create_der_runs node t := by
  induction t with
  | nil =>
    intro p c m X Y fuel parent hp
    simp [mk_loc] at hp
  | node d dn rt ihd ihr =>
    simp only [seq_tree, Bool.and_eq_true, Bool.not_eq_true'] at hwf
    obtain ⟨⟨ht, hwr⟩, hnode⟩ := hwf
    intro p c m X Y fuel parent hp hm hpos hlen hup
    simp only [mk_loc, Option.some.injEq] at hp
    subst hp
    by_cases hs : d.type = TYPE_SEQUENCE
    · simp only [hs, if_true, Bool.and_eq_true] at hnode
      obtain ⟨hne, hwd⟩ := hnode
      cases dn with
      | nil => simp at hne
      | node d1 dn1 rt1 =>
        have hopen := create_der_body_open d (AsnNode.node d1 dn1 rt1) rt c m X Y hm ht hs
        have henc : der_encoding (AsnNode.node d (AsnNode.node d1 dn1 rt1) rt)
            = [0x30] ++ (_asn1_length_der (der_encoding (AsnNode.node d1 dn1 rt1)).length).1
                ++ der_encoding (AsnNode.node d1 dn1 rt1) ++ der_encoding rt := by
          simp [der_encoding, hs]
        have hclr : clear_seq_values (AsnNode.node d (AsnNode.node d1 dn1 rt1) rt)
            = AsnNode.node (_ksba_asn_set_value d none)
                (clear_seq_values (AsnNode.node d1 dn1 rt1)) (clear_seq_values rt) := by
          simp [clear_seq_values, hs]
        have hturns : walk_turns (AsnNode.node d (AsnNode.node d1 dn1 rt1) rt) + fuel
            = (walk_turns (AsnNode.node d1 dn1 rt1) + (walk_turns rt + fuel + 1)) + 1 := by
          simp only [walk_turns, hs, if_true]
          omega
        rw [henc] at hlen ⊢
        rw [hclr] at hup
        generalize hE : der_encoding (AsnNode.node d1 dn1 rt1) = E at hlen ⊢
        generalize hT : (_asn1_length_der E.length).1 = T at hlen ⊢
        simp only [List.length_append, List.length_singleton] at hlen
        have hturn1 : create_der_turn node
            ⟨⟨d, AsnNode.node d1 dn1 rt1, rt, c⟩, m, X.length, X ++ Y⟩
            = some (Sum.inl ⟨⟨d1, dn1, rt1,
                Ctx.under (_ksba_asn_set_value d
                  (some (_asn1_ltostr ((X.length + 1 : Nat) : Int) ++ [0]))) rt c⟩,
                DOWN, X.length + 1, X ++ [0x30] ++ Y.drop 1⟩) := by
          unfold create_der_turn
          rw [hopen]
          simp [walk_advance_down_node]
        rw [hturns, create_der_loop_succ, hturn1]
        dsimp only
        have h1 := ihd hwd ⟨d1, dn1, rt1, Ctx.under (_ksba_asn_set_value d
            (some (_asn1_ltostr ((X.length + 1 : Nat) : Int) ++ [0]))) rt c⟩
          (Ctx.under (_ksba_asn_set_value d
            (some (_asn1_ltostr ((X.length + 1 : Nat) : Int) ++ [0]))) rt c)
          DOWN (X ++ [0x30]) (Y.drop 1) (walk_turns rt + fuel + 1)
          ⟨_ksba_asn_set_value d (some (_asn1_ltostr ((X.length + 1 : Nat) : Int) ++ [0])),
            clear_seq_values (AsnNode.node d1 dn1 rt1), rt, c⟩ rfl (by simp)
          (by simp only [Ctx.pos, List.length_cons]; omega)
          (by simp only [List.length_append, List.length_singleton, hE]; omega) rfl
        simp only [List.length_append, List.length_singleton, hE] at h1
        rw [h1]
        have hclose := create_der_body_close
          (_ksba_asn_set_value d (some (_asn1_ltostr ((X.length + 1 : Nat) : Int) ++ [0])))
          (clear_seq_values (AsnNode.node d1 dn1 rt1)) rt c (X ++ [0x30]) E
          ((Y.drop 1).drop E.length) ht hs
          (by simp [_ksba_asn_set_value])
          (by simp only [List.length_append, List.length_singleton]; omega)
        rw [hT, set_value_set_value] at hclose
        simp only [List.length_append, List.length_singleton] at hclose
        have hb : create_der_body
            ⟨⟨_ksba_asn_set_value d (some (_asn1_ltostr ((X.length + 1 : Nat) : Int) ++ [0])),
              clear_seq_values (AsnNode.node d1 dn1 rt1), rt, c⟩, UP, X.length + 1 + E.length,
              X ++ [0x30] ++ E ++ (Y.drop 1).drop E.length⟩
            = some (⟨⟨_ksba_asn_set_value d none, clear_seq_values (AsnNode.node d1 dn1 rt1),
                rt, c⟩, RIGHT, (X ++ [0x30] ++ T ++ E).length,
                (X ++ [0x30] ++ T ++ E) ++ ((Y.drop 1).drop E.length).drop T.length⟩, false) := by
          rw [hclose]
          simp only [List.length_append, List.length_singleton, Option.some.injEq, Prod.mk.injEq,
            and_true, walk_state.mk.injEq, true_and]
          omega
        have h2 := create_der_step_right node rt (ihr hwr) _ _ _ c _ _ fuel parent hb hpos
          (by simp only [List.length_append, List.length_singleton]; omega) hup
        rw [h2]
        simp only [List.length_append, List.length_singleton, List.drop_drop, List.append_assoc]
        have e1 : X.length + (1 + (T.length + E.length)) + (der_encoding rt).length
            = X.length + (1 + (T.length + (E.length + (der_encoding rt).length))) := by omega
        have e2 : 1 + E.length + T.length + (der_encoding rt).length
            = 1 + (T.length + (E.length + (der_encoding rt).length)) := by omega
        rw [e1, e2]
    · simp only [hs, if_false] at hnode
      cases he : leaf_encoding d with
      | none => rw [he] at hnode; simp at hnode
      | some e =>
        have hbody := create_der_body_leaf d dn rt c m X Y e hm ht he
        have henc : der_encoding (AsnNode.node d dn rt) = e ++ der_encoding rt := by
          simp [der_encoding, hs, he]
        have hclr : clear_seq_values (AsnNode.node d dn rt)
            = AsnNode.node d dn (clear_seq_values rt) := by
          simp [clear_seq_values, hs]
        have hturns : walk_turns (AsnNode.node d dn rt) + fuel = walk_turns rt + fuel + 1 := by
          simp only [walk_turns, hs, if_false]
          omega
        rw [henc] at hlen ⊢
        rw [hclr] at hup
        simp only [List.length_append] at hlen
        have hb : create_der_body ⟨⟨d, dn, rt, c⟩, m, X.length, X ++ Y⟩
            = some (⟨⟨d, dn, rt, c⟩, RIGHT, (X ++ e).length, (X ++ e) ++ Y.drop e.length⟩,
                false) := by
          rw [hbody]
          simp
        have h2 := create_der_step_right node rt (ihr hwr) _ _ _ c _ _ fuel parent hb hpos
          (by simp only [List.length_append]; omega) hup
        rw [hturns, h2]
        simp only [List.length_append, List.drop_drop, List.append_assoc]
        have e1 : X.length + e.length + (der_encoding rt).length
            = X.length + (e.length + (der_encoding rt).length) := by omega
        rw [e1]

/-! ## Theorems: `asn1_create_der` on trees of SEQUENCE nodes -/

/-- The tree that `asn1_create_der` leaves behind at the start node. -/
theorem create_der_tree (d : node_data) (dn rt : AsnNode) (c : Ctx)
    (hwf : seq_tree (AsnNode.node d dn AsnNode.nil) = true)
    (hlen : (der_encoding (AsnNode.node d dn AsnNode.nil)).length < 2 ^ 63)
    (der0 : List Nat) (fuel : Nat) :
    asn1_create_der (some ⟨d, dn, rt, c⟩) der0
        (walk_turns (AsnNode.node d dn AsnNode.nil) + fuel)
      = Run.ret ⟨ASN_OK,
          some ⟨if d.type = TYPE_SEQUENCE then _ksba_asn_set_value d none else d,
            if d.type = TYPE_SEQUENCE then clear_seq_values dn else dn, rt, c⟩,
          der_encoding (AsnNode.node d dn AsnNode.nil)
            ++ der0.drop (der_encoding (AsnNode.node d dn AsnNode.nil)).length,
          some (der_encoding (AsnNode.node d dn AsnNode.nil)).length⟩ := by
  simp only [seq_tree, Bool.and_eq_true, Bool.not_eq_true', and_true] at hwf
  obtain ⟨ht, hnode⟩ := hwf
  unfold asn1_create_der
  dsimp only
  by_cases hs : d.type = TYPE_SEQUENCE
  · simp only [hs, if_true, Bool.and_eq_true] at hnode ⊢
    obtain ⟨hne, hwd⟩ := hnode
    cases dn with
    | nil => simp at hne
    | node d1 dn1 rt1 =>
      have hopen := create_der_body_open d (AsnNode.node d1 dn1 rt1) rt c DOWN [] der0
        (by simp) ht hs
      have henc : der_encoding (AsnNode.node d (AsnNode.node d1 dn1 rt1) AsnNode.nil)
          = [0x30] ++ (_asn1_length_der (der_encoding (AsnNode.node d1 dn1 rt1)).length).1
              ++ der_encoding (AsnNode.node d1 dn1 rt1) := by
        simp [der_encoding, hs]
      have hturns : walk_turns (AsnNode.node d (AsnNode.node d1 dn1 rt1) AsnNode.nil) + fuel
          = (walk_turns (AsnNode.node d1 dn1 rt1) + (fuel + 1)) + 1 := by
        simp only [walk_turns, hs, if_true]
        omega
      rw [henc] at hlen ⊢
      generalize hE : der_encoding (AsnNode.node d1 dn1 rt1) = E at hlen ⊢
      generalize hT : (_asn1_length_der E.length).1 = T at hlen ⊢
      simp only [List.length_append, List.length_singleton] at hlen
      have hturn1 : create_der_turn c.pos
          ⟨⟨d, AsnNode.node d1 dn1 rt1, rt, c⟩, DOWN, 0, der0⟩
          = some (Sum.inl ⟨⟨d1, dn1, rt1,
              Ctx.under (_ksba_asn_set_value d
                (some (_asn1_ltostr ((1 : Nat) : Int) ++ [0]))) rt c⟩,
              DOWN, 1, [0x30] ++ der0.drop 1⟩) := by
        unfold create_der_turn
        simp only [List.length_nil, List.nil_append, Nat.zero_add] at hopen
        rw [hopen]
        simp [walk_advance_down_node]
      rw [hturns, create_der_loop_succ, hturn1]
      dsimp only
      have h1 := create_der_chain c.pos (AsnNode.node d1 dn1 rt1) hwd ⟨d1, dn1, rt1,
          Ctx.under (_ksba_asn_set_value d (some (_asn1_ltostr ((1 : Nat) : Int) ++ [0]))) rt c⟩
        (Ctx.under (_ksba_asn_set_value d (some (_asn1_ltostr ((1 : Nat) : Int) ++ [0]))) rt c)
        DOWN [0x30] (der0.drop 1) (fuel + 1)
        ⟨_ksba_asn_set_value d (some (_asn1_ltostr ((1 : Nat) : Int) ++ [0])),
          clear_seq_values (AsnNode.node d1 dn1 rt1), rt, c⟩ rfl (by simp)
        (by simp only [Ctx.pos, List.length_cons]; omega)
        (by simp only [List.length_singleton, hE]; omega) rfl
      simp only [List.length_singleton, hE] at h1
      rw [h1, create_der_loop_succ]
      have hclose := create_der_body_close
        (_ksba_asn_set_value d (some (_asn1_ltostr ((1 : Nat) : Int) ++ [0])))
        (clear_seq_values (AsnNode.node d1 dn1 rt1)) rt c [0x30] E
        ((der0.drop 1).drop E.length) ht hs
        (by simp [_ksba_asn_set_value])
        (by simp)
      rw [hT, set_value_set_value] at hclose
      simp only [List.length_singleton] at hclose
      unfold create_der_turn
      rw [hclose]
      simp only [ne_eq, reduceCtorEq, not_false_eq_true, and_self, if_true, List.length_append,
        List.length_singleton, List.drop_drop, List.append_assoc]
      have e1 : 1 + E.length + T.length = 1 + (T.length + E.length) := by omega
      rw [e1]
  · simp only [hs, if_false] at hnode ⊢
    cases he : leaf_encoding d with
    | none => rw [he] at hnode; simp at hnode
    | some e =>
      have hbody := create_der_body_leaf d dn rt c DOWN [] der0 e (by simp) ht he
      simp only [List.length_nil, List.nil_append, Nat.zero_add] at hbody
      have henc : der_encoding (AsnNode.node d dn AsnNode.nil) = e := by
        simp [der_encoding, hs, he]
      have hturns : walk_turns (AsnNode.node d dn AsnNode.nil) + fuel = fuel + 1 := by
        simp only [walk_turns, hs, if_false]
        omega
      rw [henc, hturns, create_der_loop_succ]
      unfold create_der_turn
      rw [hbody]
      simp

/-- The encoding of a chain of SEQUENCE nodes and untagged leaves is laid out
element after element, every SEQUENCE with length octets that decode to the
byte count of the encodings of its children. -/
theorem laid_out_der_encoding (t : AsnNode) (hwf : seq_tree t = true)
    (hlen : (der_encoding t).length < ULONG) : laid_out t (der_encoding t) := by
  induction t with
  | nil => simp [laid_out, der_encoding]
  | node d dn rt ihd ihr =>
    simp only [seq_tree, Bool.and_eq_true, Bool.not_eq_true'] at hwf
    obtain ⟨⟨ht, hwr⟩, hnode⟩ := hwf
    by_cases hs : d.type = TYPE_SEQUENCE
    · simp only [hs, if_true, Bool.and_eq_true] at hnode
      have henc : der_encoding (AsnNode.node d dn rt)
          = ([0x30] ++ (_asn1_length_der (der_encoding dn).length).1 ++ der_encoding dn)
              ++ der_encoding rt := by
        simp [der_encoding, hs]
      rw [henc] at hlen ⊢
      simp only [List.length_append, List.length_singleton] at hlen
      refine ⟨_, _, rfl, ihr hwr (by omega), ?_⟩
      rw [if_pos hs]
      refine ⟨_, _, rfl, ihd hnode.2 (by omega), ?_⟩
      intro rest
      rw [List.append_assoc, get_length_der_length_der _ (by omega), length_der_len]
    · simp only [hs, if_false] at hnode
      cases he : leaf_encoding d with
      | none => rw [he] at hnode; simp at hnode
      | some e =>
        have henc : der_encoding (AsnNode.node d dn rt) = e ++ der_encoding rt := by
          simp [der_encoding, hs, he]
        rw [henc] at hlen ⊢
        simp only [List.length_append] at hlen
        refine ⟨_, _, rfl, ihr hwr (by omega), ?_⟩
        rw [if_neg hs, he]

theorem two_pow_31_lt_two_pow_63 (n : Nat) (h : n < 2 ^ 31) : n < 2 ^ 63 :=
  lt_trans h (by norm_num)

/-- C2. Length self-consistency: for every tree of (possibly nested) SEQUENCE
nodes with untagged leaf children (every SEQUENCE has at least one child; the
encoding is shorter than `2^31` bytes, the range of the `int` offsets),
`asn1_create_der` returns `ASN_OK` after `walk_turns` turns, the output is the
DER encoding of the tree, and in it the length octets that follow each
SEQUENCE tag decode (via `_ksba_asn_get_length_der`) to exactly the number of
bytes occupied by the encodings of that SEQUENCE's children (`laid_out`),
short form or long form alike. -/
theorem C2_length_self_consistency (d : node_data) (dn rt : AsnNode) (c : Ctx)
    (hwf : seq_tree (AsnNode.node d dn AsnNode.nil) = true)
    (hlen : (der_encoding (AsnNode.node d dn AsnNode.nil)).length < 2 ^ 31)
    (der0 : List Nat) (fuel : Nat) :
    ∃ r, asn1_create_der (some ⟨d, dn, rt, c⟩) der0
          (walk_turns (AsnNode.node d dn AsnNode.nil) + fuel) = Run.ret r
      ∧ r.code = ASN_OK
      ∧ r.len = some (der_encoding (AsnNode.node d dn AsnNode.nil)).length
      ∧ r.der.take (der_encoding (AsnNode.node d dn AsnNode.nil)).length
          = der_encoding (AsnNode.node d dn AsnNode.nil)
      ∧ laid_out (AsnNode.node d dn AsnNode.nil) (der_encoding (AsnNode.node d dn AsnNode.nil)) := by
  refine ⟨_, create_der_tree d dn rt c hwf (two_pow_31_lt_two_pow_63 _ hlen) der0 fuel, rfl, rfl,
    ?_, laid_out_der_encoding _ hwf (lt_trans hlen (by norm_num [ULONG]))⟩
  simp

/-! ## Theorems: the decoder on leaves -/

theorem get_length_loop_congr (der der' : List Nat) (n punt ans : Nat)
    (h : ∀ i, i < punt + n → rd der i = rd der' i) :
    get_length_loop der n punt ans = get_length_loop der' n punt ans := by
  induction n generalizing punt ans with
  | zero => rfl
  | succ n ih =>
    simp only [get_length_loop]
    rw [h punt (by omega)]
    exact ih (punt + 1) _ (fun i hi => h i (by omega))

theorem get_length_loop_snd (der : List Nat) (n punt ans : Nat) :
    (get_length_loop der n punt ans).2 = punt + n := by
  induction n generalizing punt ans with
  | zero => rfl
  | succ n ih =>
    simp only [get_length_loop]
    rw [ih]
    omega

theorem rd_append_left (v Z : List Nat) (i : Nat) (h : i < v.length) :
    rd (v ++ Z) i = rd v i := by
  unfold rd
  rw [List.getD_eq_getElem?_getD, List.getD_eq_getElem?_getD, List.getElem?_append_left h]

/-- The length octets are read inside a value that holds them all. -/
theorem get_length_der_append (v Z : List Nat)
    (h : (_ksba_asn_get_length_der v).2 ≤ v.length) :
    _ksba_asn_get_length_der (v ++ Z) = _ksba_asn_get_length_der v := by
  unfold _ksba_asn_get_length_der at h ⊢
  have h0 : 0 < v.length := by
    split at h
    · simpa using h
    · rw [get_length_loop_snd] at h
      omega
  rw [rd_append_left v Z 0 h0]
  split
  · rfl
  · next hlong =>
    rw [if_neg hlong, get_length_loop_snd] at h
    exact get_length_loop_congr _ _ _ _ _ (fun i hi => rd_append_left v Z i (by omega))

/-- The identifier octets written for an untagged node of a type with a
universal tag are read back as that tag. -/
theorem get_tag_der_universal (d : node_data) (t : List Nat × Nat) (e : Nat × Nat)
    (rest : List Nat) (hu : universal_tag d = some t) (he : expected_universal d = some e) :
    _asn1_get_tag_der (t.1 ++ rest) = (e.2, e.1, t.1.length) := by
  have key : ∀ c n : Nat, c < 256 → n < UINT →
      t = _asn1_tag_der c n → e = (c, n) → c &&& 0xE0 = c →
      _asn1_get_tag_der (t.1 ++ rest) = (e.2, e.1, t.1.length) := by
    intro c n hc hn ht he' hcc
    subst ht
    subst he'
    rw [get_tag_der_tag_der c n hc hn rest, hcc, tag_der_len]
  obtain ⟨name, ty, flags, value⟩ := d
  cases ty <;> simp only [universal_tag, expected_universal] at hu he
  case TYPE_TIME =>
    cases hf : flags.is_utc_time
    · simp only [hf, Bool.false_eq_true, if_false, Option.some.injEq] at hu he
      exact key _ _ (by decide) (by decide) hu.symm he.symm (by decide)
    · simp only [hf, if_true, Option.some.injEq] at hu he
      exact key _ _ (by decide) (by decide) hu.symm he.symm (by decide)
  all_goals first
    | (simp only [Option.some.injEq] at hu he
       exact key _ _ (by decide) (by decide) hu.symm he.symm (by decide))
    | (simp only [reduceCtorEq] at he)

theorem expected_universal_type (d : node_data) (e : Nat × Nat)
    (he : expected_universal d = some e) :
    d.type ≠ TYPE_CHOICE ∧ d.type ≠ TYPE_TAG ∧ d.type ≠ TYPE_ANY := by
  obtain ⟨name, ty, flags, value⟩ := d
  cases ty <;> simp [expected_universal] at he ⊢

/-- The first part of a turn of the decoder on a mandatory untagged node that
finds its universal tag in the input. -/
theorem get_der_body_enter (d : node_data) (dn rt : AsnNode) (c : Ctx) (m : Move)
    (X W : List Nat) (t : List Nat × Nat) (e : Nat × Nat) (hm : m ≠ UP)
    (hd : mandatory_untagged d = true) (hu : universal_tag d = some t)
    (he : expected_universal d = some e) :
    get_der_body (X ++ t.1 ++ W) ⟨⟨d, dn, rt, c⟩, m, X.length⟩
      = get_der_switch (X ++ t.1 ++ W) ⟨⟨d, dn, rt, c⟩, m, X.length + t.1.length⟩ := by
  simp only [mandatory_untagged, Bool.and_eq_true, Bool.not_eq_true'] at hd
  obtain ⟨⟨⟨⟨ht, hopt⟩, hdef⟩, hset⟩, hnu⟩ := hd
  obtain ⟨h1, h2, h3⟩ := expected_universal_type d e he
  have hdrop : (X ++ t.1 ++ W).drop X.length = t.1 ++ W := by
    rw [List.append_assoc, List.drop_left]
  have hg := get_tag_der_universal d t e W hu he
  simp only [get_der_body, ne_eq, hm, not_false_eq_true, if_true, get_der_set_member, hset,
    Bool.false_eq_true, if_false, get_der_choice, h1, get_der_tag, hopt, hdef, or_self,
    _asn1_extract_tag_der, ht, h2, h3, hdrop, hg, he, List.drop_zero, not_true_eq_false,
    Nat.zero_add]

theorem rd_append_add (A B : List Nat) (i : Nat) : rd (A ++ B) (A.length + i) = rd B i := by
  unfold rd
  rw [List.getD_eq_getElem?_getD, List.getD_eq_getElem?_getD,
    List.getElem?_append_right (by omega)]
  simp

theorem rd_of_length (A B : List Nat) (n i : Nat) (h : n = A.length + i) :
    rd (A ++ B) n = rd B i := by
  subst h
  exact rd_append_add A B i

theorem memrd_of_length (A B Y : List Nat) (k n : Nat) (hk : k = A.length) (hn : n = B.length) :
    memrd (A ++ B ++ Y) k n = B := by
  subst hk
  subst hn
  exact memrd_append A B Y

theorem drop_of_length (A B : List Nat) (k : Nat) (hk : k = A.length) :
    (A ++ B).drop k = B := by
  subst hk
  exact List.drop_left A B

/-- The decoder stores length octets and content, read at the end of `A`, as
the value when they make up `v` and end within the range of `int`. -/
theorem get_der_copy_value_whole (A v Z : List Nat) (p : Loc) (m : Move) (k : Nat)
    (hk : k = A.length)
    (hl : (_ksba_asn_get_length_der v).2 + (_ksba_asn_get_length_der v).1 = v.length)
    (hlen : A.length + v.length < 2 ^ 31) :
    get_der_copy_value (A ++ (v ++ Z)) ⟨p, m, k⟩
      = some ⟨{ p with d := _ksba_asn_set_value p.d (some v) }, RIGHT, A.length + v.length⟩ := by
  subst hk
  have hdrop : (A ++ (v ++ Z)).drop A.length = v ++ Z := List.drop_left A _
  have hg := get_length_der_append v Z (by omega)
  have h1 : to_int (_ksba_asn_get_length_der v).1 = ((_ksba_asn_get_length_der v).1 : Int) :=
    to_int_small _ (by omega)
  have h2 : wrap_int (((_ksba_asn_get_length_der v).2 : Int) + ((_ksba_asn_get_length_der v).1 : Int))
      = (v.length : Int) := by
    rw [wrap_int_small _ (by omega) (by omega)]
    omega
  have hmem : memrd (A ++ (v ++ Z)) A.length v.length = v := by
    rw [← List.append_assoc]
    exact memrd_of_length _ _ _ _ _ rfl rfl
  unfold get_der_copy_value
  simp only [hdrop, hg, h1, h2, Int.toNat_ofNat, hmem, counter_add_small _ _ hlen]
  rw [if_neg (by omega)]
  rfl

/-- A turn of the decoder on a leaf of a round-trip tree whose encoding is at
the read position stores the value of the leaf. -/
theorem get_der_body_leaf (d : node_data) (dn rt : AsnNode) (c : Ctx) (m : Move)
    (X Z e : List Nat) (hm : m ≠ UP) (hd : mandatory_untagged d = true)
    (hl : round_trip_leaf d = true) (he : leaf_encoding d = some e)
    (hlen : X.length + e.length < 2 ^ 31) :
    get_der_body (X ++ e ++ Z) ⟨⟨_ksba_asn_set_value d none, dn, rt, c⟩, m, X.length⟩
      = some (Sum.inr ⟨⟨d, dn, rt, c⟩, RIGHT, X.length + e.length⟩) := by
  obtain ⟨name, ty, flags, value⟩ := d
  cases ty <;> simp only [round_trip_leaf, Bool.false_eq_true] at hl
  case TYPE_NULL =>
    simp only [decide_eq_true_eq] at hl
    subst hl
    simp only [leaf_encoding, universal_tag, leaf_content, Option.some.injEq] at he
    subst he
    have h := get_der_body_enter ⟨name, TYPE_NULL, flags, none⟩ dn rt c m X ([0] ++ Z) _
      (UNIVERSAL, TAG_NULL) hm hd rfl rfl
    have e1 : X ++ ((_asn1_tag_der UNIVERSAL TAG_NULL).1 ++ [0]) ++ Z
        = X ++ (_asn1_tag_der UNIVERSAL TAG_NULL).1 ++ ([0] ++ Z) := by simp
    rw [e1]
    show get_der_body _ ⟨⟨⟨name, TYPE_NULL, flags, none⟩, dn, rt, c⟩, m, X.length⟩ = _
    rw [h]
    have r1 : rd (X ++ (_asn1_tag_der UNIVERSAL TAG_NULL).1 ++ ([0] ++ Z))
        (X.length + (_asn1_tag_der UNIVERSAL TAG_NULL).1.length) = 0 := by
      rw [rd_of_length (X ++ (_asn1_tag_der UNIVERSAL TAG_NULL).1) _ _ 0 (by simp)]
      rfl
    simp only [get_der_switch, r1, ne_eq, not_true_eq_false, if_false, List.length_append,
      List.length_singleton, Nat.add_assoc]
  case TYPE_BOOLEAN =>
    simp only [Bool.or_eq_true, decide_eq_true_eq] at hl
    have hcontent : ∃ b, leaf_content ⟨name, TYPE_BOOLEAN, flags, value⟩ = some [1, b]
        ∧ value = some (if b = 0 then [70] else [84]) := by
      rcases hl with h | h <;> subst h
      · exact ⟨0xFF, by simp [leaf_content, rd], by simp⟩
      · exact ⟨0, by simp [leaf_content, rd], by simp⟩
    obtain ⟨b, hc, hv⟩ := hcontent
    simp only [leaf_encoding, universal_tag, hc, Option.some.injEq] at he
    subst he
    have h := get_der_body_enter ⟨name, TYPE_BOOLEAN, flags, none⟩ dn rt c m X ([1, b] ++ Z) _
      (UNIVERSAL, TAG_BOOLEAN) hm hd rfl rfl
    have e1 : X ++ ((_asn1_tag_der UNIVERSAL TAG_BOOLEAN).1 ++ [1, b]) ++ Z
        = X ++ (_asn1_tag_der UNIVERSAL TAG_BOOLEAN).1 ++ ([1, b] ++ Z) := by simp
    rw [e1]
    show get_der_body _ ⟨⟨⟨name, TYPE_BOOLEAN, flags, none⟩, dn, rt, c⟩, m, X.length⟩ = _
    rw [h]
    have r1 : rd (X ++ (_asn1_tag_der UNIVERSAL TAG_BOOLEAN).1 ++ ([1, b] ++ Z))
        (X.length + (_asn1_tag_der UNIVERSAL TAG_BOOLEAN).1.length) = 1 := by
      rw [rd_of_length (X ++ (_asn1_tag_der UNIVERSAL TAG_BOOLEAN).1) _ _ 0 (by simp)]
      rfl
    have r2 : rd (X ++ (_asn1_tag_der UNIVERSAL TAG_BOOLEAN).1 ++ ([1, b] ++ Z))
        (X.length + (_asn1_tag_der UNIVERSAL TAG_BOOLEAN).1.length + 1) = b := by
      rw [rd_of_length (X ++ (_asn1_tag_der UNIVERSAL TAG_BOOLEAN).1) _ _ 1 (by simp)]
      rfl
    simp only [get_der_switch, r1, r2, ne_eq, not_true_eq_false, if_false, List.length_append,
      List.length_singleton, List.length_cons, List.length_nil, _ksba_asn_set_value, hv]
    simp only [Nat.add_assoc, Nat.zero_add, Nat.reduceAdd]
  case TYPE_INTEGER =>
    cases value with
    | none => simp at hl
    | some v =>
      simp only [decide_eq_true_eq] at hl
      have hc : leaf_content ⟨name, TYPE_INTEGER, flags, some v⟩ = some v := by
        simp [leaf_content, hl]
      simp only [leaf_encoding, universal_tag, hc, Option.some.injEq] at he
      subst he
      have h := get_der_body_enter ⟨name, TYPE_INTEGER, flags, none⟩ dn rt c m X (v ++ Z) _
        (UNIVERSAL, TAG_INTEGER) hm hd rfl rfl
      have e1 : X ++ ((_asn1_tag_der UNIVERSAL TAG_INTEGER).1 ++ v) ++ Z
          = X ++ (_asn1_tag_der UNIVERSAL TAG_INTEGER).1 ++ (v ++ Z) := by simp
      rw [e1]
      show get_der_body _ ⟨⟨⟨name, TYPE_INTEGER, flags, none⟩, dn, rt, c⟩, m, X.length⟩ = _
      rw [h]
      have hcv := get_der_copy_value_whole (X ++ (_asn1_tag_der UNIVERSAL TAG_INTEGER).1) v Z
        ⟨⟨name, TYPE_INTEGER, flags, none⟩, dn, rt, c⟩ m
        (X.length + (_asn1_tag_der UNIVERSAL TAG_INTEGER).1.length) (by simp) hl
        (by simp only [List.length_append] at hlen ⊢; omega)
      simp only [get_der_switch, hcv, Option.map_some', _ksba_asn_set_value,
        List.length_append, Nat.add_assoc]
  case TYPE_OCTET_STRING =>
    cases value with
    | none => simp at hl
    | some v =>
      simp only [decide_eq_true_eq] at hl
      have hc : leaf_content ⟨name, TYPE_OCTET_STRING, flags, some v⟩ = some v := by
        simp [leaf_content, hl]
      simp only [leaf_encoding, universal_tag, hc, Option.some.injEq] at he
      subst he
      have h := get_der_body_enter ⟨name, TYPE_OCTET_STRING, flags, none⟩ dn rt c m X (v ++ Z) _
        (UNIVERSAL, TAG_OCTET_STRING) hm hd rfl rfl
      have e1 : X ++ ((_asn1_tag_der UNIVERSAL TAG_OCTET_STRING).1 ++ v) ++ Z
          = X ++ (_asn1_tag_der UNIVERSAL TAG_OCTET_STRING).1 ++ (v ++ Z) := by simp
      rw [e1]
      show get_der_body _ ⟨⟨⟨name, TYPE_OCTET_STRING, flags, none⟩, dn, rt, c⟩, m, X.length⟩ = _
      rw [h]
      have hcv := get_der_copy_value_whole (X ++ (_asn1_tag_der UNIVERSAL TAG_OCTET_STRING).1) v Z
        ⟨⟨name, TYPE_OCTET_STRING, flags, none⟩, dn, rt, c⟩ m
        (X.length + (_asn1_tag_der UNIVERSAL TAG_OCTET_STRING).1.length) (by simp) hl
        (by simp only [List.length_append] at hlen ⊢; omega)
      simp only [get_der_switch, hcv, Option.map_some', _ksba_asn_set_value,
        List.length_append, Nat.add_assoc]

/-! ## Theorems: the decoder on SEQUENCE nodes -/

theorem mandatory_untagged_set_value (d : node_data) (v : Option (List Nat)) :
    mandatory_untagged (_ksba_asn_set_value d v) = mandatory_untagged d := rfl

/-- The first visit of the decoder to a mandatory untagged SEQUENCE whose
encoding is at the read position keeps the end of the content in the value of
the node. -/
theorem get_der_body_open (d : node_data) (dn rt : AsnNode) (c : Ctx) (m : Move)
    (X E Z : List Nat) (hm : m ≠ UP) (hd : mandatory_untagged d = true)
    (hs : d.type = TYPE_SEQUENCE)
    (hE : X.length + 1 + (_asn1_length_der E.length).1.length + E.length < 2 ^ 31) :
    get_der_body (X ++ ([0x30] ++ (_asn1_length_der E.length).1 ++ E) ++ Z)
        ⟨⟨d, dn, rt, c⟩, m, X.length⟩
      = some (Sum.inr ⟨⟨_ksba_asn_set_value d (some (_asn1_ltostr
            ((X.length + 1 + (_asn1_length_der E.length).1.length + E.length : Nat) : Int)
              ++ [0])), dn, rt, c⟩,
          DOWN, X.length + 1 + (_asn1_length_der E.length).1.length⟩) := by
  have hu : universal_tag d = some ([0x30], 1) := universal_tag_sequence d hs
  have he : expected_universal d = some (UNIVERSAL ||| STRUCTURED, TAG_SEQUENCE) := by
    unfold expected_universal
    rw [hs]
  have hEu : E.length < ULONG := by rw [ULONG_eq]; omega
  have h := get_der_body_enter d dn rt c m X ((_asn1_length_der E.length).1 ++ E ++ Z)
    ([0x30], 1) _ hm hd hu he
  have e1 : X ++ ([0x30] ++ (_asn1_length_der E.length).1 ++ E) ++ Z
      = X ++ [0x30] ++ ((_asn1_length_der E.length).1 ++ E ++ Z) := by simp
  rw [e1, h]
  have hdrop : (X ++ [0x30] ++ ((_asn1_length_der E.length).1 ++ E ++ Z)).drop
      (X.length + 1) = (_asn1_length_der E.length).1 ++ (E ++ Z) := by
    rw [List.append_assoc (_asn1_length_der E.length).1]
    exact drop_of_length _ _ _ (by simp)
  have hw : wrap_int (((X.length + 1 + (_asn1_length_der E.length).1.length : Nat) : Int)
      + to_int E.length)
      = ((X.length + 1 + (_asn1_length_der E.length).1.length + E.length : Nat) : Int) := by
    rw [to_int_small _ (by omega), wrap_int_small _ (by omega) (by omega)]
    push_cast
    rfl
  simp only [get_der_switch, hs, reduceCtorEq, if_false, hdrop,
    get_length_der_length_der E.length hEu, length_der_len, hm, List.length_singleton, hw]

/-- The visit of the decoder to a SEQUENCE on the way up, at the end of the
content. -/
theorem get_der_body_close (der : List Nat) (d : node_data) (dn rt : AsnNode) (c : Ctx)
    (k : Nat) (hs : d.type = TYPE_SEQUENCE)
    (hv : d.value = some (_asn1_ltostr ((k : Nat) : Int) ++ [0])) (hk : k < 2 ^ 63) :
    get_der_body der ⟨⟨d, dn, rt, c⟩, UP, k⟩
      = some (Sum.inr ⟨⟨_ksba_asn_set_value d none, dn, rt, c⟩, RIGHT, k⟩) := by
  simp only [get_der_body, ne_eq, not_true_eq_false, if_false, if_true, get_der_switch, hs, hv,
    strtol_ltostr k hk]

theorem get_der_loop_succ (der : List Nat) (node : List Bool) (fuel : Nat) (s : get_state) :
    get_der_loop der node (fuel + 1) s
      = match get_der_turn der node s with
        | none => Run.fault
        | some (get_turn.next s1) => get_der_loop der node fuel s1
        | some (get_turn.brk s1) => Run.ret (Sum.inr s1)
        | some (get_turn.stop code _) => Run.ret (Sum.inl code) := rfl

/-- The end of a turn of the decoder that leaves a node that is not a SET
member to the right, away from the root. -/
theorem get_der_turn_right (der : List Nat) (node : List Bool) (s : get_state) (d : node_data)
    (dn rt : AsnNode) (c : Ctx) (k : Nat)
    (hb : get_der_body der s = some (Sum.inr ⟨⟨d, dn, rt, c⟩, RIGHT, k⟩))
    (hset : d.flags.is_set = false) (hp : c.pos ≠ node) :
    get_der_turn der node s
      = match mk_loc rt (Ctx.beside d dn c) with
        | some q => some (get_turn.next ⟨q, RIGHT, k⟩)
        | none =>
          (find_up_from (AsnNode.node d dn rt) c).map (fun q => get_turn.next ⟨q, UP, k⟩) := by
  unfold get_der_turn
  rw [hb]
  simp only [hp, false_and, if_false]
  cases rt with
  | nil =>
    simp only [walk_advance_right_nil d dn c true (fun _ => hset), mk_loc]
    generalize find_up_from (AsnNode.node d dn AsnNode.nil) c = o
    cases o <;> rfl
  | node d1 dn1 rt1 =>
    simp only [walk_advance_right_node d dn d1 dn1 rt1 c true (fun _ => hset), mk_loc]

theorem get_der_step_right (node : List Bool) (rt : AsnNode) (ih : get_der_runs node rt)
    (s : get_state) (d : node_data) (dn : AsnNode) (c : Ctx) (X Z : List Nat) (fuel : Nat)
    (parent : Loc)
    (hb : get_der_body (X ++ der_encoding rt ++ Z) s
      = some (Sum.inr ⟨⟨d, dn, value_less rt, c⟩, RIGHT, X.length⟩))
    (hset : d.flags.is_set = false)
    (hpos : node.length < c.pos.length)
    (hlen : X.length + (der_encoding rt).length < 2 ^ 31)
    (hup : find_up_from (AsnNode.node d dn (clear_seq_values rt)) c = some parent) :
    get_der_loop (X ++ der_encoding rt ++ Z) node (walk_turns rt + fuel + 1) s
      = get_der_loop (X ++ der_encoding rt ++ Z) node fuel
          ⟨parent, UP, X.length + (der_encoding rt).length⟩ := by
  rw [get_der_loop_succ, get_der_turn_right _ node s d dn _ c _ hb hset
    (pos_ne_of_length_lt node c hpos)]
  cases rt with
  | nil =>
    simp only [clear_seq_values] at hup
    simp [mk_loc, hup, walk_turns, der_encoding, value_less]
  | node d1 dn1 rt1 =>
    simp only [mk_loc, value_less]
    exact ih ⟨_ksba_asn_set_value d1 none, value_less dn1, value_less rt1, Ctx.beside d dn c⟩
      (Ctx.beside d dn c) RIGHT X Z fuel parent rfl
      (by simp) (by simp only [Ctx.pos, List.length_cons]; omega) hlen hup

theorem round_trip_leaf_encoding (d : node_data) (h : round_trip_leaf d = true) :
    ∃ e, leaf_encoding d = some e := by
  obtain ⟨name, ty, flags, value⟩ := d
  cases ty <;> simp only [round_trip_leaf, Bool.false_eq_true] at h
  case TYPE_NULL => exact ⟨_, rfl⟩
  case TYPE_BOOLEAN =>
    simp only [Bool.or_eq_true, decide_eq_true_eq] at h
    rcases h with h | h <;> subst h <;> exact ⟨_, rfl⟩
  case TYPE_INTEGER =>
    cases value with
    | none => simp at h
    | some v =>
      simp only [decide_eq_true_eq] at h
      exact ⟨(_asn1_tag_der UNIVERSAL TAG_INTEGER).1 ++ v,
        by simp [leaf_encoding, universal_tag, leaf_content, h]⟩
  case TYPE_OCTET_STRING =>
    cases value with
    | none => simp at h
    | some v =>
      simp only [decide_eq_true_eq] at h
      exact ⟨(_asn1_tag_der UNIVERSAL TAG_OCTET_STRING).1 ++ v,
        by simp [leaf_encoding, universal_tag, leaf_content, h]⟩

theorem round_trip_tree_seq_tree (t : AsnNode) (h : round_trip_tree t = true) :
    seq_tree t = true := by
  induction t with
  | nil => rfl
  | node d dn rt ihd ihr =>
    simp only [round_trip_tree, mandatory_untagged, Bool.and_eq_true, Bool.not_eq_true'] at h
    obtain ⟨⟨⟨⟨⟨⟨ht, _⟩, _⟩, _⟩, _⟩, hwr⟩, hnode⟩ := h
    simp only [seq_tree, Bool.and_eq_true, Bool.not_eq_true', ht, ihr hwr, true_and]
    by_cases hs : d.type = TYPE_SEQUENCE
    · simp only [hs, if_true, Bool.and_eq_true] at hnode ⊢
      exact ⟨hnode.1, ihd hnode.2⟩
    · simp only [hs, if_false, Bool.and_eq_true] at hnode ⊢
      obtain ⟨e, he⟩ := round_trip_leaf_encoding d hnode.1
      rw [he]
      rfl

/-- The decoder on the encoding of a round-trip tree. -/
theorem get_der_chain (node : List Bool) (t : AsnNode) (hwf : round_trip_tree t = true) :
    get_der_runs node t := by
  induction t with
  | nil =>
    intro p c m X Z fuel parent hp
    simp [mk_loc, value_less] at hp
  | node d dn rt ihd ihr =>
    simp only [round_trip_tree, Bool.and_eq_true] at hwf
    obtain ⟨⟨hd, hwr⟩, hnode⟩ := hwf
    have hset : d.flags.is_set = false := by
      simp only [mandatory_untagged, Bool.and_eq_true, Bool.not_eq_true'] at hd
      exact hd.1.2
    intro p c m X Z fuel parent hp hm hpos hlen hup
    simp only [mk_loc, value_less, Option.some.injEq] at hp
    subst hp
    by_cases hs : d.type = TYPE_SEQUENCE
    · simp only [hs, if_true, Bool.and_eq_true] at hnode
      obtain ⟨hne, hwd⟩ := hnode
      cases dn with
      | nil => simp at hne
      | node d1 dn1 rt1 =>
        have henc : der_encoding (AsnNode.node d (AsnNode.node d1 dn1 rt1) rt)
            = [0x30] ++ (_asn1_length_der (der_encoding (AsnNode.node d1 dn1 rt1)).length).1
                ++ der_encoding (AsnNode.node d1 dn1 rt1) ++ der_encoding rt := by
          simp [der_encoding, hs]
        have hclr : clear_seq_values (AsnNode.node d (AsnNode.node d1 dn1 rt1) rt)
            = AsnNode.node (_ksba_asn_set_value d none)
                (clear_seq_values (AsnNode.node d1 dn1 rt1)) (clear_seq_values rt) := by
          simp [clear_seq_values, hs]
        have hturns : walk_turns (AsnNode.node d (AsnNode.node d1 dn1 rt1) rt) + fuel
            = (walk_turns (AsnNode.node d1 dn1 rt1) + (walk_turns rt + fuel + 1)) + 1 := by
          simp only [walk_turns, hs, if_true]
          omega
        rw [henc] at hlen ⊢
        rw [hclr] at hup
        generalize hE : der_encoding (AsnNode.node d1 dn1 rt1) = E at hlen ⊢
        generalize hT : (_asn1_length_der E.length).1 = T at hlen ⊢
        simp only [List.length_append, List.length_singleton] at hlen
        generalize hder : X ++ ([0x30] ++ T ++ E ++ der_encoding rt) ++ Z = der
        have hopen := get_der_body_open (_ksba_asn_set_value d none)
          (value_less (AsnNode.node d1 dn1 rt1)) (value_less rt) c m X E (der_encoding rt ++ Z)
          hm hd hs (by rw [hT]; omega)
        rw [hT, set_value_set_value] at hopen
        have hd1 : X ++ ([0x30] ++ T ++ E) ++ (der_encoding rt ++ Z) = der := by
          rw [← hder]
          simp
        rw [hd1] at hopen
        have hturn1 : get_der_turn der node
            ⟨⟨_ksba_asn_set_value d none, value_less (AsnNode.node d1 dn1 rt1), value_less rt, c⟩,
              m, X.length⟩
            = some (get_turn.next ⟨⟨_ksba_asn_set_value d1 none, value_less dn1, value_less rt1,
                Ctx.under (_ksba_asn_set_value d (some (_asn1_ltostr
                  ((X.length + 1 + T.length + E.length : Nat) : Int) ++ [0])))
                  (value_less rt) c⟩,
                DOWN, X.length + 1 + T.length⟩) := by
          unfold get_der_turn
          rw [hopen]
          simp [value_less, walk_advance_down_node]
        rw [hturns, get_der_loop_succ, hturn1]
        dsimp only
        have h1 := ihd hwd ⟨_ksba_asn_set_value d1 none, value_less dn1, value_less rt1,
            Ctx.under (_ksba_asn_set_value d (some (_asn1_ltostr
              ((X.length + 1 + T.length + E.length : Nat) : Int) ++ [0]))) (value_less rt) c⟩
          (Ctx.under (_ksba_asn_set_value d (some (_asn1_ltostr
              ((X.length + 1 + T.length + E.length : Nat) : Int) ++ [0]))) (value_less rt) c)
          DOWN (X ++ [0x30] ++ T) (der_encoding rt ++ Z) (walk_turns rt + fuel + 1)
          ⟨_ksba_asn_set_value d (some (_asn1_ltostr
              ((X.length + 1 + T.length + E.length : Nat) : Int) ++ [0])),
            clear_seq_values (AsnNode.node d1 dn1 rt1), value_less rt, c⟩ rfl (by simp)
          (by simp only [Ctx.pos, List.length_cons]; omega)
          (by simp only [List.length_append, List.length_singleton, hE]; omega) rfl
        have hd2 : X ++ [0x30] ++ T ++ E ++ (der_encoding rt ++ Z) = der := by
          rw [← hder]
          simp
        simp only [List.length_append, List.length_singleton, hE, hd2] at h1
        rw [h1]
        have hclose := get_der_body_close der
          (_ksba_asn_set_value d (some (_asn1_ltostr
              ((X.length + 1 + T.length + E.length : Nat) : Int) ++ [0])))
          (clear_seq_values (AsnNode.node d1 dn1 rt1)) (value_less rt) c
          (X.length + 1 + T.length + E.length) hs rfl (by omega)
        rw [set_value_set_value] at hclose
        have hd3 : (X ++ [0x30] ++ T ++ E) ++ der_encoding rt ++ Z = der := by
          rw [← hder]
          simp
        have hb : get_der_body ((X ++ [0x30] ++ T ++ E) ++ der_encoding rt ++ Z)
            ⟨⟨_ksba_asn_set_value d (some (_asn1_ltostr
              ((X.length + 1 + T.length + E.length : Nat) : Int) ++ [0])),
              clear_seq_values (AsnNode.node d1 dn1 rt1), value_less rt, c⟩, UP,
              X.length + 1 + T.length + E.length⟩
            = some (Sum.inr ⟨⟨_ksba_asn_set_value d none,
                clear_seq_values (AsnNode.node d1 dn1 rt1), value_less rt, c⟩, RIGHT,
                (X ++ [0x30] ++ T ++ E).length⟩) := by
          rw [hd3, hclose]
          simp only [List.length_append, List.length_singleton]
        have h2 := get_der_step_right node rt (ihr hwr) _ _ _ c _ Z fuel parent hb hset hpos
          (by simp only [List.length_append, List.length_singleton]; omega) hup
        rw [hd3] at h2
        rw [h2]
        simp only [List.length_append, List.length_singleton]
        congr 2
        omega
    · simp only [hs, if_false, Bool.and_eq_true] at hnode
      obtain ⟨hl, hdn⟩ := hnode
      cases dn with
      | node d1 dn1 rt1 => simp at hdn
      | nil =>
        obtain ⟨e, he⟩ := round_trip_leaf_encoding d hl
        have henc : der_encoding (AsnNode.node d AsnNode.nil rt) = e ++ der_encoding rt := by
          simp [der_encoding, hs, he]
        have hclr : clear_seq_values (AsnNode.node d AsnNode.nil rt)
            = AsnNode.node d AsnNode.nil (clear_seq_values rt) := by
          simp [clear_seq_values, hs]
        have hturns : walk_turns (AsnNode.node d AsnNode.nil rt) + fuel
            = walk_turns rt + fuel + 1 := by
          simp only [walk_turns, hs, if_false]
          omega
        rw [henc] at hlen ⊢
        rw [hclr] at hup
        simp only [List.length_append] at hlen
        generalize hder : X ++ (e ++ der_encoding rt) ++ Z = der
        have hbody := get_der_body_leaf d AsnNode.nil (value_less rt) c m X (der_encoding rt ++ Z)
          e hm hd hl he (by omega)
        have hd1 : X ++ e ++ (der_encoding rt ++ Z) = der := by
          rw [← hder]
          simp
        have hd3 : (X ++ e) ++ der_encoding rt ++ Z = der := by
          rw [← hder]
          simp
        rw [hd1] at hbody
        have hb : get_der_body ((X ++ e) ++ der_encoding rt ++ Z)
            ⟨⟨_ksba_asn_set_value d none, value_less AsnNode.nil, value_less rt, c⟩, m, X.length⟩
            = some (Sum.inr ⟨⟨d, AsnNode.nil, value_less rt, c⟩, RIGHT, (X ++ e).length⟩) := by
          rw [hd3]
          simp only [value_less, List.length_append]
          exact hbody
        have h2 := get_der_step_right node rt (ihr hwr) _ _ _ c _ Z fuel parent hb hset hpos
          (by simp only [List.length_append]; omega) hup
        rw [hd3] at h2
        rw [hturns, h2]
        simp only [List.length_append]
        congr 2
        omega

/-! ## Theorems: `asn1_get_der` on the encoding of a round-trip tree -/

theorem delete_not_used_clear (t : AsnNode) (h : round_trip_tree t = true) :
    delete_not_used_chain (clear_seq_values t) = clear_seq_values t := by
  induction t with
  | nil => rfl
  | node d dn rt ihd ihr =>
    simp only [round_trip_tree, mandatory_untagged, Bool.and_eq_true, Bool.not_eq_true'] at h
    obtain ⟨⟨⟨⟨⟨⟨_, _⟩, _⟩, _⟩, hnu⟩, hwr⟩, hnode⟩ := h
    by_cases hs : d.type = TYPE_SEQUENCE
    · simp only [hs, if_true, Bool.and_eq_true] at hnode
      simp only [clear_seq_values, hs, if_true, delete_not_used_chain, _ksba_asn_set_value, hnu,
        Bool.false_eq_true, if_false, ihd hnode.2, ihr hwr]
    · simp only [hs, if_false, Bool.and_eq_true] at hnode
      cases dn with
      | node d1 dn1 rt1 => simp at hnode
      | nil =>
        simp only [clear_seq_values, hs, if_false, delete_not_used_chain, hnu,
          Bool.false_eq_true, ihr hwr]

theorem same_leaf_values_refl (t : AsnNode) : same_leaf_values t t := by
  induction t with
  | nil => simp [same_leaf_values]
  | node d dn rt ihd ihr => exact ⟨rfl, fun _ => rfl, ihd, ihr⟩

theorem same_leaf_values_clear (t : AsnNode) : same_leaf_values t (clear_seq_values t) := by
  induction t with
  | nil => simp [clear_seq_values, same_leaf_values]
  | node d dn rt ihd ihr =>
    by_cases hs : d.type = TYPE_SEQUENCE
    · simp only [clear_seq_values, hs, if_true, same_leaf_values, _ksba_asn_set_value, ne_eq,
        not_true_eq_false, false_implies, true_and]
      exact ⟨ihd, ihr⟩
    · simp only [clear_seq_values, hs, if_false, same_leaf_values, ne_eq, not_false_eq_true,
        forall_const, true_and]
      exact ⟨same_leaf_values_refl dn, ihr⟩

/-- The tree that `asn1_get_der` builds from the encoding of a round-trip
tree, read into a value-less clone of the tree. -/
theorem get_der_tree (d : node_data) (dn rt : AsnNode) (c : Ctx)
    (hwf : round_trip_tree (AsnNode.node d dn AsnNode.nil) = true)
    (hlen : (der_encoding (AsnNode.node d dn AsnNode.nil)).length < 2 ^ 31)
    (Z : List Nat) (fuel : Nat) :
    asn1_get_der (some ⟨_ksba_asn_set_value d none, value_less dn, rt, c⟩)
        (der_encoding (AsnNode.node d dn AsnNode.nil) ++ Z)
        (der_encoding (AsnNode.node d dn AsnNode.nil)).length
        (walk_turns (AsnNode.node d dn AsnNode.nil) + fuel)
      = Run.ret ⟨ASN_OK,
          some ⟨if d.type = TYPE_SEQUENCE then _ksba_asn_set_value d none else d,
            clear_seq_values dn, rt, c⟩⟩ := by
  have hwf' := hwf
  simp only [round_trip_tree, Bool.and_eq_true, and_true] at hwf
  obtain ⟨hd, hnode⟩ := hwf
  have hflags := hd
  simp only [mandatory_untagged, Bool.and_eq_true, Bool.not_eq_true'] at hflags
  obtain ⟨⟨⟨⟨ht, hopt⟩, hdef⟩, hset⟩, hnu⟩ := hflags
  have hopt' : (_ksba_asn_set_value d none).flags.is_optional = false := hopt
  unfold asn1_get_der
  simp only [hopt', Bool.false_eq_true, if_false]
  by_cases hs : d.type = TYPE_SEQUENCE
  · simp only [hs, if_true, Bool.and_eq_true] at hnode
    rw [if_pos hs]
    obtain ⟨hne, hwd⟩ := hnode
    cases dn with
    | nil => simp at hne
    | node d1 dn1 rt1 =>
      have henc : der_encoding (AsnNode.node d (AsnNode.node d1 dn1 rt1) AsnNode.nil)
          = [0x30] ++ (_asn1_length_der (der_encoding (AsnNode.node d1 dn1 rt1)).length).1
              ++ der_encoding (AsnNode.node d1 dn1 rt1) := by
        simp [der_encoding, hs]
      have hturns : walk_turns (AsnNode.node d (AsnNode.node d1 dn1 rt1) AsnNode.nil) + fuel
          = (walk_turns (AsnNode.node d1 dn1 rt1) + (fuel + 1)) + 1 := by
        simp only [walk_turns, hs, if_true]
        omega
      rw [henc] at hlen ⊢
      generalize hE : der_encoding (AsnNode.node d1 dn1 rt1) = E at hlen ⊢
      generalize hT : (_asn1_length_der E.length).1 = T at hlen ⊢
      simp only [List.length_append, List.length_singleton] at hlen
      generalize hder : [0x30] ++ T ++ E ++ Z = der
      have hopen := get_der_body_open (_ksba_asn_set_value d none)
        (value_less (AsnNode.node d1 dn1 rt1)) rt c DOWN [] E Z
        (by simp) hd hs (by rw [hT]; simp only [List.length_nil]; omega)
      rw [hT, set_value_set_value] at hopen
      simp only [List.nil_append, List.length_nil, Nat.zero_add] at hopen
      rw [hder] at hopen
      have hturn1 : get_der_turn der c.pos
          ⟨⟨_ksba_asn_set_value d none, value_less (AsnNode.node d1 dn1 rt1), rt, c⟩,
            DOWN, 0⟩
          = some (get_turn.next ⟨⟨_ksba_asn_set_value d1 none, value_less dn1, value_less rt1,
              Ctx.under (_ksba_asn_set_value d (some (_asn1_ltostr
                ((1 + T.length + E.length : Nat) : Int) ++ [0]))) rt c⟩,
              DOWN, 1 + T.length⟩) := by
        unfold get_der_turn
        rw [hopen]
        simp [value_less, walk_advance_down_node]
      rw [hturns, get_der_loop_succ, hturn1]
      dsimp only
      have h1 := get_der_chain c.pos (AsnNode.node d1 dn1 rt1) hwd
        ⟨_ksba_asn_set_value d1 none, value_less dn1, value_less rt1,
          Ctx.under (_ksba_asn_set_value d (some (_asn1_ltostr
            ((1 + T.length + E.length : Nat) : Int) ++ [0]))) rt c⟩
        (Ctx.under (_ksba_asn_set_value d (some (_asn1_ltostr
            ((1 + T.length + E.length : Nat) : Int) ++ [0]))) rt c)
        DOWN ([0x30] ++ T) Z (fuel + 1)
        ⟨_ksba_asn_set_value d (some (_asn1_ltostr
            ((1 + T.length + E.length : Nat) : Int) ++ [0])),
          clear_seq_values (AsnNode.node d1 dn1 rt1), rt, c⟩ rfl (by simp)
        (by simp only [Ctx.pos, List.length_cons]; omega)
        (by simp only [List.length_append, List.length_singleton, hE]; omega) rfl
      simp only [List.length_append, List.length_singleton, hE, hder] at h1
      rw [h1, get_der_loop_succ]
      have hclose := get_der_body_close der
        (_ksba_asn_set_value d (some (_asn1_ltostr
            ((1 + T.length + E.length : Nat) : Int) ++ [0])))
        (clear_seq_values (AsnNode.node d1 dn1 rt1)) rt c
        (1 + T.length + E.length) hs rfl (by omega)
      rw [set_value_set_value] at hclose
      have hnu' : (_ksba_asn_set_value d none).flags.is_not_used = false := hnu
      unfold get_der_turn
      rw [hclose]
      simp only [ne_eq, reduceCtorEq, not_false_eq_true, and_self, if_true,
        _ksba_asn_delete_not_used, hnu', Bool.false_eq_true, if_false,
        delete_not_used_clear _ hwd, List.length_append, List.length_singleton]
  · simp only [hs, if_false, Bool.and_eq_true] at hnode
    rw [if_neg hs]
    obtain ⟨hl, hdn⟩ := hnode
    cases dn with
    | node d1 dn1 rt1 => simp at hdn
    | nil =>
      obtain ⟨e, he⟩ := round_trip_leaf_encoding d hl
      have henc : der_encoding (AsnNode.node d AsnNode.nil AsnNode.nil) = e := by
        simp [der_encoding, hs, he]
      have hturns : walk_turns (AsnNode.node d AsnNode.nil AsnNode.nil) + fuel = fuel + 1 := by
        simp only [walk_turns, hs, if_false]
        omega
      have hbody := get_der_body_leaf d AsnNode.nil rt c DOWN [] Z e (by simp) hd hl he
        (by rw [henc] at hlen; simp only [List.length_nil]; omega)
      simp only [List.nil_append, List.length_nil, Nat.zero_add] at hbody
      rw [henc, hturns, get_der_loop_succ]
      unfold get_der_turn
      simp only [value_less]
      rw [hbody]
      simp [_ksba_asn_delete_not_used, hnu, delete_not_used_chain, clear_seq_values]

/-! ## Theorems: the claims on the walkers -/

/-- C1. Round trip of encode then decode: for every tree `T` made of (possibly
nested) SEQUENCE nodes whose leaves are mandatory, untagged NULL, BOOLEAN
(value `"T"` or `"F"`), INTEGER and OCTET STRING nodes (values stored as
length octets followed by content; every SEQUENCE has a child; the encoding is
shorter than `2^31` bytes, the range of the `int` offsets), `asn1_create_der`
returns `ASN_OK`, and `asn1_get_der` applied to a value-less structural clone
`T'` and the bytes produced (whatever follows them in memory) returns `ASN_OK`
and leaves every leaf of `T'` with the value of the corresponding leaf of
`T`. -/
theorem C1_round_trip (d : node_data) (dn rt : AsnNode) (c : Ctx) (rt' : AsnNode) (c' : Ctx)
    (hwf : round_trip_tree (AsnNode.node d dn AsnNode.nil) = true)
    (hlen : (der_encoding (AsnNode.node d dn AsnNode.nil)).length < 2 ^ 31)
    (der0 rest : List Nat) (fuel : Nat) :
    ∃ r n q,
      asn1_create_der (some ⟨d, dn, rt, c⟩) der0
          (walk_turns (AsnNode.node d dn AsnNode.nil) + fuel) = Run.ret r
      ∧ r.code = ASN_OK ∧ r.len = some n
      ∧ asn1_get_der (some ⟨_ksba_asn_set_value d none, value_less dn, rt', c'⟩)
          (r.der.take n ++ rest) n (walk_turns (AsnNode.node d dn AsnNode.nil) + fuel)
          = Run.ret ⟨ASN_OK, some q⟩
      ∧ same_leaf_values (AsnNode.node d dn AsnNode.nil) (AsnNode.node q.d q.down AsnNode.nil) := by
  have h63 := two_pow_31_lt_two_pow_63 _ hlen
  refine ⟨_, _, ⟨if d.type = TYPE_SEQUENCE then _ksba_asn_set_value d none else d,
      clear_seq_values dn, rt', c'⟩,
    create_der_tree d dn rt c (round_trip_tree_seq_tree _ hwf) h63 der0 fuel, rfl, rfl, ?_, ?_⟩
  · simp only [List.take_left]
    exact get_der_tree d dn rt' c' hwf hlen rest fuel
  · by_cases hs : d.type = TYPE_SEQUENCE
    · simp only [hs, if_true, same_leaf_values, _ksba_asn_set_value, ne_eq, not_true_eq_false,
        false_implies, true_and, and_true]
      exact same_leaf_values_clear dn
    · simp only [hs, if_false, same_leaf_values, ne_eq, not_false_eq_true, forall_const,
        true_and, and_true]
      exact same_leaf_values_clear dn

/-- The instance of C1 at a SEQUENCE of an INTEGER and a nested SEQUENCE of
a NULL, a BOOLEAN and an OCTET STRING, decoded with one more byte behind the
encoding. -/
theorem C1_round_trip_witness :
    round_trip_tree (AsnNode.node (plain_node TYPE_SEQUENCE none) nested_children AsnNode.nil)
        = true
    ∧ (der_encoding
        (AsnNode.node (plain_node TYPE_SEQUENCE none) nested_children AsnNode.nil)).length
        < 2 ^ 31
    ∧ ∃ r n q,
      asn1_create_der
          (some ⟨plain_node TYPE_SEQUENCE none, nested_children, AsnNode.nil, Ctx.top⟩) []
          (walk_turns (AsnNode.node (plain_node TYPE_SEQUENCE none) nested_children AsnNode.nil)
            + 0) = Run.ret r
      ∧ r.code = ASN_OK ∧ r.len = some n
      ∧ asn1_get_der
          (some ⟨_ksba_asn_set_value (plain_node TYPE_SEQUENCE none) none,
            value_less nested_children, AsnNode.nil, Ctx.top⟩)
          (r.der.take n ++ [0x55]) n
          (walk_turns (AsnNode.node (plain_node TYPE_SEQUENCE none) nested_children AsnNode.nil)
            + 0)
          = Run.ret ⟨ASN_OK, some q⟩
      ∧ same_leaf_values
          (AsnNode.node (plain_node TYPE_SEQUENCE none) nested_children AsnNode.nil)
          (AsnNode.node q.d q.down AsnNode.nil) :=
  ⟨by decide, by decide,
    C1_round_trip _ _ AsnNode.nil Ctx.top AsnNode.nil Ctx.top (by decide) (by decide)
      [] [0x55] 0⟩

/-! ## Concrete trees -/

set_option maxRecDepth 100000 in
/-- The instance of C2 at a SEQUENCE whose content is 140 bytes long, so
that its length takes the long form `81 8C`. -/
theorem C2_length_self_consistency_witness :
    seq_tree (AsnNode.node (plain_node TYPE_SEQUENCE none) long_children AsnNode.nil) = true
    ∧ (der_encoding
        (AsnNode.node (plain_node TYPE_SEQUENCE none) long_children AsnNode.nil)).length
        < 2 ^ 31
    ∧ ∃ r, asn1_create_der
          (some ⟨plain_node TYPE_SEQUENCE none, long_children, AsnNode.nil, Ctx.top⟩) []
          (walk_turns (AsnNode.node (plain_node TYPE_SEQUENCE none) long_children AsnNode.nil)
            + 0) = Run.ret r
      ∧ r.code = ASN_OK
      ∧ r.len = some (der_encoding
          (AsnNode.node (plain_node TYPE_SEQUENCE none) long_children AsnNode.nil)).length
      ∧ r.der.take (der_encoding
          (AsnNode.node (plain_node TYPE_SEQUENCE none) long_children AsnNode.nil)).length
          = der_encoding
              (AsnNode.node (plain_node TYPE_SEQUENCE none) long_children AsnNode.nil)
      ∧ laid_out (AsnNode.node (plain_node TYPE_SEQUENCE none) long_children AsnNode.nil)
          (der_encoding
            (AsnNode.node (plain_node TYPE_SEQUENCE none) long_children AsnNode.nil)) :=
  ⟨by decide, by decide,
    C2_length_self_consistency _ _ AsnNode.nil Ctx.top (by decide) (by decide) [] 0⟩

theorem create_der_loop_more_fuel (node : List Bool) (k : Nat) (r : create_der_result) :
    ∀ (fuel : Nat) (s : walk_state), create_der_loop node fuel s = Run.ret r →
      create_der_loop node (fuel + k) s = Run.ret r := by
  intro fuel
  induction fuel with
  | zero => intro s h; simp [create_der_loop] at h
  | succ n ih =>
    intro s h
    have e : n + 1 + k = (n + k) + 1 := by omega
    rw [e, create_der_loop_succ]
    rw [create_der_loop_succ] at h
    cases ht : create_der_turn node s with
    | none => rw [ht] at h; exact h
    | some x =>
      rw [ht] at h
      cases x with
      | inl s1 => exact ih s1 h
      | inr s1 => exact h

theorem create_der_two_integers (der0 : List Nat) (fuel : Nat) :
    asn1_create_der (some ⟨plain_node TYPE_SEQUENCE none, two_integers, AsnNode.nil, Ctx.top⟩)
        der0 (4 + fuel)
      = Run.ret ⟨ASN_OK,
          some ⟨plain_node TYPE_SEQUENCE none, two_integers, AsnNode.nil, Ctx.top⟩,
          [0x30, 0x07, 0x02, 0x01, 0x01, 0x02, 0x02, 0x01, 0x00] ++ der0.drop 9, some 9⟩ :=
  create_der_tree (plain_node TYPE_SEQUENCE none) two_integers AsnNode.nil Ctx.top (by decide)
    (by decide) der0 fuel

/-- C9, as the code has it. `asn1_create_der` on a SEQUENCE with two INTEGER
children holding 1 and 256 (stored values `01 01` and `02 01 00`) returns
`ASN_OK` with output length 9 and output bytes `30 07 02 01 01 02 02 01 00`:
the length octet is 7, the byte count of the two children. -/
theorem C9_sequence_of_two_integers (der0 : List Nat) (fuel : Nat) :
    ∃ r, asn1_create_der
          (some ⟨plain_node TYPE_SEQUENCE none, two_integers, AsnNode.nil, Ctx.top⟩) der0
          (4 + fuel) = Run.ret r
      ∧ r.code = ASN_OK ∧ r.len = some 9
      ∧ r.der.take 9 = [0x30, 0x07, 0x02, 0x01, 0x01, 0x02, 0x02, 0x01, 0x00] :=
  ⟨_, create_der_two_integers der0 fuel, rfl, rfl, by simp⟩

/-- C9 as stated fails: whatever the buffer and the number of turns allowed,
`asn1_create_der` on the SEQUENCE of the INTEGERs 1 and 256 does not return
the bytes `30 06 02 01 01 02 02 01 00`. -/
theorem C9_counterexample :
    ¬ ∃ der0 fuel r, asn1_create_der
          (some ⟨plain_node TYPE_SEQUENCE none, two_integers, AsnNode.nil, Ctx.top⟩) der0
          fuel = Run.ret r
      ∧ r.code = ASN_OK ∧ r.len = some 9
      ∧ r.der.take 9 = [0x30, 0x06, 0x02, 0x01, 0x01, 0x02, 0x02, 0x01, 0x00] := by
  rintro ⟨der0, fuel, r, h, -, -, hd⟩
  have h0 : create_der_loop [] fuel
      ⟨⟨plain_node TYPE_SEQUENCE none, two_integers, AsnNode.nil, Ctx.top⟩, DOWN, 0, der0⟩
      = Run.ret r := h
  have h1 := create_der_loop_more_fuel [] 4 r fuel _ h0
  have h2 := create_der_two_integers der0 fuel
  rw [Nat.add_comm 4 fuel] at h2
  have h3 : Run.ret r = Run.ret _ := h1.symm.trans h2
  injection h3 with h3
  subst h3
  simp at hd

theorem get_der_loop_more_fuel (der : List Nat) (node : List Bool) (k : Nat)
    (r : asn_code ⊕ get_state) :
    ∀ (fuel : Nat) (s : get_state), get_der_loop der node fuel s = Run.ret r →
      get_der_loop der node (fuel + k) s = Run.ret r := by
  intro fuel
  induction fuel with
  | zero => intro s h; simp [get_der_loop] at h
  | succ n ih =>
    intro s h
    have e : n + 1 + k = (n + k) + 1 := by omega
    rw [e, get_der_loop_succ]
    rw [get_der_loop_succ] at h
    cases ht : get_der_turn der node s with
    | none => rw [ht] at h; exact h
    | some x =>
      rw [ht] at h
      cases x with
      | next s1 => exact ih s1 h
      | brk s1 => exact h
      | stop code s1 => exact h

theorem get_der_oid_loop :
    get_der_loop [0x06, 0x09, 0x2A, 0x86, 0x48, 0x86, 0xF7, 0x0D, 0x01, 0x01, 0x0B] [] 1
        ⟨⟨plain_node TYPE_OBJECT_ID none, AsnNode.nil, AsnNode.nil, Ctx.top⟩, DOWN, 0⟩
      = Run.ret (Sum.inr
          ⟨⟨plain_node TYPE_OBJECT_ID (some oid_string), AsnNode.nil, AsnNode.nil, Ctx.top⟩,
            RIGHT, 11⟩) := by
  decide

/-- C10. `asn1_create_der` on an OBJECT_ID node whose value is the string
"1 2 840 113549 1 1 11" returns `ASN_OK`, length 11 and the bytes
`06 09 2A 86 48 86 F7 0D 01 01 0B`, and `asn1_get_der` of those eleven bytes
into an OBJECT_ID node without a value returns `ASN_OK` and leaves the node
with the string "1 2 840 113549 1 1 11" as its value. -/
theorem C10_oid_round_trip (der0 : List Nat) (fuel : Nat) :
    asn1_create_der
        (some ⟨plain_node TYPE_OBJECT_ID (some oid_string), AsnNode.nil, AsnNode.nil, Ctx.top⟩)
        der0 (1 + fuel)
      = Run.ret ⟨ASN_OK,
          some ⟨plain_node TYPE_OBJECT_ID (some oid_string), AsnNode.nil, AsnNode.nil, Ctx.top⟩,
          [0x06, 0x09, 0x2A, 0x86, 0x48, 0x86, 0xF7, 0x0D, 0x01, 0x01, 0x0B] ++ der0.drop 11,
          some 11⟩
    ∧ asn1_get_der
        (some ⟨plain_node TYPE_OBJECT_ID none, AsnNode.nil, AsnNode.nil, Ctx.top⟩)
        [0x06, 0x09, 0x2A, 0x86, 0x48, 0x86, 0xF7, 0x0D, 0x01, 0x01, 0x0B] 11 (1 + fuel)
      = Run.ret ⟨ASN_OK,
          some ⟨plain_node TYPE_OBJECT_ID (some oid_string), AsnNode.nil, AsnNode.nil,
            Ctx.top⟩⟩ := by
  constructor
  · exact create_der_tree (plain_node TYPE_OBJECT_ID (some oid_string)) AsnNode.nil AsnNode.nil
      Ctx.top (by decide) (by decide) der0 fuel
  · have h : get_der_loop [0x06, 0x09, 0x2A, 0x86, 0x48, 0x86, 0xF7, 0x0D, 0x01, 0x01, 0x0B]
        Ctx.top.pos (1 + fuel)
        ⟨⟨plain_node TYPE_OBJECT_ID none, AsnNode.nil, AsnNode.nil, Ctx.top⟩, DOWN, 0⟩ = _ :=
      get_der_loop_more_fuel _ _ fuel _ 1 _ get_der_oid_loop
    unfold asn1_get_der
    dsimp only
    rw [h]
    rfl

/-- C3. A SET holding an OCTET STRING `04 02 AA BB` followed by an INTEGER
`02 01 05`: `_asn1_ordering_set` swaps the two but copies the OCTET STRING to
the old boundary (offset 4) instead of behind the moved INTEGER (offset 3), so
the content comes out as `02 01 05 BB 04 02 AA`, with a byte written past the
seven bytes of the content; `asn1_create_der` returns `31 07 02 01 05 BB 04
02 AA`, not the INTEGER followed by the intact OCTET STRING. -/
theorem C3_set_ordering_breaks_elements :
    _asn1_ordering_set [0x04, 0x02, 0xAA, 0xBB, 0x02, 0x01, 0x05]
        ⟨plain_node TYPE_SET none, octet_then_integer, AsnNode.nil, Ctx.top⟩
      = some [0x02, 0x01, 0x05, 0xBB, 0x04, 0x02, 0xAA, 0xBB]
    ∧ asn1_create_der
        (some ⟨plain_node TYPE_SET none, octet_then_integer, AsnNode.nil, Ctx.top⟩) [] 4
      = Run.ret ⟨ASN_OK,
          some ⟨plain_node TYPE_SET none, octet_then_integer, AsnNode.nil, Ctx.top⟩,
          [0x31, 0x07, 0x02, 0x01, 0x05, 0xBB, 0x04, 0x02, 0xAA], some 9⟩
    ∧ [0x02, 0x01, 0x05, 0xBB, 0x04, 0x02, 0xAA]
      ≠ [0x02, 0x01, 0x05] ++ [0x04, 0x02, 0xAA, 0xBB] := by
  decide

/-- C4. A SET OF OCTET STRING with the elements `04 02 AA BB` and `04 01 05`:
`_asn1_ordering_set_of` swaps the two but copies the first to the old boundary
(offset 4) instead of behind the moved second element (offset 3), so the
content comes out as `04 01 05 BB 04 02 AA`, with a byte written past the
seven bytes of the content; `asn1_create_der` returns `31 07 04 01 05 BB 04
02 AA`, in which the element `04 02 AA BB` is no longer intact. -/
theorem C4_set_of_ordering_breaks_elements :
    _asn1_ordering_set_of [0x04, 0x02, 0xAA, 0xBB, 0x04, 0x01, 0x05]
        ⟨plain_node TYPE_SET_OF none, two_octet_strings, AsnNode.nil, Ctx.top⟩
      = some [0x04, 0x01, 0x05, 0xBB, 0x04, 0x02, 0xAA, 0xBB]
    ∧ asn1_create_der
        (some ⟨plain_node TYPE_SET_OF none, two_octet_strings, AsnNode.nil, Ctx.top⟩) [] 5
      = Run.ret ⟨ASN_OK,
          some ⟨plain_node TYPE_SET_OF none, two_octet_strings, AsnNode.nil, Ctx.top⟩,
          [0x31, 0x07, 0x04, 0x01, 0x05, 0xBB, 0x04, 0x02, 0xAA], some 9⟩
    ∧ [0x04, 0x01, 0x05, 0xBB, 0x04, 0x02, 0xAA]
      ≠ [0x04, 0x01, 0x05] ++ [0x04, 0x02, 0xAA, 0xBB] := by
  decide

/-- C20. An INTEGER holding 5 under two explicit context tags `[1]` and
`[2]`: `asn1_create_der` returns `A1 04 04 A2 02 01 05`. The length octets of
both wrappers are worked out and put in from the outermost wrapper inwards, so
the outer length (4) misses the length octet of the inner wrapper, which then
goes in at the offset noted before the outer length octet moved the bytes,
ahead of the inner tag `A2`. The wrappers with the right lengths are
`A1 05 A2 03 02 01 05`, which `asn1_get_der` takes and reads back as 5, while
it rejects the bytes the encoder produced. With one explicit tag the encoder
returns `A1 03 02 01 05`. -/
theorem C20_two_explicit_tags :
    asn1_create_der (some ⟨tagged_integer, two_tags, AsnNode.nil, Ctx.top⟩) [] 1
      = Run.ret ⟨ASN_OK, some ⟨tagged_integer, two_tags, AsnNode.nil, Ctx.top⟩,
          [0xA1, 0x04, 0x04, 0xA2, 0x02, 0x01, 0x05], some 7⟩
    ∧ asn1_get_der
        (some ⟨_ksba_asn_set_value tagged_integer none, two_tags, AsnNode.nil, Ctx.top⟩)
        [0xA1, 0x05, 0xA2, 0x03, 0x02, 0x01, 0x05] 7 1
      = Run.ret ⟨ASN_OK, some ⟨tagged_integer, two_tags, AsnNode.nil, Ctx.top⟩⟩
    ∧ asn1_get_der
        (some ⟨_ksba_asn_set_value tagged_integer none, two_tags, AsnNode.nil, Ctx.top⟩)
        [0xA1, 0x04, 0x04, 0xA2, 0x02, 0x01, 0x05] 7 1
      = Run.ret ⟨ASN_TAG_ERROR, none⟩
    ∧ asn1_create_der (some ⟨tagged_integer, one_tag, AsnNode.nil, Ctx.top⟩) [] 1
      = Run.ret ⟨ASN_OK, some ⟨tagged_integer, one_tag, AsnNode.nil, Ctx.top⟩,
          [0xA1, 0x03, 0x02, 0x01, 0x05], some 5⟩ := by
  decide

/-- C16. A SEQUENCE of an INTEGER and an optional CHOICE (of a NULL and a
BOOLEAN), decoded from `30 03 02 01 01`, the encoding that holds the INTEGER
alone (one more byte, `55`, lies behind it in memory): the CHOICE part of the
turn comes before the test for optional nodes, finds no alternative with a
matching tag and returns `ASN_DER_ERROR`, so the absence of the optional
CHOICE is an error. With an optional INTEGER in its place the same bytes give
`ASN_OK` and the optional child is taken out of the tree. -/
theorem C16_optional_choice_absent :
    asn1_get_der
        (some ⟨plain_node TYPE_SEQUENCE none, integer_optional_choice, AsnNode.nil, Ctx.top⟩)
        [0x30, 0x03, 0x02, 0x01, 0x01, 0x55] 5 3
      = Run.ret ⟨ASN_DER_ERROR, none⟩
    ∧ asn1_get_der
        (some ⟨plain_node TYPE_SEQUENCE none, integer_optional_integer, AsnNode.nil, Ctx.top⟩)
        [0x30, 0x03, 0x02, 0x01, 0x01, 0x55] 5 4
      = Run.ret ⟨ASN_OK,
          some ⟨plain_node TYPE_SEQUENCE none,
            AsnNode.node (plain_node TYPE_INTEGER (some [1, 1])) AsnNode.nil AsnNode.nil,
            AsnNode.nil, Ctx.top⟩⟩ := by
  decide

/-! ## Theorems: the error returns of the decoder -/

theorem asn1_get_der_of_return (root : Loc) (der : List Nat) (len fuel : Nat) (code : asn_code)
    (hopt : root.d.flags.is_optional = false)
    (hrun : get_der_loop der root.ctx.pos fuel ⟨root, DOWN, 0⟩ = Run.ret (Sum.inl code)) :
    asn1_get_der (some root) der len fuel = Run.ret ⟨code, none⟩ := by
  unfold asn1_get_der
  simp only [hopt, Bool.false_eq_true, if_false, hrun]

theorem asn1_get_der_of_break (root : Loc) (der : List Nat) (len fuel : Nat) (s : get_state)
    (hopt : root.d.flags.is_optional = false)
    (hrun : get_der_loop der root.ctx.pos fuel ⟨root, DOWN, 0⟩ = Run.ret (Sum.inr s)) :
    asn1_get_der (some root) der len fuel
      = Run.ret ⟨if s.counter = len then ASN_OK else ASN_DER_ERROR,
          _ksba_asn_delete_not_used s.p⟩ := by
  unfold asn1_get_der
  simp only [hopt, Bool.false_eq_true, if_false, hrun]

theorem mandatory_untagged_flags (d : node_data) (h : mandatory_untagged d = true) :
    d.flags.has_tag = false ∧ d.flags.is_optional = false ∧ d.flags.is_default = false
      ∧ d.flags.is_set = false ∧ d.flags.is_not_used = false := by
  simp only [mandatory_untagged, Bool.and_eq_true, Bool.not_eq_true'] at h
  obtain ⟨⟨⟨⟨h1, h2⟩, h3⟩, h4⟩, h5⟩ := h
  exact ⟨h1, h2, h3, h4, h5⟩

/-- The first part of a turn of the decoder on a mandatory untagged NULL node. -/
theorem get_der_body_null (d : node_data) (dn rt : AsnNode) (c : Ctx) (b : Nat) (rest : List Nat)
    (hd : d.type = TYPE_NULL) (hm : mandatory_untagged d = true) :
    get_der_body (0x05 :: b :: rest) ⟨⟨d, dn, rt, c⟩, DOWN, 0⟩
      = get_der_switch (0x05 :: b :: rest) ⟨⟨d, dn, rt, c⟩, DOWN, 1⟩ := by
  have hu : universal_tag d = some ([0x05], 1) := by
    simp only [universal_tag, hd]; rfl
  have he : expected_universal d = some (UNIVERSAL, TAG_NULL) := by
    simp only [expected_universal, hd]
  have := get_der_body_enter d dn rt c DOWN [] (b :: rest) ([0x05], 1) (UNIVERSAL, TAG_NULL)
    (by decide) hm hu he
  simpa using this

/-- C19. NULL decoding: `asn1_get_der` of the two bytes `05 00` into a
mandatory untagged NULL node returns `ASN_OK`, and for every input that starts
with the tag `05` followed by a non-zero octet `b` (whatever follows, whatever
length is supplied) it returns `ASN_DER_ERROR`. -/
theorem C19_null_decoding (d : node_data) (dn rt : AsnNode) (c : Ctx) (b : Nat)
    (rest : List Nat) (len fuel : Nat)
    (hd : d.type = TYPE_NULL) (hm : mandatory_untagged d = true) (hb : b ≠ 0) :
    asn1_get_der (some ⟨d, dn, rt, c⟩) [0x05, 0x00] 2 (fuel + 1)
        = Run.ret ⟨ASN_OK, some ⟨d, delete_not_used_chain dn, rt, c⟩⟩
    ∧ asn1_get_der (some ⟨d, dn, rt, c⟩) (0x05 :: b :: rest) len (fuel + 1)
        = Run.ret ⟨ASN_DER_ERROR, none⟩ := by
  obtain ⟨-, hopt, -, -, hnu⟩ := mandatory_untagged_flags d hm
  constructor
  · have hbody := get_der_body_null d dn rt c 0 [] hd hm
    have hrun : get_der_loop [0x05, 0x00] (Loc.mk d dn rt c).ctx.pos (fuel + 1)
        ⟨⟨d, dn, rt, c⟩, DOWN, 0⟩ = Run.ret (Sum.inr ⟨⟨d, dn, rt, c⟩, RIGHT, 2⟩) := by
      rw [get_der_loop_succ]
      simp [get_der_turn, hbody, get_der_switch, hd, rd]
    rw [asn1_get_der_of_break _ _ _ _ _ hopt hrun]
    simp [_ksba_asn_delete_not_used, hnu]
  · have hbody := get_der_body_null d dn rt c b rest hd hm
    have hrun : get_der_loop (0x05 :: b :: rest) (Loc.mk d dn rt c).ctx.pos (fuel + 1)
        ⟨⟨d, dn, rt, c⟩, DOWN, 0⟩ = Run.ret (Sum.inl ASN_DER_ERROR) := by
      rw [get_der_loop_succ]
      simp [get_der_turn, hbody, get_der_switch, hd, rd, hb]
    exact asn1_get_der_of_return _ _ _ _ _ hopt hrun

/-- The instance of C19 at the bytes `05 01 00`. -/
theorem C19_null_decoding_witness :
    asn1_get_der (some ⟨plain_node TYPE_NULL none, AsnNode.nil, AsnNode.nil, Ctx.top⟩)
        [0x05, 0x00] 2 (0 + 1)
        = Run.ret ⟨ASN_OK,
            some ⟨plain_node TYPE_NULL none, delete_not_used_chain AsnNode.nil, AsnNode.nil,
              Ctx.top⟩⟩
    ∧ asn1_get_der (some ⟨plain_node TYPE_NULL none, AsnNode.nil, AsnNode.nil, Ctx.top⟩)
        (0x05 :: 1 :: [0x00]) 3 (0 + 1)
        = Run.ret ⟨ASN_DER_ERROR, none⟩ :=
  C19_null_decoding (plain_node TYPE_NULL none) AsnNode.nil AsnNode.nil Ctx.top 1 [0x00] 3 0
    rfl (by decide) (by decide)

/-- C18. BOOLEAN codec: `asn1_create_der` on an untagged BOOLEAN node with a
stored value emits `01 01 00` when the value begins with `F` and `01 01 FF`
for any other stored value; and for every octet `w`, `asn1_get_der` of
`01 01 w` into a mandatory untagged BOOLEAN node returns `ASN_OK` and sets the
value to `"F"` when `w = 0` and to `"T"` for every other `w`. -/
theorem C18_boolean_codec (d : node_data) (dn rt : AsnNode) (c : Ctx) (v : List Nat) (w : Nat)
    (der0 : List Nat) (fuel : Nat)
    (hd : d.type = TYPE_BOOLEAN) (hm : mandatory_untagged d = true) (hv : d.value = some v) :
    asn1_create_der (some ⟨d, dn, rt, c⟩) der0 (1 + fuel)
        = Run.ret ⟨ASN_OK, some ⟨d, dn, rt, c⟩,
            [0x01, 0x01, if rd v 0 = 70 then 0x00 else 0xFF] ++ der0.drop 3, some 3⟩
    ∧ asn1_get_der (some ⟨d, dn, rt, c⟩) [0x01, 0x01, w] 3 (fuel + 1)
        = Run.ret ⟨ASN_OK,
            some ⟨_ksba_asn_set_value d (some (if w = 0 then [70] else [84])),
              delete_not_used_chain dn, rt, c⟩⟩ := by
  obtain ⟨htag, hopt, -, -, hnu⟩ := mandatory_untagged_flags d hm
  have hu : universal_tag d = some ([0x01], 1) := by
    simp only [universal_tag, hd]; rfl
  have he : expected_universal d = some (UNIVERSAL, TAG_BOOLEAN) := by
    simp only [expected_universal, hd]
  constructor
  · have henc : der_encoding (AsnNode.node d dn AsnNode.nil)
        = [0x01, 0x01, if rd v 0 = 70 then 0x00 else 0xFF] := by
      simp [der_encoding, hd, leaf_encoding, hu, leaf_content, hv]
    have hwf : seq_tree (AsnNode.node d dn AsnNode.nil) = true := by
      simp [seq_tree, htag, hd, leaf_encoding, hu, leaf_content, hv]
    have h := create_der_tree d dn rt c hwf (by rw [henc]; simp) der0 fuel
    rw [henc] at h
    simpa [walk_turns, hd] using h
  · have hbody := get_der_body_enter d dn rt c DOWN [] [0x01, w] ([0x01], 1)
      (UNIVERSAL, TAG_BOOLEAN) (by decide) hm hu he
    have hbody' : get_der_body [0x01, 0x01, w] ⟨⟨d, dn, rt, c⟩, DOWN, 0⟩
        = get_der_switch [0x01, 0x01, w] ⟨⟨d, dn, rt, c⟩, DOWN, 1⟩ := by
      simpa using hbody
    have hrun : get_der_loop [0x01, 0x01, w] (Loc.mk d dn rt c).ctx.pos (fuel + 1)
        ⟨⟨d, dn, rt, c⟩, DOWN, 0⟩
        = Run.ret (Sum.inr ⟨⟨_ksba_asn_set_value d (some (if w = 0 then [70] else [84])),
            dn, rt, c⟩, RIGHT, 3⟩) := by
      rw [get_der_loop_succ]
      simp [get_der_turn, hbody', get_der_switch, hd, rd, _ksba_asn_set_value]
    rw [asn1_get_der_of_break _ _ _ _ _ hopt hrun]
    simp [_ksba_asn_delete_not_used, hnu, _ksba_asn_set_value]

/-- The instance of C18 at a BOOLEAN node holding `"T"` and the octet `55`. -/
theorem C18_boolean_codec_witness :
    asn1_create_der
        (some ⟨plain_node TYPE_BOOLEAN (some [84]), AsnNode.nil, AsnNode.nil, Ctx.top⟩) []
        (1 + 0)
        = Run.ret ⟨ASN_OK,
            some ⟨plain_node TYPE_BOOLEAN (some [84]), AsnNode.nil, AsnNode.nil, Ctx.top⟩,
            [0x01, 0x01, if rd [84] 0 = 70 then 0x00 else 0xFF] ++ ([] : List Nat).drop 3,
            some 3⟩
    ∧ asn1_get_der
        (some ⟨plain_node TYPE_BOOLEAN (some [84]), AsnNode.nil, AsnNode.nil, Ctx.top⟩)
        [0x01, 0x01, 0x55] 3 (0 + 1)
        = Run.ret ⟨ASN_OK,
            some ⟨_ksba_asn_set_value (plain_node TYPE_BOOLEAN (some [84]))
                (some (if 0x55 = 0 then [70] else [84])),
              delete_not_used_chain AsnNode.nil, AsnNode.nil, Ctx.top⟩⟩ :=
  C18_boolean_codec (plain_node TYPE_BOOLEAN (some [84])) AsnNode.nil AsnNode.nil Ctx.top [84]
    0x55 [] 0 rfl (by decide) rfl

/-- An untagged node of a type with a universal tag: when the identifier
octets at the read position carry another class or tag number,
`_asn1_extract_tag_der` reports `ASN_DER_ERROR`. -/
theorem extract_tag_der_universal_mismatch (d : node_data) (down : AsnNode) (der : List Nat)
    (e : Nat × Nat) (htag : d.flags.has_tag = false) (he : expected_universal d = some e)
    (hne : (_asn1_get_tag_der der).2.1 ≠ e.1 ∨ (_asn1_get_tag_der der).1 ≠ e.2) :
    _asn1_extract_tag_der d down der = some (ASN_DER_ERROR, 0) := by
  obtain ⟨-, h2, h3⟩ := expected_universal_type d e he
  simp [_asn1_extract_tag_der, htag, h2, h3, he, hne]

/-- C13. Decode rejects stray bytes: whenever the loop of `asn1_get_der` ends
through its `break` (the walker finishes without an earlier `return`) having
consumed `s.counter` bytes, `asn1_get_der` returns `ASN_OK` if and only if
`s.counter` equals the supplied length `len`, and `ASN_DER_ERROR` otherwise. -/
theorem C13_stray_bytes (root : Loc) (der : List Nat) (len fuel : Nat) (s : get_state)
    (hopt : root.d.flags.is_optional = false)
    (hrun : get_der_loop der root.ctx.pos fuel ⟨root, DOWN, 0⟩ = Run.ret (Sum.inr s)) :
    ∃ r, asn1_get_der (some root) der len fuel = Run.ret r
      ∧ (r.code = ASN_OK ↔ s.counter = len)
      ∧ (s.counter ≠ len → r.code = ASN_DER_ERROR) := by
  refine ⟨_, asn1_get_der_of_break root der len fuel s hopt hrun, ?_, ?_⟩
  · by_cases h : s.counter = len <;> simp [h]
  · intro h
    simp [h]

/-- The instance of C13 at the bytes `05 00 00` with length 3 and a NULL
node: two bytes are consumed and the result is `ASN_DER_ERROR`. -/
theorem C13_stray_bytes_witness :
    ∃ r, asn1_get_der (some ⟨plain_node TYPE_NULL none, AsnNode.nil, AsnNode.nil, Ctx.top⟩)
          [0x05, 0x00, 0x00] 3 1 = Run.ret r
      ∧ (r.code = ASN_OK ↔ 2 = 3)
      ∧ (2 ≠ 3 → r.code = ASN_DER_ERROR) :=
  C13_stray_bytes ⟨plain_node TYPE_NULL none, AsnNode.nil, AsnNode.nil, Ctx.top⟩
    [0x05, 0x00, 0x00] 3 1
    ⟨⟨plain_node TYPE_NULL none, AsnNode.nil, AsnNode.nil, Ctx.top⟩, RIGHT, 2⟩ rfl (by decide)
/-! ## Theorems: OBJECT IDENTIFIER strings -/

theorem ltostr_temp_eq_digits (fuel n : Nat) (h : n < 10 ^ fuel) (h0 : 0 < n) :
    ltostr_temp fuel n = (Nat.digits 10 n).map (fun d => 48 + d) := by
  induction fuel generalizing n with
  | zero =>
    simp at h
    omega
  | succ f ih =>
    rw [Nat.digits_def' (by norm_num) h0]
    unfold ltostr_temp
    have e : n - n / 10 * 10 = n % 10 := by omega
    simp only [e, List.map_cons]
    by_cases hd : n / 10 = 0
    · simp [hd]
    · rw [if_neg hd, ih (n / 10) (by rw [pow_succ] at h; omega) (by omega)]

theorem ltostr_temp_zero (fuel : Nat) : ltostr_temp (fuel + 1) 0 = [48] := by
  simp [ltostr_temp]

theorem ltostr_temp_decimal (fuel n : Nat) (h : n < 10 ^ (fuel + 1)) :
    (ltostr_temp (fuel + 1) n).reverse = decimal n := by
  unfold decimal
  by_cases h0 : n = 0
  · subst h0
    simp [ltostr_temp]
  · rw [if_neg h0, ltostr_temp_eq_digits _ n h (by omega), List.map_reverse]

theorem ltostr_decimal (n : Nat) (h : n < 2 ^ 64) : _asn1_ltostr (n : Int) = decimal n := by
  have hn : ¬ ((n : Int) < 0) := by omega
  unfold _asn1_ltostr
  rw [if_neg hn, Int.toNat_ofNat]
  exact ltostr_temp_decimal 19 n (lt_trans h (by norm_num))

theorem decimal_digits (n : Nat) (h : n < 2 ^ 64) : ∀ c ∈ decimal n, 48 ≤ c ∧ c ≤ 57 := by
  rw [← ltostr_temp_decimal 19 n (lt_trans h (by norm_num))]
  intro c hc
  exact ltostr_temp_digits 20 n c (List.mem_reverse.mp hc)

theorem decimal_ne_nil (n : Nat) : decimal n ≠ [] := by
  unfold decimal
  by_cases h0 : n = 0
  · simp [h0]
  · rw [if_neg h0]
    simp [Nat.digits_ne_nil_iff_ne_zero, h0]

theorem str_digits_decimal (n : Nat) (h : n < 2 ^ 64) : str_digits (decimal n) 0 = n := by
  have h20 : n < 10 ^ 20 := lt_trans h (by norm_num)
  have := str_digits_ltostr_temp 20 n h20 0 []
  rw [ltostr_temp_decimal 19 n h20] at this
  simpa [str_digits] using this

theorem strtoul_decimal (n : Nat) (h : n < 2 ^ 64) : strtoul (decimal n) = n := by
  have hne := decimal_ne_nil n
  have hdig := decimal_digits n h
  have hsd := str_digits_decimal n h
  cases hl : decimal n with
  | nil => exact absurd hl hne
  | cons c cs =>
    rw [hl] at hdig hsd
    have hc := hdig c (List.mem_cons_self _ _)
    have hs : isspace c = false := by
      simp only [isspace, Bool.or_eq_false_iff, decide_eq_false_iff_not, Bool.and_eq_false_iff]
      omega
    have e : str_skip_space (c :: cs) = c :: cs := by
      simp [str_skip_space, hs]
    unfold strtoul
    rw [e]
    have h45 : c ≠ 45 := by omega
    have h43 : c ≠ 43 := by omega
    split
    · rename_i heq; injection heq with h1 _; exact absurd h1 h45
    · rename_i heq; injection heq with h1 _; exact absurd h1 h43
    · rw [hsd]
      have : n ≤ ULONG - 1 := by rw [ULONG_eq]; norm_num at h ⊢; omega
      exact Nat.min_eq_left this

/-- The loop of `strchr` cuts a piece without a blank off at the blank that
follows it. -/
theorem objectid_pieces_cut (ds rest acc : List Nat) (hds : ∀ c ∈ ds, c ≠ 32) :
    objectid_pieces (ds ++ 32 :: rest) acc = (acc.reverse ++ ds) :: objectid_pieces rest [] := by
  induction ds generalizing acc with
  | nil => simp [objectid_pieces]
  | cons d ds ih =>
    have hd : d ≠ 32 := hds d (List.mem_cons_self _ _)
    rw [List.cons_append, objectid_pieces, if_neg hd,
      ih (d :: acc) (fun c hc => hds c (List.mem_cons_of_mem _ hc))]
    simp

theorem decimal_no_blank (n : Nat) (h : n < 2 ^ 64) : ∀ c ∈ decimal n, c ≠ 32 := by
  intro c hc
  have := decimal_digits n h c hc
  omega

/-- The pieces of the text of an OBJECT IDENTIFIER, closed by a blank, are the
numerals of its arcs. -/
theorem objectid_pieces_oid_text (arcs : List Nat) (hne : arcs ≠ [])
    (h : ∀ v ∈ arcs, v < 2 ^ 64) :
    objectid_pieces (oid_text arcs ++ [32]) [] = arcs.map decimal := by
  induction arcs with
  | nil => exact absurd rfl hne
  | cons a rest ih =>
    have ha : a < 2 ^ 64 := h a (List.mem_cons_self _ _)
    cases rest with
    | nil =>
      rw [oid_text, objectid_pieces_cut _ _ _ (decimal_no_blank a ha)]
      simp [objectid_pieces]
    | cons b rest =>
      rw [oid_text, List.append_assoc, List.append_assoc, List.singleton_append,
        objectid_pieces_cut _ _ _ (decimal_no_blank a ha),
        ih (by simp) (fun v hv => h v (List.mem_cons_of_mem _ hv))]
      simp

theorem cstr_append_zero (s r : List Nat) (h : ∀ c ∈ s, c ≠ 0) : cstr (s ++ 0 :: r) = s := by
  induction s with
  | nil => simp [cstr]
  | cons c s ih =>
    have hc : c ≠ 0 := h c (List.mem_cons_self _ _)
    have := ih (fun x hx => h x (List.mem_cons_of_mem _ hx))
    simp only [cstr] at this ⊢
    rw [List.cons_append, List.takeWhile_cons_of_pos (by simpa using hc), this]

theorem oid_text_no_zero (arcs : List Nat) (h : ∀ v ∈ arcs, v < 2 ^ 64) :
    ∀ c ∈ oid_text arcs, c ≠ 0 := by
  induction arcs with
  | nil => simp [oid_text]
  | cons a rest ih =>
    have ha : a < 2 ^ 64 := h a (List.mem_cons_self _ _)
    have hrest := ih (fun v hv => h v (List.mem_cons_of_mem _ hv))
    cases rest with
    | nil =>
      intro c hc
      have := decimal_digits a ha c hc
      omega
    | cons b rest =>
      intro c hc
      simp only [oid_text, List.mem_append, List.mem_singleton] at hc
      rcases hc with (hc | hc) | hc
      · have := decimal_digits a ha c hc
        omega
      · omega
      · exact hrest c hc

set_option maxRecDepth 100000 in
theorem small_or_128 : ∀ b : Fin 128, b.val ||| 0x80 = b.val + 128 := by decide

theorem or_128_eq_add (b : Nat) (hb : b < 128) : b ||| 0x80 = b + 128 :=
  small_or_128 ⟨b, hb⟩

/-- A round of the loop of `_asn1_objectid_der` once an octet has been
written. -/
theorem objectid_arc_true (k v : Nat) :
    objectid_arc (k + 1) v true
      = (if k ≠ 0 then v / 128 ^ k % 128 + 128 else v % 128) :: objectid_arc k v true := by
  rw [objectid_arc]
  have e : (v >>> (k * 7)) &&& 0x7F = v / 128 ^ k % 128 := by
    rw [and_127_eq_mod, Nat.shiftRight_eq_div_pow, Nat.mul_comm, pow_mul]
    norm_num
  simp only [e, or_true, true_or, if_true]
  by_cases hk : k = 0
  · subst hk
    simp
  · simp only [hk, ne_eq, not_false_eq_true, if_true]
    rw [or_128_eq_add _ (Nat.mod_lt _ (by norm_num))]

theorem objectid_arc_false (k v : Nat) (hk : k ≠ 0) :
    objectid_arc (k + 1) v false
      = if v / 128 ^ k % 128 ≠ 0 then (v / 128 ^ k % 128 + 128) :: objectid_arc k v true
        else objectid_arc k v false := by
  rw [objectid_arc]
  have e : (v >>> (k * 7)) &&& 0x7F = v / 128 ^ k % 128 := by
    rw [and_127_eq_mod, Nat.shiftRight_eq_div_pow, Nat.mul_comm, pow_mul]
    norm_num
  simp only [e, hk, or_false, Bool.false_eq_true, false_or, ne_eq, not_false_eq_true, if_true]
  by_cases h0 : v / 128 ^ k % 128 = 0
  · simp [h0]
  · simp only [h0, not_false_eq_true, if_true]
    rw [or_128_eq_add _ (Nat.mod_lt _ (by norm_num))]

theorem objectid_arc_one (v : Nat) (first : Bool) : objectid_arc 1 v first = [v % 128] := by
  simp [objectid_arc, and_127_eq_mod]

theorem digits128_one (w : Nat) (h0 : 0 < w) (h : w < 128) : Nat.digits 128 w = [w] :=
  Nat.digits_of_lt 128 w (by omega) h

theorem digits128_step (w : Nat) (h0 : 128 ≤ w) :
    Nat.digits 128 w = (w % 128) :: Nat.digits 128 (w / 128) :=
  Nat.digits_def' (by norm_num) (by omega)

theorem digits128_two (w : Nat) (h0 : 128 ≤ w) (h : w < 128 ^ 2) :
    Nat.digits 128 w = [w % 128, w / 128] := by
  rw [digits128_step w h0, digits128_one (w / 128) (by omega) (by norm_num at h; omega)]

theorem digits128_three (w : Nat) (h0 : 128 ^ 2 ≤ w) (h : w < 128 ^ 3) :
    Nat.digits 128 w = [w % 128, w / 128 % 128, w / 128 / 128] := by
  norm_num at h h0
  rw [digits128_step w (by omega), digits128_two (w / 128) (by omega) (by norm_num; omega)]

theorem digits128_four (w : Nat) (h0 : 128 ^ 3 ≤ w) (h : w < 128 ^ 4) :
    Nat.digits 128 w = [w % 128, w / 128 % 128, w / 128 / 128 % 128, w / 128 / 128 / 128] := by
  norm_num at h h0
  rw [digits128_step w (by omega), digits128_three (w / 128) (by norm_num; omega)
    (by norm_num; omega)]

/-- The loop of `_asn1_objectid_der` writes an arc below `2^35` as its
base-128 digits, as few as possible, with the high bit on all but the last. -/
theorem objectid_arc_octets (v : Nat) (hv : v < 2 ^ 35) :
    objectid_arc 5 v false = arc_octets v := by
  have e4 : objectid_arc 4 v true
      = [v / 128 ^ 3 % 128 + 128, v / 128 ^ 2 % 128 + 128, v / 128 ^ 1 % 128 + 128, v % 128] := by
    rw [objectid_arc_true, objectid_arc_true, objectid_arc_true, objectid_arc_one]
    simp
  have e3 : objectid_arc 3 v true
      = [v / 128 ^ 2 % 128 + 128, v / 128 ^ 1 % 128 + 128, v % 128] := by
    rw [objectid_arc_true, objectid_arc_true, objectid_arc_one]
    simp
  have e2 : objectid_arc 2 v true = [v / 128 ^ 1 % 128 + 128, v % 128] := by
    rw [objectid_arc_true, objectid_arc_one]
    simp
  have e1 : objectid_arc 1 v true = [v % 128] := objectid_arc_one v true
  rw [objectid_arc_false 4 v (by norm_num), objectid_arc_false 3 v (by norm_num),
    objectid_arc_false 2 v (by norm_num), objectid_arc_false 1 v (by norm_num),
    objectid_arc_one v false, e4, e3, e2, e1]
  unfold arc_octets
  norm_num at hv ⊢
  by_cases h4 : 128 ^ 4 ≤ v
  · norm_num at h4
    rw [if_neg (by omega), digits128_four (v / 128) (by norm_num; omega) (by norm_num; omega)]
    simp only [List.reverse_cons, List.reverse_nil, List.nil_append, List.cons_append,
      List.map_cons, List.map_nil, List.cons.injEq, and_true]
    omega
  · by_cases h3 : 128 ^ 3 ≤ v
    · norm_num at h3 h4
      rw [if_pos (by omega), if_neg (by omega),
        digits128_three (v / 128) (by norm_num; omega) (by norm_num; omega)]
      simp only [List.reverse_cons, List.reverse_nil, List.nil_append, List.cons_append,
        List.map_cons, List.map_nil, List.cons.injEq, and_true]
      omega
    · by_cases h2 : 128 ^ 2 ≤ v
      · norm_num at h2 h3 h4
        rw [if_pos (by omega), if_pos (by omega), if_neg (by omega),
          digits128_two (v / 128) (by omega) (by norm_num; omega)]
        simp only [List.reverse_cons, List.reverse_nil, List.nil_append, List.cons_append,
          List.map_cons, List.map_nil, List.cons.injEq, and_true]
        omega
      · by_cases h1 : 128 ≤ v
        · norm_num at h2 h3 h4
          rw [if_pos (by omega), if_pos (by omega), if_pos (by omega), if_neg (by omega),
            digits128_one (v / 128) (by omega) (by omega)]
          simp only [List.reverse_cons, List.reverse_nil, List.nil_append, List.cons_append,
            List.map_cons, List.map_nil, List.cons.injEq, and_true]
          omega
        · norm_num at h2 h3 h4
          rw [if_pos (by omega), if_pos (by omega), if_pos (by omega), if_pos (by omega)]
          have h0 : v / 128 = 0 := by omega
          simp [h0]

theorem oid_text_cons (a : Nat) (rest : List Nat) :
    oid_text (a :: rest) = decimal a ++ oid_tail rest := by
  induction rest generalizing a with
  | nil => simp [oid_text, oid_tail]
  | cons b rest ih => rw [oid_text, ih b, oid_tail]; simp

/-- The step `val = val << 7; val |= der[..] & 0x7F` of the loop of
`_asn1_get_objectid_der` on an octet with the low seven bits `d`. -/
theorem shift_or_eq (val d : Nat) (hd : d < 128) :
    ((val <<< 7) % ULONG) ||| d = (val * 128 + d) % ULONG := by
  have e1 : (val <<< 7) % ULONG = 2 ^ 7 * (val % 2 ^ 57) := by
    rw [Nat.shiftLeft_eq, ULONG_eq]
    norm_num
    omega
  rw [e1, ← Nat.mul_add_lt_is_or (by norm_num; exact hd), ULONG_eq]
  norm_num
  omega

/-- The loop of `_asn1_get_objectid_der` over octets with the high bit set. -/
theorem get_objectid_loop_high (hs P S : List Nat) (len_len n k val : Nat) (str : List Nat)
    (hP : P.length = len_len + k) (hd : ∀ d ∈ hs, d < 128) :
    get_objectid_loop (P ++ hs.map (fun d => d + 128) ++ S) len_len (hs.length + n) k val str
      = get_objectid_loop (P ++ hs.map (fun d => d + 128) ++ S) len_len n (k + hs.length)
          (hs.foldl (fun a d => (a * 128 + d) % ULONG) val) str := by
  induction hs generalizing P k val with
  | nil => simp
  | cons h hs ih =>
    have hh : h < 128 := hd h (List.mem_cons_self _ _)
    have hr : rd (P ++ (h :: hs).map (fun d => d + 128) ++ S) (len_len + k) = h + 128 := by
      rw [List.append_assoc, rd_of_length P _ (len_len + k) 0 (by omega)]
      simp [rd]
    have e80 : (h + 128) &&& 0x80 ≠ 0 := by
      have : ∀ b : Fin 128, (b.val + 128) &&& 0x80 ≠ 0 := by decide
      exact this ⟨h, hh⟩
    have e7f : (h + 128) &&& 0x7F = h := by
      rw [and_127_eq_mod]
      omega
    have hlen : (h :: hs).length + n = (hs.length + n) + 1 := by
      simp only [List.length_cons]; omega
    rw [hlen, get_objectid_loop]
    simp only [hr, e80, if_false, e7f, shift_or_eq val h hh]
    have hsplit : P ++ (h :: hs).map (fun d => d + 128) ++ S
        = (P ++ [h + 128]) ++ hs.map (fun d => d + 128) ++ S := by simp
    rw [hsplit, ih (P ++ [h + 128]) (k + 1) _ (by simp; omega)
      (fun d hd' => hd d (List.mem_cons_of_mem _ hd'))]
    simp only [List.foldl_cons, List.length_cons]
    congr 1
    omega

theorem arc_octets_length (v : Nat) :
    (arc_octets v).length = (Nat.digits 128 (v / 128)).length + 1 := by
  simp [arc_octets]

/-- The loop of `_asn1_get_objectid_der` over the octets of one arc appends a
blank and the numeral of the arc to the string. -/
theorem get_objectid_loop_arc (v : Nat) (P S : List Nat) (len_len n k : Nat) (str : List Nat)
    (hP : P.length = len_len + k) (hv : v < 2 ^ 63) :
    get_objectid_loop (P ++ arc_octets v ++ S) len_len ((arc_octets v).length + n) k 0 str
      = get_objectid_loop (P ++ arc_octets v ++ S) len_len n (k + (arc_octets v).length) 0
          (str ++ [32] ++ decimal v) := by
  have hdig : ∀ d ∈ (Nat.digits 128 (v / 128)).reverse, d < 128 := by
    intro d hd
    exact Nat.digits_lt_base (by norm_num) (List.mem_reverse.mp hd)
  have hfold : (Nat.digits 128 (v / 128)).reverse.foldl (fun a d => (a * 128 + d) % ULONG) 0
      = v / 128 := by
    have h1 : (Nat.digits 128 (v / 128)).reverse.foldl (fun a d => a * 128 + d) 0 = v / 128 := by
      rw [foldl_be_eq, List.reverse_reverse, Nat.ofDigits_digits]
      simp
    rw [foldl_be_mod_eq 128 ULONG (by norm_num) _ (by rw [h1, ULONG_eq]; omega), h1]
  have hder : P ++ arc_octets v ++ S
      = P ++ (Nat.digits 128 (v / 128)).reverse.map (fun d => d + 128) ++ ((v % 128) :: S) := by
    simp [arc_octets]
  have hlen : (arc_octets v).length + n = (Nat.digits 128 (v / 128)).reverse.length + (n + 1) := by
    rw [arc_octets_length, List.length_reverse]
    omega
  rw [hder, hlen, get_objectid_loop_high _ P _ len_len (n + 1) k 0 str hP hdig, hfold,
    get_objectid_loop]
  have hr : rd (P ++ (Nat.digits 128 (v / 128)).reverse.map (fun d => d + 128) ++ ((v % 128) :: S))
      (len_len + (k + (Nat.digits 128 (v / 128)).reverse.length)) = v % 128 := by
    rw [rd_of_length _ _ _ 0 (by simp; omega)]
    simp [rd]
  have hlt : v % 128 < 128 := Nat.mod_lt _ (by norm_num)
  have e80 : (v % 128) &&& 0x80 = 0 := by
    have : ∀ b : Fin 128, b.val &&& 0x80 = 0 := by decide
    exact this ⟨v % 128, hlt⟩
  have e7f : (v % 128) &&& 0x7F = v % 128 := by
    rw [and_127_eq_mod]
    omega
  have hval : (v / 128 * 128 + v % 128) % ULONG = v := by
    rw [ULONG_eq]
    omega
  have hlong : to_long v = (v : Int) := by
    unfold to_long
    rw [if_pos hv]
  simp only [hr, e80, if_true, e7f, shift_or_eq _ _ hlt, hval, hlong,
    ltostr_decimal v (lt_trans hv (by norm_num))]
  rw [arc_octets_length, List.length_reverse, Nat.add_assoc]

/-- The loop of `_asn1_get_objectid_der` over the octets of the arcs after
the first two. -/
theorem get_objectid_loop_arcs (later P S : List Nat) (len_len n k : Nat) (str : List Nat)
    (hP : P.length = len_len + k) (hv : ∀ v ∈ later, v < 2 ^ 63) :
    get_objectid_loop (P ++ arcs_octets later ++ S) len_len ((arcs_octets later).length + n) k 0
        str
      = get_objectid_loop (P ++ arcs_octets later ++ S) len_len n
          (k + (arcs_octets later).length) 0 (str ++ oid_tail later) := by
  induction later generalizing P k str with
  | nil => simp [arcs_octets, oid_tail]
  | cons v vs ih =>
    have hv0 : v < 2 ^ 63 := hv v (List.mem_cons_self _ _)
    have e1 : P ++ arcs_octets (v :: vs) ++ S = P ++ arc_octets v ++ (arcs_octets vs ++ S) := by
      simp [arcs_octets]
    have e2 : P ++ arcs_octets (v :: vs) ++ S = (P ++ arc_octets v) ++ arcs_octets vs ++ S := by
      simp [arcs_octets]
    have hl : (arcs_octets (v :: vs)).length + n
        = (arc_octets v).length + ((arcs_octets vs).length + n) := by
      simp only [arcs_octets, List.length_append]; omega
    rw [hl, e1, get_objectid_loop_arc v P _ len_len _ k str hP hv0, ← e1, e2,
      ih (P ++ arc_octets v) (k + (arc_octets v).length) _ (by simp; omega)
        (fun w hw => hv w (List.mem_cons_of_mem _ hw))]
    simp only [arcs_octets, List.length_append, oid_tail, List.append_assoc]
    congr 1
    omega

/-- The loop of `_asn1_objectid_der` over the numerals of the arcs after the
first two. -/
theorem objectid_content_later (later : List Nat) (counter val1 : Nat) (c : List Nat)
    (hc : 2 ≤ counter) (hv : ∀ v ∈ later, v < 2 ^ 35) :
    objectid_content (later.map decimal) counter val1 (some c) = some (c ++ arcs_octets later) := by
  induction later generalizing counter c with
  | nil => simp [objectid_content, arcs_octets]
  | cons v vs ih =>
    have hv0 : v < 2 ^ 35 := hv v (List.mem_cons_self _ _)
    have h1 : ¬ (counter + 1 = 1) := by omega
    have h2 : ¬ (counter + 1 = 2) := by omega
    rw [List.map_cons, objectid_content]
    simp only [h1, h2, if_false, strtoul_decimal v (lt_trans hv0 (by norm_num)),
      objectid_arc_octets v hv0, Option.map_some']
    rw [ih (counter + 1) _ (by omega) (fun w hw => hv w (List.mem_cons_of_mem _ hw))]
    simp [arcs_octets]

/-- What `_asn1_objectid_der` writes for the text of an OBJECT IDENTIFIER. -/
theorem objectid_der_oid_text (a0 a1 : Nat) (later : List Nat) (h0 : a0 ≤ 2) (h1 : a1 < 40)
    (hv : ∀ v ∈ later, v < 2 ^ 35) :
    _asn1_objectid_der (oid_text (a0 :: a1 :: later) ++ [0])
      = some ((_asn1_length_der (oid_content a0 a1 later).length).1 ++ oid_content a0 a1 later,
          (oid_content a0 a1 later).length
            + (_asn1_length_der (oid_content a0 a1 later).length).2) := by
  have hall : ∀ v ∈ a0 :: a1 :: later, v < 2 ^ 64 := by
    intro v hm
    simp only [List.mem_cons] at hm
    rcases hm with h | h | h
    · subst h; omega
    · subst h; omega
    · exact lt_trans (hv v h) (by norm_num)
  unfold _asn1_objectid_der
  rw [cstr_append_zero _ [] (oid_text_no_zero _ hall),
    objectid_pieces_oid_text _ (by simp) hall]
  simp only [List.map_cons, objectid_content]
  simp only [Nat.zero_add, if_true, Nat.reduceAdd, OfNat.one_ne_ofNat, if_false,
    strtoul_decimal a0 (by omega), strtoul_decimal a1 (by omega)]
  rw [objectid_content_later later 2 a0 _ (le_refl _) hv]
  have e : (40 * a0 + a1) % UCHAR = 40 * a0 + a1 := by
    rw [UCHAR_eq]; omega
  simp [e, oid_content]

/-- What `_asn1_get_objectid_der` reads from the length octets and content
octets of an OBJECT IDENTIFIER. -/
theorem get_objectid_der_oid_content (a0 a1 : Nat) (later rest : List Nat) (h0 : a0 ≤ 2)
    (h1 : a1 < 40) (hv : ∀ v ∈ later, v < 2 ^ 35)
    (hn : (oid_content a0 a1 later).length < ULONG) :
    _asn1_get_objectid_der
        ((_asn1_length_der (oid_content a0 a1 later).length).1 ++ oid_content a0 a1 later ++ rest)
      = (oid_text (a0 :: a1 :: later),
          (oid_content a0 a1 later).length
            + (_asn1_length_der (oid_content a0 a1 later).length).2) := by
  generalize hT : _asn1_length_der (oid_content a0 a1 later).length = T
  have hl : _ksba_asn_get_length_der (T.1 ++ oid_content a0 a1 later ++ rest)
      = ((oid_content a0 a1 later).length, T.2) := by
    rw [List.append_assoc, ← hT]
    exact get_length_der_length_der _ hn _
  have hT2 : T.2 = T.1.length := by
    rw [← hT]
    exact length_der_len _
  have hr : rd (T.1 ++ oid_content a0 a1 later ++ rest) T.2 = 40 * a0 + a1 := by
    rw [List.append_assoc, rd_of_length T.1 _ T.2 0 (by omega)]
    simp [rd, oid_content]
  have hq : (40 * a0 + a1) / 40 = a0 := by omega
  have hloop := get_objectid_loop_arcs later (T.1 ++ [40 * a0 + a1]) rest T.2 0 1
    (decimal a0 ++ [32] ++ decimal a1) (by simp; omega)
    (fun v hm => lt_trans (hv v hm) (by norm_num))
  have hder : T.1 ++ [40 * a0 + a1] ++ arcs_octets later ++ rest
      = T.1 ++ oid_content a0 a1 later ++ rest := by
    simp [oid_content]
  rw [hder] at hloop
  unfold _asn1_get_objectid_der
  simp only [hl, hr, hq]
  have hsub : 40 * a0 + a1 - a0 * 40 = a1 := by omega
  have hcnt : (oid_content a0 a1 later).length - 1 = (arcs_octets later).length + 0 := by
    simp [oid_content]
  rw [hsub, ltostr_decimal a0 (by omega), ltostr_decimal a1 (by omega), hcnt, hloop]
  simp only [get_objectid_loop]
  rw [oid_text_cons, oid_tail]
  simp

theorem arc_octets_length_le (v : Nat) (hv : v < 2 ^ 35) : (arc_octets v).length ≤ 5 := by
  rw [arc_octets_length]
  by_cases h0 : v / 128 = 0
  · simp [h0]
  · have h1 := Nat.base_pow_length_digits_le 128 (v / 128) (by norm_num) h0
    by_contra hc
    have h2 : 128 ^ 5 ≤ 128 ^ (Nat.digits 128 (v / 128)).length :=
      Nat.pow_le_pow_right (by norm_num) (by omega)
    norm_num at h2 hv
    omega

theorem arcs_octets_length_le (later : List Nat) (hv : ∀ v ∈ later, v < 2 ^ 35) :
    (arcs_octets later).length ≤ 5 * later.length := by
  induction later with
  | nil => simp [arcs_octets]
  | cons v vs ih =>
    have h1 := arc_octets_length_le v (hv v (List.mem_cons_self _ _))
    have h2 := ih (fun w hw => hv w (List.mem_cons_of_mem _ hw))
    simp only [arcs_octets, List.length_append, List.length_cons]
    omega

theorem oid_tail_length_ge (later : List Nat) : 2 * later.length ≤ (oid_tail later).length := by
  induction later with
  | nil => simp [oid_tail]
  | cons v vs ih =>
    have h1 : 0 < (decimal v).length := List.length_pos.mpr (decimal_ne_nil v)
    simp only [oid_tail, List.length_append, List.length_cons, List.length_singleton,
      List.length_nil]
    omega

/-- The content of an OBJECT IDENTIFIER whose text fits the 128 bytes of
`temp` stays far below the range of a length. -/
theorem oid_content_length_lt (a0 a1 : Nat) (later : List Nat) (hv : ∀ v ∈ later, v < 2 ^ 35)
    (hfit : (oid_text (a0 :: a1 :: later)).length + 2 ≤ 128) :
    (oid_content a0 a1 later).length < ULONG := by
  have h1 := arcs_octets_length_le later hv
  have h2 := oid_tail_length_ge later
  rw [oid_text_cons, oid_tail] at hfit
  simp only [List.length_append] at hfit
  simp only [oid_content, List.length_cons]
  rw [ULONG_eq]
  omega

/-- C11, as the code has it. General OID round trip: for every OID string of
at least two single-space-separated canonical decimal arcs with first arc
`a0` in {0,1,2}, second arc `a1 < 40` and every later arc below `2^35` (the
string fits the 128 bytes of `temp`), `_asn1_objectid_der` writes the length
octets, the octet `40*a0 + a1` and, for each later arc, its base-128 digits,
most significant first and as few as possible, with the high bit set on all
but the last octet (`arc_octets`); and `_asn1_get_objectid_der` applied to
these octets, whatever follows them, yields the same string and the same
octet count. -/
theorem C11_oid_round_trip (a0 a1 : Nat) (later rest : List Nat) (h0 : a0 ≤ 2) (h1 : a1 < 40)
    (hv : ∀ v ∈ later, v < 2 ^ 35)
    (hfit : (oid_text (a0 :: a1 :: later)).length + 2 ≤ 128) :
    ∃ enc n,
      _asn1_objectid_der (oid_text (a0 :: a1 :: later) ++ [0]) = some (enc, n)
      ∧ n = enc.length
      ∧ enc = (_asn1_length_der (oid_content a0 a1 later).length).1 ++ oid_content a0 a1 later
      ∧ _asn1_get_objectid_der (enc ++ rest) = (oid_text (a0 :: a1 :: later), n) := by
  refine ⟨_, _, objectid_der_oid_text a0 a1 later h0 h1 hv, ?_, rfl, ?_⟩
  · rw [List.length_append, length_der_len, Nat.add_comm]
  · exact get_objectid_der_oid_content a0 a1 later rest h0 h1 hv
      (oid_content_length_lt a0 a1 later hv hfit)

/-- The instance of C11 at the OID 1.2.840.113549.0.34359738367, whose last
arc is `2^35 - 1`. -/
theorem C11_oid_round_trip_witness :
    ∃ enc n,
      _asn1_objectid_der (oid_text (1 :: 2 :: [840, 113549, 0, 34359738367]) ++ [0])
        = some (enc, n)
      ∧ n = enc.length
      ∧ enc = (_asn1_length_der (oid_content 1 2 [840, 113549, 0, 34359738367]).length).1
          ++ oid_content 1 2 [840, 113549, 0, 34359738367]
      ∧ _asn1_get_objectid_der (enc ++ [0xFF])
        = (oid_text (1 :: 2 :: [840, 113549, 0, 34359738367]), n) :=
  C11_oid_round_trip 1 2 [840, 113549, 0, 34359738367] [0xFF] (by decide) (by decide)
    (by decide) (by
      have e1 : decimal 1 = [49] := by norm_num [decimal]
      have e2 : decimal 2 = [50] := by norm_num [decimal]
      have e3 : decimal 840 = [56, 52, 48] := by norm_num [decimal]
      have e4 : decimal 113549 = [49, 49, 51, 53, 52, 57] := by norm_num [decimal]
      have e5 : decimal 0 = [48] := by norm_num [decimal]
      have e6 : decimal 34359738367 = [51, 52, 51, 53, 57, 55, 51, 56, 51, 54, 55] := by
        norm_num [decimal]
      rw [show oid_text (1 :: 2 :: [840, 113549, 0, 34359738367])
          = decimal 1 ++ [32] ++ (decimal 2 ++ [32] ++ (decimal 840 ++ [32]
              ++ (decimal 113549 ++ [32] ++ (decimal 0 ++ [32] ++ decimal 34359738367))))
          from rfl, e1, e2, e3, e4, e5, e6]
      decide)

/-- C11 as stated fails for arcs of `2^35` and more: the text
`1 2 34359738368` is written as `02 2A 00`, which reads back as `1 2 0`; and
the text `1 2 18446744073709551616`, whose last arc is beyond the range of
`unsigned long`, is written as `06 2A FF FF FF FF 7F`, which reads back as
`1 2 34359738367`. -/
theorem C11_counterexample :
    _asn1_objectid_der (c_string "1 2 34359738368") = some ([0x02, 0x2A, 0x00], 3)
    ∧ _asn1_get_objectid_der [0x02, 0x2A, 0x00] = (cstr (c_string "1 2 0"), 3)
    ∧ cstr (c_string "1 2 0") ≠ cstr (c_string "1 2 34359738368")
    ∧ _asn1_objectid_der (c_string "1 2 18446744073709551616")
      = some ([0x06, 0x2A, 0xFF, 0xFF, 0xFF, 0xFF, 0x7F], 7)
    ∧ _asn1_get_objectid_der [0x06, 0x2A, 0xFF, 0xFF, 0xFF, 0xFF, 0x7F]
      = (cstr (c_string "1 2 34359738367"), 7) := by
  decide

/-! ## Theorems: chains of siblings -/

theorem ctx_after_pos_length (t : AsnNode) (c : Ctx) :
    (ctx_after t c).pos.length = chain_length t + c.pos.length := by
  induction t generalizing c with
  | nil => simp [ctx_after, chain_length]
  | node d dn rt _ ihr =>
    rw [ctx_after, ihr, chain_length]
    simp only [Ctx.pos, List.length_cons]
    omega

/-! ## Theorems: the decoder on an absent optional child -/

theorem append_right_node_ne_nil (t : AsnNode) (d : node_data) (dn rt : AsnNode) :
    ∃ d1 dn1 rt1, append_right t (AsnNode.node d dn rt) = AsnNode.node d1 dn1 rt1 := by
  cases t with
  | nil => exact ⟨d, dn, rt, rfl⟩
  | node d0 dn0 rt0 => exact ⟨d0, dn0, _, rfl⟩

theorem get_der_step_right_to (node : List Bool) (rt : AsnNode) (ih : get_der_runs_to node rt)
    (s : get_state) (d dq : node_data) (dn dnq rtq : AsnNode) (c : Ctx) (X Z : List Nat)
    (fuel : Nat)
    (hb : get_der_body (X ++ der_encoding rt ++ Z) s
      = some (Sum.inr ⟨⟨d, dn, append_right (value_less rt) (AsnNode.node dq dnq rtq), c⟩, RIGHT,
          X.length⟩))
    (hset : d.flags.is_set = false)
    (hpos : node.length < c.pos.length)
    (hlen : X.length + (der_encoding rt).length < 2 ^ 31) :
    ∃ m1, m1 ≠ UP ∧
      get_der_loop (X ++ der_encoding rt ++ Z) node (walk_turns rt + fuel + 1) s
        = get_der_loop (X ++ der_encoding rt ++ Z) node fuel
            ⟨⟨dq, dnq, rtq, ctx_after (clear_seq_values rt) (Ctx.beside d dn c)⟩, m1,
              X.length + (der_encoding rt).length⟩ := by
  obtain ⟨d1, dn1, rt1, hr⟩ := append_right_node_ne_nil (value_less rt) dq dnq rtq
  have hturn := get_der_turn_right _ node s d dn _ c _ hb hset (pos_ne_of_length_lt node c hpos)
  rw [hr] at hturn
  simp only [mk_loc] at hturn
  obtain ⟨m1, hm1, hih⟩ := ih dq dnq rtq Z fuel (Ctx.beside d dn c) RIGHT X
    ⟨d1, dn1, rt1, Ctx.beside d dn c⟩ (by decide)
    (by simp only [Ctx.pos, List.length_cons]; omega) hlen (by rw [hr]; rfl)
  exact ⟨m1, hm1, by rw [get_der_loop_succ, hturn]; exact hih⟩

/-- The decoder on the encoding of a round-trip tree that is followed by a
further node. -/
theorem get_der_chain_to (node : List Bool) (t : AsnNode) (hwf : round_trip_tree t = true) :
    get_der_runs_to node t := by
  induction t with
  | nil =>
    intro dq dnq rtq Z fuel c m X p hm _ _ hp
    simp only [value_less, append_right, mk_loc, Option.some.injEq] at hp
    subst hp
    exact ⟨m, hm, by simp [walk_turns, der_encoding, clear_seq_values, ctx_after]⟩
  | node d dn rt _ ihr =>
    simp only [round_trip_tree, Bool.and_eq_true] at hwf
    obtain ⟨⟨hd, hwr⟩, hnode⟩ := hwf
    have hset : d.flags.is_set = false := (mandatory_untagged_flags d hd).2.2.2.1
    intro dq dnq rtq Z fuel c m X p hm hpos hlen hp
    simp only [value_less, append_right, mk_loc, Option.some.injEq] at hp
    subst hp
    by_cases hs : d.type = TYPE_SEQUENCE
    · simp only [hs, if_true, Bool.and_eq_true] at hnode
      obtain ⟨hne, hwd⟩ := hnode
      cases dn with
      | nil => simp at hne
      | node d1 dn1 rt1 =>
        have henc : der_encoding (AsnNode.node d (AsnNode.node d1 dn1 rt1) rt)
            = [0x30] ++ (_asn1_length_der (der_encoding (AsnNode.node d1 dn1 rt1)).length).1
                ++ der_encoding (AsnNode.node d1 dn1 rt1) ++ der_encoding rt := by
          simp [der_encoding, hs]
        have hclr : clear_seq_values (AsnNode.node d (AsnNode.node d1 dn1 rt1) rt)
            = AsnNode.node (_ksba_asn_set_value d none)
                (clear_seq_values (AsnNode.node d1 dn1 rt1)) (clear_seq_values rt) := by
          simp [clear_seq_values, hs]
        have hturns : walk_turns (AsnNode.node d (AsnNode.node d1 dn1 rt1) rt) + fuel
            = (walk_turns (AsnNode.node d1 dn1 rt1) + (walk_turns rt + fuel + 1)) + 1 := by
          simp only [walk_turns, hs, if_true]
          omega
        rw [henc] at hlen ⊢
        rw [hclr, ctx_after]
        generalize hE : der_encoding (AsnNode.node d1 dn1 rt1) = E at hlen ⊢
        generalize hT : (_asn1_length_der E.length).1 = T at hlen ⊢
        generalize hR : append_right (value_less rt) (AsnNode.node dq dnq rtq) = R
        simp only [List.length_append, List.length_singleton] at hlen
        generalize hder : X ++ ([0x30] ++ T ++ E ++ der_encoding rt) ++ Z = der
        have hopen := get_der_body_open (_ksba_asn_set_value d none)
          (value_less (AsnNode.node d1 dn1 rt1)) R c m X E (der_encoding rt ++ Z)
          hm hd hs (by rw [hT]; omega)
        rw [hT, set_value_set_value] at hopen
        have hd1 : X ++ ([0x30] ++ T ++ E) ++ (der_encoding rt ++ Z) = der := by
          rw [← hder]
          simp
        rw [hd1] at hopen
        have hturn1 : get_der_turn der node
            ⟨⟨_ksba_asn_set_value d none, value_less (AsnNode.node d1 dn1 rt1), R, c⟩,
              m, X.length⟩
            = some (get_turn.next ⟨⟨_ksba_asn_set_value d1 none, value_less dn1, value_less rt1,
                Ctx.under (_ksba_asn_set_value d (some (_asn1_ltostr
                  ((X.length + 1 + T.length + E.length : Nat) : Int) ++ [0]))) R c⟩,
                DOWN, X.length + 1 + T.length⟩) := by
          unfold get_der_turn
          rw [hopen]
          simp [value_less, walk_advance_down_node]
        have h1 := get_der_chain node (AsnNode.node d1 dn1 rt1) hwd
          ⟨_ksba_asn_set_value d1 none, value_less dn1, value_less rt1,
            Ctx.under (_ksba_asn_set_value d (some (_asn1_ltostr
              ((X.length + 1 + T.length + E.length : Nat) : Int) ++ [0]))) R c⟩
          (Ctx.under (_ksba_asn_set_value d (some (_asn1_ltostr
              ((X.length + 1 + T.length + E.length : Nat) : Int) ++ [0]))) R c)
          DOWN (X ++ [0x30] ++ T) (der_encoding rt ++ Z) (walk_turns rt + fuel + 1)
          ⟨_ksba_asn_set_value d (some (_asn1_ltostr
              ((X.length + 1 + T.length + E.length : Nat) : Int) ++ [0])),
            clear_seq_values (AsnNode.node d1 dn1 rt1), R, c⟩ rfl (by simp)
          (by simp only [Ctx.pos, List.length_cons]; omega)
          (by simp only [List.length_append, List.length_singleton, hE]; omega) rfl
        have hd2 : X ++ [0x30] ++ T ++ E ++ (der_encoding rt ++ Z) = der := by
          rw [← hder]
          simp
        simp only [List.length_append, List.length_singleton, hE, hd2] at h1
        have hclose := get_der_body_close der
          (_ksba_asn_set_value d (some (_asn1_ltostr
              ((X.length + 1 + T.length + E.length : Nat) : Int) ++ [0])))
          (clear_seq_values (AsnNode.node d1 dn1 rt1)) R c
          (X.length + 1 + T.length + E.length) hs rfl (by omega)
        rw [set_value_set_value] at hclose
        have hd3 : (X ++ [0x30] ++ T ++ E) ++ der_encoding rt ++ Z = der := by
          rw [← hder]
          simp
        have hb : get_der_body ((X ++ [0x30] ++ T ++ E) ++ der_encoding rt ++ Z)
            ⟨⟨_ksba_asn_set_value d (some (_asn1_ltostr
              ((X.length + 1 + T.length + E.length : Nat) : Int) ++ [0])),
              clear_seq_values (AsnNode.node d1 dn1 rt1), R, c⟩, UP,
              X.length + 1 + T.length + E.length⟩
            = some (Sum.inr ⟨⟨_ksba_asn_set_value d none,
                clear_seq_values (AsnNode.node d1 dn1 rt1),
                append_right (value_less rt) (AsnNode.node dq dnq rtq), c⟩, RIGHT,
                (X ++ [0x30] ++ T ++ E).length⟩) := by
          rw [hd3, hclose, hR]
          simp only [List.length_append, List.length_singleton]
        obtain ⟨m1, hm1, h2⟩ := get_der_step_right_to node rt (ihr hwr) _ _ dq _ dnq rtq c _ Z
          fuel hb hset hpos (by simp only [List.length_append, List.length_singleton]; omega)
        rw [hd3] at h2
        refine ⟨m1, hm1, ?_⟩
        rw [hturns, get_der_loop_succ, hturn1]
        dsimp only
        rw [h1, h2]
        simp only [List.length_append, List.length_singleton]
        congr 2
        omega
    · simp only [hs, if_false, Bool.and_eq_true] at hnode
      obtain ⟨hl, hdn⟩ := hnode
      cases dn with
      | node d1 dn1 rt1 => simp at hdn
      | nil =>
        obtain ⟨e, he⟩ := round_trip_leaf_encoding d hl
        have henc : der_encoding (AsnNode.node d AsnNode.nil rt) = e ++ der_encoding rt := by
          simp [der_encoding, hs, he]
        have hclr : clear_seq_values (AsnNode.node d AsnNode.nil rt)
            = AsnNode.node d AsnNode.nil (clear_seq_values rt) := by
          simp [clear_seq_values, hs]
        have hturns : walk_turns (AsnNode.node d AsnNode.nil rt) + fuel
            = walk_turns rt + fuel + 1 := by
          simp only [walk_turns, hs, if_false]
          omega
        rw [henc] at hlen ⊢
        rw [hclr, ctx_after]
        simp only [List.length_append] at hlen
        generalize hder : X ++ (e ++ der_encoding rt) ++ Z = der
        have hbody := get_der_body_leaf d AsnNode.nil
          (append_right (value_less rt) (AsnNode.node dq dnq rtq)) c m X (der_encoding rt ++ Z)
          e hm hd hl he (by omega)
        have hd1 : X ++ e ++ (der_encoding rt ++ Z) = der := by
          rw [← hder]
          simp
        have hd3 : (X ++ e) ++ der_encoding rt ++ Z = der := by
          rw [← hder]
          simp
        rw [hd1] at hbody
        have hb : get_der_body ((X ++ e) ++ der_encoding rt ++ Z)
            ⟨⟨_ksba_asn_set_value d none, value_less AsnNode.nil,
              append_right (value_less rt) (AsnNode.node dq dnq rtq), c⟩, m, X.length⟩
            = some (Sum.inr ⟨⟨d, AsnNode.nil,
                append_right (value_less rt) (AsnNode.node dq dnq rtq), c⟩, RIGHT,
                (X ++ e).length⟩) := by
          rw [hd3]
          simp only [value_less, List.length_append]
          exact hbody
        obtain ⟨m1, hm1, h2⟩ := get_der_step_right_to node rt (ihr hwr) _ _ dq _ dnq rtq c _ Z
          fuel hb hset hpos (by simp only [List.length_append]; omega)
        rw [hd3] at h2
        refine ⟨m1, hm1, ?_⟩
        rw [hturns, h2]
        simp only [List.length_append]
        congr 2
        omega

theorem find_up_from_ctx_after (s u : AsnNode) (c : Ctx) :
    find_up_from u (ctx_after s c) = find_up_from (append_right s u) c := by
  induction s generalizing c with
  | nil => rfl
  | node d dn r _ ihr => rw [ctx_after, ihr, find_up_from, append_right]

theorem delete_not_used_append (t : AsnNode) (dq : node_data) (dnq : AsnNode)
    (ht : round_trip_tree t = true) (hq : dq.flags.is_not_used = true) :
    delete_not_used_chain (append_right (clear_seq_values t) (AsnNode.node dq dnq AsnNode.nil))
      = clear_seq_values t := by
  induction t with
  | nil => simp [clear_seq_values, append_right, delete_not_used_chain, hq]
  | node d dn rt _ ihr =>
    simp only [round_trip_tree, Bool.and_eq_true] at ht
    obtain ⟨⟨hd, hwr⟩, hnode⟩ := ht
    obtain ⟨-, -, -, -, hnu⟩ := mandatory_untagged_flags d hd
    by_cases hs : d.type = TYPE_SEQUENCE
    · simp only [hs, if_true, Bool.and_eq_true] at hnode
      simp only [clear_seq_values, hs, if_true, append_right, delete_not_used_chain,
        _ksba_asn_set_value, hnu, Bool.false_eq_true, if_false, ihr hwr,
        delete_not_used_clear dn hnode.2]
    · simp only [hs, if_false, Bool.and_eq_true] at hnode
      cases dn with
      | node d1 dn1 rt1 => simp at hnode
      | nil =>
        simp only [clear_seq_values, hs, if_false, append_right, delete_not_used_chain, hnu,
          Bool.false_eq_true, ihr hwr]

/-- The turn of the decoder at an optional node that is not a SET member and
not a CHOICE, at or behind the end of the content of its parent: the node is
flagged `is_not_used` and left to the right. -/
theorem get_der_body_optional_absent (der : List Nat) (dq : node_data) (dnq rtq : AsnNode)
    (c : Ctx) (m : Move) (k e : Nat) (parent : Loc) (hm : m ≠ UP)
    (hopt : dq.flags.is_optional = true) (hset : dq.flags.is_set = false)
    (hch : dq.type ≠ TYPE_CHOICE)
    (hup : find_up_from (AsnNode.node dq dnq rtq) c = some parent)
    (hv : parent.d.value = some (_asn1_ltostr ((e : Nat) : Int) ++ [0])) (he : e < 2 ^ 63)
    (hk : e ≤ k) :
    get_der_body der ⟨⟨dq, dnq, rtq, c⟩, m, k⟩
      = some (Sum.inr ⟨⟨{ dq with flags := { dq.flags with is_not_used := true } }, dnq, rtq, c⟩,
          RIGHT, k⟩) := by
  have hge : (k : Int) ≥ (e : Int) := by omega
  simp [get_der_body, hm, get_der_set_member, hset, get_der_choice, hch, get_der_tag, hopt,
    find_up, Loc.tree, hup, hv, strtol_ltostr e he, hge]

/-- Optional absence for a child that is not a CHOICE: a mandatory untagged
SEQUENCE whose children are a round-trip tree `t` followed by a last child
`dq` that is flagged `is_optional`, is not a SET member and not a CHOICE,
decoded from the encoding of the SEQUENCE with the children `t` alone. The
walker leaves the loop with every byte consumed, the children `t` holding
their values and the optional child flagged `is_not_used`; `asn1_get_der`
returns `ASN_OK` and hands back the tree without the optional child. -/
theorem get_der_optional_absent (d dq : node_data) (t dnq rt : AsnNode) (c : Ctx)
    (Z : List Nat) (fuel : Nat)
    (hd : mandatory_untagged d = true) (hs : d.type = TYPE_SEQUENCE)
    (hwf : round_trip_tree t = true)
    (hopt : dq.flags.is_optional = true) (hset : dq.flags.is_set = false)
    (hch : dq.type ≠ TYPE_CHOICE)
    (hlen : (der_encoding (AsnNode.node d t AsnNode.nil)).length < 2 ^ 31) :
    get_der_loop (der_encoding (AsnNode.node d t AsnNode.nil) ++ Z) c.pos
        (walk_turns t + 3 + fuel)
        ⟨⟨d, append_right (value_less t) (AsnNode.node dq dnq AsnNode.nil), rt, c⟩, DOWN, 0⟩
      = Run.ret (Sum.inr ⟨⟨_ksba_asn_set_value d none,
          append_right (clear_seq_values t)
            (AsnNode.node { dq with flags := { dq.flags with is_not_used := true } } dnq
              AsnNode.nil), rt, c⟩,
          RIGHT, (der_encoding (AsnNode.node d t AsnNode.nil)).length⟩)
    ∧ asn1_get_der
        (some ⟨d, append_right (value_less t) (AsnNode.node dq dnq AsnNode.nil), rt, c⟩)
        (der_encoding (AsnNode.node d t AsnNode.nil) ++ Z)
        (der_encoding (AsnNode.node d t AsnNode.nil)).length (walk_turns t + 3 + fuel)
      = Run.ret ⟨ASN_OK, some ⟨_ksba_asn_set_value d none, clear_seq_values t, rt, c⟩⟩ := by
  obtain ⟨-, hopt0, -, -, hnu⟩ := mandatory_untagged_flags d hd
  have henc : der_encoding (AsnNode.node d t AsnNode.nil)
      = [0x30] ++ (_asn1_length_der (der_encoding t).length).1 ++ der_encoding t := by
    simp [der_encoding, hs]
  rw [henc] at hlen ⊢
  generalize hE : der_encoding t = E at hlen ⊢
  generalize hT : (_asn1_length_der E.length).1 = T at hlen ⊢
  simp only [List.length_append, List.length_singleton] at hlen
  generalize hder : [0x30] ++ T ++ E ++ Z = der
  have hloop : get_der_loop der c.pos (walk_turns t + 3 + fuel)
      ⟨⟨d, append_right (value_less t) (AsnNode.node dq dnq AsnNode.nil), rt, c⟩, DOWN, 0⟩
      = Run.ret (Sum.inr ⟨⟨_ksba_asn_set_value d none,
          append_right (clear_seq_values t)
            (AsnNode.node { dq with flags := { dq.flags with is_not_used := true } } dnq
              AsnNode.nil), rt, c⟩,
          RIGHT, 1 + T.length + E.length⟩) := by
    have hopen := get_der_body_open d
      (append_right (value_less t) (AsnNode.node dq dnq AsnNode.nil)) rt c DOWN [] E Z
      (by decide) hd hs (by rw [hT]; simp only [List.length_nil]; omega)
    rw [hT] at hopen
    have hd1 : [] ++ ([0x30] ++ T ++ E) ++ Z = der := by
      rw [← hder]; simp
    rw [hd1] at hopen
    simp only [List.length_nil, Nat.zero_add] at hopen
    obtain ⟨d1, dn1, rt1, hr⟩ := append_right_node_ne_nil (value_less t) dq dnq AsnNode.nil
    rw [hr] at hopen ⊢
    have hturn1 : get_der_turn der c.pos ⟨⟨d, AsnNode.node d1 dn1 rt1, rt, c⟩, DOWN, 0⟩
        = some (get_turn.next ⟨⟨d1, dn1, rt1,
            Ctx.under (_ksba_asn_set_value d (some (_asn1_ltostr
              ((1 + T.length + E.length : Nat) : Int) ++ [0]))) rt c⟩,
            DOWN, 1 + T.length⟩) := by
      unfold get_der_turn
      rw [hopen]
      simp [walk_advance_down_node]
    have hturns : walk_turns t + 3 + fuel = (walk_turns t + (fuel + 2)) + 1 := by omega
    rw [hturns, get_der_loop_succ, hturn1]
    dsimp only
    obtain ⟨m1, hm1, hrun⟩ := get_der_chain_to c.pos t hwf dq dnq AsnNode.nil Z (fuel + 2)
      (Ctx.under (_ksba_asn_set_value d (some (_asn1_ltostr
        ((1 + T.length + E.length : Nat) : Int) ++ [0]))) rt c) DOWN ([0x30] ++ T)
      ⟨d1, dn1, rt1, Ctx.under (_ksba_asn_set_value d (some (_asn1_ltostr
        ((1 + T.length + E.length : Nat) : Int) ++ [0]))) rt c⟩ (by decide)
      (by simp only [Ctx.pos, List.length_cons]; omega)
      (by simp only [List.length_append, List.length_singleton, hE]; omega) (by rw [hr]; rfl)
    rw [hE, hder] at hrun
    simp only [List.length_append, List.length_singleton] at hrun
    rw [hrun]
    have hfu : ∀ u, find_up_from u (ctx_after (clear_seq_values t)
        (Ctx.under (_ksba_asn_set_value d (some (_asn1_ltostr
          ((1 + T.length + E.length : Nat) : Int) ++ [0]))) rt c))
        = some ⟨_ksba_asn_set_value d (some (_asn1_ltostr
            ((1 + T.length + E.length : Nat) : Int) ++ [0])),
          append_right (clear_seq_values t) u, rt, c⟩ := by
      intro u
      rw [find_up_from_ctx_after]
      rfl
    have hbody := get_der_body_optional_absent der dq dnq AsnNode.nil _ m1
      (1 + T.length + E.length) (1 + T.length + E.length) _ hm1 hopt hset hch (hfu _) rfl
      (by omega) (le_refl _)
    have hposlen := ctx_after_pos_length (clear_seq_values t)
      (Ctx.under (_ksba_asn_set_value d (some (_asn1_ltostr
        ((1 + T.length + E.length : Nat) : Int) ++ [0]))) rt c)
    have hturn2 := get_der_turn_right der c.pos _ _ dnq AsnNode.nil _ _ hbody hset
      (pos_ne_of_length_lt c.pos _ (by rw [hposlen]; simp only [Ctx.pos, List.length_cons]; omega))
    simp only [mk_loc, hfu, Option.map_some'] at hturn2
    have hf2 : fuel + 2 = (fuel + 1) + 1 := by omega
    rw [hf2, get_der_loop_succ, hturn2]
    dsimp only
    have hclose := get_der_body_close der
      (_ksba_asn_set_value d (some (_asn1_ltostr
        ((1 + T.length + E.length : Nat) : Int) ++ [0])))
      (append_right (clear_seq_values t)
        (AsnNode.node { dq with flags := { dq.flags with is_not_used := true } } dnq AsnNode.nil))
      rt c (1 + T.length + E.length) hs rfl (by omega)
    rw [set_value_set_value] at hclose
    rw [get_der_loop_succ]
    unfold get_der_turn
    rw [hclose]
    simp
  have hcount : ([0x30] ++ T ++ E).length = 1 + T.length + E.length := by
    simp only [List.length_append, List.length_singleton]
  rw [hcount]
  refine ⟨hloop, ?_⟩
  rw [asn1_get_der_of_break _ _ _ _ _ hopt0 hloop]
  have hdel := delete_not_used_append t { dq with flags := { dq.flags with is_not_used := true } }
    dnq hwf rfl
  simp [_ksba_asn_delete_not_used, _ksba_asn_set_value, hnu, hdel]

/-! ## Theorems: the tag engine -/

theorem universal_tag_table (d : node_data) :
    universal_tag d = (spec_tag_table d).map (fun t => (t, t.length)) := by
  obtain ⟨name, ty, flags, value⟩ := d
  cases ty <;> simp only [universal_tag, spec_tag_table] <;> first
    | rfl
    | (split <;> rfl)

theorem insert_tag_loop_no_tag (ntype : node_type) (dn : AsnNode) (acc : tag_acc)
    (der : List Nat) (counter : Nat) (h : first_tag dn = none) :
    insert_tag_loop ntype dn acc der counter = some (dn, acc, der, counter) := by
  induction dn with
  | nil => rfl
  | node d dn rt _ ih =>
    unfold first_tag at h
    split at h
    · exact absurd h (by simp)
    · rename_i hty
      unfold insert_tag_loop
      rw [if_neg hty, ih h]
      rfl

theorem insert_tag_loop_pending (ntype : node_type) (dn : AsnNode) (acc : tag_acc)
    (der : List Nat) (counter : Nat) (h : no_explicit_tag dn = true)
    (hacc : acc.is_tag_implicit = true) :
    insert_tag_loop ntype dn acc der counter = some (dn, acc, der, counter) := by
  induction dn with
  | nil => rfl
  | node d dn rt _ ih =>
    simp only [no_explicit_tag, Bool.and_eq_true, Bool.not_eq_true', Bool.and_eq_false_iff,
      decide_eq_false_iff_not] at h
    unfold insert_tag_loop
    by_cases hty : d.type = TYPE_TAG
    · have hex : d.flags.explicit = false := by
        rcases h.1 with h1 | h1
        · exact absurd hty h1
        · exact h1
      simp [hty, hex, hacc, ih h.2]
    · simp [hty, ih h.2]

theorem insert_tag_loop_implicit (ntype : node_type) (dn : AsnNode) (tg : node_data)
    (v : List Nat) (der : List Nat) (counter : Nat) (cls tag : Nat)
    (h : no_explicit_tag dn = true) (hf : first_tag dn = some tg) (hv : tg.value = some v) :
    insert_tag_loop ntype dn ⟨false, cls, tag⟩ der counter
      = some (dn,
          ⟨true,
            if is_structured ntype then ((tg.flags.class_ <<< 6) % UCHAR) ||| STRUCTURED
            else (tg.flags.class_ <<< 6) % UCHAR,
            strtoul v⟩, der, counter) := by
  induction dn with
  | nil => simp [first_tag] at hf
  | node d dn rt _ ih =>
    simp only [no_explicit_tag, Bool.and_eq_true, Bool.not_eq_true', Bool.and_eq_false_iff,
      decide_eq_false_iff_not] at h
    unfold insert_tag_loop
    unfold first_tag at hf
    by_cases hty : d.type = TYPE_TAG
    · have hex : d.flags.explicit = false := by
        rcases h.1 with h1 | h1
        · exact absurd hty h1
        · exact h1
      rw [if_pos hty] at hf
      injection hf with hf
      subst hf
      simp only [hty, hex, hv, if_true, Bool.false_eq_true, if_false]
      rw [insert_tag_loop_pending ntype rt _ der counter h.2 rfl]
      rfl
    · rw [if_neg hty] at hf
      simp [hty, ih h.2 hf]

theorem shl6_class (x : Nat) : (x <<< 6) % UCHAR = x % 4 * 64 := by
  rw [Nat.shiftLeft_eq, UCHAR]
  omega

theorem implicit_class_lt (x : Nat) (b : Bool) :
    (if b = true then ((x <<< 6) % UCHAR) ||| STRUCTURED else (x <<< 6) % UCHAR) < 256 := by
  rw [shl6_class]
  have h : x % 4 < 4 := Nat.mod_lt _ (by decide)
  generalize x % 4 = y at h
  interval_cases y <;> cases b <;> decide

theorem implicit_class_E0 (x : Nat) (b : Bool) :
    (if b = true then ((x <<< 6) % UCHAR) ||| STRUCTURED else (x <<< 6) % UCHAR) &&& 0xE0
      = (if b = true then ((x <<< 6) % UCHAR) ||| STRUCTURED else (x <<< 6) % UCHAR) := by
  rw [shl6_class]
  have h : x % 4 < 4 := Nat.mod_lt _ (by decide)
  generalize x % 4 = y at h
  interval_cases y <;> cases b <;> decide

/-- The first identifier octet written for an implicit tag carries the bit
`0x20` exactly when the class handed to `_asn1_tag_der` does. -/
theorem implicit_tag_head (x : Nat) (b : Bool) (n : Nat) :
    (rd (_asn1_tag_der
        (if b = true then ((x <<< 6) % UCHAR) ||| STRUCTURED else (x <<< 6) % UCHAR) n).1 0
      &&& 0x20 = 0x20) ↔ b = true := by
  have hlt := implicit_class_lt x b
  generalize hc : (if b = true then ((x <<< 6) % UCHAR) ||| STRUCTURED
    else (x <<< 6) % UCHAR) = cl at hlt
  have hcl : cl / 32 * 32 = x % 4 * 64 + (if b = true then 32 else 0) := by
    rw [← hc, shl6_class]
    have h : x % 4 < 4 := Nat.mod_lt _ (by decide)
    generalize x % 4 = y at h
    interval_cases y <;> cases b <;> decide
  have h4 : x % 4 < 4 := Nat.mod_lt _ (by decide)
  have key : ∀ low : Nat, low < 32 →
      (((cl / 32 * 32 + low) &&& 0x20 = 0x20) ↔ b = true) := by
    intro low hlow
    rw [hcl]
    generalize x % 4 = y at h4
    interval_cases y <;> cases b <;> interval_cases low <;> decide
  by_cases h : n < 30
  · rw [tag_der_short cl n hlt h]
    simpa [rd] using key n (by omega)
  · unfold _asn1_tag_der
    rw [if_neg h]
    simp only [and_E0_eq cl hlt, UCHAR, rd, List.getD_cons_zero, List.cons_append]
    have := key 31 (by decide)
    have e : (cl / 32 * 32 + 31) % 256 = cl / 32 * 32 + 31 := by
      apply Nat.mod_eq_of_lt
      omega
    norm_num
    rw [e]
    exact this

theorem extract_tag_loop_no_tag (ntype : node_type) (der : List Nat) (dn : AsnNode)
    (acc : tag_acc) (counter : Nat) (h : first_tag dn = none) :
    extract_tag_loop ntype der dn acc counter = some (ASN_OK, acc, counter) := by
  induction dn with
  | nil => rfl
  | node d dn rt _ ih =>
    unfold first_tag at h
    split at h
    · exact absurd h (by simp)
    · rename_i hty
      unfold extract_tag_loop
      rw [if_neg hty, ih h]

theorem extract_tag_loop_pending (ntype : node_type) (der : List Nat) (dn : AsnNode)
    (acc : tag_acc) (counter : Nat) (h : no_explicit_tag dn = true)
    (hacc : acc.is_tag_implicit = true) :
    extract_tag_loop ntype der dn acc counter = some (ASN_OK, acc, counter) := by
  induction dn with
  | nil => rfl
  | node d dn rt _ ih =>
    simp only [no_explicit_tag, Bool.and_eq_true, Bool.not_eq_true', Bool.and_eq_false_iff,
      decide_eq_false_iff_not] at h
    unfold extract_tag_loop
    by_cases hty : d.type = TYPE_TAG
    · have hex : d.flags.explicit = false := by
        rcases h.1 with h1 | h1
        · exact absurd hty h1
        · exact h1
      simp [hty, hex, hacc, ih h.2]
    · simp [hty, ih h.2]

theorem extract_tag_loop_implicit (ntype : node_type) (der : List Nat) (dn : AsnNode)
    (tg : node_data) (v : List Nat) (counter : Nat) (cls tag : Nat)
    (h : no_explicit_tag dn = true) (hf : first_tag dn = some tg) (hv : tg.value = some v) :
    extract_tag_loop ntype der dn ⟨false, cls, tag⟩ counter
      = some (ASN_OK,
          ⟨true,
            if is_structured ntype then ((tg.flags.class_ <<< 6) % UCHAR) ||| STRUCTURED
            else (tg.flags.class_ <<< 6) % UCHAR,
            strtoul v⟩, counter) := by
  induction dn with
  | nil => simp [first_tag] at hf
  | node d dn rt _ ih =>
    simp only [no_explicit_tag, Bool.and_eq_true, Bool.not_eq_true', Bool.and_eq_false_iff,
      decide_eq_false_iff_not] at h
    unfold extract_tag_loop
    unfold first_tag at hf
    by_cases hty : d.type = TYPE_TAG
    · have hex : d.flags.explicit = false := by
        rcases h.1 with h1 | h1
        · exact absurd hty h1
        · exact h1
      rw [if_pos hty] at hf
      injection hf with hf
      subst hf
      simp only [hty, hex, hv, if_true, Bool.false_eq_true, if_false]
      rw [extract_tag_loop_pending ntype der rt _ counter h.2 rfl]
    · rw [if_neg hty] at hf
      simp [hty, ih h.2 hf]

/-- What `_asn1_insert_tag_der` does on a node whose TAG chain holds no
explicit TAG and whose first TAG has the value `v`. -/
theorem insert_tag_implicit (d : node_data) (dn rt : AsnNode) (c : Ctx) (X Y : List Nat)
    (tg : node_data) (v : List Nat) (ht : d.flags.has_tag = true)
    (hne : no_explicit_tag dn = true) (hf : first_tag dn = some tg) (hv : tg.value = some v) :
    _asn1_insert_tag_der ⟨d, dn, rt, c⟩ (X ++ Y) X.length
      = some (ASN_OK, ⟨d, dn, rt, c⟩,
          X ++ (_asn1_tag_der
                (if is_structured d.type then ((tg.flags.class_ <<< 6) % UCHAR) ||| STRUCTURED
                  else (tg.flags.class_ <<< 6) % UCHAR) (strtoul v % UINT)).1
            ++ Y.drop (_asn1_tag_der
                (if is_structured d.type then ((tg.flags.class_ <<< 6) % UCHAR) ||| STRUCTURED
                  else (tg.flags.class_ <<< 6) % UCHAR) (strtoul v % UINT)).1.length,
          X.length + (_asn1_tag_der
                (if is_structured d.type then ((tg.flags.class_ <<< 6) % UCHAR) ||| STRUCTURED
                  else (tg.flags.class_ <<< 6) % UCHAR) (strtoul v % UINT)).1.length) := by
  unfold _asn1_insert_tag_der
  simp only [ht, if_true, insert_tag_loop_implicit d.type dn tg v (X ++ Y) X.length 0 0 hne hf hv,
    memcpy_append, tag_der_len]

/-- What `_asn1_insert_tag_der` does on a node that is not flagged `has_tag`
or has no TAG child. -/
theorem insert_tag_table (d : node_data) (dn rt : AsnNode) (c : Ctx) (X Y : List Nat)
    (h : d.flags.has_tag = false ∨ first_tag dn = none) :
    _asn1_insert_tag_der ⟨d, dn, rt, c⟩ (X ++ Y) X.length =
      match spec_tag_table d with
      | some t => some (ASN_OK, ⟨d, dn, rt, c⟩, X ++ t ++ Y.drop t.length, X.length + t.length)
      | none => some (ASN_GENERIC_ERROR, ⟨d, dn, rt, c⟩, X ++ Y, X.length) := by
  have hw : (if d.flags.has_tag = true
        then insert_tag_loop d.type dn ⟨false, 0, 0⟩ (X ++ Y) X.length
        else some (dn, ⟨false, 0, 0⟩, X ++ Y, X.length))
      = some (dn, ⟨false, 0, 0⟩, X ++ Y, X.length) := by
    rcases h with h | h
    · simp [h]
    · simp [insert_tag_loop_no_tag d.type dn _ (X ++ Y) X.length h]
  unfold _asn1_insert_tag_der
  simp only [hw, universal_tag_table]
  cases spec_tag_table d <;> simp [memcpy_append]

/-- C21. Universal tag table: on a node that is not flagged `has_tag`, or has
no TAG child, `_asn1_insert_tag_der` returns `ASN_OK` and writes at the
position `*counter` the one octet of the table (`01` BOOLEAN, `02` INTEGER,
`03` BIT STRING, `04` OCTET STRING, `05` NULL, `06` OBJECT_ID, `0A`
ENUMERATED, `30` SEQUENCE and SEQUENCE OF, `31` SET and SET OF, `17` or `18`
for TIME), advancing `*counter` by one; for TAG, CHOICE and ANY it writes
nothing and returns `ASN_OK`; for any other type it returns
`ASN_GENERIC_ERROR` and leaves buffer and counter alone. -/
theorem C21_universal_tag_table (d : node_data) (dn rt : AsnNode) (c : Ctx) (X Y : List Nat)
    (h : d.flags.has_tag = false ∨ first_tag dn = none) :
    _asn1_insert_tag_der ⟨d, dn, rt, c⟩ (X ++ Y) X.length =
      match spec_tag_table d with
      | some t => some (ASN_OK, ⟨d, dn, rt, c⟩, X ++ t ++ Y.drop t.length, X.length + t.length)
      | none => some (ASN_GENERIC_ERROR, ⟨d, dn, rt, c⟩, X ++ Y, X.length) :=
  insert_tag_table d dn rt c X Y h

/-- The instance of C21 at a TIME node flagged `is_utc_time`, with one byte
before the write position. -/
theorem C21_universal_tag_table_witness :
    _asn1_insert_tag_der
        ⟨⟨none, TYPE_TIME, ⟨false, false, false, false, false, true, false, 0⟩, none⟩,
          AsnNode.nil, AsnNode.nil, Ctx.top⟩ ([9] ++ [7, 7]) 1
      = some (ASN_OK,
          ⟨⟨none, TYPE_TIME, ⟨false, false, false, false, false, true, false, 0⟩, none⟩,
            AsnNode.nil, AsnNode.nil, Ctx.top⟩, [9, 0x17, 7], 2) :=
  C21_universal_tag_table
    ⟨none, TYPE_TIME, ⟨false, false, false, false, false, true, false, 0⟩, none⟩
    AsnNode.nil AsnNode.nil Ctx.top [9] [7, 7] (Or.inl rfl)

/-- C22. Implicit tag replaces the universal tag: on a node flagged `has_tag`
whose TAG chain holds no explicit TAG and whose first TAG `tg` has the value
`v`, `_asn1_insert_tag_der` returns `ASN_OK`, leaves the node alone and writes
only the octets that `_asn1_tag_der` makes of the class of `tg` and the number
`strtoul (v)` (as an `unsigned int`); later TAGs do not matter.  The bit
`0x20` of the first octet is set exactly when the node is a SEQUENCE, SEQUENCE
OF, SET or SET OF. -/
theorem C22_implicit_tag (d : node_data) (dn rt : AsnNode) (c : Ctx) (X Y : List Nat)
    (tg : node_data) (v : List Nat) (ht : d.flags.has_tag = true)
    (hne : no_explicit_tag dn = true) (hf : first_tag dn = some tg) (hv : tg.value = some v) :
    _asn1_insert_tag_der ⟨d, dn, rt, c⟩ (X ++ Y) X.length
      = some (ASN_OK, ⟨d, dn, rt, c⟩,
          X ++ (_asn1_tag_der
                (if is_structured d.type then ((tg.flags.class_ <<< 6) % UCHAR) ||| STRUCTURED
                  else (tg.flags.class_ <<< 6) % UCHAR) (strtoul v % UINT)).1
            ++ Y.drop (_asn1_tag_der
                (if is_structured d.type then ((tg.flags.class_ <<< 6) % UCHAR) ||| STRUCTURED
                  else (tg.flags.class_ <<< 6) % UCHAR) (strtoul v % UINT)).1.length,
          X.length + (_asn1_tag_der
                (if is_structured d.type then ((tg.flags.class_ <<< 6) % UCHAR) ||| STRUCTURED
                  else (tg.flags.class_ <<< 6) % UCHAR) (strtoul v % UINT)).1.length)
    ∧ ((rd (_asn1_tag_der
            (if is_structured d.type then ((tg.flags.class_ <<< 6) % UCHAR) ||| STRUCTURED
              else (tg.flags.class_ <<< 6) % UCHAR) (strtoul v % UINT)).1 0 &&& 0x20 = 0x20)
        ↔ is_structured d.type = true) :=
  ⟨insert_tag_implicit d dn rt c X Y tg v ht hne hf hv,
    implicit_tag_head tg.flags.class_ (is_structured d.type) (strtoul v % UINT)⟩

/-- The instance of C22 at a SEQUENCE with the TAG chain `[2] IMPLICIT`,
`[5] IMPLICIT`: the one octet `A2` is written. -/
theorem C22_implicit_tag_witness :
    _asn1_insert_tag_der ⟨tagged_node TYPE_SEQUENCE, two_implicit_tags, AsnNode.nil, Ctx.top⟩
        ([] ++ [0, 0]) 0
      = some (ASN_OK, ⟨tagged_node TYPE_SEQUENCE, two_implicit_tags, AsnNode.nil, Ctx.top⟩,
          [0xA2, 0], 1)
    ∧ ((0xA2 &&& 0x20 = 0x20) ↔ is_structured TYPE_SEQUENCE = true) :=
  C22_implicit_tag (tagged_node TYPE_SEQUENCE) two_implicit_tags AsnNode.nil Ctx.top [] [0, 0]
    (tag_node 2 "2" false) (c_string "2") rfl rfl rfl rfl

theorem spec_tag_table_universal (d : node_data) (e : Nat × Nat)
    (he : expected_universal d = some e) :
    ∃ t, universal_tag d = some t ∧ spec_tag_table d = some t.1 ∧ t.1 ≠ [] := by
  obtain ⟨name, ty, flags, value⟩ := d
  cases ty <;> simp only [expected_universal] at he <;>
    simp only [universal_tag, spec_tag_table] <;> first
    | exact ⟨_, rfl, rfl, by decide⟩
    | (split <;> exact ⟨_, rfl, rfl, by decide⟩)
    | exact absurd he (by simp)

/-- Decoding the identifier octets of an implicit tag gives back the class
and, below `2 ^ 32`, the number. -/
theorem extract_tag_implicit (d : node_data) (dn : AsnNode) (W : List Nat)
    (tg : node_data) (v : List Nat) (ht : d.flags.has_tag = true)
    (hne : no_explicit_tag dn = true) (hf : first_tag dn = some tg) (hv : tg.value = some v)
    (hn : strtoul v < UINT) :
    _asn1_extract_tag_der d dn
        ((_asn1_tag_der
            (if is_structured d.type then ((tg.flags.class_ <<< 6) % UCHAR) ||| STRUCTURED
              else (tg.flags.class_ <<< 6) % UCHAR) (strtoul v % UINT)).1 ++ W)
      = some (ASN_OK, (_asn1_tag_der
            (if is_structured d.type then ((tg.flags.class_ <<< 6) % UCHAR) ||| STRUCTURED
              else (tg.flags.class_ <<< 6) % UCHAR) (strtoul v % UINT)).1.length) := by
  have hg := get_tag_der_tag_der _ (strtoul v % UINT)
    (implicit_class_lt tg.flags.class_ (is_structured d.type)) (Nat.mod_lt _ (by decide)) W
  rw [implicit_class_E0, Nat.mod_eq_of_lt hn] at hg
  unfold _asn1_extract_tag_der
  simp only [ht, if_true, extract_tag_loop_implicit d.type _ dn tg v 0 0 0 hne hf hv,
    List.drop_zero]
  rw [Nat.mod_eq_of_lt hn]
  simp only [hg, ne_eq, not_true_eq_false, or_self, if_false, Nat.zero_add, tag_der_len]

/-- Every type other than CHOICE, ANY, TAG and SIZE has a universal tag that
`_asn1_extract_tag_der` asks for. -/
theorem expected_universal_of_type (d : node_data)
    (hty : d.type ≠ TYPE_CHOICE ∧ d.type ≠ TYPE_ANY ∧ d.type ≠ TYPE_TAG ∧ d.type ≠ TYPE_SIZE) :
    ∃ e, expected_universal d = some e := by
  obtain ⟨name, ty, flags, value⟩ := d
  obtain ⟨h1, h2, h3, h4⟩ := hty
  cases ty <;> simp only [expected_universal] <;> first
    | exact ⟨_, rfl⟩
    | (split <;> exact ⟨_, rfl⟩)
    | exact absurd rfl h1
    | exact absurd rfl h2
    | exact absurd rfl h3
    | exact absurd rfl h4

/-- C28. Tag engine decode mirrors encode: for a node of type NULL, BOOLEAN,
INTEGER, ENUMERATED, OBJECT_ID, TIME, OCTET STRING, BIT STRING, SEQUENCE,
SEQUENCE OF, SET or SET OF that is not flagged `has_tag`, or whose TAG chain
holds no explicit TAG and, if it holds a TAG at all, a first TAG with a
number up to 65535, `_asn1_insert_tag_der` returns `ASN_OK` and writes a
non-empty run of octets `t`, and `_asn1_extract_tag_der` applied to `t`
(whatever follows it) returns `ASN_OK` with the consumed length `t.length`. -/
theorem C28_extract_mirrors_insert (d : node_data) (dn rt : AsnNode) (c : Ctx)
    (X Y : List Nat)
    (hty : d.type ≠ TYPE_CHOICE ∧ d.type ≠ TYPE_ANY ∧ d.type ≠ TYPE_TAG ∧ d.type ≠ TYPE_SIZE)
    (h : d.flags.has_tag = false ∨
      (no_explicit_tag dn = true ∧
        ∀ tg, first_tag dn = some tg → ∃ v, tg.value = some v ∧ strtoul v ≤ 65535)) :
    ∃ t : List Nat, t ≠ [] ∧
      _asn1_insert_tag_der ⟨d, dn, rt, c⟩ (X ++ Y) X.length
        = some (ASN_OK, ⟨d, dn, rt, c⟩, X ++ t ++ Y.drop t.length, X.length + t.length)
      ∧ ∀ W, _asn1_extract_tag_der d dn (t ++ W) = some (ASN_OK, t.length) := by
  obtain ⟨e, he⟩ := expected_universal_of_type d hty
  obtain ⟨t, hu, hs, hne0⟩ := spec_tag_table_universal d e he
  obtain ⟨-, h2, h3⟩ := expected_universal_type d e he
  -- the universal tag is used
  have universal : (d.flags.has_tag = false ∨ first_tag dn = none) →
      ∃ t : List Nat, t ≠ [] ∧
        _asn1_insert_tag_der ⟨d, dn, rt, c⟩ (X ++ Y) X.length
          = some (ASN_OK, ⟨d, dn, rt, c⟩, X ++ t ++ Y.drop t.length, X.length + t.length)
        ∧ ∀ W, _asn1_extract_tag_der d dn (t ++ W) = some (ASN_OK, t.length) := by
    intro hcase
    refine ⟨t.1, hne0, ?_, ?_⟩
    · rw [insert_tag_table d dn rt c X Y hcase, hs]
    · intro W
      have hg := get_tag_der_universal d t e W hu he
      have hw : (if d.flags.has_tag = true then extract_tag_loop d.type (t.1 ++ W) dn ⟨false, 0, 0⟩ 0
            else some (ASN_OK, ⟨false, 0, 0⟩, 0))
          = some (ASN_OK, ⟨false, 0, 0⟩, 0) := by
        rcases hcase with hc | hc
        · simp [hc]
        · simp [extract_tag_loop_no_tag d.type (t.1 ++ W) dn _ 0 hc]
      unfold _asn1_extract_tag_der
      simp only [hw, Bool.false_eq_true, if_false, h2, h3, List.drop_zero,
        hg, he, ne_eq, not_true_eq_false, or_self, Nat.zero_add]
  rcases h with h | ⟨hne, hv⟩
  · exact universal (Or.inl h)
  · cases hf : first_tag dn with
    | none => exact universal (Or.inr hf)
    | some tg =>
      obtain ⟨v, hval, hn⟩ := hv tg hf
      by_cases ht : d.flags.has_tag = true
      · refine ⟨_, ?_, insert_tag_implicit d dn rt c X Y tg v ht hne hf hval, fun W =>
          extract_tag_implicit d dn W tg v ht hne hf hval ?_⟩
        · intro h0
          have := tag_der_len
            (if is_structured d.type then ((tg.flags.class_ <<< 6) % UCHAR) ||| STRUCTURED
              else (tg.flags.class_ <<< 6) % UCHAR) (strtoul v % UINT)
          rw [h0] at this
          unfold _asn1_tag_der at this
          split at this <;> simp at this
        · have : (65535 : Nat) < UINT := by decide
          omega
      · exact universal (Or.inl (by simpa using ht))

/-- The instance of C28 at an INTEGER with the TAG chain `[2] IMPLICIT`,
`[5] IMPLICIT`. -/
theorem C28_extract_mirrors_insert_witness :
    ∃ t : List Nat, t ≠ [] ∧
      _asn1_insert_tag_der ⟨tagged_node TYPE_INTEGER, two_implicit_tags, AsnNode.nil, Ctx.top⟩
          ([] ++ [0, 0]) ([] : List Nat).length
        = some (ASN_OK, ⟨tagged_node TYPE_INTEGER, two_implicit_tags, AsnNode.nil, Ctx.top⟩,
            [] ++ t ++ [0, 0].drop t.length, ([] : List Nat).length + t.length)
      ∧ ∀ W, _asn1_extract_tag_der (tagged_node TYPE_INTEGER) two_implicit_tags (t ++ W)
          = some (ASN_OK, t.length) :=
  C28_extract_mirrors_insert (tagged_node TYPE_INTEGER) two_implicit_tags AsnNode.nil Ctx.top
    [] [0, 0] (by decide)
    (Or.inr ⟨rfl, fun tg htg => ⟨c_string "2", by
      have e : tg = tag_node 2 "2" false := by
        simp only [two_implicit_tags, first_tag, tag_node, if_true, Option.some.injEq] at htg
        exact htg.symm
      subst e
      exact ⟨rfl, by decide⟩⟩⟩)
/-! ## Theorems: OCTET STRING and BIT STRING payloads -/

/-- What `_asn1_get_octet_der` makes of the output of `_asn1_octet_der`: the
payload comes back when the capacity is above its length, and the result is
`ASN_MEM_ERROR` for every other capacity. -/
theorem get_octet_der_octet_der (s rest : List Nat) (c : Int) (hs : s.length < 2 ^ 31) :
    _asn1_get_octet_der ((_asn1_octet_der s s.length).1 ++ rest) c
      = if c > (s.length : Int) then
          some (ASN_OK, (s.length : Int),
            some (s, ((_asn1_octet_der s s.length).2 : Int)))
        else some (ASN_MEM_ERROR, (s.length : Int), none) := by
  have hu : s.length < ULONG := by rw [ULONG_eq]; omega
  have hm : memrd s 0 s.length = s := by rw [memrd_take s _ (le_refl _), List.take_length]
  have hg := get_length_der_length_der s.length hu (s ++ rest)
  unfold _asn1_get_octet_der _asn1_octet_der
  simp only [hm, List.append_assoc, hg, to_int_small s.length hs]
  split
  · rw [if_neg (by omega)]
    simp only [Int.toNat_ofNat]
    rw [← List.append_assoc, memrd_of_length _ s rest _ s.length (length_der_len _) rfl]
    simp
  · rfl

/-- C24. OCTET STRING primitive: `_asn1_get_octet_der` applied to the output
of `_asn1_octet_der` for the one byte `AA` with a destination of capacity 1
returns `ASN_MEM_ERROR` and copies nothing, although the capacity equals the
length of the payload. -/
theorem C24_capacity_equal_to_length :
    _asn1_octet_der [0xAA] 1 = ([0x01, 0xAA], 2)
    ∧ _asn1_get_octet_der (_asn1_octet_der [0xAA] 1).1 1 = some (ASN_MEM_ERROR, 1, none)
    ∧ _asn1_get_octet_der (_asn1_octet_der [0xAA] 1).1 2 = some (ASN_OK, 1, some ([0xAA], 2)) := by
  decide

set_option maxRecDepth 100000 in
theorem and_bit_mask (b p : Nat) (hb : b < 256) (hp : p < 8) :
    b &&& rd bit_mask p = b / 2 ^ p * 2 ^ p := by
  interval_cases p
  · exact (by decide : ∀ b : Fin 256, b.val &&& rd bit_mask 0 = b.val / 2 ^ 0 * 2 ^ 0) ⟨b, hb⟩
  · exact (by decide : ∀ b : Fin 256, b.val &&& rd bit_mask 1 = b.val / 2 ^ 1 * 2 ^ 1) ⟨b, hb⟩
  · exact (by decide : ∀ b : Fin 256, b.val &&& rd bit_mask 2 = b.val / 2 ^ 2 * 2 ^ 2) ⟨b, hb⟩
  · exact (by decide : ∀ b : Fin 256, b.val &&& rd bit_mask 3 = b.val / 2 ^ 3 * 2 ^ 3) ⟨b, hb⟩
  · exact (by decide : ∀ b : Fin 256, b.val &&& rd bit_mask 4 = b.val / 2 ^ 4 * 2 ^ 4) ⟨b, hb⟩
  · exact (by decide : ∀ b : Fin 256, b.val &&& rd bit_mask 5 = b.val / 2 ^ 5 * 2 ^ 5) ⟨b, hb⟩
  · exact (by decide : ∀ b : Fin 256, b.val &&& rd bit_mask 6 = b.val / 2 ^ 6 * 2 ^ 6) ⟨b, hb⟩
  · exact (by decide : ∀ b : Fin 256, b.val &&& rd bit_mask 7 = b.val / 2 ^ 7 * 2 ^ 7) ⟨b, hb⟩

theorem clear_low_bits_length (pad : Nat) (bs : List Nat) :
    (clear_low_bits pad bs).length = bs.length := by
  induction bs with
  | nil => rfl
  | cons b bs ih =>
    cases bs with
    | nil => rfl
    | cons c r =>
      simp only [clear_low_bits, List.length_cons] at *
      omega

theorem clear_low_bits_concat (pad : Nat) (bs : List Nat) (b : Nat) :
    clear_low_bits pad (bs ++ [b]) = bs ++ [b / 2 ^ pad * 2 ^ pad] := by
  induction bs with
  | nil => rfl
  | cons a bs ih =>
    cases bs with
    | nil => rfl
    | cons c r =>
      show a :: clear_low_bits pad ((c :: r) ++ [b]) = _
      rw [ih]
      rfl

theorem bit_len_split (bit_len : Nat) :
    (if 8 - (bit_len &&& 7) = 8 then 0 else 8 - (bit_len &&& 7)) = spec_bit_pad bit_len
    ∧ (if 8 - (bit_len &&& 7) = 8 then bit_len >>> 3 else bit_len >>> 3 + 1)
        = spec_bit_bytes bit_len := by
  have h7 : bit_len &&& 7 = bit_len % 8 := Nat.and_pow_two_sub_one_eq_mod bit_len 3
  have h3 : bit_len >>> 3 = bit_len / 8 := Nat.shiftRight_eq_div_pow bit_len 3
  rw [h7, h3]
  unfold spec_bit_pad spec_bit_bytes
  constructor <;> split <;> omega

theorem spec_bit_bytes_zero (bit_len : Nat) (h : spec_bit_bytes bit_len = 0) :
    spec_bit_pad bit_len = 0 := by
  unfold spec_bit_bytes at h
  unfold spec_bit_pad
  omega

theorem spec_bit_len (bit_len : Nat) :
    spec_bit_bytes bit_len * 8 = bit_len + spec_bit_pad bit_len := by
  unfold spec_bit_bytes spec_bit_pad
  omega

/-- The octets that `_asn1_bit_der` writes. -/
theorem bit_der_spec (str : List Nat) (bit_len : Nat)
    (hlen : spec_bit_bytes bit_len ≤ str.length) (hb : ∀ b ∈ str, b < 256) :
    _asn1_bit_der str bit_len
      = ((_asn1_length_der (spec_bit_bytes bit_len + 1)).1 ++ [spec_bit_pad bit_len]
            ++ spec_bit_payload str bit_len,
          spec_bit_bytes bit_len + (_asn1_length_der (spec_bit_bytes bit_len + 1)).2 + 1) := by
  obtain ⟨hpad, hbytes⟩ := bit_len_split bit_len
  unfold _asn1_bit_der
  simp only [hpad, hbytes, memrd_take str _ hlen, spec_bit_payload, length_der_len]
  generalize hL : (_asn1_length_der (spec_bit_bytes bit_len + 1)).1 = L
  have hp8 : spec_bit_pad bit_len < 8 := by
    unfold spec_bit_pad
    omega
  rcases List.eq_nil_or_concat (str.take (spec_bit_bytes bit_len)) with hP | ⟨Q, b, hP⟩
  · have h0 : spec_bit_bytes bit_len = 0 := by
      have := congrArg List.length hP
      rw [List.length_take, Nat.min_eq_left hlen] at this
      simpa using this
    rw [hP, h0, spec_bit_bytes_zero bit_len h0]
    simp only [List.append_nil, Nat.add_zero, clear_low_bits]
    have hr : rd (L ++ [0]) L.length = 0 := by
      rw [rd_of_length L [0] L.length 0 (by simp)]
      rfl
    rw [hr]
    have hz : (0 : Nat) &&& rd bit_mask 0 = 0 := by decide
    rw [hz, memcpy_append L [0] [0]]
    simp
  · have hQ : spec_bit_bytes bit_len = Q.length + 1 := by
      have := congrArg List.length hP
      rw [List.length_take, Nat.min_eq_left hlen] at this
      simpa using this
    have hbb : b < 256 := by
      apply hb
      have : b ∈ str.take (spec_bit_bytes bit_len) := by
        rw [hP]
        simp
      exact List.mem_of_mem_take this
    rw [List.concat_eq_append] at hP
    rw [hP, clear_low_bits_concat, hQ]
    have e1 : L ++ [spec_bit_pad bit_len] ++ (Q ++ [b])
        = (L ++ [spec_bit_pad bit_len] ++ Q) ++ [b] := by simp
    have e2 : L.length + (Q.length + 1) = (L ++ [spec_bit_pad bit_len] ++ Q).length := by
      simp only [List.length_append, List.length_singleton]
      omega
    have hr : rd ((L ++ [spec_bit_pad bit_len] ++ Q) ++ [b])
        (L ++ [spec_bit_pad bit_len] ++ Q).length = b := by
      rw [rd_of_length (L ++ [spec_bit_pad bit_len] ++ Q) [b] _ 0 (by simp)]
      rfl
    rw [e1, e2, hr, memcpy_append, and_bit_mask b _ hbb hp8]
    simp

theorem spec_bit_payload_length (str : List Nat) (bit_len : Nat)
    (hlen : spec_bit_bytes bit_len ≤ str.length) :
    (spec_bit_payload str bit_len).length = spec_bit_bytes bit_len := by
  rw [spec_bit_payload, clear_low_bits_length, List.length_take, Nat.min_eq_left hlen]

/-- What `_asn1_get_bit_der` makes of the output of `_asn1_bit_der` for
`bit_len` bits (below `2 ^ 31`) of `str`, whatever follows it: the masked
payload, `bit_len` and the number of octets read come back when the capacity
is above the byte count, and the result is `ASN_MEM_ERROR` for every other
capacity. -/
theorem get_bit_der_bit_der (str : List Nat) (bit_len : Nat) (rest : List Nat)
    (cap : Int) (hlen : spec_bit_bytes bit_len ≤ str.length) (hb : ∀ b ∈ str, b < 256)
    (hbit : bit_len < 2 ^ 31) :
    (_asn1_bit_der str bit_len).1
        = (_asn1_length_der (spec_bit_bytes bit_len + 1)).1 ++ [spec_bit_pad bit_len]
            ++ spec_bit_payload str bit_len
    ∧ (_asn1_bit_der str bit_len).2 = (_asn1_bit_der str bit_len).1.length
    ∧ _asn1_get_bit_der ((_asn1_bit_der str bit_len).1 ++ rest) cap
        = if cap > (spec_bit_bytes bit_len : Int) then
            some (ASN_OK, some (spec_bit_payload str bit_len, (bit_len : Int),
              ((_asn1_bit_der str bit_len).1.length : Int)))
          else some (ASN_MEM_ERROR, none) := by
  have hn : spec_bit_bytes bit_len + 1 < ULONG := by
    rw [ULONG_eq]
    unfold spec_bit_bytes
    omega
  have hby : spec_bit_bytes bit_len < 2 ^ 29 := by
    unfold spec_bit_bytes
    omega
  have hpl := spec_bit_payload_length str bit_len hlen
  have hbl := spec_bit_len bit_len
  rw [bit_der_spec str bit_len hlen hb]
  refine ⟨rfl, ?_, ?_⟩
  · simp only [List.length_append, List.length_singleton, hpl, length_der_len]
    omega
  · dsimp only
    generalize hP : spec_bit_payload str bit_len = P at hpl
    have hg := get_length_der_length_der (spec_bit_bytes bit_len + 1) hn
      ([spec_bit_pad bit_len] ++ P ++ rest)
    rw [length_der_len] at hg
    have hLl : (_asn1_length_der (spec_bit_bytes bit_len + 1)).1.length ≤ 9 :=
      length_der_length_le _
    generalize (_asn1_length_der (spec_bit_bytes bit_len + 1)).1 = L at hg hLl
    have e : L ++ [spec_bit_pad bit_len] ++ P ++ rest
        = L ++ ([spec_bit_pad bit_len] ++ P ++ rest) := by simp
    unfold _asn1_get_bit_der
    rw [e, hg]
    have hlb : to_int ((spec_bit_bytes bit_len + 1 + ULONG - 1) % ULONG)
        = (spec_bit_bytes bit_len : Int) := by
      have e0 : (spec_bit_bytes bit_len + 1 + ULONG - 1) % ULONG = spec_bit_bytes bit_len := by
        rw [ULONG_eq] at hn ⊢
        omega
      rw [e0, to_int_small _ (by omega)]
    simp only [hlb]
    split
    · rw [if_neg (by omega)]
      simp only [Int.toNat_ofNat]
      have hm : memrd (L ++ ([spec_bit_pad bit_len] ++ P ++ rest)) (L.length + 1)
          (spec_bit_bytes bit_len) = P := by
        have := memrd_of_length (L ++ [spec_bit_pad bit_len]) P rest (L.length + 1)
          (spec_bit_bytes bit_len) (by simp) hpl.symm
        rw [← e]
        exact this
      have hr : rd (L ++ ([spec_bit_pad bit_len] ++ P ++ rest)) L.length
          = spec_bit_pad bit_len := by
        rw [rd_of_length L _ L.length 0 (by simp)]
        rfl
      rw [hm, hr]
      simp only [List.length_append, List.length_singleton, hpl]
      have hpad : spec_bit_pad bit_len < 8 := by
        unfold spec_bit_pad
        omega
      have e1 : wrap_int (((spec_bit_bytes bit_len : Nat) : Int) * 8 - (spec_bit_pad bit_len : Int))
          = (bit_len : Int) := by
        rw [wrap_int_small _ (by omega) (by omega)]
        omega
      have e2 : wrap_int (wrap_int (((spec_bit_bytes bit_len : Nat) : Int) + (L.length : Int)) + 1)
          = ((L.length + 1 + spec_bit_bytes bit_len : Nat) : Int) := by
        have i : wrap_int (((spec_bit_bytes bit_len : Nat) : Int) + (L.length : Int))
            = ((spec_bit_bytes bit_len : Nat) : Int) + (L.length : Int) :=
          wrap_int_small _ (by omega) (by omega)
        rw [i, wrap_int_small _ (by omega) (by omega)]
        push_cast
        omega
      rw [e1, e2]
    · rfl

/-- C25. BIT STRING round trip: `_asn1_bit_der` for the eleven bits of
`AB CD` writes `03 05 AB C0`, two payload bytes; `_asn1_get_bit_der` applied
to that output with a destination of capacity 2 returns `ASN_MEM_ERROR` and
copies nothing, although the capacity equals the byte count; with capacity 3
it returns `ASN_OK`, the bytes `AB C0` and `bit_len` 11. -/
theorem C25_capacity_equal_to_byte_count :
    (_asn1_bit_der [0xAB, 0xCD] 11).1 = [0x03, 0x05, 0xAB, 0xC0]
    ∧ _asn1_get_bit_der (_asn1_bit_der [0xAB, 0xCD] 11).1 2 = some (ASN_MEM_ERROR, none)
    ∧ _asn1_get_bit_der (_asn1_bit_der [0xAB, 0xCD] 11).1 3
        = some (ASN_OK, some ([0xAB, 0xC0], 11, 4)) := by
  decide
/-! ## Theorems: the ANY round trip -/

/-- The value that the ANY case of the decoder stores for the element `e`
found at the read position. -/
theorem octet_der_take (e Z : List Nat) :
    (_asn1_octet_der (e ++ Z) e.length).1.take (_asn1_octet_der (e ++ Z) e.length).2
      = (_asn1_length_der e.length).1 ++ e := by
  unfold _asn1_octet_der
  simp only [ memrd_prefix, length_der_len]
  rw [List.take_of_length_le]
  simp only [List.length_append]
  omega

/-- A turn of the decoder on a mandatory untagged ANY node at whose element
`T ++ Lo ++ C` the read position stands. -/
theorem get_der_body_any (d : node_data) (dn rt : AsnNode) (c : Ctx) (m : Move)
    (X T Lo C Z : List Nat) (hmv : m ≠ UP) (hd : d.type = TYPE_ANY)
    (hm : mandatory_untagged d = true)
    (hT : ∀ rest, (_asn1_get_tag_der (T ++ rest)).2.2 = T.length)
    (hL : ∀ rest, _ksba_asn_get_length_der (Lo ++ rest) = (C.length, Lo.length))
    (hsz : X.length + (T ++ Lo ++ C).length < 2 ^ 31) :
    get_der_body (X ++ (T ++ Lo ++ C) ++ Z) ⟨⟨d, dn, rt, c⟩, m, X.length⟩
      = some (Sum.inr ⟨⟨_ksba_asn_set_value d
            (some ((_asn1_length_der (T ++ Lo ++ C).length).1 ++ (T ++ Lo ++ C))), dn, rt, c⟩,
          RIGHT, X.length + (T ++ Lo ++ C).length⟩) := by
  obtain ⟨htag, hopt, hdef, hset, -⟩ := mandatory_untagged_flags d hm
  have hdrop : (X ++ (T ++ Lo ++ C) ++ Z).drop X.length = T ++ (Lo ++ C ++ Z) := by
    rw [List.append_assoc, List.drop_left]
    simp
  have hdrop2 : (X ++ (T ++ Lo ++ C) ++ Z).drop (X.length + T.length) = Lo ++ (C ++ Z) := by
    rw [← List.drop_drop, hdrop, List.drop_left]
    simp
  have hext : _asn1_extract_tag_der d dn (T ++ (Lo ++ C ++ Z)) = some (ASN_OK, 0) := by
    simp [_asn1_extract_tag_der, htag, hd]
  have hlen : T.length + C.length + Lo.length = (T ++ Lo ++ C).length := by
    simp only [List.length_append]
    omega
  have hval := octet_der_take (T ++ Lo ++ C) Z
  have hcat : T ++ (Lo ++ C ++ Z) = (T ++ Lo ++ C) ++ Z := by simp
  have hw : wrap_int (to_int (T.length + C.length) + (Lo.length : Int))
      = ((T ++ Lo ++ C).length : Int) := by
    rw [← hlen] at hsz ⊢
    rw [to_int_small _ (by omega), wrap_int_small _ (by omega) (by omega)]
    push_cast
    rfl
  unfold get_der_body
  simp only [hmv, ne_eq, not_false_eq_true, if_true, get_der_set_member, hset, Bool.false_eq_true,
    if_false, get_der_choice, hd, get_der_tag, hopt, hdef, or_self, hdrop, hext,
    not_true_eq_false, Nat.add_zero, get_der_switch, hT, hdrop2, hL, hw, reduceCtorEq,
    Int.toNat_ofNat, counter_add_small _ _ hsz]
  rw [if_neg (by omega), hcat, hval]
  rfl

/-- The encoding of an ANY node that holds the element `e` behind the length
octets of its size is `e`. -/
theorem leaf_encoding_any (d : node_data) (e : List Nat) (hd : d.type = TYPE_ANY)
    (hsize : e.length < 2 ^ 31) :
    leaf_encoding (_ksba_asn_set_value d (some ((_asn1_length_der e.length).1 ++ e)))
      = some e := by
  have hu : e.length < ULONG := by rw [ULONG_eq]; omega
  have hg := get_length_der_length_der e.length hu e
  simp only [leaf_encoding, universal_tag, leaf_content, _ksba_asn_set_value, hd]
  rw [Option.some_bind]
  simp only [hg, length_der_len, List.length_append, le_refl, if_true,
    List.drop_left, List.take_length, List.nil_append]

/-- C23. ANY round trip: for an element `e` made of tag octets `T` (as
`_asn1_get_tag_der` reads them), definite length octets `Lo` (as
`_ksba_asn_get_length_der` reads them) and as many content bytes `C` as they
say, shorter than `2 ^ 31` bytes, `asn1_get_der` of `e` into a mandatory
untagged ANY node returns `ASN_OK` and stores as the value of the node the
length octets of the size of `e` followed by all bytes of `e`, and
`asn1_create_der` on that node emits exactly the bytes of `e`. -/
theorem C23_any_round_trip (d : node_data) (dn rt : AsnNode) (c : Ctx)
    (e T Lo C der0 : List Nat) (fuel : Nat)
    (hd : d.type = TYPE_ANY) (hm : mandatory_untagged d = true) (he : e = T ++ Lo ++ C)
    (hT : ∀ rest, (_asn1_get_tag_der (T ++ rest)).2.2 = T.length)
    (hL : ∀ rest, _ksba_asn_get_length_der (Lo ++ rest) = (C.length, Lo.length))
    (hsize : e.length < 2 ^ 31) :
    asn1_get_der (some ⟨d, dn, rt, c⟩) e e.length (fuel + 1)
        = Run.ret ⟨ASN_OK,
            some ⟨_ksba_asn_set_value d (some ((_asn1_length_der e.length).1 ++ e)),
              delete_not_used_chain dn, rt, c⟩⟩
    ∧ asn1_create_der
          (some ⟨_ksba_asn_set_value d (some ((_asn1_length_der e.length).1 ++ e)),
            delete_not_used_chain dn, rt, c⟩) der0 (1 + fuel)
        = Run.ret ⟨ASN_OK,
            some ⟨_ksba_asn_set_value d (some ((_asn1_length_der e.length).1 ++ e)),
              delete_not_used_chain dn, rt, c⟩,
            e ++ der0.drop e.length, some e.length⟩ := by
  obtain ⟨htag, hopt, -, -, hnu⟩ := mandatory_untagged_flags d hm
  constructor
  · have hbody := get_der_body_any d dn rt c DOWN [] T Lo C [] (by decide) hd hm hT hL
      (by rw [← he]; simp only [List.length_nil]; omega)
    simp only [List.nil_append, List.append_nil, List.length_nil, Nat.zero_add] at hbody
    rw [← he] at hbody
    have hrun : get_der_loop e (Loc.mk d dn rt c).ctx.pos (fuel + 1) ⟨⟨d, dn, rt, c⟩, DOWN, 0⟩
        = Run.ret (Sum.inr ⟨⟨_ksba_asn_set_value d
              (some ((_asn1_length_der e.length).1 ++ e)), dn, rt, c⟩, RIGHT, e.length⟩) := by
      rw [get_der_loop_succ]
      simp [get_der_turn, hbody]
    rw [asn1_get_der_of_break _ _ _ _ _ hopt hrun]
    simp [_ksba_asn_delete_not_used, hnu, _ksba_asn_set_value]
  · have hty : (_ksba_asn_set_value d (some ((_asn1_length_der e.length).1 ++ e))).type
        = TYPE_ANY := hd
    have hle := leaf_encoding_any d e hd hsize
    have henc : der_encoding (AsnNode.node
          (_ksba_asn_set_value d (some ((_asn1_length_der e.length).1 ++ e)))
          (delete_not_used_chain dn) AsnNode.nil) = e := by
      simp [der_encoding, hty, hle]
    have hwf : seq_tree (AsnNode.node
          (_ksba_asn_set_value d (some ((_asn1_length_der e.length).1 ++ e)))
          (delete_not_used_chain dn) AsnNode.nil) = true := by
      simp only [seq_tree, hty, hle]
      simp [_ksba_asn_set_value, htag]
    have h := create_der_tree _ _ rt c hwf (by rw [henc]; omega) der0 fuel
    rw [henc] at h
    simpa [walk_turns, hty] using h

/-- The instance of C23 at the element `04 02 AA BB`. -/
theorem C23_any_round_trip_witness :
    asn1_get_der (some ⟨plain_node TYPE_ANY none, AsnNode.nil, AsnNode.nil, Ctx.top⟩)
        [0x04, 0x02, 0xAA, 0xBB] [0x04, 0x02, 0xAA, 0xBB].length (0 + 1)
        = Run.ret ⟨ASN_OK,
            some ⟨_ksba_asn_set_value (plain_node TYPE_ANY none)
                (some ((_asn1_length_der [0x04, 0x02, 0xAA, 0xBB].length).1
                  ++ [0x04, 0x02, 0xAA, 0xBB])),
              delete_not_used_chain AsnNode.nil, AsnNode.nil, Ctx.top⟩⟩
    ∧ asn1_create_der
          (some ⟨_ksba_asn_set_value (plain_node TYPE_ANY none)
              (some ((_asn1_length_der [0x04, 0x02, 0xAA, 0xBB].length).1
                ++ [0x04, 0x02, 0xAA, 0xBB])),
            delete_not_used_chain AsnNode.nil, AsnNode.nil, Ctx.top⟩) [] (1 + 0)
        = Run.ret ⟨ASN_OK,
            some ⟨_ksba_asn_set_value (plain_node TYPE_ANY none)
                (some ((_asn1_length_der [0x04, 0x02, 0xAA, 0xBB].length).1
                  ++ [0x04, 0x02, 0xAA, 0xBB])),
              delete_not_used_chain AsnNode.nil, AsnNode.nil, Ctx.top⟩,
            [0x04, 0x02, 0xAA, 0xBB] ++ ([] : List Nat).drop [0x04, 0x02, 0xAA, 0xBB].length,
            some [0x04, 0x02, 0xAA, 0xBB].length⟩ :=
  C23_any_round_trip (plain_node TYPE_ANY none) AsnNode.nil AsnNode.nil Ctx.top
    [0x04, 0x02, 0xAA, 0xBB] [0x04] [0x02] [0xAA, 0xBB] [] 0 rfl rfl rfl
    (fun rest => by
      have h : (4 : Nat) &&& 31 ≠ 31 := by decide
      simp [_asn1_get_tag_der, rd, h])
    (fun rest => by
      have h : (2 : Nat) &&& 128 = 0 := by decide
      simp [_ksba_asn_get_length_der, rd, h])
    (by decide)
/-! ## Theorems: SET and SET OF ordering -/

theorem get_tag_loop_append (v Z : List Nat) (punt ris : Nat)
    (h : (get_tag_loop v punt ris).2 ≤ punt + v.length) :
    get_tag_loop (v ++ Z) punt ris = get_tag_loop v punt ris := by
  induction v generalizing punt ris with
  | nil =>
    simp only [get_tag_loop, List.length_nil] at h
    omega
  | cons b rest ih =>
    simp only [List.cons_append, get_tag_loop] at h ⊢
    split
    · next hb =>
      rw [if_pos hb] at h
      exact ih _ _ (by simp only [List.length_cons] at h; omega)
    · rfl

/-- The identifier octets are read inside a buffer that holds them all. -/
theorem get_tag_der_append (v Z : List Nat) (h : (_asn1_get_tag_der v).2.2 ≤ v.length) :
    _asn1_get_tag_der (v ++ Z) = _asn1_get_tag_der v := by
  unfold _asn1_get_tag_der at h ⊢
  cases v with
  | nil =>
    exfalso
    split at h
    · simp at h
    · simp only [List.drop_nil, get_tag_loop, List.length_nil] at h
      omega
  | cons b rest =>
    have r0 : rd (b :: rest ++ Z) 0 = rd (b :: rest) 0 := rfl
    rw [r0]
    split
    · rfl
    · next hlong =>
      rw [if_neg hlong] at h
      simp only [List.drop_succ_cons, List.drop_zero, List.length_cons, List.cons_append] at h ⊢
      rw [get_tag_loop_append rest Z 1 0 (by omega)]

/-- The parse of a whole element does not depend on what follows it. -/
theorem well_formed_tlv_append (e Z : List Nat) (h : well_formed_tlv e = true) :
    _asn1_get_tag_der (e ++ Z) = _asn1_get_tag_der e
    ∧ _ksba_asn_get_length_der ((e ++ Z).drop (_asn1_get_tag_der e).2.2)
        = _ksba_asn_get_length_der (e.drop (_asn1_get_tag_der e).2.2)
    ∧ tlv_size (e ++ Z) = e.length ∧ tlv_key (e ++ Z) = tlv_key e := by
  simp only [well_formed_tlv, tlv_size, decide_eq_true_eq] at h
  have h1 : (_asn1_get_tag_der e).2.2 ≤ e.length := by omega
  have ht := get_tag_der_append e Z h1
  have hd : (e ++ Z).drop (_asn1_get_tag_der e).2.2
      = e.drop (_asn1_get_tag_der e).2.2 ++ Z := List.drop_append_of_le_length h1
  have hl : _ksba_asn_get_length_der ((e ++ Z).drop (_asn1_get_tag_der e).2.2)
      = _ksba_asn_get_length_der (e.drop (_asn1_get_tag_der e).2.2) := by
    rw [hd]
    apply get_length_der_append
    rw [List.length_drop]
    omega
  refine ⟨ht, hl, ?_, ?_⟩
  · simp only [tlv_size, ht, hl]
    exact h
  · simp only [tlv_key, ht]

/-- No whole element is a proper prefix of another. -/
theorem well_formed_tlv_prefix (a b : List Nat) (ha : well_formed_tlv a = true)
    (hb : well_formed_tlv b = true) (h : a <+: b) : a = b := by
  obtain ⟨d, rfl⟩ := h
  have h1 := (well_formed_tlv_append a d ha).2.2.1
  simp only [well_formed_tlv, decide_eq_true_eq] at hb
  rw [h1, List.length_append] at hb
  have : d = [] := List.eq_nil_of_length_eq_zero (by omega)
  rw [this, List.append_nil]

/-- The descriptors that the first loop of `_asn1_ordering_set` builds for a
body made of the whole elements `es`, one for each node of the chain. -/
theorem ordering_set_vets_elements (es : List (List Nat)) :
    ∀ (chain : AsnNode) (X Y : List Nat), chain_length chain = es.length →
      (∀ e ∈ es, well_formed_tlv e = true) →
      ordering_set_vets (X ++ es.flatten ++ Y) chain X.length = vets_of tlv_key X.length es := by
  induction es with
  | nil =>
    intro chain X Y hc _
    cases chain with
    | nil => rfl
    | node d dn rt => simp [chain_length] at hc
  | cons e es ih =>
    intro chain X Y hc hwf
    cases chain with
    | nil => simp [chain_length] at hc
    | node d dn rt =>
      have he := hwf e (List.mem_cons_self _ _)
      obtain ⟨ht, hl, hsz, -⟩ := well_formed_tlv_append e (es.flatten ++ Y) he
      have hdrop : (X ++ (e :: es).flatten ++ Y).drop X.length = e ++ (es.flatten ++ Y) := by
        rw [List.append_assoc, List.drop_left]
        simp
      have hnext : X ++ (e :: es).flatten ++ Y = (X ++ e) ++ es.flatten ++ Y := by simp
      have hsz' : (_asn1_get_tag_der e).2.2
          + ((_ksba_asn_get_length_der (e.drop (_asn1_get_tag_der e).2.2)).2
            + (_ksba_asn_get_length_der (e.drop (_asn1_get_tag_der e).2.2)).1) = e.length := by
        simpa [well_formed_tlv, tlv_size] using he
      unfold ordering_set_vets
      simp only [hdrop, ht, ← List.drop_drop, hl, vets_of, tlv_key]
      rw [Nat.add_assoc, hsz', hnext]
      have := ih rt (X ++ e) Y (by simpa [chain_length] using hc)
        (fun a ha => hwf a (List.mem_cons_of_mem _ ha))
      rw [List.length_append] at this
      rw [this]

/-- The end offsets that the first loop of `_asn1_ordering_set_of` builds. -/
theorem ordering_set_of_vets_elements (es : List (List Nat)) :
    ∀ (chain : AsnNode) (X Y : List Nat), chain_length chain = es.length →
      (∀ e ∈ es, well_formed_tlv e = true) →
      ordering_set_of_vets (X ++ es.flatten ++ Y) chain X.length = ends_of X.length es := by
  induction es with
  | nil =>
    intro chain X Y hc _
    cases chain with
    | nil => rfl
    | node d dn rt => simp [chain_length] at hc
  | cons e es ih =>
    intro chain X Y hc hwf
    cases chain with
    | nil => simp [chain_length] at hc
    | node d dn rt =>
      have he := hwf e (List.mem_cons_self _ _)
      obtain ⟨ht, hl, hsz, -⟩ := well_formed_tlv_append e (es.flatten ++ Y) he
      have hdrop : (X ++ (e :: es).flatten ++ Y).drop X.length = e ++ (es.flatten ++ Y) := by
        rw [List.append_assoc, List.drop_left]
        simp
      have hnext : X ++ (e :: es).flatten ++ Y = (X ++ e) ++ es.flatten ++ Y := by simp
      have hsz' : (_asn1_get_tag_der e).2.2
          + ((_ksba_asn_get_length_der (e.drop (_asn1_get_tag_der e).2.2)).2
            + (_ksba_asn_get_length_der (e.drop (_asn1_get_tag_der e).2.2)).1) = e.length := by
        simpa [well_formed_tlv, tlv_size] using he
      unfold ordering_set_of_vets
      simp only [hdrop, ht, ← List.drop_drop, hl, ends_of]
      rw [Nat.add_assoc, hsz', hnext]
      have := ih rt (X ++ e) Y (by simpa [chain_length] using hc)
        (fun a ha => hwf a (List.mem_cons_of_mem _ ha))
      rw [List.length_append] at this
      rw [this]

theorem chain_dropLast {α : Type} (R : α → α → Prop) (l : List α) (h : List.Chain' R l) :
    List.Chain' R l.dropLast :=
  List.Chain'.prefix h (List.dropLast_prefix l)

/-- A pass of `_asn1_ordering_set` over descriptors whose keys do not
decrease swaps nothing. -/
theorem ordering_set_pass_sorted (vs : List vet) :
    ∀ (v : vet) (der : List Nat) (counter : Nat),
      List.Chain (fun a b : vet => a.value ≤ b.value) v vs →
      ordering_set_pass v vs der counter = (v :: vs, der) := by
  induction vs with
  | nil => intro v der counter _; rfl
  | cons w ws ih =>
    intro v der counter h
    rw [List.chain_cons] at h
    unfold ordering_set_pass
    rw [if_neg (by omega)]
    simp only [ih w der v.end_ h.2]

theorem ordering_set_sort_sorted (n : Nat) :
    ∀ (vs : List vet) (der : List Nat),
      List.Chain' (fun a b : vet => a.value ≤ b.value) vs →
      ordering_set_sort n vs der = der := by
  induction n with
  | zero => intro vs der _; rfl
  | succ n ih =>
    intro vs der h
    cases vs with
    | nil => rfl
    | cons v vs =>
      unfold ordering_set_sort
      simp only [ordering_set_pass_sorted vs v der 0 h]
      exact ih _ der (chain_dropLast _ _ h)

theorem vets_of_chain (key : List Nat → Nat) (es : List (List Nat)) :
    ∀ off : Nat, List.Chain' (fun a b : List Nat => key a ≤ key b) es →
      List.Chain' (fun a b : vet => a.value ≤ b.value) (vets_of key off es) := by
  induction es with
  | nil => intro off _; exact List.chain'_nil
  | cons e es ih =>
    intro off h
    cases es with
    | nil => exact List.chain'_singleton _
    | cons e2 es2 =>
      rw [List.chain'_cons] at h
      simp only [vets_of]
      rw [List.chain'_cons]
      exact ⟨h.1, ih _ h.2⟩

/-- The comparison loop of `_asn1_ordering_set_of` on two byte strings `A`
and `B` found at `counter + k` and `end1 + k`, of which `A` comes first in
the lexicographic order and is no proper prefix of `B`: the loop ends with
`change == 0`, or with `change == -1` when they have the same length. -/
theorem set_of_change_lex (der : List Nat) (counter end1 : Nat) (A : List Nat) :
    ∀ (B : List Nat) (k : Nat),
      (∀ i, i < A.length → rd der (counter + k + i) = rd A i) →
      (∀ i, i < B.length → rd der (end1 + k + i) = rd B i) →
      lex_le A B = true → (A <+: B → A = B) →
      set_of_change der counter end1 (max A.length B.length) k = 0
        ∨ (set_of_change der counter end1 (max A.length B.length) k = -1
            ∧ A.length = B.length) := by
  induction A with
  | nil =>
    intro B k _ _ _ hp
    have hB : B = [] := (hp (List.nil_prefix)).symm
    subst hB
    right
    exact ⟨rfl, rfl⟩
  | cons a as ih =>
    intro B k hA hB hle hp
    cases B with
    | nil => simp [lex_le] at hle
    | cons b bs =>
      have ha : rd der (counter + k) = a := by
        have := hA 0 (by simp)
        simpa [rd] using this
      have hb : rd der (end1 + k) = b := by
        have := hB 0 (by simp)
        simpa [rd] using this
      have hmax : max (a :: as).length (b :: bs).length = max as.length bs.length + 1 := by
        simp only [List.length_cons]
        omega
      rw [hmax]
      simp only [lex_le, Bool.or_eq_true, decide_eq_true_eq, Bool.and_eq_true] at hle
      unfold set_of_change
      rw [ha, hb]
      rcases hle with hlt | ⟨heq, hrec⟩
      · left
        rw [if_neg (by omega), if_pos hlt]
      · subst heq
        rw [if_neg (by omega), if_neg (by omega)]
        have := ih bs (k + 1)
          (fun i hi => by
            have := hA (i + 1) (by simpa using hi)
            simpa [rd, Nat.add_assoc, Nat.add_comm 1 i] using this)
          (fun i hi => by
            have := hB (i + 1) (by simpa using hi)
            simpa [rd, Nat.add_assoc, Nat.add_comm 1 i] using this)
          hrec
          (fun hpre => by
            have := hp ((List.prefix_cons_inj a).mpr hpre)
            simpa using this)
        simpa [List.length_cons] using this

theorem rd_element (X A Z : List Nat) (i : Nat) (h : i < A.length) :
    rd (X ++ A ++ Z) (X.length + i) = rd A i := by
  rw [List.append_assoc, rd_append_add, rd_append_left A Z i h]

/-- A pass of `_asn1_ordering_set_of` over whole elements none of which comes
after its right neighbour in the lexicographic order swaps nothing. -/
theorem ordering_set_of_pass_sorted (ys : List (List Nat)) :
    ∀ (x X Y : List Nat), well_formed_tlv x = true → (∀ e ∈ ys, well_formed_tlv e = true) →
      List.Chain (fun a b : List Nat => lex_le a b = true) x ys →
      ordering_set_of_pass (X.length + x.length) (ends_of (X.length + x.length) ys)
          (X ++ x ++ ys.flatten ++ Y) X.length
        = ((X.length + x.length) :: ends_of (X.length + x.length) ys,
            X ++ x ++ ys.flatten ++ Y) := by
  induction ys with
  | nil => intro x X Y _ _ _; rfl
  | cons y ys ih =>
    intro x X Y hx hys hch
    rw [List.chain_cons] at hch
    have hy := hys y (List.mem_cons_self _ _)
    have hcmp := set_of_change_lex (X ++ x ++ (y :: ys).flatten ++ Y) X.length
      (X.length + x.length) x y 0
      (fun i hi => by
        have := rd_element X x ((y :: ys).flatten ++ Y) i hi
        simpa [List.append_assoc] using this)
      (fun i hi => by
        have := rd_element (X ++ x) y (ys.flatten ++ Y) i hi
        simpa [List.append_assoc] using this)
      hch.1 ( well_formed_tlv_prefix x y hx hy)
    have hmax : (if X.length + x.length - X.length > X.length + x.length + y.length
          - (X.length + x.length) then X.length + x.length - X.length
          else X.length + x.length + y.length - (X.length + x.length))
        = max x.length y.length := by
      split <;> omega
    have hrec := ih y (X ++ x) Y hy (fun e he => hys e (List.mem_cons_of_mem _ he)) hch.2
    have hder : X ++ x ++ (y :: ys).flatten ++ Y = X ++ x ++ y ++ ys.flatten ++ Y := by simp
    rw [List.length_append] at hrec
    simp only [ends_of]
    unfold ordering_set_of_pass
    simp only [hmax]
    have hno : ¬ ((if set_of_change (X ++ x ++ (y :: ys).flatten ++ Y) X.length
            (X.length + x.length) (max x.length y.length) 0 = -1
          ∧ X.length + x.length - X.length > X.length + x.length + y.length
            - (X.length + x.length) then (1 : Int)
        else set_of_change (X ++ x ++ (y :: ys).flatten ++ Y) X.length
            (X.length + x.length) (max x.length y.length) 0) = 1) := by
      rcases hcmp with h0 | ⟨h1, hlen⟩
      · rw [h0]
        simp
      · rw [h1]
        rw [if_neg (by omega)]
        simp
    rw [if_neg hno, hder, hrec]

theorem ends_of_dropLast (es : List (List Nat)) :
    ∀ off : Nat, (ends_of off es).dropLast = ends_of off es.dropLast := by
  induction es with
  | nil => intro off; rfl
  | cons e es ih =>
    intro off
    cases es with
    | nil => rfl
    | cons e2 es2 =>
      have := ih (off + e.length)
      simp only [ends_of, List.dropLast_cons₂] at this ⊢
      rw [this]

theorem flatten_dropLast (es : List (List Nat)) :
    es.flatten = es.dropLast.flatten ++ (es.drop (es.length - 1)).flatten := by
  rw [← List.flatten_append, List.dropLast_eq_take, List.take_append_drop]

theorem ordering_set_of_sort_sorted (n : Nat) :
    ∀ (es : List (List Nat)) (Y : List Nat), (∀ e ∈ es, well_formed_tlv e = true) →
      List.Chain' (fun a b : List Nat => lex_le a b = true) es →
      ordering_set_of_sort n (ends_of 0 es) (es.flatten ++ Y) = es.flatten ++ Y := by
  induction n with
  | zero => intro es Y _ _; rfl
  | succ n ih =>
    intro es Y hwf hch
    cases es with
    | nil => rfl
    | cons x xs =>
      have hpass := ordering_set_of_pass_sorted xs x [] Y (hwf x (List.mem_cons_self _ _))
        (fun e he => hwf e (List.mem_cons_of_mem _ he)) hch
      simp only [List.length_nil, List.nil_append] at hpass
      have hfl : (x :: xs).flatten = x ++ xs.flatten := rfl
      simp only [ends_of]
      unfold ordering_set_of_sort
      simp only [hfl, hpass]
      have hd := ends_of_dropLast (x :: xs) 0
      simp only [ends_of] at hd
      rw [hd, ← hfl, flatten_dropLast (x :: xs), List.append_assoc]
      exact ih _ _ (fun e he => hwf e (List.mem_of_mem_dropLast he))
        (chain_dropLast _ _ hch)

theorem ends_of_length (es : List (List Nat)) :
    ∀ off : Nat, (ends_of off es).length = es.length := by
  induction es with
  | nil => intro off; rfl
  | cons e es ih =>
    intro off
    simp only [ends_of, List.length_cons, ih]

theorem non_decreasing_chain (le : List Nat → List Nat → Bool) (es : List (List Nat))
    (h : non_decreasing le es = true) :
    List.Chain' (fun a b : List Nat => le a b = true) es := by
  induction es with
  | nil => exact List.chain'_nil
  | cons e es ih =>
    cases es with
    | nil => exact List.chain'_singleton _
    | cons e2 es2 =>
      simp only [non_decreasing, Bool.and_eq_true] at h
      rw [List.chain'_cons]
      exact ⟨h.1, ih h.2⟩

/-- `_asn1_ordering_set` leaves a body of whole elements with non-decreasing
keys as it is. -/
theorem ordering_set_sorted (node : Loc) (p : AsnNode) (es : List (List Nat)) (Y : List Nat)
    (hp : skip_tag_size node.down = some p) (hpc : chain_length p = es.length)
    (hes : ∀ e ∈ es, well_formed_tlv e = true)
    (hkeys : non_decreasing key_le es = true) :
    _asn1_ordering_set (es.flatten ++ Y) node = some (es.flatten ++ Y) := by
  have hch : List.Chain' (fun a b : List Nat => tlv_key a ≤ tlv_key b) es := by
    have := non_decreasing_chain key_le es hkeys
    simpa [key_le] using this
  have hv := ordering_set_vets_elements es p [] Y hpc hes
  simp only [List.nil_append, List.length_nil] at hv
  unfold _asn1_ordering_set
  split
  · rfl
  · rw [hp]
    cases p with
    | nil => rfl
    | node d1 dn1 p1 =>
      cases p1 with
      | nil => rfl
      | node d2 dn2 p2 =>
        simp only [hv]
        rw [ordering_set_sort_sorted _ _ _ (vets_of_chain tlv_key es 0 hch)]

/-- `_asn1_ordering_set_of` leaves a body of whole elements in lexicographic
order as it is. -/
theorem ordering_set_of_sorted (node : Loc) (d0 : node_data) (dn0 q : AsnNode)
    (fs : List (List Nat)) (Z : List Nat)
    (hq : skip_tag_size node.down = some (AsnNode.node d0 dn0 q))
    (hqc : chain_length q = fs.length) (hfs : ∀ e ∈ fs, well_formed_tlv e = true)
    (hlex : non_decreasing lex_le fs = true) :
    _asn1_ordering_set_of (fs.flatten ++ Z) node = some (fs.flatten ++ Z) := by
  have hch := non_decreasing_chain lex_le fs hlex
  have hv := ordering_set_of_vets_elements fs q [] Z hqc hfs
  simp only [List.nil_append, List.length_nil] at hv
  have hlen := ends_of_length fs
  unfold _asn1_ordering_set_of
  split
  · rfl
  · rw [hq]
    cases q with
    | nil => rfl
    | node d1 dn1 q1 =>
      cases q1 with
      | nil => rfl
      | node d2 dn2 q2 =>
        simp only [hv, hlen]
        rw [ordering_set_of_sort_sorted _ fs Z hfs hch]

/-- C27. Canonicaliser leaves ordered input untouched: for a SET body made
of whole elements (one for each child) whose sort keys `(class << 24) | tag`
do not decrease from one element to the next, `_asn1_ordering_set` returns
the buffer byte for byte unchanged; and for a SET OF body made of whole
elements (one for each child after the first) none of which comes after its
right neighbour in the lexicographic order, `_asn1_ordering_set_of` returns
the buffer unchanged.  Equal neighbours are included in both cases. -/
theorem C27_ordered_input_untouched (node node_of : Loc) (p : AsnNode) (d0 : node_data)
    (dn0 q : AsnNode) (es fs : List (List Nat)) (Y Z : List Nat)
    (hp : skip_tag_size node.down = some p) (hpc : chain_length p = es.length)
    (hes : ∀ e ∈ es, well_formed_tlv e = true)
    (hkeys : non_decreasing key_le es = true)
    (hq : skip_tag_size node_of.down = some (AsnNode.node d0 dn0 q))
    (hqc : chain_length q = fs.length) (hfs : ∀ e ∈ fs, well_formed_tlv e = true)
    (hlex : non_decreasing lex_le fs = true) :
    _asn1_ordering_set (es.flatten ++ Y) node = some (es.flatten ++ Y)
    ∧ _asn1_ordering_set_of (fs.flatten ++ Z) node_of = some (fs.flatten ++ Z) :=
  ⟨ordering_set_sorted node p es Y hp hpc hes hkeys,
    ordering_set_of_sorted node_of d0 dn0 q fs Z hq hqc hfs hlex⟩

/-- The instance of C27 at the SET body `02 01 05 04 02 AA BB 04 01 07` and
the SET OF body `04 01 05 04 01 05 04 02 AA BB`. -/
theorem C27_ordered_input_untouched_witness :
    _asn1_ordering_set
        ([[0x02, 0x01, 0x05], [0x04, 0x02, 0xAA, 0xBB], [0x04, 0x01, 0x07]].flatten ++ [0x99])
        (set_node (octet_string_chain 3))
      = some ([[0x02, 0x01, 0x05], [0x04, 0x02, 0xAA, 0xBB], [0x04, 0x01, 0x07]].flatten
          ++ [0x99])
    ∧ _asn1_ordering_set_of
        ([[0x04, 0x01, 0x05], [0x04, 0x01, 0x05], [0x04, 0x02, 0xAA, 0xBB]].flatten ++ [0x99])
        (set_of_node (octet_string_chain 4))
      = some ([[0x04, 0x01, 0x05], [0x04, 0x01, 0x05], [0x04, 0x02, 0xAA, 0xBB]].flatten
          ++ [0x99]) :=
  C27_ordered_input_untouched (set_node (octet_string_chain 3))
    (set_of_node (octet_string_chain 4))
    (octet_string_chain 3) (plain_node TYPE_OCTET_STRING none) AsnNode.nil (octet_string_chain 3)
    [[0x02, 0x01, 0x05], [0x04, 0x02, 0xAA, 0xBB], [0x04, 0x01, 0x07]]
    [[0x04, 0x01, 0x05], [0x04, 0x01, 0x05], [0x04, 0x02, 0xAA, 0xBB]] [0x99] [0x99]
    rfl rfl (by decide) (by decide) rfl rfl (by decide) (by decide)

set_option maxRecDepth 100000 in
/-- C26. Encoder scratch state: on a SEQUENCE of an INTEGER holding 5 and an
INTEGER tagged `[1] EXPLICIT` that is flagged `is_default` and holds no
value, `asn1_create_der` returns `ASN_OK` with the five bytes `30 03 02 01
05`; the value of the SEQUENCE is cleared, but the TAG child of the second
INTEGER keeps the name `"5"`, the offset that `_asn1_insert_tag_der` wrote
there. -/
theorem C26_default_tag_name_left :
    asn1_create_der
        (some ⟨plain_node TYPE_SEQUENCE none, integer_default_integer, AsnNode.nil, Ctx.top⟩)
        [] 4
      = Run.ret ⟨ASN_OK,
          some ⟨plain_node TYPE_SEQUENCE none,
            AsnNode.node (plain_node TYPE_INTEGER (some [1, 5])) AsnNode.nil
              (AsnNode.node default_integer
                (AsnNode.node (_ksba_asn_set_name (tag_node 2 "1" true) (some [53]))
                  AsnNode.nil AsnNode.nil)
                AsnNode.nil),
            AsnNode.nil, Ctx.top⟩,
          [0x30, 0x03, 0x02, 0x01, 0x05, 0x02], some 5⟩ := by
  decide
/-! ## Theorems: elements of leaves -/

theorem leaf_element_split (d : node_data) (e : List Nat) (h : leaf_element d e = true)
    (hany : d.type ≠ TYPE_ANY) :
    ∃ t x body, universal_tag d = some t ∧ expected_universal d = some x ∧ t.1.length = 1
      ∧ e = t.1 ++ body ∧ leaf_body d body = true := by
  unfold leaf_element at h
  cases hu : universal_tag d with
  | none => simp [hu] at h
  | some t =>
    simp only [hu, Bool.and_eq_true, decide_eq_true_eq] at h
    obtain ⟨h1, h2⟩ := h
    have he : e = t.1 ++ e.drop t.1.length := by
      conv_lhs => rw [← List.take_append_drop t.1.length e, h1]
    obtain ⟨name, ty, flags, value⟩ := d
    cases ty <;> simp only [leaf_body, Bool.false_eq_true] at h2
    case TYPE_ANY => exact absurd rfl hany
    case TYPE_TIME =>
      simp only [universal_tag] at hu
      cases hf : flags.is_utc_time
      · simp only [hf, Bool.false_eq_true, if_false, Option.some.injEq] at hu
        refine ⟨t, (UNIVERSAL, TAG_GENERALIZEDTime), _, rfl, ?_, ?_, he, ?_⟩
        · simp [expected_universal, hf]
        · rw [← hu]; rfl
        · simpa [leaf_body] using h2
      · simp only [hf, if_true, Option.some.injEq] at hu
        refine ⟨t, (UNIVERSAL, TAG_UTCTime), _, rfl, ?_, ?_, he, ?_⟩
        · simp [expected_universal, hf]
        · rw [← hu]; rfl
        · simpa [leaf_body] using h2
    all_goals
      simp only [universal_tag, Option.some.injEq] at hu
      refine ⟨t, _, _, rfl, rfl, ?_, he, ?_⟩
      · rw [← hu]; rfl
      · simpa [leaf_body] using h2

theorem set_value_self (d : node_data) : _ksba_asn_set_value d d.value = d := rfl

theorem leaf_element_any (d : node_data) (e : List Nat) (h : leaf_element d e = true)
    (hany : d.type = TYPE_ANY) : well_formed_tlv e = true := by
  obtain ⟨name, ty, flags, value⟩ := d
  simp only at hany
  subst hany
  simpa [leaf_element, universal_tag, leaf_body] using h

/-- An element of a leaf is not empty. -/
theorem leaf_element_pos (d : node_data) (e : List Nat) (h : leaf_element d e = true) :
    0 < e.length := by
  by_cases hany : d.type = TYPE_ANY
  · have hw := leaf_element_any d e h hany
    simp only [well_formed_tlv, tlv_size, decide_eq_true_eq] at hw
    have h1 : 1 ≤ (_ksba_asn_get_length_der (e.drop (_asn1_get_tag_der e).2.2)).2 := by
      generalize e.drop (_asn1_get_tag_der e).2.2 = w
      unfold _ksba_asn_get_length_der
      split
      · exact le_refl _
      · rw [get_length_loop_snd]
        omega
    omega
  · obtain ⟨t, x, body, -, -, ht1, hsplit, -⟩ := leaf_element_split d e h hany
    rw [hsplit, List.length_append]
    omega

/-- The parent reached by `find_up` from a place does not depend on the nodes
at and to the right of the place, but for the children it is given. -/
theorem find_up_from_shape (c : Ctx) : ∀ (t : AsnNode) (par : Loc),
    find_up_from t c = some par →
    ∀ t2, ∃ dn2, find_up_from t2 c = some ⟨par.d, dn2, par.right, par.ctx⟩ := by
  induction c with
  | top =>
    intro t par h
    simp [find_up_from] at h
  | under d rt c _ =>
    intro t par h t2
    simp only [find_up_from, Option.some.injEq] at h
    subst h
    exact ⟨t2, rfl⟩
  | beside d dn c ih =>
    intro t par h t2
    simp only [find_up_from] at h
    obtain ⟨dn2, h2⟩ := ih _ par h (AsnNode.node d dn t2)
    exact ⟨dn2, by simp only [find_up_from]; exact h2⟩

theorem der_at_nat (der : List Nat) (n : Nat) : der_at der (n : Int) = some (der.drop n) := by
  unfold der_at
  rw [if_neg (by omega), Int.toNat_ofNat]

theorem wrap_int_add_nat (a b : Nat) (h : a + b < 2 ^ 31) :
    wrap_int ((a : Int) + (b : Int)) = ((a + b : Nat) : Int) := by
  rw [wrap_int_small _ (by omega) (by omega)]
  push_cast
  rfl

/-- An untagged node of a type with a universal tag whose identifier octets
are at the read position: `_asn1_extract_tag_der` steps over them. -/
theorem extract_tag_der_universal (d : node_data) (dn : AsnNode) (t : List Nat × Nat)
    (e : Nat × Nat) (W : List Nat) (ht : d.flags.has_tag = false)
    (hu : universal_tag d = some t) (he : expected_universal d = some e) :
    _asn1_extract_tag_der d dn (t.1 ++ W) = some (ASN_OK, t.1.length) := by
  obtain ⟨-, h2, h3⟩ := expected_universal_type d e he
  have hg := get_tag_der_universal d t e W hu he
  simp only [_asn1_extract_tag_der, ht, Bool.false_eq_true, if_false, h2, h3, List.drop_zero,
    hg, he, ne_eq, not_true_eq_false, or_self, Nat.zero_add]

/-- The first part of a turn of `asn1_get_start_end_der` on a mandatory
untagged node that finds its universal tag in the input. -/
theorem start_end_body_enter (d : node_data) (dn rt : AsnNode) (c : Ctx) (m : Move)
    (st : Option Int) (tgt : List Bool) (X W : List Nat) (t : List Nat × Nat) (e : Nat × Nat)
    (hm : m ≠ UP) (hd : mandatory_untagged d = true) (hu : universal_tag d = some t)
    (he : expected_universal d = some e) (hlen : X.length + t.1.length < 2 ^ 31) :
    start_end_body (X ++ t.1 ++ W) tgt ⟨⟨d, dn, rt, c⟩, m, (X.length : Int), st⟩
      = start_end_switch (X ++ t.1 ++ W)
          ⟨⟨d, dn, rt, c⟩, m, ((X.length + t.1.length : Nat) : Int),
            if c.pos = tgt then some (X.length : Int) else st⟩ := by
  obtain ⟨ht, hopt, hdef, hset, hnu⟩ := mandatory_untagged_flags d hd
  obtain ⟨h1, -, -⟩ := expected_universal_type d e he
  have hdrop : (X ++ t.1 ++ W).drop X.length = t.1 ++ W := by
    rw [List.append_assoc, List.drop_left]
  have hx := extract_tag_der_universal d dn t e W ht hu he
  have hw := wrap_int_add_nat X.length t.1.length hlen
  by_cases hp : c.pos = tgt
  · simp [start_end_body, hm, hp, start_end_set_member, hset, start_end_tag, h1, der_at_nat,
      hdrop, hx, hw]
  · simp [start_end_body, hm, hp, start_end_set_member, hset, start_end_tag, h1, der_at_nat,
      hdrop, hx, hw]

/-- A turn of `asn1_get_start_end_der` on a mandatory untagged leaf other
than ANY at whose element the read position stands steps over the element. -/
theorem start_end_body_element_tagged (d : node_data) (dn rt : AsnNode) (c : Ctx) (m : Move)
    (st : Option Int) (tgt : List Bool) (X e Z : List Nat) (hm : m ≠ UP)
    (hd : mandatory_untagged d = true) (he : leaf_element d e = true)
    (hlen : X.length + e.length < 2 ^ 31) (hany : d.type ≠ TYPE_ANY) :
    start_end_body (X ++ e ++ Z) tgt ⟨⟨d, dn, rt, c⟩, m, (X.length : Int), st⟩
      = some (Sum.inr ⟨⟨d, dn, rt, c⟩, RIGHT, ((X.length + e.length : Nat) : Int),
          if c.pos = tgt then some (X.length : Int) else st⟩) := by
  obtain ⟨t, x, body, hu, hx, ht1, hsplit, hb⟩ := leaf_element_split d e he hany
  subst hsplit
  simp only [List.length_append] at hlen ⊢
  have h := start_end_body_enter d dn rt c m st tgt X (body ++ Z) t x hm hd hu hx (by omega)
  have e1 : X ++ (t.1 ++ body) ++ Z = X ++ t.1 ++ (body ++ Z) := by simp
  rw [e1, h]
  have hdrop : (X ++ t.1 ++ (body ++ Z)).drop (X.length + t.1.length) = body ++ Z :=
    drop_of_length _ _ _ (by simp)
  have hat := der_at_nat (X ++ t.1 ++ (body ++ Z)) (X.length + t.1.length)
  rw [hdrop] at hat
  have hskip : (_ksba_asn_get_length_der body).2 + (_ksba_asn_get_length_der body).1
        = body.length →
      wrap_int (((X.length + t.1.length : Nat) : Int)
          + wrap_int (((_ksba_asn_get_length_der (body ++ Z)).2 : Int)
            + to_int (_ksba_asn_get_length_der (body ++ Z)).1))
        = ((X.length + (t.1.length + body.length) : Nat) : Int) := by
    intro hw
    rw [get_length_der_append body Z (by omega), to_int_small _ (by omega)]
    have i : wrap_int (((_ksba_asn_get_length_der body).2 : Int)
        + ((_ksba_asn_get_length_der body).1 : Int)) = (body.length : Int) := by
      rw [wrap_int_small _ (by omega) (by omega)]
      omega
    rw [i, wrap_int_small _ (by omega) (by omega)]
    push_cast
    omega
  obtain ⟨name, ty, flags, value⟩ := d
  cases ty <;> simp only [leaf_body, Bool.false_eq_true] at hb
  case TYPE_ANY => exact absurd rfl hany
  case TYPE_NULL =>
    simp only [decide_eq_true_eq] at hb
    subst hb
    have r1 : rd ([0] ++ Z) 0 = 0 := rfl
    have hw : wrap_int (((X.length + t.1.length : Nat) : Int) + 1)
        = ((X.length + (t.1.length + [0].length) : Nat) : Int) := by
      rw [wrap_int_small _ (by omega) (by simp only [List.length_singleton] at hlen; omega)]
      simp only [List.length_singleton]
      push_cast
      omega
    simp only [start_end_switch, hat, r1, ne_eq, not_true_eq_false, if_false, hw]
  case TYPE_BOOLEAN =>
    simp only [Bool.and_eq_true, decide_eq_true_eq] at hb
    obtain ⟨hb2, hb1⟩ := hb
    have r1 : rd (body ++ Z) 0 = 1 := by
      rw [rd_append_left body Z 0 (by omega)]
      exact hb1
    have i : wrap_int (((X.length + t.1.length : Nat) : Int) + 1)
        = ((X.length + t.1.length : Nat) : Int) + 1 := wrap_int_small _ (by omega) (by omega)
    have hw : wrap_int (wrap_int (((X.length + t.1.length : Nat) : Int) + 1) + 1)
        = ((X.length + (t.1.length + body.length) : Nat) : Int) := by
      rw [i, wrap_int_small _ (by omega) (by omega), hb2]
      push_cast
      omega
    simp only [start_end_switch, hat, r1, ne_eq, not_true_eq_false, if_false, hw]
  all_goals
    simp only [decide_eq_true_eq] at hb
    simp only [start_end_switch, hat, hskip hb]

/-- A turn of `asn1_get_start_end_der` on a mandatory untagged ANY node at
whose whole element the read position stands steps over the element. -/
theorem start_end_body_any_element (d : node_data) (dn rt : AsnNode) (c : Ctx) (m : Move)
    (st : Option Int) (tgt : List Bool) (X e Z : List Nat) (hmv : m ≠ UP)
    (hd : d.type = TYPE_ANY) (hm : mandatory_untagged d = true)
    (he : well_formed_tlv e = true) (hsz : X.length + e.length < 2 ^ 31) :
    start_end_body (X ++ e ++ Z) tgt ⟨⟨d, dn, rt, c⟩, m, (X.length : Int), st⟩
      = some (Sum.inr ⟨⟨d, dn, rt, c⟩, RIGHT, ((X.length + e.length : Nat) : Int),
          if c.pos = tgt then some (X.length : Int) else st⟩) := by
  obtain ⟨htag, hopt, hdef, hset, -⟩ := mandatory_untagged_flags d hm
  obtain ⟨ht, hl, -, -⟩ := well_formed_tlv_append e Z he
  have hsize : (_asn1_get_tag_der e).2.2
      + ((_ksba_asn_get_length_der (e.drop (_asn1_get_tag_der e).2.2)).2
        + (_ksba_asn_get_length_der (e.drop (_asn1_get_tag_der e).2.2)).1) = e.length := by
    simpa [well_formed_tlv, tlv_size] using he
  have hdrop : (X ++ e ++ Z).drop X.length = e ++ Z := by
    rw [List.append_assoc, List.drop_left]
  have hat := der_at_nat (X ++ e ++ Z) X.length
  rw [hdrop] at hat
  have hext : _asn1_extract_tag_der d dn (e ++ Z) = some (ASN_OK, 0) := by
    simp [_asn1_extract_tag_der, htag, hd]
  have hw0 : wrap_int ((X.length : Int) + ((0 : Nat) : Int)) = (X.length : Int) := by
    rw [wrap_int_small _ (by omega) (by omega)]
    omega
  generalize hk : (_asn1_get_tag_der e).2.2 = k at hsize hl
  generalize hlv : _ksba_asn_get_length_der (e.drop k) = l at hsize hl
  have hw : wrap_int ((X.length : Int) + wrap_int ((l.2 : Int) + to_int (k + l.1)))
      = ((X.length + e.length : Nat) : Int) := by
    have i : wrap_int ((l.2 : Int) + to_int (k + l.1)) = (e.length : Int) := by
      rw [to_int_small _ (by omega), wrap_int_small _ (by omega) (by omega)]
      omega
    rw [i, wrap_int_small _ (by omega) (by omega)]
    push_cast
    rfl
  by_cases hp : c.pos = tgt
  · simp only [start_end_body, hp, hmv, ne_eq, not_false_eq_true, and_self, if_true,
      start_end_set_member, hset, Bool.false_eq_true, if_false, start_end_tag, hat, hd,
      reduceCtorEq, hext, not_true_eq_false, hw0, start_end_switch, ht, hk, hl, hw]
  · simp only [start_end_body, hp, hmv, ne_eq, not_false_eq_true, false_and, if_true,
      start_end_set_member, hset, Bool.false_eq_true, if_false, start_end_tag, hat, hd,
      reduceCtorEq, hext, not_true_eq_false, hw0, start_end_switch, ht, hk, hl, hw]

/-- A turn of `asn1_get_start_end_der` on a mandatory untagged leaf at whose
element the read position stands steps over the element. -/
theorem start_end_body_element (d : node_data) (dn rt : AsnNode) (c : Ctx) (m : Move)
    (st : Option Int) (tgt : List Bool) (X e Z : List Nat) (hm : m ≠ UP)
    (hd : mandatory_untagged d = true) (he : leaf_element d e = true)
    (hlen : X.length + e.length < 2 ^ 31) :
    start_end_body (X ++ e ++ Z) tgt ⟨⟨d, dn, rt, c⟩, m, (X.length : Int), st⟩
      = some (Sum.inr ⟨⟨d, dn, rt, c⟩, RIGHT, ((X.length + e.length : Nat) : Int),
          if c.pos = tgt then some (X.length : Int) else st⟩) := by
  by_cases hany : d.type = TYPE_ANY
  · exact start_end_body_any_element d dn rt c m st tgt X e Z hm hany hd
      (leaf_element_any d e he hany) hlen
  · exact start_end_body_element_tagged d dn rt c m st tgt X e Z hm hd he hlen hany

theorem start_end_loop_succ (der : List Nat) (node tgt : List Bool) (fuel : Nat)
    (s : start_end_state) :
    start_end_loop der node tgt (fuel + 1) s
      = match start_end_turn_of der node tgt s with
        | none => Run.fault
        | some (start_end_turn.next s1) => start_end_loop der node tgt fuel s1
        | some (start_end_turn.brk s1) => Run.ret ⟨ASN_ELEMENT_NOT_FOUND, s1.start, none⟩
        | some (start_end_turn.stop r) => Run.ret r := rfl

/-- The walker of `asn1_get_start_end_der` steps over the elements of a chain
of leaves that comes before the element looked for. -/
theorem start_end_chain (dt : node_data) (dnt post : AsnNode) (node : List Bool)
    (W : List Nat) (fuel : Nat) :
    ∀ (pre : AsnNode) (es : List (List Nat)) (c0 : Ctx) (m : Move) (X : List Nat)
      (st : Option Int) (p : Loc),
      leaf_elements pre es = true → m ≠ UP → node.length < c0.pos.length →
      X.length + es.flatten.length < 2 ^ 31 →
      mk_loc (append_right pre (AsnNode.node dt dnt post)) c0 = some p →
      ∃ m1, m1 ≠ UP ∧
        start_end_loop (X ++ es.flatten ++ W) node (ctx_after pre c0).pos
            (chain_length pre + fuel) ⟨p, m, (X.length : Int), st⟩
          = start_end_loop (X ++ es.flatten ++ W) node (ctx_after pre c0).pos fuel
              ⟨⟨dt, dnt, post, ctx_after pre c0⟩, m1,
                ((X.length + es.flatten.length : Nat) : Int), st⟩ := by
  intro pre
  induction pre with
  | nil =>
    intro es c0 m X st p hch hm _ _ hp
    cases es with
    | cons _ _ => simp [leaf_elements] at hch
    | nil =>
      simp only [append_right, mk_loc, Option.some.injEq] at hp
      subst hp
      exact ⟨m, hm, by simp [chain_length, ctx_after]⟩
  | node d dn r _ ihr =>
    intro es c0 m X st p hch hm hpos hlen hp
    cases es with
    | nil => simp [leaf_elements] at hch
    | cons e es1 =>
      rw [leaf_elements] at hch
      simp only [Bool.and_eq_true] at hch
      obtain ⟨⟨hd, he⟩, hr⟩ := hch
      simp only [List.flatten_cons, List.length_append] at hlen
      obtain ⟨-, -, -, hset, -⟩ := mandatory_untagged_flags d hd
      simp only [append_right, mk_loc, Option.some.injEq] at hp
      subst hp
      have htl := ctx_after_pos_length r (Ctx.beside d dn c0)
      have hne : c0.pos ≠ (ctx_after (AsnNode.node d dn r) c0).pos := by
        intro h
        have := congrArg List.length h
        rw [ctx_after, htl] at this
        simp only [Ctx.pos, List.length_cons] at this
        omega
      have hnode : c0.pos ≠ node := by
        intro h
        rw [h] at hpos
        exact Nat.lt_irrefl _ hpos
      generalize hder : X ++ (e :: es1).flatten ++ W = der
      have hd1 : X ++ e ++ (es1.flatten ++ W) = der := by
        rw [← hder]; simp
      have hbody := start_end_body_element d dn (append_right r (AsnNode.node dt dnt post)) c0 m
        st (ctx_after (AsnNode.node d dn r) c0).pos X e (es1.flatten ++ W) hm hd he (by omega)
      rw [hd1, if_neg hne] at hbody
      cases hrt : append_right r (AsnNode.node dt dnt post) with
      | nil =>
        cases r <;> simp [append_right] at hrt
      | node d1 dn1 rt1 =>
        rw [hrt] at hbody
        have hturn : start_end_turn_of der node (ctx_after (AsnNode.node d dn r) c0).pos
            ⟨⟨d, dn, AsnNode.node d1 dn1 rt1, c0⟩, m, (X.length : Int), st⟩
            = some (start_end_turn.next ⟨⟨d1, dn1, rt1, Ctx.beside d dn c0⟩, RIGHT,
                ((X.length + e.length : Nat) : Int), st⟩) := by
          unfold start_end_turn_of
          rw [hbody]
          simp [hne, hnode, walk_advance_right_node _ _ _ _ _ _ true (fun _ => hset)]
        obtain ⟨m1, hm1, hih⟩ := ihr es1 (Ctx.beside d dn c0) RIGHT (X ++ e) st
          ⟨d1, dn1, rt1, Ctx.beside d dn c0⟩ hr (by decide)
          (by simp only [Ctx.pos, List.length_cons]; omega)
          (by simp only [List.length_append]; omega) (by rw [hrt]; rfl)
        have hd2 : X ++ e ++ es1.flatten ++ W = der := by
          rw [← hder]; simp
        rw [hd2] at hih
        refine ⟨m1, hm1, ?_⟩
        have hfuel : chain_length (AsnNode.node d dn r) + fuel
            = (chain_length r + fuel) + 1 := by
          simp only [chain_length]; omega
        rw [hfuel, start_end_loop_succ, hturn]
        dsimp only
        simp only [List.length_append] at hih
        rw [ctx_after, hih]
        simp only [List.flatten_cons, List.length_append, Nat.add_assoc]

/-- The run of `asn1_get_start_end_der` for a leaf child of a SEQUENCE whose
earlier children are leaves, on the bytes `30`, length octets `T`, the
elements of the earlier children and of the child, and whatever follows. -/
theorem start_end_find (d dt : node_data) (pre dnt post rt : AsnNode) (c : Ctx)
    (T : List Nat) (es : List (List Nat)) (e W : List Nat) (L len fuel : Nat)
    (hd : mandatory_untagged d = true) (hs : d.type = TYPE_SEQUENCE)
    (hpre : leaf_elements pre es = true)
    (hdt : mandatory_untagged dt = true) (he : leaf_element dt e = true)
    (hT : ∀ rest, _ksba_asn_get_length_der (T ++ rest) = (L, T.length))
    (hlen : 1 + T.length + es.flatten.length + e.length < 2 ^ 31) :
    asn1_get_start_end_der
        (some ⟨d, append_right pre (AsnNode.node dt dnt post), rt, c⟩)
        (some ⟨dt, dnt, post, ctx_after pre (Ctx.under d rt c)⟩)
        ([0x30] ++ T ++ es.flatten ++ e ++ W) len (chain_length pre + 2 + fuel)
      = Run.ret ⟨ASN_OK, some ((1 + T.length + es.flatten.length : Nat) : Int),
          some (((1 + T.length + es.flatten.length + e.length : Nat) : Int) - 1)⟩ := by
  obtain ⟨-, hopt, -, -, -⟩ := mandatory_untagged_flags d hd
  have hepos := leaf_element_pos dt e he
  have htl := ctx_after_pos_length pre (Ctx.under d rt c)
  have hne : (ctx_after pre (Ctx.under d rt c)).pos ≠ c.pos := by
    intro h
    have := congrArg List.length h
    rw [htl] at this
    simp only [Ctx.pos, List.length_cons] at this
    omega
  generalize hder : [0x30] ++ T ++ es.flatten ++ e ++ W = der
  unfold asn1_get_start_end_der
  simp only [hne, if_false, hopt, Bool.false_eq_true]
  have hu : universal_tag d = some ([0x30], 1) := universal_tag_sequence d hs
  have hx : expected_universal d = some (UNIVERSAL ||| STRUCTURED, TAG_SEQUENCE) := by
    unfold expected_universal
    rw [hs]
  have hbody := start_end_body_enter d (append_right pre (AsnNode.node dt dnt post)) rt c
    DOWN none (ctx_after pre (Ctx.under d rt c)).pos [] (T ++ (es.flatten ++ e ++ W))
    ([0x30], 1) _ (by decide) hd hu hx (by decide)
  have hd1 : [] ++ [0x30] ++ (T ++ (es.flatten ++ e ++ W)) = der := by
    rw [← hder]; simp
  rw [hd1, if_neg (Ne.symm hne)] at hbody
  have hdrop : der.drop 1 = T ++ (es.flatten ++ e ++ W) := by
    rw [← hd1]; rfl
  have hat : der_at der ((([] : List Nat).length + ([0x30], 1).1.length : Nat) : Int)
      = some (T ++ (es.flatten ++ e ++ W)) := by
    rw [der_at_nat]
    exact congrArg some hdrop
  have hw : wrap_int (((([] : List Nat).length + ([0x30], 1).1.length : Nat) : Int)
      + (T.length : Int)) = ((1 + T.length : Nat) : Int) := by
    rw [wrap_int_small _ (by simp only [List.length_nil, List.length_singleton]; omega)
      (by simp only [List.length_nil, List.length_singleton]; omega)]
    simp only [List.length_nil, List.length_singleton]
    push_cast
    omega
  cases hch : append_right pre (AsnNode.node dt dnt post) with
  | nil => cases pre <;> simp [append_right] at hch
  | node d1 dn1 rt1 =>
    rw [hch] at hbody
    have hturn : start_end_turn_of der c.pos (ctx_after pre (Ctx.under d rt c)).pos
        ⟨⟨d, AsnNode.node d1 dn1 rt1, rt, c⟩, DOWN, 0, none⟩
        = some (start_end_turn.next ⟨⟨d1, dn1, rt1, Ctx.under d rt c⟩, DOWN,
            ((1 + T.length : Nat) : Int), none⟩) := by
      unfold start_end_turn_of
      have h0 : ((([] : List Nat).length : Nat) : Int) = 0 := rfl
      rw [h0] at hbody
      rw [hbody]
      simp only [start_end_switch, hs, hat, hT, hw, ne_eq, reduceCtorEq, not_false_eq_true,
        if_true, Ne.symm hne, false_and, if_false, and_false, walk_advance_down_node,
        not_true_eq_false]
    have hfuel : chain_length pre + 2 + fuel = (chain_length pre + (fuel + 1)) + 1 := by omega
    show start_end_loop der c.pos _ _ _ = _
    rw [hfuel, start_end_loop_succ, hturn]
    dsimp only
    obtain ⟨m1, hm1, hrun⟩ := start_end_chain dt dnt post c.pos (e ++ W) (fuel + 1) pre es
      (Ctx.under d rt c) DOWN ([0x30] ++ T) none ⟨d1, dn1, rt1, Ctx.under d rt c⟩ hpre
      (by decide) (by simp only [Ctx.pos, List.length_cons]; omega)
      (by simp only [List.length_append, List.length_singleton]; omega) (by rw [hch]; rfl)
    have hd2 : [0x30] ++ T ++ es.flatten ++ (e ++ W) = der := by
      rw [← hder]; simp
    rw [hd2] at hrun
    simp only [List.length_append, List.length_singleton] at hrun
    rw [hrun, start_end_loop_succ]
    have hleaf := start_end_body_element dt dnt post (ctx_after pre (Ctx.under d rt c)) m1
      none (ctx_after pre (Ctx.under d rt c)).pos ([0x30] ++ T ++ es.flatten) e W hm1 hdt
      he (by simp only [List.length_append, List.length_singleton]; omega)
    rw [hder] at hleaf
    simp only [List.length_append, List.length_singleton, if_true] at hleaf
    unfold start_end_turn_of
    rw [hleaf]
    have hend : wrap_int (((1 + T.length + es.flatten.length + e.length : Nat) : Int) - 1)
        = ((1 + T.length + es.flatten.length + e.length : Nat) : Int) - 1 :=
      wrap_int_small _ (by omega) (by omega)
    simp only [and_self, if_true, hend]

/-- C12. Locate returns the exact byte span of the element: for every
mandatory untagged SEQUENCE root, any child `dt` of it that is a mandatory
untagged leaf (NULL, BOOLEAN, INTEGER, ENUMERATED, OBJECT IDENTIFIER, a time,
OCTET STRING, BIT STRING, ANY) and comes behind children `pre` of that kind,
and every input made of the octet `30`, length octets `T`, the elements `es`
of the children `pre`, the element `e` of the child (ending below `2 ^ 31`,
the range of `int`) and whatever follows, `asn1_get_start_end_der` returns
`ASN_OK` with `start` the offset of the tag octet of the child and `end` the
offset of its last octet, so that the bytes from `start` to `end` are the
element `e` of the child. -/
theorem C12_start_end_span (d dt : node_data) (pre dnt post rt : AsnNode) (c : Ctx)
    (T : List Nat) (es : List (List Nat)) (e Z : List Nat) (L len fuel : Nat)
    (hd : mandatory_untagged d = true) (hs : d.type = TYPE_SEQUENCE)
    (hpre : leaf_elements pre es = true)
    (hdt : mandatory_untagged dt = true) (he : leaf_element dt e = true)
    (hT : ∀ rest, _ksba_asn_get_length_der (T ++ rest) = (L, T.length))
    (hlen : 1 + T.length + es.flatten.length + e.length < 2 ^ 31) :
    ∃ start end_ : Nat,
      asn1_get_start_end_der
          (some ⟨d, append_right pre (AsnNode.node dt dnt post), rt, c⟩)
          (some ⟨dt, dnt, post, ctx_after pre (Ctx.under d rt c)⟩)
          ([0x30] ++ T ++ es.flatten ++ e ++ Z) len (chain_length pre + 2 + fuel)
        = Run.ret ⟨ASN_OK, some (start : Int), some (end_ : Int)⟩
      ∧ start = 1 + T.length + es.flatten.length
      ∧ end_ + 1 = start + e.length
      ∧ (([0x30] ++ T ++ es.flatten ++ e ++ Z).drop start).take (end_ + 1 - start) = e := by
  have hrun := start_end_find d dt pre dnt post rt c T es e Z L len fuel hd hs hpre hdt he hT hlen
  have hepos := leaf_element_pos dt e he
  refine ⟨1 + T.length + es.flatten.length, 1 + T.length + es.flatten.length + e.length - 1,
    ?_, rfl, by omega, ?_⟩
  · rw [hrun]
    congr 3
    omega
  · have h1 : (1 + T.length + es.flatten.length + e.length - 1 + 1
        - (1 + T.length + es.flatten.length)) = e.length := by
      omega
    rw [h1]
    have h2 : ([0x30] ++ T ++ es.flatten ++ e ++ Z).drop (1 + T.length + es.flatten.length)
        = e ++ Z := by
      rw [List.append_assoc _ e]
      exact drop_of_length _ _ _ (by simp only [List.length_append, List.length_singleton])
    rw [h2, List.take_left]

/-- The instance of C12 at the encoding `30 07 02 01 01 02 02 01 00` of a
SEQUENCE of the INTEGERs 1 and 256 and its second child: the span is
`(5, 8)`. -/
theorem C12_start_end_span_witness :
    asn1_get_start_end_der
        (some ⟨plain_node TYPE_SEQUENCE none, two_integers, AsnNode.nil, Ctx.top⟩)
        (some ⟨plain_node TYPE_INTEGER (some [2, 1, 0]), AsnNode.nil, AsnNode.nil,
          Ctx.beside (plain_node TYPE_INTEGER (some [1, 1])) AsnNode.nil
            (Ctx.under (plain_node TYPE_SEQUENCE none) AsnNode.nil Ctx.top)⟩)
        [0x30, 0x07, 0x02, 0x01, 0x01, 0x02, 0x02, 0x01, 0x00] 9 3
      = Run.ret ⟨ASN_OK, some 5, some 8⟩ := by
  obtain ⟨s, e, hrun, hs, he, -⟩ := C12_start_end_span (plain_node TYPE_SEQUENCE none)
    (plain_node TYPE_INTEGER (some [2, 1, 0]))
    (AsnNode.node (plain_node TYPE_INTEGER (some [1, 1])) AsnNode.nil AsnNode.nil)
    AsnNode.nil AsnNode.nil AsnNode.nil Ctx.top [0x07] [[0x02, 0x01, 0x01]]
    [0x02, 0x02, 0x01, 0x00] [] 7 9 0 (by decide) rfl (by decide) (by decide) (by decide)
    (fun rest => by
      have h : (7 : Nat) &&& 128 = 0 := by decide
      simp [_ksba_asn_get_length_der, rd, h]) (by decide)
  have h5 : s = 5 := hs
  have h8 : e = 8 := by
    have h4 : e + 1 = s + 4 := he
    omega
  subst h5
  subst h8
  exact hrun
/-! ## Theorems: expected tags -/

end Ksba
